import Mathlib

/-!
# Warehouse location with store incompatibilities: the MR-ILS solver

A shallow embedding of the solver's data model (`WL_Instance`, `WL_Solution`) and of the
procedures that act on it, followed by theorems about them.

Conventions of the embedding.

* C++ `unsigned` is a natural number below `2^32`; `+`, `-`, `++`, `--` on `unsigned`
  are `uadd` and `usub`, which wrap modulo `2^32` exactly as the machine does.
* A finite C++ `double` is a rational number. The definitions without suffix compute the
  `double` expressions of the source in exact rational arithmetic; the definitions with
  the suffix `D` round the result of every `double` operation to the nearest `double`
  (`roundDouble`), as the machine does. Every statement about a cost names the definitions
  it is about.
* `vector<T>` indexed by a warehouse or a store is a total function `Nat → T`; the
  sizes are the instance fields `warehouses` and `stores`, and statements range over
  indices below them.
* `unordered_set<unsigned>` is a duplicate-free list in insertion order; membership is
  what the program observes, the order only fixes one of the iteration orders the C++
  library may choose.
-/

namespace WLP

/-! ## Machine arithmetic -/

/-- Addition of two `unsigned` values: wraps modulo `2^32`. -/
def uadd (a b : Nat) : Nat := (a + b) % 4294967296

/-- Subtraction of two `unsigned` values: wraps modulo `2^32`. -/
def usub (a b : Nat) : Nat := (a + (4294967296 - b % 4294967296)) % 4294967296

/-- Store `v` at index `i` of a vector. -/
def set1 {α : Type} (f : Nat → α) (i : Nat) (v : α) : Nat → α :=
  fun a => if a = i then v else f a

/-- Store `v` at index `[i][j]` of a matrix. -/
def set2 {α : Type} (f : Nat → Nat → α) (i j : Nat) (v : α) : Nat → Nat → α :=
  fun a b => if a = i ∧ b = j then v else f a b

/-- The call `insert(x)` on an `unordered_set`: no effect when `x` is already a member. -/
def setInsert (l : List Nat) (x : Nat) : List Nat :=
  if x ∈ l then l else l ++ [x]

/-- The call `erase(x)` on an `unordered_set`. -/
def setErase (l : List Nat) (x : Nat) : List Nat :=
  l.filter (fun y => y != x)

/-! ## Instances (`WL_Instance.h`, `WL_Instance.cpp`) -/

/-- Supply structure: `q` goods supplied to store `s` by warehouse `w`. -/
structure Supply where
  w : Nat
  s : Nat
  q : Nat
deriving DecidableEq, Repr

/-- Problem input instance: the private fields of class `WL_Instance`. -/
structure WL_Instance where
  stores : Nat
  warehouses : Nat
  reduction_opening_cost : Nat
  reduction_supply_cost : ℚ
  capacity : Nat → Nat
  fixed_cost : Nat → Nat
  amount_of_goods : Nat → Nat
  supply_cost : Nat → Nat → ℚ
  store_incompatibilities : List (Nat × Nat)
  incompatible : Nat → Nat → Bool
  w_incompatible : Nat → Nat → Bool

namespace WL_Instance

/-- The inner loop of the reducing constructor: for every store `s2` incompatible with
the pattern store `s`, mark `w_incompatible[w][s2]`. -/
def markIncompatible (I : WL_Instance) (w s : Nat) : Nat → Nat → Bool :=
  (List.range I.stores).foldl
    (fun acc s2 => if I.incompatible s s2 then set2 acc w s2 true else acc)
    I.w_incompatible

/-- One iteration of the loop over the pattern in the reducing constructor. -/
def reduceStep (I : WL_Instance) (p : Supply) : WL_Instance :=
  { I with
    reduction_opening_cost := uadd I.reduction_opening_cost (I.fixed_cost p.w)
    reduction_supply_cost := I.reduction_supply_cost + I.supply_cost p.s p.w * (p.q : ℚ)
    fixed_cost := set1 I.fixed_cost p.w 0
    capacity := set1 I.capacity p.w (usub (I.capacity p.w) p.q)
    amount_of_goods := set1 I.amount_of_goods p.s (usub (I.amount_of_goods p.s) p.q)
    w_incompatible := I.markIncompatible p.w p.s }

/-- The constructor `WL_Instance(const WL_Instance& in, vector<Supply> pattern)`: a reduced
version of `I`. Every field is copied except the two reduction costs, which start at 0. -/
def reduced (I : WL_Instance) (pattern : List Supply) : WL_Instance :=
  pattern.foldl reduceStep
    { I with reduction_opening_cost := 0, reduction_supply_cost := 0 }

end WL_Instance

/-! ## Solutions (`WL_Solution.h`, `WL_Solution.cpp`) -/

/-- Problem solution: the data members of class `WL_Solution`. The instance reference
`in` is passed to every operation instead of being stored. -/
@[ext] structure WL_Solution where
  supplied_stores : Nat → List Nat
  supply_cost : ℚ
  opening_cost : Nat
  supply : Nat → Nat → Nat
  assigned_goods : Nat → Nat
  load : Nat → Nat
  incompatibilities : Nat → Nat → Nat

namespace WL_Solution

/-- The constructor `WL_Solution(WL_Instance&)`: the empty solution. -/
def create (_I : WL_Instance) : WL_Solution :=
  { supplied_stores := fun _ => []
    supply_cost := 0
    opening_cost := 0
    supply := fun _ _ => 0
    assigned_goods := fun _ => 0
    load := fun _ => 0
    incompatibilities := fun _ _ => 0 }

/-- The accessor `ResidualCapacity(w)`. -/
def ResidualCapacity (I : WL_Instance) (σ : WL_Solution) (w : Nat) : Nat :=
  usub (I.capacity w) (σ.load w)

/-- The accessor `ResidualAmount(s)`. -/
def ResidualAmount (I : WL_Instance) (σ : WL_Solution) (s : Nat) : Nat :=
  usub (I.amount_of_goods s) (σ.assigned_goods s)

/-- The accessor `Incompatibilities(w, s)`, with the `+ 2` of a reduction-forbidden
warehouse. -/
def Incompatibilities (I : WL_Instance) (σ : WL_Solution) (w s : Nat) : Nat :=
  if I.w_incompatible w s then uadd (σ.incompatibilities w s) 2 else σ.incompatibilities w s

/-- The loop of `Assign` over `s2`: `incompatibilities[w][s2]++` for every store `s2`
incompatible with `s`. -/
def incrIncompat (I : WL_Instance) (inc : Nat → Nat → Nat) (s w : Nat) : Nat → Nat → Nat :=
  (List.range I.stores).foldl
    (fun acc s2 => if I.incompatible s s2 then set2 acc w s2 (uadd (acc w s2) 1) else acc)
    inc

/-- The loop of `RevokeAssignment` over `s2`: `incompatibilities[w][s2]--` for every store
`s2` incompatible with `s`. -/
def decrIncompat (I : WL_Instance) (inc : Nat → Nat → Nat) (s w : Nat) : Nat → Nat → Nat :=
  (List.range I.stores).foldl
    (fun acc s2 => if I.incompatible s s2 then set2 acc w s2 (usub (acc w s2) 1) else acc)
    inc

/-- The method `Assign(s, w, q)`: assigns `q` goods of store `s` to warehouse `w`. The
field `supply_cost` is updated in exact arithmetic; `AssignD` rounds it as a `double`. -/
def Assign (I : WL_Instance) (σ : WL_Solution) (s w q : Nat) : WL_Solution :=
  { supplied_stores :=
      if σ.supply s w = 0 then set1 σ.supplied_stores w (setInsert (σ.supplied_stores w) s)
      else σ.supplied_stores
    incompatibilities :=
      if σ.supply s w = 0 then incrIncompat I σ.incompatibilities s w
      else σ.incompatibilities
    supply := set2 σ.supply s w (uadd (σ.supply s w) q)
    assigned_goods := set1 σ.assigned_goods s (uadd (σ.assigned_goods s) q)
    supply_cost := σ.supply_cost + I.supply_cost s w * (q : ℚ)
    opening_cost :=
      if σ.load w = 0 then uadd σ.opening_cost (I.fixed_cost w) else σ.opening_cost
    load := set1 σ.load w (uadd (σ.load w) q) }

/-- The method `RevokeAssignment(s, w, q)`: revokes the assignment of `q` goods of store
`s` to warehouse `w`. The field `supply_cost` is updated in exact arithmetic;
`RevokeAssignmentD` rounds it as a `double`. -/
def RevokeAssignment (I : WL_Instance) (σ : WL_Solution) (s w q : Nat) : WL_Solution :=
  { supply := set2 σ.supply s w (usub (σ.supply s w) q)
    assigned_goods := set1 σ.assigned_goods s (usub (σ.assigned_goods s) q)
    load := set1 σ.load w (usub (σ.load w) q)
    supply_cost := σ.supply_cost - I.supply_cost s w * (q : ℚ)
    opening_cost :=
      if usub (σ.load w) q = 0 then usub σ.opening_cost (I.fixed_cost w) else σ.opening_cost
    incompatibilities :=
      if usub (σ.supply s w) q = 0 then decrIncompat I σ.incompatibilities s w
      else σ.incompatibilities
    supplied_stores :=
      if usub (σ.supply s w) q = 0 then
        set1 σ.supplied_stores w (setErase (σ.supplied_stores w) s)
      else σ.supplied_stores }

/-- The method `SupplyCost()`, in exact arithmetic. -/
def SupplyCost (I : WL_Instance) (σ : WL_Solution) : ℚ :=
  σ.supply_cost + I.reduction_supply_cost

/-- The method `OpeningCost()`. -/
def OpeningCost (I : WL_Instance) (σ : WL_Solution) : Nat :=
  uadd σ.opening_cost I.reduction_opening_cost

/-- The method `Cost()`: total cost, in exact arithmetic (`CostD` rounds as a `double`). -/
def Cost (I : WL_Instance) (σ : WL_Solution) : ℚ :=
  SupplyCost I σ + (OpeningCost I σ : ℚ)

/-- Number of increments made by the first loop of `ComputeViolations`: stores whose
assigned goods are below their amount of goods. -/
def demandViolations (I : WL_Instance) (σ : WL_Solution) : Nat :=
  ((List.range I.stores).filter
    (fun s => decide (σ.assigned_goods s < I.amount_of_goods s))).length

/-- Number of increments made by the second loop of `ComputeViolations`: warehouses whose
load exceeds their capacity. -/
def capacityViolations (I : WL_Instance) (σ : WL_Solution) : Nat :=
  ((List.range I.warehouses).filter
    (fun w => decide (σ.load w > I.capacity w))).length

/-- Number of increments made by the third loop of `ComputeViolations`: for every listed
pair, the warehouses that supply both of its stores. -/
def pairViolations (I : WL_Instance) (σ : WL_Solution) : Nat :=
  (I.store_incompatibilities.map (fun p =>
    ((List.range I.warehouses).filter
      (fun w => decide (σ.supply p.1 w > 0) && decide (σ.supply p.2 w > 0))).length)).sum

/-- The method `ComputeViolations()`; the counter is an `unsigned`. -/
def ComputeViolations (I : WL_Instance) (σ : WL_Solution) : Nat :=
  (demandViolations I σ + capacityViolations I σ + pairViolations I σ) % 4294967296

end WL_Solution


/-! ## Predicates used in the statements -/

/-- The instance's `unsigned` data fit the machine type, and so do its sizes (for the
number of stores, with room for the `+ 2` of `Incompatibilities`). -/
structure WL_Instance.Typed (I : WL_Instance) : Prop where
  stores : I.stores + 2 < 4294967296
  warehouses : I.warehouses < 4294967296
  capacity : ∀ w, w < I.warehouses → I.capacity w < 4294967296
  fixed_cost : ∀ w, w < I.warehouses → I.fixed_cost w < 4294967296
  amount_of_goods : ∀ s, s < I.stores → I.amount_of_goods s < 4294967296
  reduction_opening_cost : I.reduction_opening_cost < 4294967296

/-- Sum of the fixed costs of all warehouses. -/
def WL_Instance.totalFixed (I : WL_Instance) : Nat :=
  (Finset.range I.warehouses).sum I.fixed_cost

/-- The `incompatible` matrix is symmetric (the file reader sets both entries of a pair). -/
def WL_Instance.IncompatSymm (I : WL_Instance) : Prop :=
  ∀ a b, a < I.stores → b < I.stores → I.incompatible a b = I.incompatible b a

/-- No store is incompatible with itself. -/
def WL_Instance.IncompatIrrefl (I : WL_Instance) : Prop :=
  ∀ a, a < I.stores → I.incompatible a a = false

/-- The `incompatible` matrix the file reader builds from a list of pairs. -/
def incompatibleOfPairs (pairs : List (Nat × Nat)) : Nat → Nat → Bool :=
  fun a b => pairs.any (fun p => (p.1 == a && p.2 == b) || (p.2 == a && p.1 == b))

namespace WL_Solution

/-- The `unsigned` fields of the solution fit the machine type. -/
structure Typed (I : WL_Instance) (σ : WL_Solution) : Prop where
  supply : ∀ s w, s < I.stores → w < I.warehouses → σ.supply s w < 4294967296
  assigned_goods : ∀ s, s < I.stores → σ.assigned_goods s < 4294967296
  load : ∀ w, w < I.warehouses → σ.load w < 4294967296
  incompatibilities :
    ∀ w s, w < I.warehouses → s < I.stores → σ.incompatibilities w s < 4294967296
  opening_cost : σ.opening_cost < 4294967296

/-- Invariant 3: `supplied_stores[w] == {s : supply[s][w] > 0}`. -/
def SuppliedStoresInv (I : WL_Instance) (σ : WL_Solution) : Prop :=
  ∀ w, w < I.warehouses →
    ∀ s, s ∈ σ.supplied_stores w ↔ (s < I.stores ∧ 0 < σ.supply s w)

/-- The number of stores `s2 ≠ s` with `supply[s2][w] > 0` and `incompatible[s][s2]`. -/
def conflictCount (I : WL_Instance) (σ : WL_Solution) (w s : Nat) : Nat :=
  ((Finset.range I.stores).filter
    (fun s2 => s2 ≠ s ∧ 0 < σ.supply s2 w ∧ I.incompatible s s2 = true)).card

/-- Invariant 4: `incompatibilities[w][s]` is the conflict count of `s` at `w`. -/
def IncompatInv (I : WL_Instance) (σ : WL_Solution) : Prop :=
  ∀ w s, w < I.warehouses → s < I.stores →
    σ.incompatibilities w s = conflictCount I σ w s

/-- The sum of `fixed_cost[w]` over the warehouses with `load[w] > 0`. -/
def openingSum (I : WL_Instance) (σ : WL_Solution) : Nat :=
  (Finset.range I.warehouses).sum (fun w => if 0 < σ.load w then I.fixed_cost w else 0)

/-- Invariant 5: `opening_cost == Σ_{w: load[w] > 0} fixed_cost[w]`. -/
def OpeningCostInv (I : WL_Instance) (σ : WL_Solution) : Prop :=
  σ.opening_cost = openingSum I σ

/-- Invariant 1: `assigned_goods[s] == Σ_w supply[s][w]`. -/
def AssignedInv (I : WL_Instance) (σ : WL_Solution) : Prop :=
  ∀ s, s < I.stores → σ.assigned_goods s = (Finset.range I.warehouses).sum (fun w => σ.supply s w)

/-- Invariant 2: `load[w] == Σ_s supply[s][w]`. -/
def LoadInv (I : WL_Instance) (σ : WL_Solution) : Prop :=
  ∀ w, w < I.warehouses → σ.load w = (Finset.range I.stores).sum (fun s => σ.supply s w)

/-- The weighted sum `Σ_{s,w} supply_cost[s][w] · supply[s][w]`. -/
def weightedSupply (I : WL_Instance) (σ : WL_Solution) : ℚ :=
  (Finset.range I.stores).sum (fun s =>
    (Finset.range I.warehouses).sum (fun w => I.supply_cost s w * (σ.supply s w : ℚ)))

/-- Invariant 6: `supply_cost == Σ_{s,w} supply_cost[s][w] · supply[s][w]`. -/
def SupplyCostInv (I : WL_Instance) (σ : WL_Solution) : Prop :=
  σ.supply_cost = weightedSupply I σ

/-- What the counter `incompatibilities[w][s]` counts in the code: the stores `s2` supplied
by `w` for which `Assign` found `Incompatible(s2, s)`. -/
def conflictsAt (I : WL_Instance) (σ : WL_Solution) (w s : Nat) : Nat :=
  ((Finset.range I.stores).filter
    (fun s2 => 0 < σ.supply s2 w ∧ I.incompatible s2 s = true)).card

/-- The counters agree with the supplies. -/
def CounterInv (I : WL_Instance) (σ : WL_Solution) : Prop :=
  ∀ w s, w < I.warehouses → s < I.stores → σ.incompatibilities w s = conflictsAt I σ w s

/-- A consistent solution state: the cached fields agree with the `supply` matrix (the
opening cost as an `unsigned`, that is modulo `2^32`), the sets hold no store twice, and
every `unsigned` field fits the machine type. -/
structure Consistent (I : WL_Instance) (σ : WL_Solution) : Prop where
  typed : Typed I σ
  assigned : AssignedInv I σ
  load : LoadInv I σ
  stores : SuppliedStoresInv I σ
  nodup : ∀ w, w < I.warehouses → (σ.supplied_stores w).Nodup
  counters : CounterInv I σ
  opening : σ.opening_cost = openingSum I σ % 4294967296
  cost : SupplyCostInv I σ

/-- No warehouse is loaded above its capacity and no store is assigned more than its
amount of goods. -/
structure Within (I : WL_Instance) (σ : WL_Solution) : Prop where
  load_le : ∀ w, w < I.warehouses → σ.load w ≤ I.capacity w
  assigned_le : ∀ s, s < I.stores → σ.assigned_goods s ≤ I.amount_of_goods s

end WL_Solution

/-! ## The scenario instances of the specification -/

/-- Scenario E1: one warehouse (capacity 10, fixed cost 5), one store (demand 7), unit
supply cost 2. -/
def instE1 : WL_Instance :=
  { stores := 1
    warehouses := 1
    reduction_opening_cost := 0
    reduction_supply_cost := 0
    capacity := fun w => [10].getD w 0
    fixed_cost := fun w => [5].getD w 0
    amount_of_goods := fun s => [7].getD s 0
    supply_cost := fun s w => ([[2]].getD s []).getD w 0
    store_incompatibilities := []
    incompatible := incompatibleOfPairs []
    w_incompatible := fun _ _ => false }

/-- Scenario E3: two warehouses (capacity 10, fixed cost 1), two stores (demand 3), all
unit supply costs 1, stores 0 and 1 incompatible. -/
def instE3 : WL_Instance :=
  { stores := 2
    warehouses := 2
    reduction_opening_cost := 0
    reduction_supply_cost := 0
    capacity := fun w => [10, 10].getD w 0
    fixed_cost := fun w => [1, 1].getD w 0
    amount_of_goods := fun s => [3, 3].getD s 0
    supply_cost := fun s w => ([[1, 1], [1, 1]].getD s []).getD w 0
    store_incompatibilities := [(0, 1)]
    incompatible := incompatibleOfPairs [(0, 1)]
    w_incompatible := fun _ _ => false }

/-- A degenerate input file: one warehouse (capacity 5, fixed cost 1), one store
(demand 5), and the pair list `[(0, 0)]`, which declares store 0 incompatible with
itself. -/
def instSelfPair : WL_Instance :=
  { stores := 1
    warehouses := 1
    reduction_opening_cost := 0
    reduction_supply_cost := 0
    capacity := fun w => [5].getD w 0
    fixed_cost := fun w => [1].getD w 0
    amount_of_goods := fun s => [5].getD s 0
    supply_cost := fun s w => ([[1]].getD s []).getD w 0
    store_incompatibilities := [(0, 0)]
    incompatible := incompatibleOfPairs [(0, 0)]
    w_incompatible := fun _ _ => false }


/-! ## Patterns and the lift of a reduced solution (`WL_MRILS::Run`) -/

/-- Sum of `q` over the pattern entries at warehouse `w`. -/
def patternLoad (pattern : List Supply) (w : Nat) : Nat :=
  ((pattern.filter (fun p => p.w = w)).map (fun p => p.q)).sum

/-- Sum of `q` over the pattern entries for store `s`. -/
def patternDemand (pattern : List Supply) (s : Nat) : Nat :=
  ((pattern.filter (fun p => p.s = s)).map (fun p => p.q)).sum

/-- Sum of `supply_cost[s][w] * q` over the pattern entries. -/
def patternSupplyCost (I : WL_Instance) (pattern : List Supply) : ℚ :=
  (pattern.map (fun p => I.supply_cost p.s p.w * (p.q : ℚ))).sum

/-- Sum of `fixed_cost[w]` over the distinct warehouses of the pattern. -/
def patternOpeningCost (I : WL_Instance) (pattern : List Supply) : Nat :=
  (pattern.map (fun p => p.w)).toFinset.sum I.fixed_cost

/-- The lift in `WL_MRILS::Run`: a new solution on the original instance `I` receives
every supply of the reduced solution (iterating `supplied_stores[w]` for each `w`) and
then every entry of the pattern. -/
def liftSolution (I : WL_Instance) (reduced_sol : WL_Solution) (pattern : List Supply) :
    WL_Solution :=
  let copied := (List.range I.warehouses).foldl
    (fun sol w => (reduced_sol.supplied_stores w).foldl
      (fun sol s => WL_Solution.Assign I sol s w (reduced_sol.supply s w)) sol)
    (WL_Solution.create I)
  pattern.foldl (fun sol p => WL_Solution.Assign I sol p.s p.w p.q) copied

/-- A sequence of `Assign` calls, one per entry. -/
def assignAll (I : WL_Instance) (σ : WL_Solution) (entries : List Supply) : WL_Solution :=
  entries.foldl (fun sol p => WL_Solution.Assign I sol p.s p.w p.q) σ

/-- Sum of `q` over the entries `(w, s, q)` of a list with the given store and warehouse. -/
def entryAt (entries : List Supply) (s w : Nat) : Nat :=
  ((entries.filter (fun p => p.s = s ∧ p.w = w)).map (fun p => p.q)).sum

/-- The supplies of a solution in the order in which the lift copies them. -/
def copyList (I : WL_Instance) (σ : WL_Solution) : List Supply :=
  (List.range I.warehouses).flatMap
    (fun w => (σ.supplied_stores w).map (fun s => ⟨w, s, σ.supply s w⟩))

/-- The listed pairs are pairs of stores of the instance, and the `incompatible` matrix
holds both of their entries (as the file reader sets them). -/
def WL_Instance.PairsInMatrix (I : WL_Instance) : Prop :=
  ∀ p, p ∈ I.store_incompatibilities →
    p.1 < I.stores ∧ p.2 < I.stores ∧
    I.incompatible p.1 p.2 = true ∧ I.incompatible p.2 p.1 = true

/-- A pattern that fits the instance: entries in range with positive quantities, usage
within every capacity and demand, and no two incompatible stores at one warehouse. -/
structure PatternFits (I : WL_Instance) (pattern : List Supply) : Prop where
  entries : ∀ p, p ∈ pattern → p.s < I.stores ∧ p.w < I.warehouses ∧ 0 < p.q
  capacity : ∀ w, w < I.warehouses → patternLoad pattern w ≤ I.capacity w
  demand : ∀ s, s < I.stores → patternDemand pattern s ≤ I.amount_of_goods s
  compatible : ∀ p1 p2, p1 ∈ pattern → p2 ∈ pattern → p1.w = p2.w →
    I.incompatible p1.s p2.s = false

/-- Scenario E6: the pattern `[(w=0, s=0, q=3)]` on scenario E1. -/
def patE6 : List Supply := [⟨0, 0, 3⟩]

/-- Scenario E6: the reduced solution that assigns the 4 remaining units. -/
def solE6 : WL_Solution :=
  WL_Solution.Assign (instE1.reduced patE6) (WL_Solution.create (instE1.reduced patE6)) 0 0 4

/-- On scenario E3 with the pattern `[(w=0, s=0, q=3)]`: the state of the reduced instance
that supplies store 1 (incompatible with the pattern's store 0) from warehouse 0. -/
def solE3Forbidden : WL_Solution :=
  WL_Solution.Assign (instE3.reduced [⟨0, 0, 3⟩])
    (WL_Solution.create (instE3.reduced [⟨0, 0, 3⟩])) 1 0 3


/-! ## The constructors (`WL_MRILS::InitialSolutionGreedyOpening`,
`WL_MRILS::InitialSolutionRandomOpening`)

The pseudo-random source is the list of the future results of `rand()`; a run that asks
for more numbers than the list holds has no result (`none`), and so has a run that reads
a vector out of bounds or divides by zero. Loops without a bound of their own take a
`fuel` argument, and a run that exhausts it has no result either. -/

/-- The future results of `rand()`. -/
abbrev Rng := List Nat

/-- The constant `RAND_MAX` of the C library. -/
def RAND_MAX : Nat := 2147483647

/-- The loop `total_demand += in.AmountOfGoods(s)`. -/
def totalDemand (I : WL_Instance) : Nat :=
  (List.range I.stores).foldl (fun acc s => uadd acc (I.amount_of_goods s)) 0

/-- The loop `for (w = 1; total_capacity < total_demand; w++)` of the greedy constructor,
at index `w` with `rest` the warehouses from index `w` on; returns `last_open`, or nothing
when the loop runs past the end of the vector. -/
def greedyPrefixLoop (I : WL_Instance) (total_demand : Nat) :
    List Nat → Nat → Nat → Nat → Option Nat
  | [], _, total_capacity, last_open =>
    if total_capacity < total_demand then none else some last_open
  | x :: rest, w, total_capacity, last_open =>
    if total_capacity < total_demand then
      greedyPrefixLoop I total_demand rest (w + 1) (uadd total_capacity (I.capacity x)) w
    else some last_open

/-- The loop `while (!ResidualAmount(s) || Incompatibilities(w, s))` of the seed phase,
with its counter `trials`; returns the final `s` and `trials`. It makes at most
`stores + 1` passes, which the callers give as `fuel`. -/
def seedPick (I : WL_Instance) (σ : WL_Solution) (wh : Nat) :
    Nat → Nat → Nat → Rng → Option (Nat × Nat × Rng)
  | 0, _, _, _ => none
  | fuel + 1, s, trials, rng =>
    if WL_Solution.ResidualAmount I σ s = 0 ∨ WL_Solution.Incompatibilities I σ wh s ≠ 0 then
      if trials + 1 > I.stores then some (s, trials + 1, rng)
      else
        match rng with
        | [] => none
        | r :: rng2 => seedPick I σ wh fuel (r % I.stores) (trials + 1) rng2
    else some (s, trials, rng)

/-- One pass of the seed loop, for the open candidate `wh`. -/
def seedStep (I : WL_Instance) (σ : WL_Solution) (rng : Rng) (wh : Nat) :
    Option (WL_Solution × Rng) :=
  if WL_Solution.ResidualCapacity I σ wh ≠ 0 then
    if I.stores = 0 then none
    else
      match rng with
      | [] => none
      | r :: rng1 =>
        match seedPick I σ wh (I.stores + 2) (r % I.stores) 0 rng1 with
        | none => none
        | some (s, trials, rng2) =>
          if trials ≤ I.stores then
            some (WL_Solution.Assign I σ s wh
              (min (WL_Solution.ResidualAmount I σ s) (I.capacity wh)), rng2)
          else some (σ, rng2)
  else some (σ, rng)

/-- The seed loop `for (w = 0; w <= last_open; w++)` over the open candidates. -/
def seedPhase (I : WL_Instance) : List Nat → WL_Solution → Rng → Option (WL_Solution × Rng)
  | [], σ, rng => some (σ, rng)
  | wh :: rest, σ, rng =>
    match seedStep I σ rng wh with
    | none => none
    | some (σ2, rng2) => seedPhase I rest σ2 rng2

/-- The loop that picks `best_w` among the open candidates: the cheapest one for `s` with
residual capacity and no incompatibility (`warehouses` when there is none). -/
def bestOpen (I : WL_Instance) (σ : WL_Solution) (s : Nat) (opened : List Nat) : Nat :=
  opened.foldl
    (fun best_w wh =>
      if WL_Solution.ResidualCapacity I σ wh ≠ 0 ∧ WL_Solution.Incompatibilities I σ wh s = 0 ∧
          (best_w = I.warehouses ∨ I.supply_cost s wh < I.supply_cost s best_w)
      then wh else best_w)
    I.warehouses

/-- The loop `while (next < W && (!ResidualCapacity(...) || Incompatibilities(...))) next++`
of the greedy constructor, with `rest` the warehouses from index `next` on. -/
def findNext (I : WL_Instance) (σ : WL_Solution) (s : Nat) : List Nat → Nat → Nat
  | [], next => next
  | wh :: rest, next =>
    if WL_Solution.ResidualCapacity I σ wh = 0 ∨ WL_Solution.Incompatibilities I σ wh s ≠ 0
    then findNext I σ s rest (next + 1)
    else next

/-- The loop `while (sol->ResidualAmount(s))` of the greedy constructor for store `s`.
Result `some none`: the attempt is infeasible; `some (some _)`: the store is served. -/
def greedyFill (I : WL_Instance) (s : Nat) :
    Nat → WL_Solution → List Nat → Nat → Option (Option (WL_Solution × List Nat × Nat))
  | 0, _, _, _ => none
  | fuel + 1, σ, warehouses, last_open =>
    if WL_Solution.ResidualAmount I σ s = 0 then some (some (σ, warehouses, last_open))
    else
      let best_w := bestOpen I σ s (warehouses.take (last_open + 1))
      if best_w = I.warehouses then
        let next := findNext I σ s (warehouses.drop (last_open + 1)) (last_open + 1)
        if next < I.warehouses then
          match warehouses[next]? with
          | none => none
          | some next_w =>
            greedyFill I s fuel
              (WL_Solution.Assign I σ s next_w
                (min (WL_Solution.ResidualAmount I σ s) (WL_Solution.ResidualCapacity I σ next_w)))
              (warehouses.take (last_open + 1) ++
                next_w :: (warehouses.take next).drop (last_open + 1) ++
                warehouses.drop (next + 1))
              (last_open + 1)
        else some none
      else
        greedyFill I s fuel
          (WL_Solution.Assign I σ s best_w
            (min (WL_Solution.ResidualAmount I σ s) (WL_Solution.ResidualCapacity I σ best_w)))
          warehouses last_open

/-- The loop `for (s = 0; feasible && s < S; s++)` of the greedy constructor. -/
def greedyComplete (I : WL_Instance) (fuel : Nat) :
    List Nat → WL_Solution → List Nat → Nat → Option (Option WL_Solution)
  | [], σ, _, _ => some (some σ)
  | s :: rest, σ, warehouses, last_open =>
    match greedyFill I s fuel σ warehouses last_open with
    | none => none
    | some none => some none
    | some (some (σ2, warehouses2, last_open2)) =>
      greedyComplete I fuel rest σ2 warehouses2 last_open2

/-- One pass of `while (!feasible)` in the greedy constructor. `order` is the vector
`warehouses` as `std::sort` leaves it. Result `some (none, _)`: infeasible, restart. -/
def greedyAttempt (I : WL_Instance) (order : List Nat) (fuel : Nat) (rng : Rng) :
    Option (Option WL_Solution × Rng) :=
  match order with
  | [] => none
  | x0 :: rest =>
    (greedyPrefixLoop I (totalDemand I) rest 1 (I.capacity x0) 0).bind fun last_open =>
    (seedPhase I (order.take (last_open + 1)) (WL_Solution.create I) rng).bind fun seeded =>
    (greedyComplete I fuel (List.range I.stores) seeded.1 order last_open).bind fun r =>
    some (r, seeded.2)

/-- The loop `while (!feasible)` of the greedy constructor. -/
def greedyRestart (I : WL_Instance) (order : List Nat) (fuel : Nat) :
    Nat → Rng → Option (WL_Solution × Rng)
  | 0, _ => none
  | n + 1, rng =>
    match greedyAttempt I order fuel rng with
    | none => none
    | some (some σ, rng1) => some (σ, rng1)
    | some (none, rng1) => greedyRestart I order fuel n rng1

/-- The method `InitialSolutionGreedyOpening()`. The argument `order` stands for the result
of `std::sort(warehouses, WarehouseComparator(in))`, an ordering of `0 .. W-1` (the sort is
not stable and compares floating-point ratios, so the code fixes it only up to ties). -/
def InitialSolutionGreedyOpening (I : WL_Instance) (order : List Nat) (fuel : Nat)
    (rng : Rng) : Option (WL_Solution × Rng) :=
  greedyRestart I order fuel fuel rng

/-- The roulette weight of a warehouse:
`FixedCost(x) ? (double)Capacity(x) / FixedCost(x) : (double)Capacity(x)`. -/
def rouletteWeight (I : WL_Instance) (x : Nat) : ℚ :=
  if I.fixed_cost x ≠ 0 then (I.capacity x : ℚ) / (I.fixed_cost x : ℚ) else (I.capacity x : ℚ)

/-- The loop `for (w = last_open + 1; w < W; w++)` of a roulette draw over the positions
`w` of still closed warehouses: the first position whose cumulative probability reaches
`random`, if any. -/
def roulettePick (I : WL_Instance) (warehouses : List Nat) (relative_cost_sum random : ℚ) :
    List Nat → ℚ → Option Nat
  | [], _ => none
  | w :: rest, cumulative_prob =>
    match warehouses[w]? with
    | none => none
    | some x =>
      if random ≤ cumulative_prob + rouletteWeight I x / relative_cost_sum then some w
      else roulettePick I warehouses relative_cost_sum random rest
        (cumulative_prob + rouletteWeight I x / relative_cost_sum)

/-- The exchange `temp = warehouses[i]; warehouses[i] = warehouses[w]; warehouses[w] = temp`. -/
def swapInto (warehouses : List Nat) (i w : Nat) : List Nat :=
  match warehouses[i]?, warehouses[w]? with
  | some a, some b => (warehouses.set i b).set w a
  | _, _ => warehouses

/-- The state of the roulette constructor besides the solution: the vector `warehouses`,
the number of open candidates (`last_open + 1`), `total_capacity`, `relative_cost_sum`. -/
structure RouletteState where
  warehouses : List Nat
  n_open : Nat
  total_capacity : Nat
  relative_cost_sum : ℚ

/-- The state after `warehouses[w]` is exchanged into position `++last_open`. -/
def RouletteState.promote (I : WL_Instance) (st : RouletteState) (w : Nat) : RouletteState :=
  let ws := swapInto st.warehouses st.n_open w
  { warehouses := ws
    n_open := st.n_open + 1
    total_capacity := uadd st.total_capacity (I.capacity (ws.getD st.n_open 0))
    relative_cost_sum := st.relative_cost_sum - rouletteWeight I (ws.getD st.n_open 0) }

/-- The loop `while (total_capacity < total_demand)` of the roulette constructor; each pass
draws one number. -/
def rouletteOpen (I : WL_Instance) (total_demand : Nat) :
    Rng → RouletteState → Option (RouletteState × Rng)
  | [], st => if st.total_capacity < total_demand then none else some (st, [])
  | r :: rng1, st =>
    if st.total_capacity < total_demand then
      match roulettePick I st.warehouses st.relative_cost_sum ((r : ℚ) / (RAND_MAX : ℚ))
          (List.range' st.n_open (I.warehouses - st.n_open)) 0 with
      | some w => rouletteOpen I total_demand rng1 (st.promote I w)
      | none => rouletteOpen I total_demand rng1 st
    else some (st, r :: rng1)

/-- The loop `while (best_w == in.Warehouses())` of the roulette completion phase; each
pass draws one number. Returns `best_w` with the new state. -/
def roulettePromote (I : WL_Instance) (σ : WL_Solution) (s : Nat) :
    Rng → RouletteState → Option (Nat × RouletteState × Rng)
  | [], _ => none
  | r :: rng1, st =>
    match roulettePick I st.warehouses st.relative_cost_sum ((r : ℚ) / (RAND_MAX : ℚ))
        (List.range' st.n_open (I.warehouses - st.n_open)) 0 with
    | some w =>
      if WL_Solution.ResidualCapacity I σ (st.warehouses.getD w 0) ≠ 0 ∧
          WL_Solution.Incompatibilities I σ (st.warehouses.getD w 0) s = 0 then
        some ((st.promote I w).warehouses.getD st.n_open 0, st.promote I w, rng1)
      else roulettePromote I σ s rng1 st
    | none => roulettePromote I σ s rng1 st

/-- The loop `while (sol->ResidualAmount(s))` of the roulette constructor for store `s`.
Result `some none`: the attempt is infeasible; `some (some _)`: the store is served. -/
def rouletteFill (I : WL_Instance) (s : Nat) :
    Nat → WL_Solution → RouletteState → Rng →
      Option (Option (WL_Solution × RouletteState) × Rng)
  | 0, _, _, _ => none
  | fuel + 1, σ, st, rng =>
    if WL_Solution.ResidualAmount I σ s = 0 then some (some (σ, st), rng)
    else
      let best_w := bestOpen I σ s (st.warehouses.take st.n_open)
      if best_w = I.warehouses then
        if st.n_open < I.warehouses then
          match roulettePromote I σ s rng st with
          | none => none
          | some (best_w2, st2, rng2) =>
            rouletteFill I s fuel
              (WL_Solution.Assign I σ s best_w2
                (min (WL_Solution.ResidualAmount I σ s) (WL_Solution.ResidualCapacity I σ best_w2)))
              st2 rng2
        else some (none, rng)
      else
        rouletteFill I s fuel
          (WL_Solution.Assign I σ s best_w
            (min (WL_Solution.ResidualAmount I σ s) (WL_Solution.ResidualCapacity I σ best_w)))
          st rng

/-- The loop `for (s = 0; feasible && s < S; s++)` of the roulette constructor. -/
def rouletteComplete (I : WL_Instance) (fuel : Nat) :
    List Nat → WL_Solution → RouletteState → Rng → Option (Option WL_Solution × Rng)
  | [], σ, _, rng => some (some σ, rng)
  | s :: rest, σ, st, rng =>
    match rouletteFill I s fuel σ st rng with
    | none => none
    | some (none, rng2) => some (none, rng2)
    | some (some (σ2, st2), rng2) => rouletteComplete I fuel rest σ2 st2 rng2

/-- The value of `relative_cost_sum` after the initial loop over the warehouses. -/
def initialCostSum (I : WL_Instance) : ℚ :=
  (List.range I.warehouses).foldl (fun acc w => acc + rouletteWeight I w) 0

/-- One pass of `while (!feasible)` in the roulette constructor. -/
def rouletteAttempt (I : WL_Instance) (fuel : Nat) (rng : Rng) :
    Option (Option WL_Solution × Rng) :=
  (rouletteOpen I (totalDemand I) rng
      { warehouses := List.range I.warehouses
        n_open := 0
        total_capacity := 0
        relative_cost_sum := initialCostSum I }).bind fun opened =>
  (seedPhase I (opened.1.warehouses.take opened.1.n_open)
      (WL_Solution.create I) opened.2).bind fun seeded =>
  rouletteComplete I fuel (List.range I.stores) seeded.1 opened.1 seeded.2

/-- The loop `while (!feasible)` of the roulette constructor. -/
def rouletteRestart (I : WL_Instance) (fuel : Nat) : Nat → Rng → Option (WL_Solution × Rng)
  | 0, _ => none
  | n + 1, rng =>
    match rouletteAttempt I fuel rng with
    | none => none
    | some (some σ, rng1) => some (σ, rng1)
    | some (none, rng1) => rouletteRestart I fuel n rng1

/-- The method `InitialSolutionRandomOpening()`. -/
def InitialSolutionRandomOpening (I : WL_Instance) (fuel : Nat) (rng : Rng) :
    Option (WL_Solution × Rng) :=
  rouletteRestart I fuel fuel rng

/-- The contract of the constructors: every demand met exactly, no load above capacity,
no violation counted. -/
def IsFeasible (I : WL_Instance) (σ : WL_Solution) : Prop :=
  (∀ s, s < I.stores → σ.assigned_goods s = I.amount_of_goods s) ∧
  (∀ w, w < I.warehouses → σ.load w ≤ I.capacity w) ∧
  WL_Solution.ComputeViolations I σ = 0

/-- No listed pair has both of its stores supplied by one warehouse. -/
def NoConflict (I : WL_Instance) (σ : WL_Solution) : Prop :=
  ∀ p, p ∈ I.store_incompatibilities → ∀ w, w < I.warehouses →
    ¬ (0 < σ.supply p.1 w ∧ 0 < σ.supply p.2 w)

/-- The states the searches work on: consistent, within capacities and demands, and
without a co-located incompatible pair. -/
structure Sound (I : WL_Instance) (σ : WL_Solution) : Prop where
  consistent : WL_Solution.Consistent I σ
  within : WL_Solution.Within I σ
  noConflict : NoConflict I σ


/-! ## Local search (`WL_MRILS::LocalSearch`)

The wall clock is a budget: the number of evaluations of
`clock() / CLOCKS_PER_SEC < timeout` that still succeed. Once the budget is 0 every later
evaluation fails, as with a real clock. -/

/-- The precision parameter `MY_EPSILON`. -/
def MY_EPSILON : ℚ := 1 / 100000

/-- Move structure: `s2 == stores` marks a relocation of `s1` from `w1` to `w2`, otherwise
the supplies of `s1` at `w1` and of `s2` at `w2` are exchanged. -/
structure Move where
  s1 : Nat
  s2 : Nat
  w1 : Nat
  w2 : Nat
  improvement : ℚ

/-- The improvement computed for the relocation of `s1` from `w1` to `w2`, with
`q = min(Supply(s1, w1), ResidualCapacity(w2))`. `LocalSearch` has no set
`closing_forbidden`; it is the case of the empty set. -/
def relocateImprovement (I : WL_Instance) (σ : WL_Solution) (closing_forbidden : List Nat)
    (s1 w1 w2 : Nat) : ℚ :=
  (I.supply_cost s1 w1 - I.supply_cost s1 w2)
      * ((min (σ.supply s1 w1) (WL_Solution.ResidualCapacity I σ w2) : Nat) : ℚ)
    - (if σ.load w2 = 0 then (I.fixed_cost w2 : ℚ) else 0)
    + (if min (σ.supply s1 w1) (WL_Solution.ResidualCapacity I σ w2) = σ.load w1 ∧
          w1 ∉ closing_forbidden then (I.fixed_cost w1 : ℚ) else 0)

/-- Neighborhood 1 for `(s1, w1, w2)`: the relocation move, when it is admissible and
improves by more than `MY_EPSILON`. -/
def relocateMove (I : WL_Instance) (σ : WL_Solution) (closing_forbidden : List Nat)
    (s1 w1 w2 : Nat) : List Move :=
  if WL_Solution.Incompatibilities I σ w2 s1 = 0 ∧ WL_Solution.ResidualCapacity I σ w2 ≠ 0 then
    if relocateImprovement I σ closing_forbidden s1 w1 w2 > MY_EPSILON then
      [{ s1 := s1, s2 := I.stores, w1 := w1, w2 := w2,
         improvement := relocateImprovement I σ closing_forbidden s1 w1 w2 }]
    else []
  else []

/-- The admissibility test of Neighborhood 2 for `s1` at `w1` and `s2` at `w2`. -/
def swapAdmissible (I : WL_Instance) (σ : WL_Solution) (s1 s2 w1 w2 : Nat) : Prop :=
  s1 ≠ s2 ∧
  ((WL_Solution.Incompatibilities I σ w1 s2 = 0 ∧ WL_Solution.Incompatibilities I σ w2 s1 = 0) ∨
    (WL_Solution.Incompatibilities I σ w1 s2 = 1 ∧ I.incompatible s1 s2 = true)) ∧
  σ.supply s1 w1 ≤ uadd (WL_Solution.ResidualCapacity I σ w2) (σ.supply s2 w2) ∧
  σ.supply s2 w2 ≤ uadd (WL_Solution.ResidualCapacity I σ w1) (σ.supply s1 w1)

instance (I : WL_Instance) (σ : WL_Solution) (s1 s2 w1 w2 : Nat) :
    Decidable (swapAdmissible I σ s1 s2 w1 w2) := by
  unfold swapAdmissible
  exact inferInstance

/-- The improvement of the exchange of `s1` at `w1` with `s2` at `w2`. -/
def swapImprovement (I : WL_Instance) (σ : WL_Solution) (s1 s2 w1 w2 : Nat) : ℚ :=
  (I.supply_cost s1 w1 - I.supply_cost s1 w2) * (σ.supply s1 w1 : ℚ)
    + (I.supply_cost s2 w2 - I.supply_cost s2 w1) * (σ.supply s2 w2 : ℚ)

/-- Neighborhood 2 for `(s1, w1, w2)`: the exchange moves with the stores `s2` of `w2`. -/
def swapMoves (I : WL_Instance) (σ : WL_Solution) (s1 w1 w2 : Nat) : List Move :=
  if WL_Solution.Incompatibilities I σ w2 s1 ≤ 1 then
    (σ.supplied_stores w2).filterMap (fun s2 =>
      if swapAdmissible I σ s1 s2 w1 w2 ∧ swapImprovement I σ s1 s2 w1 w2 > MY_EPSILON then
        some { s1 := s1, s2 := s2, w1 := w1, w2 := w2,
               improvement := swapImprovement I σ s1 s2 w1 w2 }
      else none)
  else []

/-- The moves pushed for one triple `(s1, w1, w2)`: the body of the innermost loop. -/
def pairMoves (I : WL_Instance) (σ : WL_Solution) (closing_forbidden : List Nat)
    (s1 w1 w2 : Nat) : List Move :=
  relocateMove I σ closing_forbidden s1 w1 w2 ++ swapMoves I σ s1 w1 w2

/-- The two enumeration loops over the invalid warehouses, in the order of their pushes:
first the moves out of an invalid warehouse, then the moves into one. `LocalSearch` has no
set `opening_forbidden`; it is the case of the empty set. -/
def enumerateMoves (I : WL_Instance) (σ : WL_Solution)
    (invalid_warehouses closing_forbidden opening_forbidden : List Nat) : List Move :=
  (invalid_warehouses.flatMap fun w1 =>
    if σ.load w1 ≠ 0 then
      (σ.supplied_stores w1).flatMap fun s1 =>
        (List.range I.warehouses).flatMap fun w2 =>
          if w1 ≠ w2 ∧ w2 ∉ opening_forbidden then pairMoves I σ closing_forbidden s1 w1 w2
          else []
    else [])
  ++
  ((List.range I.warehouses).flatMap fun w1 =>
    if σ.load w1 ≠ 0 then
      (σ.supplied_stores w1).flatMap fun s1 =>
        invalid_warehouses.flatMap fun w2 =>
          if w1 ≠ w2 ∧ w2 ∉ opening_forbidden then pairMoves I σ closing_forbidden s1 w1 w2
          else []
    else [])

/-- The application of a popped move. -/
def applyMove (I : WL_Instance) (σ : WL_Solution) (m : Move) : WL_Solution :=
  if m.s2 = I.stores then
    WL_Solution.Assign I
      (WL_Solution.RevokeAssignment I σ m.s1 m.w1
        (min (σ.supply m.s1 m.w1) (WL_Solution.ResidualCapacity I σ m.w2)))
      m.s1 m.w2 (min (σ.supply m.s1 m.w1) (WL_Solution.ResidualCapacity I σ m.w2))
  else
    WL_Solution.Assign I
      (WL_Solution.RevokeAssignment I
        (WL_Solution.Assign I (WL_Solution.RevokeAssignment I σ m.s1 m.w1 (σ.supply m.s1 m.w1))
          m.s1 m.w2 (σ.supply m.s1 m.w1))
        m.s2 m.w2
        ((WL_Solution.Assign I
          (WL_Solution.RevokeAssignment I σ m.s1 m.w1 (σ.supply m.s1 m.w1))
          m.s1 m.w2 (σ.supply m.s1 m.w1)).supply m.s2 m.w2))
      m.s2 m.w1
      ((WL_Solution.Assign I (WL_Solution.RevokeAssignment I σ m.s1 m.w1 (σ.supply m.s1 m.w1))
        m.s1 m.w2 (σ.supply m.s1 m.w1)).supply m.s2 m.w2)

/-- The pair `top()` / `pop()` of the priority queue, kept as the list of its elements:
the first element whose improvement no other element exceeds, and the other elements. -/
def popMax : List Move → Option (Move × List Move)
  | [] => none
  | m :: rest =>
    match popMax rest with
    | none => some (m, [])
    | some (m2, rest2) =>
      if m2.improvement > m.improvement then some (m2, m :: rest2) else some (m, rest)

/-- The loop `while (!moves.empty() && clock() / CLOCKS_PER_SEC < timeout)`; `fuel` is the
size of the queue, which every pass decreases. Returns the solution, the invalid
warehouses, the queue and the budget. -/
def drain (I : WL_Instance) :
    Nat → List Move → WL_Solution → List Nat → Nat →
      WL_Solution × List Nat × List Move × Nat
  | 0, moves, σ, invalid_warehouses, budget => (σ, invalid_warehouses, moves, budget)
  | fuel + 1, moves, σ, invalid_warehouses, budget =>
    match popMax moves with
    | none => (σ, invalid_warehouses, moves, budget)
    | some (move, rest) =>
      if budget = 0 then (σ, invalid_warehouses, moves, budget)
      else if move.w1 ∈ invalid_warehouses ∨ move.w2 ∈ invalid_warehouses then
        drain I fuel rest σ invalid_warehouses (budget - 1)
      else
        drain I fuel rest (applyMove I σ move)
          (setInsert (setInsert invalid_warehouses move.w1) move.w2) (budget - 1)

/-- The loop `while (clock() / CLOCKS_PER_SEC < timeout)` of `LocalSearch`. Every pass
spends at least one unit of budget, so `fuel = budget + 1` is never exhausted. -/
def localSearchLoop (I : WL_Instance) :
    Nat → WL_Solution → List Nat → List Move → Nat → WL_Solution × Nat
  | 0, σ, _, _, budget => (σ, budget)
  | fuel + 1, σ, invalid_warehouses, moves, budget =>
    if budget = 0 then (σ, budget)
    else if (moves ++ enumerateMoves I σ invalid_warehouses [] []).isEmpty then (σ, budget - 1)
    else
      match drain I (moves ++ enumerateMoves I σ invalid_warehouses [] []).length
          (moves ++ enumerateMoves I σ invalid_warehouses [] []) σ [] (budget - 1) with
      | (σ2, invalid2, moves2, budget2) => localSearchLoop I fuel σ2 invalid2 moves2 budget2

/-- The method `LocalSearch(sol)`: returns the solution as the search leaves it, and the
budget left. -/
def LocalSearch (I : WL_Instance) (σ : WL_Solution) (budget : Nat) : WL_Solution × Nat :=
  localSearchLoop I (budget + 1) σ (List.range I.warehouses) [] budget


/-! ## Perturbation (`WL_MRILS::Perturbation`) -/

/-- The objects `Perturbation` works on through its pointer arguments. -/
structure PerturbState where
  sol : WL_Solution
  invalid_warehouses : List Nat
  closing_forbidden : List Nat
  opening_forbidden : List Nat

/-- Case 1, first loop over `w2`: the cheapest warehouse for `s` among those that are open
or free of charge, with residual capacity and no incompatibility (`warehouses` when there
is none). -/
def bestLoaded (I : WL_Instance) (σ : WL_Solution) (s : Nat) : Nat :=
  (List.range I.warehouses).foldl
    (fun best_w w2 =>
      if (σ.load w2 ≠ 0 ∨ I.fixed_cost w2 = 0) ∧ WL_Solution.ResidualCapacity I σ w2 ≠ 0 ∧
          WL_Solution.Incompatibilities I σ w2 s = 0 ∧
          (best_w = I.warehouses ∨ I.supply_cost s w2 < I.supply_cost s best_w)
      then w2 else best_w)
    I.warehouses

/-- Case 1, second loop over `w2`, entered with `best_w == warehouses`: the cheapest closed
warehouse other than `w1` with a fixed cost and residual capacity. -/
def bestClosed (I : WL_Instance) (σ : WL_Solution) (s w1 : Nat) : Nat :=
  (List.range I.warehouses).foldl
    (fun best_w w2 =>
      if w2 ≠ w1 ∧ σ.load w2 = 0 ∧ I.fixed_cost w2 ≠ 0 ∧
          WL_Solution.ResidualCapacity I σ w2 ≠ 0 ∧
          (best_w = I.warehouses ∨ I.supply_cost s w2 < I.supply_cost s best_w)
      then w2 else best_w)
    I.warehouses

/-- Case 1, the loop `while (sol->ResidualAmount(s))`. With `best_w == warehouses` the call
of `Assign` reads the vectors out of bounds: no result. -/
def reassignLoop (I : WL_Instance) (s w1 : Nat) :
    Nat → WL_Solution → List Nat → Option (WL_Solution × List Nat)
  | 0, σ, invalid_warehouses =>
    if WL_Solution.ResidualAmount I σ s = 0 then some (σ, invalid_warehouses) else none
  | fuel + 1, σ, invalid_warehouses =>
    if WL_Solution.ResidualAmount I σ s = 0 then some (σ, invalid_warehouses)
    else if bestLoaded I σ s = I.warehouses then
      if bestClosed I σ s w1 = I.warehouses then none
      else
        reassignLoop I s w1 fuel
          (WL_Solution.Assign I σ s (bestClosed I σ s w1)
            (min (WL_Solution.ResidualAmount I σ s)
              (WL_Solution.ResidualCapacity I σ (bestClosed I σ s w1))))
          (setInsert invalid_warehouses (bestClosed I σ s w1))
    else
      reassignLoop I s w1 fuel
        (WL_Solution.Assign I σ s (bestLoaded I σ s)
          (min (WL_Solution.ResidualAmount I σ s)
            (WL_Solution.ResidualCapacity I σ (bestLoaded I σ s))))
        (setInsert invalid_warehouses (bestLoaded I σ s))

/-- Perturbation 1 (close a warehouse), after `closing_forbidden` and `opening_forbidden`
have been cleared. Result 0: no candidate. -/
def perturbation1 (I : WL_Instance) (σ : WL_Solution) (invalid_warehouses : List Nat)
    (rng : Rng) : Option (Nat × PerturbState × Rng) :=
  if (List.range I.warehouses).filter
      (fun w => decide ((σ.supplied_stores w).length = 1 ∧ I.fixed_cost w ≠ 0)) = [] then
    some (0, ⟨σ, invalid_warehouses, [], []⟩, rng)
  else
    match rng with
    | [] => none
    | r :: rng1 =>
      ((List.range I.warehouses).filter
          (fun w => decide ((σ.supplied_stores w).length = 1 ∧ I.fixed_cost w ≠ 0)))[
        r % ((List.range I.warehouses).filter
          (fun w => decide ((σ.supplied_stores w).length = 1 ∧ I.fixed_cost w ≠ 0))).length]?
      |>.bind fun w1 =>
      (σ.supplied_stores w1).head? |>.bind fun s =>
      (reassignLoop I s w1
        (WL_Solution.ResidualAmount I
          (WL_Solution.RevokeAssignment I σ s w1 (σ.supply s w1)) s)
        (WL_Solution.RevokeAssignment I σ s w1 (σ.supply s w1)) invalid_warehouses)
      |>.bind fun res =>
      some (1, ⟨res.1, res.2, [], setInsert [] w1⟩, rng1)

/-- Perturbation 2 (open a warehouse). -/
def perturbation2 (I : WL_Instance) (σ : WL_Solution) (invalid_warehouses : List Nat)
    (rng : Rng) : Option (Nat × PerturbState × Rng) :=
  if (List.range I.warehouses).filter
      (fun w => decide (σ.load w = 0 ∧ I.fixed_cost w ≠ 0)) = [] then
    some (0, ⟨σ, invalid_warehouses, [], []⟩, rng)
  else
    match rng with
    | [] => none
    | r :: rng1 =>
      ((List.range I.warehouses).filter
          (fun w => decide (σ.load w = 0 ∧ I.fixed_cost w ≠ 0)))[
        r % ((List.range I.warehouses).filter
          (fun w => decide (σ.load w = 0 ∧ I.fixed_cost w ≠ 0))).length]?
      |>.bind fun w =>
      some (2, ⟨σ, setInsert invalid_warehouses w, setInsert [] w, []⟩, rng1)

/-- The loop `while (!sol->supplied_stores[w1].empty())` of case 3: every store of `w1`
goes to `w2` with its whole supply. Each pass removes one store from the set of `w1`. -/
def moveAll (I : WL_Instance) (w1 w2 : Nat) : Nat → WL_Solution → Option WL_Solution
  | 0, σ => if σ.supplied_stores w1 = [] then some σ else none
  | fuel + 1, σ =>
    match σ.supplied_stores w1 with
    | [] => some σ
    | s :: _ =>
      moveAll I w1 w2 fuel
        (WL_Solution.Assign I (WL_Solution.RevokeAssignment I σ s w1 (σ.supply s w1))
          s w2 (σ.supply s w1))

/-- Perturbation 3 (close one warehouse and open one warehouse). -/
def perturbation3 (I : WL_Instance) (σ : WL_Solution) (invalid_warehouses : List Nat)
    (rng : Rng) : Option (Nat × PerturbState × Rng) :=
  if (List.range I.warehouses).filter
      (fun w => decide (σ.load w ≠ 0 ∧ I.fixed_cost w ≠ 0)) = [] then
    some (0, ⟨σ, invalid_warehouses, [], []⟩, rng)
  else
    match rng with
    | [] => none
    | r :: rng1 =>
      ((List.range I.warehouses).filter
          (fun w => decide (σ.load w ≠ 0 ∧ I.fixed_cost w ≠ 0)))[
        r % ((List.range I.warehouses).filter
          (fun w => decide (σ.load w ≠ 0 ∧ I.fixed_cost w ≠ 0))).length]?
      |>.bind fun w1 =>
      if (List.range I.warehouses).filter
          (fun w => decide (σ.load w = 0 ∧ I.fixed_cost w ≠ 0 ∧
            WL_Solution.ResidualCapacity I σ w ≥ σ.load w1)) = [] then
        some (0, ⟨σ, invalid_warehouses, [], []⟩, rng1)
      else
        match rng1 with
        | [] => none
        | r2 :: rng2 =>
          ((List.range I.warehouses).filter
              (fun w => decide (σ.load w = 0 ∧ I.fixed_cost w ≠ 0 ∧
                WL_Solution.ResidualCapacity I σ w ≥ σ.load w1)))[
            r2 % ((List.range I.warehouses).filter
              (fun w => decide (σ.load w = 0 ∧ I.fixed_cost w ≠ 0 ∧
                WL_Solution.ResidualCapacity I σ w ≥ σ.load w1))).length]?
          |>.bind fun w2 =>
          (moveAll I w1 w2 (σ.supplied_stores w1).length σ).bind fun σ2 =>
          some (3, ⟨σ2, setInsert invalid_warehouses w2, setInsert [] w2, setInsert [] w1⟩,
            rng2)

/-- The variables `best_fc_improvement`, `best_w1`, `best_w2`, `best_w3` of cases 4 and 5.
The three warehouses are not initialised in the source; they are read only after
`best_fc_improvement` became nonzero, which sets them. -/
structure TripleChoice where
  best_fc_improvement : Nat
  best_w1 : Nat
  best_w2 : Nat
  best_w3 : Nat
deriving DecidableEq, Repr

/-- Case 4, the three nested loops that choose `(best_w1, best_w2, best_w3)`. -/
def chooseTriple4 (I : WL_Instance) (σ : WL_Solution) : TripleChoice :=
  (List.range I.warehouses).foldl
    (fun acc1 w1 =>
      if σ.load w1 ≠ 0 ∧ I.fixed_cost w1 ≠ 0 then
        (List.range I.warehouses).foldl
          (fun acc2 w2 =>
            if σ.load w2 = 0 ∧ I.fixed_cost w2 ≠ 0 ∧ I.fixed_cost w2 < I.fixed_cost w1 then
              (List.range' (w2 + 1) (I.warehouses - (w2 + 1))).foldl
                (fun acc3 w3 =>
                  if σ.load w3 = 0 ∧ I.fixed_cost w3 ≠ 0 ∧
                      uadd (I.capacity w2) (I.capacity w3) ≥ σ.load w1 ∧
                      usub (I.fixed_cost w1) (uadd (I.fixed_cost w2) (I.fixed_cost w3))
                        > acc3.best_fc_improvement
                  then
                    { best_fc_improvement :=
                        usub (I.fixed_cost w1) (uadd (I.fixed_cost w2) (I.fixed_cost w3))
                      best_w1 := w1, best_w2 := w2, best_w3 := w3 }
                  else acc3)
                acc2
            else acc2)
          acc1
      else acc1)
    { best_fc_improvement := 0, best_w1 := 0, best_w2 := 0, best_w3 := 0 }

/-- Case 4, the body of the loop over the stores of `best_w1` after the revocation of
store `s`: the goods of `s` go to `best_w2` and `best_w3`. -/
def splitAssign (I : WL_Instance) (σ : WL_Solution) (s w2 w3 : Nat) : WL_Solution :=
  if WL_Solution.ResidualCapacity I σ w2 ≠ 0 then
    if WL_Solution.ResidualCapacity I σ w3 ≠ 0 then
      if I.supply_cost s w2 < I.supply_cost s w3 then
        if WL_Solution.ResidualAmount I
            (WL_Solution.Assign I σ s w2
              (min (WL_Solution.ResidualAmount I σ s) (WL_Solution.ResidualCapacity I σ w2)))
            s ≠ 0 then
          WL_Solution.Assign I
            (WL_Solution.Assign I σ s w2
              (min (WL_Solution.ResidualAmount I σ s) (WL_Solution.ResidualCapacity I σ w2)))
            s w3
            (WL_Solution.ResidualAmount I
              (WL_Solution.Assign I σ s w2
                (min (WL_Solution.ResidualAmount I σ s) (WL_Solution.ResidualCapacity I σ w2)))
              s)
        else
          WL_Solution.Assign I σ s w2
            (min (WL_Solution.ResidualAmount I σ s) (WL_Solution.ResidualCapacity I σ w2))
      else
        if WL_Solution.ResidualAmount I
            (WL_Solution.Assign I σ s w3
              (min (WL_Solution.ResidualAmount I σ s) (WL_Solution.ResidualCapacity I σ w3)))
            s ≠ 0 then
          WL_Solution.Assign I
            (WL_Solution.Assign I σ s w3
              (min (WL_Solution.ResidualAmount I σ s) (WL_Solution.ResidualCapacity I σ w3)))
            s w2
            (WL_Solution.ResidualAmount I
              (WL_Solution.Assign I σ s w3
                (min (WL_Solution.ResidualAmount I σ s) (WL_Solution.ResidualCapacity I σ w3)))
              s)
        else
          WL_Solution.Assign I σ s w3
            (min (WL_Solution.ResidualAmount I σ s) (WL_Solution.ResidualCapacity I σ w3))
    else WL_Solution.Assign I σ s w2 (WL_Solution.ResidualAmount I σ s)
  else WL_Solution.Assign I σ s w3 (WL_Solution.ResidualAmount I σ s)

/-- Case 4, the loop `while (!sol->supplied_stores[best_w1].empty())`. -/
def splitAll (I : WL_Instance) (w1 w2 w3 : Nat) : Nat → WL_Solution → Option WL_Solution
  | 0, σ => if σ.supplied_stores w1 = [] then some σ else none
  | fuel + 1, σ =>
    match σ.supplied_stores w1 with
    | [] => some σ
    | s :: _ =>
      splitAll I w1 w2 w3 fuel
        (splitAssign I (WL_Solution.RevokeAssignment I σ s w1 (σ.supply s w1)) s w2 w3)

/-- Perturbation 4 (close one warehouse and open two warehouses). -/
def perturbation4 (I : WL_Instance) (σ : WL_Solution) (invalid_warehouses : List Nat)
    (rng : Rng) : Option (Nat × PerturbState × Rng) :=
  if (chooseTriple4 I σ).best_fc_improvement = 0 then
    some (0, ⟨σ, invalid_warehouses, [], []⟩, rng)
  else
    (splitAll I (chooseTriple4 I σ).best_w1 (chooseTriple4 I σ).best_w2
      (chooseTriple4 I σ).best_w3
      (σ.supplied_stores (chooseTriple4 I σ).best_w1).length σ).bind fun σ2 =>
    some (4,
      ⟨σ2,
       setInsert (setInsert invalid_warehouses (chooseTriple4 I σ).best_w2)
         (chooseTriple4 I σ).best_w3,
       setInsert (setInsert [] (chooseTriple4 I σ).best_w2) (chooseTriple4 I σ).best_w3,
       setInsert [] (chooseTriple4 I σ).best_w1⟩,
      rng)

/-- Case 5, the two loops that set `compatible`: no store of `w2` is incompatible with a
store of `w3`. -/
def compatibleStores (I : WL_Instance) (σ : WL_Solution) (w2 w3 : Nat) : Bool :=
  (σ.supplied_stores w2).all fun s1 =>
    (σ.supplied_stores w3).all fun s2 => !I.incompatible s1 s2

/-- Case 5, the three nested loops that choose `(best_w1, best_w2, best_w3)`. -/
def chooseTriple5 (I : WL_Instance) (σ : WL_Solution) : TripleChoice :=
  (List.range I.warehouses).foldl
    (fun acc1 w1 =>
      if σ.load w1 = 0 ∧ I.fixed_cost w1 ≠ 0 then
        (List.range I.warehouses).foldl
          (fun acc2 w2 =>
            if σ.load w2 ≠ 0 ∧ I.capacity w1 > σ.load w2 ∧ I.fixed_cost w2 ≠ 0 ∧
                I.fixed_cost w1 < I.fixed_cost w2 then
              (List.range' (w2 + 1) (I.warehouses - (w2 + 1))).foldl
                (fun acc3 w3 =>
                  if σ.load w3 ≠ 0 ∧ I.fixed_cost w3 ≠ 0 ∧
                      I.capacity w1 ≥ uadd (σ.load w2) (σ.load w3) ∧
                      usub (uadd (I.fixed_cost w2) (I.fixed_cost w3)) (I.fixed_cost w1)
                        > acc3.best_fc_improvement ∧
                      compatibleStores I σ w2 w3 = true
                  then
                    { best_fc_improvement :=
                        usub (uadd (I.fixed_cost w2) (I.fixed_cost w3)) (I.fixed_cost w1)
                      best_w1 := w1, best_w2 := w2, best_w3 := w3 }
                  else acc3)
                acc2
            else acc2)
          acc1
      else acc1)
    { best_fc_improvement := 0, best_w1 := 0, best_w2 := 0, best_w3 := 0 }

/-- Case 5, one of the loops `while (!sol->supplied_stores[w].empty())`: every store of `w`
goes to `w1` with `ResidualAmount(s)` goods. -/
def mergeAll (I : WL_Instance) (w w1 : Nat) : Nat → WL_Solution → Option WL_Solution
  | 0, σ => if σ.supplied_stores w = [] then some σ else none
  | fuel + 1, σ =>
    match σ.supplied_stores w with
    | [] => some σ
    | s :: _ =>
      mergeAll I w w1 fuel
        (WL_Solution.Assign I (WL_Solution.RevokeAssignment I σ s w (σ.supply s w)) s w1
          (WL_Solution.ResidualAmount I
            (WL_Solution.RevokeAssignment I σ s w (σ.supply s w)) s))

/-- Perturbation 5 (open one warehouse and close two warehouses). -/
def perturbation5 (I : WL_Instance) (σ : WL_Solution) (invalid_warehouses : List Nat)
    (rng : Rng) : Option (Nat × PerturbState × Rng) :=
  if (chooseTriple5 I σ).best_fc_improvement = 0 then
    some (0, ⟨σ, invalid_warehouses, [], []⟩, rng)
  else
    (mergeAll I (chooseTriple5 I σ).best_w2 (chooseTriple5 I σ).best_w1
      (σ.supplied_stores (chooseTriple5 I σ).best_w2).length σ).bind fun σ2 =>
    (mergeAll I (chooseTriple5 I σ).best_w3 (chooseTriple5 I σ).best_w1
      (σ2.supplied_stores (chooseTriple5 I σ).best_w3).length σ2).bind fun σ3 =>
    some (5,
      ⟨σ3,
       setInsert invalid_warehouses (chooseTriple5 I σ).best_w1,
       setInsert [] (chooseTriple5 I σ).best_w1,
       setInsert (setInsert [] (chooseTriple5 I σ).best_w2) (chooseTriple5 I σ).best_w3⟩,
      rng)

/-- The method `Perturbation(sol, invalid_warehouses, closing_forbidden,
opening_forbidden)`: clears the two forbidden sets, draws the operator `1 + rand() % 5` and
applies it. Returns the operator applied, or 0 when it found nothing to do. -/
def Perturbation (I : WL_Instance) (st : PerturbState) (rng : Rng) :
    Option (Nat × PerturbState × Rng) :=
  match rng with
  | [] => none
  | r :: rng1 =>
    if 1 + r % 5 = 1 then perturbation1 I st.sol st.invalid_warehouses rng1
    else if 1 + r % 5 = 2 then perturbation2 I st.sol st.invalid_warehouses rng1
    else if 1 + r % 5 = 3 then perturbation3 I st.sol st.invalid_warehouses rng1
    else if 1 + r % 5 = 4 then perturbation4 I st.sol st.invalid_warehouses rng1
    else perturbation5 I st.sol st.invalid_warehouses rng1


/-! ## Iterated local search (`WL_MRILS::IteratedLocalSearch`) -/

/-- The local variables of `IteratedLocalSearch` with the clock budget and the
pseudo-random source. `working_sol` is `none` while the pointer is `NULL`. -/
structure IlsState where
  sol : WL_Solution
  best_sol : WL_Solution
  working_sol : Option WL_Solution
  invalid_warehouses : List Nat
  closing_forbidden : List Nat
  opening_forbidden : List Nat
  moves : List Move
  budget : Nat
  rng : Rng

/-- The loop `for (trials = 0; !perturbation && trials < 5; trials++)`; the first argument
is the number of trials left. -/
def perturbTrials (I : WL_Instance) :
    Nat → PerturbState → Rng → Option (Nat × PerturbState × Rng)
  | 0, st, rng => some (0, st, rng)
  | trials + 1, st, rng =>
    match Perturbation I st rng with
    | none => none
    | some (perturbation, st2, rng2) =>
      if perturbation = 0 then perturbTrials I trials st2 rng2
      else some (perturbation, st2, rng2)

/-- The block `if (i > 0) { ... }`: acceptance of the current solution or return to
`working_sol`, then the perturbation trials. Returns the value of `perturbation` and the
new state. With `working_sol == NULL` the call `working_sol->Copy()` has no result. The
acceptance test is evaluated in exact arithmetic; `ilsRestartD` rounds as a `double`. -/
def ilsRestart (I : WL_Instance) (ils_accept : ℚ) (st : IlsState) :
    Option (Nat × IlsState) :=
  (if WL_Solution.Cost I st.sol + MY_EPSILON < ils_accept * WL_Solution.Cost I st.best_sol
    then some st.sol else st.working_sol).bind fun sol =>
  (perturbTrials I 5
    ⟨sol, st.invalid_warehouses, st.closing_forbidden, st.opening_forbidden⟩ st.rng).bind
  fun res =>
  some (res.1,
    { st with
      sol := res.2.1.sol
      working_sol := some sol
      invalid_warehouses := res.2.1.invalid_warehouses
      closing_forbidden := res.2.1.closing_forbidden
      opening_forbidden := res.2.1.opening_forbidden
      rng := res.2.2 })

/-- The loop `while (clock() / CLOCKS_PER_SEC < timeout)` inside the loop over `i`: move
enumeration, heap drain, update of `best_sol`. Every pass spends at least one unit of
budget, so `fuel = budget + 1` is never exhausted. -/
def ilsSearchLoop (I : WL_Instance) : Nat → IlsState → IlsState
  | 0, st => st
  | fuel + 1, st =>
    if st.budget = 0 then st
    else if (st.moves ++ enumerateMoves I st.sol st.invalid_warehouses st.closing_forbidden
        st.opening_forbidden).isEmpty then
      { st with budget := st.budget - 1 }
    else
      match drain I
          (st.moves ++ enumerateMoves I st.sol st.invalid_warehouses st.closing_forbidden
            st.opening_forbidden).length
          (st.moves ++ enumerateMoves I st.sol st.invalid_warehouses st.closing_forbidden
            st.opening_forbidden)
          st.sol [] (st.budget - 1) with
      | (σ2, invalid2, moves2, budget2) =>
        ilsSearchLoop I fuel
          { st with
            sol := σ2
            best_sol :=
              if WL_Solution.Cost I σ2 < WL_Solution.Cost I st.best_sol - MY_EPSILON then σ2
              else st.best_sol
            invalid_warehouses := invalid2
            moves := moves2
            budget := budget2 }

/-- The loop `for (i = 0; clock() / CLOCKS_PER_SEC < timeout && i < ils_maxiter; i++)`; the
first argument is `ils_maxiter - i`, the second tells whether `i == 0`, where the block
`if (i > 0)` is skipped and the search follows as after a nonzero `perturbation`. Returns
the state at the exit of the loop. -/
def ilsLoop (I : WL_Instance) (ils_accept : ℚ) : Nat → Bool → IlsState → Option IlsState
  | 0, _, st => some (if st.budget = 0 then st else { st with budget := st.budget - 1 })
  | n + 1, first, st =>
    if st.budget = 0 then some st
    else
      match (if first then some (1, { st with budget := st.budget - 1 })
          else ilsRestart I ils_accept { st with budget := st.budget - 1 }) with
      | none => none
      | some (perturbation, st2) =>
        if perturbation = 0 then some st2
        else ilsLoop I ils_accept n false (ilsSearchLoop I (st2.budget + 1) st2)

/-- The method `IteratedLocalSearch(sol)`: the returned solution, the budget left and the
rest of the pseudo-random source. -/
def IteratedLocalSearch (I : WL_Instance) (ils_maxiter : Nat) (ils_accept : ℚ)
    (σ : WL_Solution) (budget : Nat) (rng : Rng) : Option (WL_Solution × Nat × Rng) :=
  if ils_maxiter = 1 then
    some ((LocalSearch I σ budget).1, (LocalSearch I σ budget).2, rng)
  else
    (ilsLoop I ils_accept ils_maxiter true
      { sol := σ
        best_sol := σ
        working_sol := none
        invalid_warehouses := List.range I.warehouses
        closing_forbidden := []
        opening_forbidden := []
        moves := []
        budget := budget
        rng := rng }).map fun st => (st.best_sol, st.budget, st.rng)


/-! ## Predicates on moves -/

/-- The move `m` is one that the enumeration pushes in state `σ` for the triple
`(m.s1, m.w1, m.w2)`: two distinct warehouses, a store of `supplied_stores[w1]`, and the
tests and the improvement of one of the two neighborhoods. -/
def MoveOK (I : WL_Instance) (σ : WL_Solution) (closing_forbidden : List Nat) (m : Move) :
    Prop :=
  m.w1 < I.warehouses ∧ m.w2 < I.warehouses ∧ m.w1 ≠ m.w2 ∧
  m.s1 ∈ σ.supplied_stores m.w1 ∧
  m ∈ pairMoves I σ closing_forbidden m.s1 m.w1 m.w2

/-- The states `σ` and `τ` hold the same data for warehouse `w`: load, set of supplied
stores, column of `supply` and row of `incompatibilities`. -/
def AgreeAt (σ τ : WL_Solution) (w : Nat) : Prop :=
  τ.load w = σ.load w ∧ τ.supplied_stores w = σ.supplied_stores w ∧
  (∀ s, τ.supply s w = σ.supply s w) ∧
  (∀ s, τ.incompatibilities w s = σ.incompatibilities w s)

/-! ## Instances for the search -/

/-- Two warehouses (capacity 10, fixed cost 5) and one store (demand 4) whose unit supply
cost is 3 at warehouse 0 and 1 at warehouse 1. -/
def instRelocate : WL_Instance :=
  { stores := 1
    warehouses := 2
    reduction_opening_cost := 0
    reduction_supply_cost := 0
    capacity := fun w => [10, 10].getD w 0
    fixed_cost := fun w => [5, 5].getD w 0
    amount_of_goods := fun s => [4].getD s 0
    supply_cost := fun s w => ([[3, 1]].getD s []).getD w 0
    store_incompatibilities := []
    incompatible := incompatibleOfPairs []
    w_incompatible := fun _ _ => false }

/-- The solution of `instRelocate` that supplies the store from warehouse 0. -/
def solRelocate : WL_Solution :=
  WL_Solution.Assign instRelocate (WL_Solution.create instRelocate) 0 0 4

/-- Two warehouses (capacity 10) whose fixed costs, 3000000000 each, fit an `unsigned` one
by one but not together, and two stores (demand 1), all unit supply costs 1. -/
def instWrap : WL_Instance :=
  { stores := 2
    warehouses := 2
    reduction_opening_cost := 0
    reduction_supply_cost := 0
    capacity := fun w => [10, 10].getD w 0
    fixed_cost := fun w => [3000000000, 3000000000].getD w 0
    amount_of_goods := fun s => [1, 1].getD s 0
    supply_cost := fun s w => ([[1, 1], [1, 1]].getD s []).getD w 0
    store_incompatibilities := []
    incompatible := incompatibleOfPairs []
    w_incompatible := fun _ _ => false }

/-- The solution of `instWrap` that supplies store 0 from warehouse 0 and store 1 from
warehouse 1. -/
def solWrap : WL_Solution :=
  WL_Solution.Assign instWrap
    (WL_Solution.Assign instWrap (WL_Solution.create instWrap) 0 0 1) 1 1 1


/-! ## Instances for the perturbation operators -/

/-- Three warehouses with capacities 10, 2, 2 and fixed costs 5, 3, 4, and one store
(demand 4) with unit supply cost 1 everywhere. -/
def instFc4 : WL_Instance :=
  { stores := 1
    warehouses := 3
    reduction_opening_cost := 0
    reduction_supply_cost := 0
    capacity := fun w => [10, 2, 2].getD w 0
    fixed_cost := fun w => [5, 3, 4].getD w 0
    amount_of_goods := fun s => [4].getD s 0
    supply_cost := fun s w => ([[1, 1, 1]].getD s []).getD w 0
    store_incompatibilities := []
    incompatible := incompatibleOfPairs []
    w_incompatible := fun _ _ => false }

/-- The solution of `instFc4` that supplies the store from warehouse 0. -/
def solFc4 : WL_Solution :=
  WL_Solution.Assign instFc4 (WL_Solution.create instFc4) 0 0 4

/-- The solution of scenario E1: the 7 units of the store come from the only warehouse. -/
def solE1 : WL_Solution :=
  WL_Solution.Assign instE1 (WL_Solution.create instE1) 0 0 7


/-! ## Predicates on the perturbation loops -/

/-- The state `σ` is the state `σ0` after supplies of warehouse `a` have gone to warehouse
`b`: it is consistent and within the bounds, every store is assigned what it was, every
store has at `a` and `b` together what it had there, and the other columns of `supply` are
as they were. -/
structure Transfer (I : WL_Instance) (σ0 σ : WL_Solution) (a b : Nat) : Prop where
  consistent : WL_Solution.Consistent I σ
  within : WL_Solution.Within I σ
  assigned : ∀ s, σ.assigned_goods s = σ0.assigned_goods s
  pair : ∀ s, σ.supply s a + σ.supply s b = σ0.supply s a + σ0.supply s b
  other : ∀ s w, w ≠ a → w ≠ b → σ.supply s w = σ0.supply s w
  loads : σ.load a + σ.load b = σ0.load a + σ0.load b
  otherLoads : ∀ w, w ≠ a → w ≠ b → σ.load w = σ0.load w

/-- Every store is assigned its whole amount of goods. -/
def DemandMet (I : WL_Instance) (σ : WL_Solution) : Prop :=
  ∀ s, s < I.stores → σ.assigned_goods s = I.amount_of_goods s

/-- The conditions that the loops of operator 5 test before they record a triple. -/
structure Chosen5 (I : WL_Instance) (σ : WL_Solution) (t : TripleChoice) : Prop where
  w1_lt : t.best_w1 < I.warehouses
  w2_lt : t.best_w2 < I.warehouses
  w3_lt : t.best_w3 < I.warehouses
  order : t.best_w2 < t.best_w3
  closed1 : σ.load t.best_w1 = 0
  paid1 : I.fixed_cost t.best_w1 ≠ 0
  open2 : σ.load t.best_w2 ≠ 0
  room2 : I.capacity t.best_w1 > σ.load t.best_w2
  paid2 : I.fixed_cost t.best_w2 ≠ 0
  cheaper : I.fixed_cost t.best_w1 < I.fixed_cost t.best_w2
  open3 : σ.load t.best_w3 ≠ 0
  paid3 : I.fixed_cost t.best_w3 ≠ 0
  room : I.capacity t.best_w1 ≥ uadd (σ.load t.best_w2) (σ.load t.best_w3)
  compatible : compatibleStores I σ t.best_w2 t.best_w3 = true
  improvement : t.best_fc_improvement
    = usub (uadd (I.fixed_cost t.best_w2) (I.fixed_cost t.best_w3)) (I.fixed_cost t.best_w1)

/-- Three warehouses with capacities 3500000000, 3000000000, 3000000000 and fixed costs
1, 2, 2, and two stores of demand 3000000000 each; all unit supply costs are 0. -/
def instMerge : WL_Instance :=
  { stores := 2
    warehouses := 3
    reduction_opening_cost := 0
    reduction_supply_cost := 0
    capacity := fun w => [3500000000, 3000000000, 3000000000].getD w 0
    fixed_cost := fun w => [1, 2, 2].getD w 0
    amount_of_goods := fun s => [3000000000, 3000000000].getD s 0
    supply_cost := fun _ _ => 0
    store_incompatibilities := []
    incompatible := incompatibleOfPairs []
    w_incompatible := fun _ _ => false }

/-- The solution of `instMerge` that supplies store 0 from warehouse 1 and store 1 from
warehouse 2. -/
def solMerge : WL_Solution :=
  WL_Solution.Assign instMerge
    (WL_Solution.Assign instMerge (WL_Solution.create instMerge) 0 1 3000000000)
    1 2 3000000000

/-- Three warehouses of capacity 10 with fixed costs 1, 2, 2 and two stores of demand 3;
all unit supply costs are 1. -/
def instMergeSmall : WL_Instance :=
  { stores := 2
    warehouses := 3
    reduction_opening_cost := 0
    reduction_supply_cost := 0
    capacity := fun w => [10, 10, 10].getD w 0
    fixed_cost := fun w => [1, 2, 2].getD w 0
    amount_of_goods := fun s => [3, 3].getD s 0
    supply_cost := fun _ _ => 1
    store_incompatibilities := []
    incompatible := incompatibleOfPairs []
    w_incompatible := fun _ _ => false }

/-- The solution of `instMergeSmall` that supplies store 0 from warehouse 1 and store 1
from warehouse 2. -/
def solMergeSmall : WL_Solution :=
  WL_Solution.Assign instMergeSmall
    (WL_Solution.Assign instMergeSmall (WL_Solution.create instMergeSmall) 0 1 3) 1 2 3

/-- A state that respects the reduction: consistent, within the bounds, and with no
supply of a store `s` from a warehouse `w` for which `w_incompatible[w][s]` holds. -/
structure Tame (I : WL_Instance) (σ : WL_Solution) : Prop where
  consistent : WL_Solution.Consistent I σ
  within : WL_Solution.Within I σ
  respect : ∀ w s, w < I.warehouses → s < I.stores → I.w_incompatible w s = true →
    σ.supply s w = 0


/-! ## Elite mining (`WL_MRILS::MineElite`)

The miner `fpmax` is a parameter: a function from the dataset, the minimum support and
the number of patterns to the list of the frequent itemsets. The elite, a `std::set`
ordered by cost, is the list of its solutions in iteration order; a transaction, a
`std::set<int>`, is a strictly increasing list of integers. -/

/-- Multiplication of two `unsigned` values: wraps modulo `2^32`. -/
def umul (a b : Nat) : Nat := (a * b) % 4294967296

/-- The constant `INT_MAX`. -/
def INT_MAX : Nat := 2147483647

/-- The conversion of an `unsigned` to `int` (two's complement). -/
def toInt (n : Nat) : Int :=
  if n % 4294967296 < 2147483648 then ((n % 4294967296 : Nat) : Int)
  else ((n % 4294967296 : Nat) : Int) - 4294967296

/-- The conversion of an `int` to `unsigned`: the value modulo `2^32`. -/
def toUnsigned (i : Int) : Nat := (i % 4294967296).toNat

/-- The conversion `(int)x` of a `double`: truncation toward zero, without result when the
truncated value is not an `int`. -/
def truncToInt (x : ℚ) : Option Int :=
  if -2147483649 < x ∧ x < 2147483648 then
    some (if 0 ≤ x then Int.floor x else Int.ceil x)
  else none

/-- The minimum support `m_sup = max(2, (int)(min_sup * elite.size()))` with the product in
exact arithmetic; `mineSupportD` rounds the product as a `double`. -/
def mineSupport (min_sup : ℚ) (n : Nat) : Option Nat :=
  (truncToInt (min_sup * (n : ℚ))).map fun t => (max 2 t).toNat

/-- The item `index = w * in.Stores() + s` of the cell `(s, w)`. -/
def itemIndex (I : WL_Instance) (w s : Nat) : Nat :=
  uadd (umul w I.stores) s

/-- The call `insert(x)` on a `std::set<int>`. -/
def intSetInsert (x : Int) : List Int → List Int
  | [] => [x]
  | y :: l => if x < y then x :: y :: l else if x = y then y :: l else y :: intSetInsert x l

/-- The two loops over `w` and over `supplied_stores[w]` for one elite solution: the
transaction of the solution and the update of `min_supply`. -/
def emitSolution (I : WL_Instance) (sol : WL_Solution) (min_supply : Nat → Nat → Nat) :
    List Int × (Nat → Nat → Nat) :=
  (List.range I.warehouses).foldl
    (fun acc w =>
      (sol.supplied_stores w).foldl
        (fun acc2 s =>
          (intSetInsert (toInt (itemIndex I w s)) acc2.1,
            set2 acc2.2 s w (min (acc2.2 s w) (sol.supply s w))))
        acc)
    ([], min_supply)

/-- The loop over the elite: the dataset and the matrix `min_supply`, which starts at
`INT_MAX` everywhere. -/
def emitAll (I : WL_Instance) (elite : List WL_Solution) :
    List (List Int) × (Nat → Nat → Nat) :=
  elite.foldl
    (fun acc sol =>
      (acc.1 ++ [(emitSolution I sol acc.2).1], (emitSolution I sol acc.2).2))
    ([], fun _ _ => INT_MAX)

/-- The decoding of one item of a frequent itemset into a triple `(w, s, q)`. A division
by `in.Stores() == 0` or a read of `min_supply` out of bounds has no result. -/
def decodeItem (I : WL_Instance) (min_supply : Nat → Nat → Nat) (item : Int) :
    Option Supply :=
  if I.stores = 0 then none
  else if toUnsigned item / I.stores < I.warehouses then
    some { w := toUnsigned item / I.stores
           s := toUnsigned item % I.stores
           q := min_supply (toUnsigned item % I.stores) (toUnsigned item / I.stores) }
  else none

/-- The loop over the items of one frequent itemset: the pattern of the itemset. -/
def decodeItemset (I : WL_Instance) (min_supply : Nat → Nat → Nat) :
    List Int → Option (List Supply)
  | [] => some []
  | item :: rest =>
    (decodeItem I min_supply item).bind fun t =>
      (decodeItemset I min_supply rest).map fun pattern => t :: pattern

/-- The loop over the frequent itemsets: the new vector `patterns`. -/
def decodeAll (I : WL_Instance) (min_supply : Nat → Nat → Nat) :
    List (List Int) → Option (List (List Supply))
  | [] => some []
  | itemset :: rest =>
    (decodeItemset I min_supply itemset).bind fun pattern =>
      (decodeAll I min_supply rest).map fun patterns => pattern :: patterns

/-- The method `MineElite()`: the new value of `patterns`. With fewer than two elite
solutions `patterns` stays as it is. -/
def MineElite (I : WL_Instance) (fpmax : List (List Int) → Nat → Nat → List (List Int))
    (min_sup : ℚ) (n_patterns : Nat) (elite : List WL_Solution)
    (patterns : List (List Supply)) : Option (List (List Supply)) :=
  if elite.length > 1 then
    (mineSupport min_sup elite.length).bind fun m_sup =>
      decodeAll I (emitAll I elite).2 (fpmax (emitAll I elite).1 m_sup n_patterns)
  else some patterns

/-- An instance size for which the cells do not fit an `unsigned` index: 65537 warehouses
and 65536 stores (the data of the cells play no part). -/
def instWide : WL_Instance :=
  { stores := 65536
    warehouses := 65537
    reduction_opening_cost := 0
    reduction_supply_cost := 0
    capacity := fun _ => 1
    fixed_cost := fun _ => 1
    amount_of_goods := fun _ => 1
    supply_cost := fun _ _ => 1
    store_incompatibilities := []
    incompatible := incompatibleOfPairs []
    w_incompatible := fun _ _ => false }

/-- Two warehouses (capacities 3000000001 and 10, fixed costs 1 and 2) and two stores with
demands 3000000000 and 1; all unit supply costs are 0. -/
def instBulk : WL_Instance :=
  { stores := 2
    warehouses := 2
    reduction_opening_cost := 0
    reduction_supply_cost := 0
    capacity := fun w => [3000000001, 10].getD w 0
    fixed_cost := fun w => [1, 2].getD w 0
    amount_of_goods := fun s => [3000000000, 1].getD s 0
    supply_cost := fun _ _ => 0
    store_incompatibilities := []
    incompatible := incompatibleOfPairs []
    w_incompatible := fun _ _ => false }

/-- The solution of `instBulk` that supplies both stores from warehouse 0. -/
def solBulkA : WL_Solution :=
  WL_Solution.Assign instBulk
    (WL_Solution.Assign instBulk (WL_Solution.create instBulk) 0 0 3000000000) 1 0 1

/-- The solution of `instBulk` that supplies store 0 from warehouse 0 and store 1 from
warehouse 1. -/
def solBulkB : WL_Solution :=
  WL_Solution.Assign instBulk
    (WL_Solution.Assign instBulk (WL_Solution.create instBulk) 0 0 3000000000) 1 1 1

/-! ## The elite pool (`WL_MRILS::Run`, `CompareSolutions`)

The pool is a `std::set` ordered by `CompareSolutions`; it is kept as the list of its
elements in iteration order. On such a list, in which every element is before the next one
in the order of the comparator, the walk below finds the place that the search tree of the
library finds, and rejects the solution when a member is equivalent to it. -/

/-- Comparator for ordering solutions by cost: `sol1.Cost() < sol2.Cost() - MY_EPSILON`. -/
def CompareSolutions (I : WL_Instance) (sol1 sol2 : WL_Solution) : Bool :=
  decide (WL_Solution.Cost I sol1 < WL_Solution.Cost I sol2 - MY_EPSILON)

/-- The call `elite.insert(sol)`: the solution goes before the first member it is less
than, unless a member is equivalent to it (neither is less than the other). -/
def eliteInsert (I : WL_Instance) : List WL_Solution → WL_Solution → List WL_Solution
  | [], sol => [sol]
  | y :: rest, sol =>
    if CompareSolutions I sol y then sol :: y :: rest
    else if CompareSolutions I y sol then y :: eliteInsert I rest sol
    else y :: rest

/-- The variables of `Run` that the elite update reads and writes. -/
structure EliteState where
  elite : List WL_Solution
  nu_iter : Nat
  elite_updated : Bool

/-- The block `if (elite_max_size) { ... }` of `Run`, for the solution `sol` of the
iteration. The iterator `--elite.end()` is the last member. -/
def eliteUpdate (I : WL_Instance) (elite_max_size : Nat) (st : EliteState)
    (sol : WL_Solution) : EliteState :=
  if elite_max_size ≠ 0 then
    if (eliteInsert I st.elite sol).length > elite_max_size then
      match (eliteInsert I st.elite sol).getLast? with
      | none => st
      | some worst =>
        if WL_Solution.Cost I worst - MY_EPSILON > WL_Solution.Cost I sol then
          { elite := (eliteInsert I st.elite sol).dropLast, nu_iter := 0, elite_updated := true }
        else
          { elite := (eliteInsert I st.elite sol).dropLast
            nu_iter := uadd st.nu_iter 1
            elite_updated := st.elite_updated }
    else if (eliteInsert I st.elite sol).length > st.elite.length then
      { elite := eliteInsert I st.elite sol, nu_iter := 0, elite_updated := true }
    else
      { elite := eliteInsert I st.elite sol
        nu_iter := uadd st.nu_iter 1
        elite_updated := st.elite_updated }
  else st

/-- The elite pool after the iterations of `Run` whose solutions are `sols`, in order. -/
def eliteRun (I : WL_Instance) (elite_max_size : Nat) (sols : List WL_Solution) : EliteState :=
  sols.foldl (eliteUpdate I elite_max_size) { elite := [], nu_iter := 0, elite_updated := false }

/-! ## The ordering of the warehouses (`WarehouseComparator`) -/

/-- The comparison `((double)f1) / c1 < ((double)f2) / c2` of two ratios of `unsigned`
values, with the quotients taken as exact: a zero divisor gives infinity (for a positive
dividend), which nothing exceeds, or a NaN (for `0 / 0`), for which every comparison is
false. -/
def ratioLess (f1 c1 f2 c2 : Nat) : Bool :=
  if c1 = 0 then false
  else if c2 = 0 then decide (f2 ≠ 0)
  else decide ((f1 : ℚ) / (c1 : ℚ) < (f2 : ℚ) / (c2 : ℚ))

/-- Comparator for ordering warehouses by their fixed-cost to capacity ratio. -/
def WarehouseComparator (I : WL_Instance) (i j : Nat) : Bool :=
  ratioLess (I.fixed_cost i) (I.capacity i) (I.fixed_cost j) (I.capacity j)

/-- What `std::sort(warehouses.begin(), warehouses.end(), WarehouseComparator(in))` leaves
in the vector that held `0 .. W-1`: the same elements, none before an element that the
comparator puts before it. -/
def SortedWarehouses (I : WL_Instance) (order : List Nat) : Prop :=
  order.Perm (List.range I.warehouses) ∧
  order.Pairwise (fun a b => WarehouseComparator I b a = false)

/-- Scenario E2: two warehouses (capacity 5, fixed costs 100 and 1), one store (demand 5)
with unit supply cost 1 at warehouse 0 and 100 at warehouse 1. -/
def instE2 : WL_Instance :=
  { stores := 1
    warehouses := 2
    reduction_opening_cost := 0
    reduction_supply_cost := 0
    capacity := fun w => [5, 5].getD w 0
    fixed_cost := fun w => [100, 1].getD w 0
    amount_of_goods := fun s => [5].getD s 0
    supply_cost := fun s w => ([[1, 100]].getD s []).getD w 0
    store_incompatibilities := []
    incompatible := incompatibleOfPairs []
    w_incompatible := fun _ _ => false }

/-! ## Sequences of calls on a solution -/

/-- A call of one of the two mutating methods of `WL_Solution`. -/
inductive Call where
  | assign (s w q : Nat)
  | revoke (s w q : Nat)
deriving DecidableEq, Repr

/-- The effect of a call. -/
def applyCall (I : WL_Instance) (σ : WL_Solution) : Call → WL_Solution
  | Call.assign s w q => WL_Solution.Assign I σ s w q
  | Call.revoke s w q => WL_Solution.RevokeAssignment I σ s w q

/-- The state after a sequence of calls on the empty solution. -/
def runCalls (I : WL_Instance) (calls : List Call) : WL_Solution :=
  calls.foldl (applyCall I) (WL_Solution.create I)

/-- The calls that the invariants are stated for: `Assign` with `q > 0` and
`RevokeAssignment` with `0 < q <= supply[s][w]`, for a store and a warehouse of the
instance. -/
def CallAdmitted (I : WL_Instance) (σ : WL_Solution) : Call → Prop
  | Call.assign s w q => s < I.stores ∧ w < I.warehouses ∧ 0 < q
  | Call.revoke s w q => s < I.stores ∧ w < I.warehouses ∧ 0 < q ∧ q ≤ σ.supply s w

/-- Every call of the sequence is admitted in the state in which it is made. -/
def CallsAdmitted (I : WL_Instance) : WL_Solution → List Call → Prop
  | _, [] => True
  | σ, c :: rest => CallAdmitted I σ c ∧ CallsAdmitted I (applyCall I σ c) rest

/-- An admitted call whose sums fit an `unsigned`: an `Assign` leaves the load of the
warehouse and the assigned goods of the store below `2^32`. -/
def CallFits (I : WL_Instance) (σ : WL_Solution) : Call → Prop
  | Call.assign s w q =>
    s < I.stores ∧ w < I.warehouses ∧ 0 < q ∧
      σ.load w + q < 4294967296 ∧ σ.assigned_goods s + q < 4294967296
  | Call.revoke s w q => s < I.stores ∧ w < I.warehouses ∧ 0 < q ∧ q ≤ σ.supply s w

/-- Every call of the sequence fits in the state in which it is made. -/
def CallsFit (I : WL_Instance) : WL_Solution → List Call → Prop
  | _, [] => True
  | σ, c :: rest => CallFits I σ c ∧ CallsFit I (applyCall I σ c) rest

instance (I : WL_Instance) (σ : WL_Solution) (c : Call) : Decidable (CallAdmitted I σ c) := by
  cases c <;> (unfold CallAdmitted; exact inferInstance)

instance (I : WL_Instance) (σ : WL_Solution) (c : Call) : Decidable (CallFits I σ c) := by
  cases c <;> (unfold CallFits; exact inferInstance)

/-- The six invariants of the solution data. -/
structure SixInvariants (I : WL_Instance) (σ : WL_Solution) : Prop where
  assigned : WL_Solution.AssignedInv I σ
  load : WL_Solution.LoadInv I σ
  stores : WL_Solution.SuppliedStoresInv I σ
  incompat : WL_Solution.IncompatInv I σ
  opening : WL_Solution.OpeningCostInv I σ
  cost : WL_Solution.SupplyCostInv I σ

/-! ## Equality of moves -/

deriving instance DecidableEq for Move

/-! ## An instance with a third store -/

/-- Three warehouses with capacities 3, 3, 5 and fixed cost 1, three stores with demands
3, 2, 2, all unit supply costs 1; stores 0 and 1 are incompatible. -/
def instStuck : WL_Instance :=
  { stores := 3
    warehouses := 3
    reduction_opening_cost := 0
    reduction_supply_cost := 0
    capacity := fun w => [3, 3, 5].getD w 0
    fixed_cost := fun w => [1, 1, 1].getD w 0
    amount_of_goods := fun s => [3, 2, 2].getD s 0
    supply_cost := fun _ _ => 1
    store_incompatibilities := [(0, 1)]
    incompatible := incompatibleOfPairs [(0, 1)]
    w_incompatible := fun _ _ => false }

/-- The instance `instStuck` reduced by the pattern `[(w=2, s=0, q=1)]`: capacities 3, 3, 4,
fixed costs 1, 1, 0, demands 2, 2, 2, and warehouse 2 forbidden for store 1. -/
def instStuckReduced : WL_Instance := instStuck.reduced [⟨2, 0, 1⟩]

/-- The state of the roulette constructor on `instStuckReduced` when the warehouses 0 and 1
are the open candidates, store 0 is served by warehouse 0 (2 units), store 2 by warehouse 1
(2 units), and store 1 has received the last unit of warehouse 1. -/
def solStuck : WL_Solution :=
  WL_Solution.Assign instStuckReduced
    (WL_Solution.Assign instStuckReduced
      (WL_Solution.Assign instStuckReduced (WL_Solution.create instStuckReduced) 0 0 2)
      2 1 2)
    1 1 1

/-- The state before store 1 receives the last unit of warehouse 1: the seed phase has
served store 0 from warehouse 0 and store 2 from warehouse 1. -/
def solStuckSeed : WL_Solution :=
  WL_Solution.Assign instStuckReduced
    (WL_Solution.Assign instStuckReduced (WL_Solution.create instStuckReduced) 0 0 2)
    2 1 2

deriving instance DecidableEq for RouletteState

/-- The vector `warehouses` and the counters of the roulette constructor in that state. -/
def stStuck : RouletteState :=
  { warehouses := [0, 1, 2], n_open := 2, total_capacity := 6, relative_cost_sum := 4 }

/-! ## Predicates on the loop of perturbation operator 4 -/

/-- The conditions that the loops of operator 4 test before they record a triple. -/
structure Chosen4 (I : WL_Instance) (σ : WL_Solution) (t : TripleChoice) : Prop where
  w1_lt : t.best_w1 < I.warehouses
  w2_lt : t.best_w2 < I.warehouses
  w3_lt : t.best_w3 < I.warehouses
  order : t.best_w2 < t.best_w3
  open1 : σ.load t.best_w1 ≠ 0
  closed2 : σ.load t.best_w2 = 0
  closed3 : σ.load t.best_w3 = 0
  room : uadd (I.capacity t.best_w2) (I.capacity t.best_w3) ≥ σ.load t.best_w1

/-- The state `σ` is the state `σ0` after supplies of warehouse `w1` have gone to the
warehouses `w2` and `w3`, which supplied nothing in `σ0`: it is consistent and within the
bounds, every store is assigned what it was, every store has at the three warehouses
together what it had at `w1`, a store still at `w1` has nothing at `w2` and `w3`, and a
store has goods at the dearer of `w2` and `w3` only when the cheaper one is full. -/
structure Split (I : WL_Instance) (σ0 σ : WL_Solution) (w1 w2 w3 : Nat) : Prop where
  consistent : WL_Solution.Consistent I σ
  within : WL_Solution.Within I σ
  assigned : ∀ s, σ.assigned_goods s = σ0.assigned_goods s
  sum : ∀ s, s < I.stores → σ.supply s w1 + σ.supply s w2 + σ.supply s w3 = σ0.supply s w1
  other : ∀ s w, w ≠ w1 → w ≠ w2 → w ≠ w3 → σ.supply s w = σ0.supply s w
  loads : σ.load w1 + σ.load w2 + σ.load w3 = σ0.load w1
  fresh : ∀ s, s < I.stores → 0 < σ.supply s w1 → σ.supply s w2 = 0 ∧ σ.supply s w3 = 0
  cheaper2 : ∀ s, s < I.stores → I.supply_cost s w2 < I.supply_cost s w3 →
    0 < σ.supply s w3 → σ.load w2 = I.capacity w2
  cheaper3 : ∀ s, s < I.stores → ¬ I.supply_cost s w2 < I.supply_cost s w3 →
    0 < σ.supply s w2 → σ.load w3 = I.capacity w3

/-- Three warehouses with capacities 10, 3, 3 and fixed costs 10, 2, 3, and two stores with
demands 4 and 2; store 0 costs 1, 2, 5 per unit at the three warehouses and store 1 costs
1, 4, 3. -/
def instSplit : WL_Instance :=
  { stores := 2
    warehouses := 3
    reduction_opening_cost := 0
    reduction_supply_cost := 0
    capacity := fun w => [10, 3, 3].getD w 0
    fixed_cost := fun w => [10, 2, 3].getD w 0
    amount_of_goods := fun s => [4, 2].getD s 0
    supply_cost := fun s w => ([[1, 2, 5], [1, 4, 3]].getD s []).getD w 0
    store_incompatibilities := []
    incompatible := incompatibleOfPairs []
    w_incompatible := fun _ _ => false }

/-- The solution of `instSplit` that supplies both stores from warehouse 0. -/
def solSplit : WL_Solution :=
  WL_Solution.Assign instSplit
    (WL_Solution.Assign instSplit (WL_Solution.create instSplit) 0 0 4) 1 0 2

/-! ## Instances for the relocation of a store by `LocalSearch` -/

/-- Two warehouses (capacity 10, fixed costs 5 and 0) and two stores with demands 4 and 3;
store 0 costs 3 per unit at warehouse 0 and 1 at warehouse 1, store 1 costs 2 at both. -/
def instShift : WL_Instance :=
  { stores := 2
    warehouses := 2
    reduction_opening_cost := 0
    reduction_supply_cost := 0
    capacity := fun w => [10, 10].getD w 0
    fixed_cost := fun w => [5, 0].getD w 0
    amount_of_goods := fun s => [4, 3].getD s 0
    supply_cost := fun s w => ([[3, 1], [2, 2]].getD s []).getD w 0
    store_incompatibilities := []
    incompatible := incompatibleOfPairs []
    w_incompatible := fun _ _ => false }

/-- The solution of `instShift` that supplies both stores from warehouse 0. -/
def solShift : WL_Solution :=
  WL_Solution.Assign instShift
    (WL_Solution.Assign instShift (WL_Solution.create instShift) 0 0 4) 1 0 3

/-- The moves that the loop `while (!moves.empty() && clock() / CLOCKS_PER_SEC < timeout)`
applies, in the order of their application. It follows `drain` pass by pass; the tests that
decide whether a popped move is applied read the set of invalid warehouses and the clock,
not the solution. -/
def drainLog : Nat → List Move → List Nat → Nat → List Move
  | 0, _, _, _ => []
  | fuel + 1, moves, invalid_warehouses, budget =>
    match popMax moves with
    | none => []
    | some (move, rest) =>
      if budget = 0 then []
      else if move.w1 ∈ invalid_warehouses ∨ move.w2 ∈ invalid_warehouses then
        drainLog fuel rest invalid_warehouses (budget - 1)
      else
        move :: drainLog fuel rest
          (setInsert (setInsert invalid_warehouses move.w1) move.w2) (budget - 1)

/-! ## The exit of `LocalSearch` and local optima -/

/-- The local variables of `IteratedLocalSearch` before the loop over `i`: `best_sol` is a
copy of `sol`, `working_sol` is `NULL`, every warehouse is invalid. -/
def ilsInit (I : WL_Instance) (σ : WL_Solution) (budget : Nat) (rng : Rng) : IlsState :=
  { sol := σ
    best_sol := σ
    working_sol := none
    invalid_warehouses := List.range I.warehouses
    closing_forbidden := []
    opening_forbidden := []
    moves := []
    budget := budget
    rng := rng }

/-- The local variables with which the loop over `i` arrives at the tests of iteration
`i = k` (for `ils_maxiter > k`), after `k` passes of the body of `ilsLoop`; `none` when the
loop ends, or has no result, before. The second argument tells whether the pass to make is
the one of `i == 0`. -/
def ilsStateAt (I : WL_Instance) (ils_accept : ℚ) : Nat → Bool → IlsState → Option IlsState
  | 0, _, st => some st
  | k + 1, first, st =>
    if st.budget = 0 then none
    else
      match (if first then some (1, { st with budget := st.budget - 1 })
          else ilsRestart I ils_accept { st with budget := st.budget - 1 }) with
      | none => none
      | some (perturbation, st2) =>
        if perturbation = 0 then none
        else ilsStateAt I ils_accept k false (ilsSearchLoop I (st2.budget + 1) st2)

/-- The block `if (i > 0)`, entered with the variables `st`, takes the branch
`sol = working_sol->Copy()` while `working_sol` is `NULL`. -/
def RevertReadsUnset (I : WL_Instance) (ils_accept : ℚ) (st : IlsState) : Prop :=
  ¬ (WL_Solution.Cost I st.sol + MY_EPSILON < ils_accept * WL_Solution.Cost I st.best_sol) ∧
  st.working_sol = none


/-! ## Double-precision arithmetic

The type `double` of the source is IEEE 754 binary64. A finite `double` is a rational
number, and every arithmetic operation of the source on `double` operands returns the exact
result rounded to the nearest `double`, ties to the value with an even significand. The
definitions below give the rounding, and next to each part of the program that computes on
`double` values a counterpart with the suffix `D` that rounds after every operation. The
definitions without the suffix compute the same expressions in exact rational arithmetic.
No operation is fused with another, and the magnitudes that occur stay far below the
overflow threshold, so no infinity arises. -/

/-- The power `2 ^ k` for an integer exponent. -/
def pow2 (k : Int) : ℚ :=
  if 0 ≤ k then ((2 ^ k.toNat : Nat) : ℚ) else 1 / ((2 ^ (-k).toNat : Nat) : ℚ)

/-- The binary logarithm of a natural number, rounded down (0 for 0), by repeated halving;
the first argument bounds the number of halvings. -/
def log2Fuel : Nat → Nat → Nat
  | 0, _ => 0
  | fuel + 1, n => if n < 2 then 0 else log2Fuel fuel (n / 2) + 1

/-- The exponent `e` with `2 ^ e ≤ |x| < 2 ^ (e + 1)` of a nonzero rational whose
numerator and denominator are below `2 ^ 2200`. -/
def binade (x : ℚ) : Int :=
  if pow2 ((log2Fuel 2200 x.num.natAbs : Int) - (log2Fuel 2200 x.den : Int)) ≤ |x| then
    (log2Fuel 2200 x.num.natAbs : Int) - (log2Fuel 2200 x.den : Int)
  else (log2Fuel 2200 x.num.natAbs : Int) - (log2Fuel 2200 x.den : Int) - 1

/-- Rounding of a rational to the nearest integer, ties to the even one. -/
def roundHalfEven (x : ℚ) : Int :=
  if x - (Int.floor x : ℚ) < 1 / 2 then Int.floor x
  else if 1 / 2 < x - (Int.floor x : ℚ) then Int.floor x + 1
  else if Int.floor x % 2 = 0 then Int.floor x
  else Int.floor x + 1

/-- Rounding to the nearest `double`, ties to even: the spacing of the `double` values
around `x` is `2 ^ (e - 52)` with `e` the exponent of `x`, and `2 ^ (-1074)` for the
subnormal values. -/
def roundDouble (x : ℚ) : ℚ :=
  if x = 0 then 0
  else (roundHalfEven (x / pow2 (max (binade x - 52) (-1074))) : ℚ)
    * pow2 (max (binade x - 52) (-1074))

/-- The value of the literal `0.00001` of `MY_EPSILON` as a `double`. -/
def MY_EPSILON_D : ℚ := roundDouble (1 / 100000)

namespace WL_Instance

/-- One iteration of the loop over the pattern in the reducing constructor, with
`reduction_supply_cost += supply_cost[s][w] * q` computed on `double` values. -/
def reduceStepD (I : WL_Instance) (p : Supply) : WL_Instance :=
  { I with
    reduction_opening_cost := uadd I.reduction_opening_cost (I.fixed_cost p.w)
    reduction_supply_cost :=
      roundDouble (I.reduction_supply_cost + roundDouble (I.supply_cost p.s p.w * (p.q : ℚ)))
    fixed_cost := set1 I.fixed_cost p.w 0
    capacity := set1 I.capacity p.w (usub (I.capacity p.w) p.q)
    amount_of_goods := set1 I.amount_of_goods p.s (usub (I.amount_of_goods p.s) p.q)
    w_incompatible := I.markIncompatible p.w p.s }

/-- The constructor `WL_Instance(const WL_Instance& in, vector<Supply> pattern)` with the
reduction supply cost accumulated on `double` values. -/
def reducedD (I : WL_Instance) (pattern : List Supply) : WL_Instance :=
  pattern.foldl reduceStepD
    { I with reduction_opening_cost := 0, reduction_supply_cost := 0 }

end WL_Instance

namespace WL_Solution

/-- The method `Assign(s, w, q)` with `supply_cost += in.SupplyCost(s, w) * q` computed on
`double` values: the product is rounded, then the sum. -/
def AssignD (I : WL_Instance) (σ : WL_Solution) (s w q : Nat) : WL_Solution :=
  { supplied_stores :=
      if σ.supply s w = 0 then set1 σ.supplied_stores w (setInsert (σ.supplied_stores w) s)
      else σ.supplied_stores
    incompatibilities :=
      if σ.supply s w = 0 then incrIncompat I σ.incompatibilities s w
      else σ.incompatibilities
    supply := set2 σ.supply s w (uadd (σ.supply s w) q)
    assigned_goods := set1 σ.assigned_goods s (uadd (σ.assigned_goods s) q)
    supply_cost := roundDouble (σ.supply_cost + roundDouble (I.supply_cost s w * (q : ℚ)))
    opening_cost :=
      if σ.load w = 0 then uadd σ.opening_cost (I.fixed_cost w) else σ.opening_cost
    load := set1 σ.load w (uadd (σ.load w) q) }

/-- The method `RevokeAssignment(s, w, q)` with `supply_cost -= in.SupplyCost(s, w) * q`
computed on `double` values: the product is rounded, then the difference. -/
def RevokeAssignmentD (I : WL_Instance) (σ : WL_Solution) (s w q : Nat) : WL_Solution :=
  { supply := set2 σ.supply s w (usub (σ.supply s w) q)
    assigned_goods := set1 σ.assigned_goods s (usub (σ.assigned_goods s) q)
    load := set1 σ.load w (usub (σ.load w) q)
    supply_cost := roundDouble (σ.supply_cost - roundDouble (I.supply_cost s w * (q : ℚ)))
    opening_cost :=
      if usub (σ.load w) q = 0 then usub σ.opening_cost (I.fixed_cost w) else σ.opening_cost
    incompatibilities :=
      if usub (σ.supply s w) q = 0 then decrIncompat I σ.incompatibilities s w
      else σ.incompatibilities
    supplied_stores :=
      if usub (σ.supply s w) q = 0 then
        set1 σ.supplied_stores w (setErase (σ.supplied_stores w) s)
      else σ.supplied_stores }

/-- The method `SupplyCost()` on `double` values. -/
def SupplyCostD (I : WL_Instance) (σ : WL_Solution) : ℚ :=
  roundDouble (σ.supply_cost + I.reduction_supply_cost)

/-- The method `Cost()` on `double` values: `SupplyCost() + OpeningCost()`, the `unsigned`
opening cost converted without error. -/
def CostD (I : WL_Instance) (σ : WL_Solution) : ℚ :=
  roundDouble (SupplyCostD I σ + (OpeningCost I σ : ℚ))

end WL_Solution

/-- The lift in `WL_MRILS::Run` with the calls of `Assign` computed on `double` values. -/
def liftSolutionD (I : WL_Instance) (reduced_sol : WL_Solution) (pattern : List Supply) :
    WL_Solution :=
  let copied := (List.range I.warehouses).foldl
    (fun sol w => (reduced_sol.supplied_stores w).foldl
      (fun sol s => WL_Solution.AssignD I sol s w (reduced_sol.supply s w)) sol)
    (WL_Solution.create I)
  pattern.foldl (fun sol p => WL_Solution.AssignD I sol p.s p.w p.q) copied

/-- The effect of one call with the supply cost computed on `double` values. -/
def applyCallD (I : WL_Instance) (σ : WL_Solution) : Call → WL_Solution
  | Call.assign s w q => WL_Solution.AssignD I σ s w q
  | Call.revoke s w q => WL_Solution.RevokeAssignmentD I σ s w q

/-- The state reached from the empty solution by a sequence of calls, with the supply cost
computed on `double` values. -/
def runCallsD (I : WL_Instance) (calls : List Call) : WL_Solution :=
  calls.foldl (applyCallD I) (WL_Solution.create I)

/-- The product `min_sup * elite.size()` as the code computes it: the size is converted to
`double` (without error below `2^53`) and the exact product is rounded to the nearest
`double`. -/
def supportProductD (min_sup : ℚ) (n : Nat) : ℚ :=
  roundDouble (min_sup * roundDouble (n : ℚ))

/-- The minimum support `m_sup = max(2, (int)(min_sup * elite.size()))`: the conversion to
`int` truncates the `double` product. -/
def mineSupportD (min_sup : ℚ) (n : Nat) : Option Nat :=
  (truncToInt (supportProductD min_sup n)).map fun t => (max 2 t).toNat

/-- The method `MineElite()` with the minimum support computed on `double` values. -/
def MineEliteD (I : WL_Instance) (fpmax : List (List Int) → Nat → Nat → List (List Int))
    (min_sup : ℚ) (n_patterns : Nat) (elite : List WL_Solution)
    (patterns : List (List Supply)) : Option (List (List Supply)) :=
  if elite.length > 1 then
    (mineSupportD min_sup elite.length).bind fun m_sup =>
      decodeAll I (emitAll I elite).2 (fpmax (emitAll I elite).1 m_sup n_patterns)
  else some patterns

/-! ## Local search, perturbation and iterated local search on `double` values

The text of each definition is that of its counterpart without the suffix, with `Assign`,
`RevokeAssignment`, `Cost`, `MY_EPSILON` and the improvements replaced by the
double-precision ones. -/

/-- The improvement computed for the relocation of `s1` from `w1` to `w2` on `double`
values: `(SupplyCost(s1, w1) - SupplyCost(s1, w2)) * q`, then `-= FixedCost(w2)` when `w2`
is closed, then `+= FixedCost(w1)` when `w1` is emptied and may close. -/
def relocateImprovementD (I : WL_Instance) (σ : WL_Solution) (closing_forbidden : List Nat)
    (s1 w1 w2 : Nat) : ℚ :=
  (fun improvement : ℚ =>
    if min (σ.supply s1 w1) (WL_Solution.ResidualCapacity I σ w2) = σ.load w1 ∧
        w1 ∉ closing_forbidden then roundDouble (improvement + (I.fixed_cost w1 : ℚ))
    else improvement)
  ((fun improvement : ℚ =>
    if σ.load w2 = 0 then roundDouble (improvement - (I.fixed_cost w2 : ℚ)) else improvement)
  (roundDouble (roundDouble (I.supply_cost s1 w1 - I.supply_cost s1 w2)
    * ((min (σ.supply s1 w1) (WL_Solution.ResidualCapacity I σ w2) : Nat) : ℚ))))

/-- The improvement of the exchange of `s1` at `w1` with `s2` at `w2` on `double` values:
each difference, each product and the sum are rounded. -/
def swapImprovementD (I : WL_Instance) (σ : WL_Solution) (s1 s2 w1 w2 : Nat) : ℚ :=
  roundDouble
    (roundDouble (roundDouble (I.supply_cost s1 w1 - I.supply_cost s1 w2)
        * (σ.supply s1 w1 : ℚ))
      + roundDouble (roundDouble (I.supply_cost s2 w2 - I.supply_cost s2 w1)
        * (σ.supply s2 w2 : ℚ)))

/-- Neighborhood 1 for `(s1, w1, w2)` on `double` values. -/
def relocateMoveD (I : WL_Instance) (σ : WL_Solution) (closing_forbidden : List Nat)
    (s1 w1 w2 : Nat) : List Move :=
  if WL_Solution.Incompatibilities I σ w2 s1 = 0 ∧ WL_Solution.ResidualCapacity I σ w2 ≠ 0 then
    if relocateImprovementD I σ closing_forbidden s1 w1 w2 > MY_EPSILON_D then
      [{ s1 := s1, s2 := I.stores, w1 := w1, w2 := w2,
         improvement := relocateImprovementD I σ closing_forbidden s1 w1 w2 }]
    else []
  else []

/-- Neighborhood 2 for `(s1, w1, w2)` on `double` values. -/
def swapMovesD (I : WL_Instance) (σ : WL_Solution) (s1 w1 w2 : Nat) : List Move :=
  if WL_Solution.Incompatibilities I σ w2 s1 ≤ 1 then
    (σ.supplied_stores w2).filterMap (fun s2 =>
      if swapAdmissible I σ s1 s2 w1 w2 ∧ swapImprovementD I σ s1 s2 w1 w2 > MY_EPSILON_D then
        some { s1 := s1, s2 := s2, w1 := w1, w2 := w2,
               improvement := swapImprovementD I σ s1 s2 w1 w2 }
      else none)
  else []

/-- The moves pushed for one triple `(s1, w1, w2)` on `double` values. -/
def pairMovesD (I : WL_Instance) (σ : WL_Solution) (closing_forbidden : List Nat)
    (s1 w1 w2 : Nat) : List Move :=
  relocateMoveD I σ closing_forbidden s1 w1 w2 ++ swapMovesD I σ s1 w1 w2

/-- The two enumeration loops over the invalid warehouses on `double` values. -/
def enumerateMovesD (I : WL_Instance) (σ : WL_Solution)
    (invalid_warehouses closing_forbidden opening_forbidden : List Nat) : List Move :=
  (invalid_warehouses.flatMap fun w1 =>
    if σ.load w1 ≠ 0 then
      (σ.supplied_stores w1).flatMap fun s1 =>
        (List.range I.warehouses).flatMap fun w2 =>
          if w1 ≠ w2 ∧ w2 ∉ opening_forbidden then pairMovesD I σ closing_forbidden s1 w1 w2
          else []
    else [])
  ++
  ((List.range I.warehouses).flatMap fun w1 =>
    if σ.load w1 ≠ 0 then
      (σ.supplied_stores w1).flatMap fun s1 =>
        invalid_warehouses.flatMap fun w2 =>
          if w1 ≠ w2 ∧ w2 ∉ opening_forbidden then pairMovesD I σ closing_forbidden s1 w1 w2
          else []
    else [])

/-- The application of a popped move with the supply cost on `double` values. -/
def applyMoveD (I : WL_Instance) (σ : WL_Solution) (m : Move) : WL_Solution :=
  if m.s2 = I.stores then
    WL_Solution.AssignD I
      (WL_Solution.RevokeAssignmentD I σ m.s1 m.w1
        (min (σ.supply m.s1 m.w1) (WL_Solution.ResidualCapacity I σ m.w2)))
      m.s1 m.w2 (min (σ.supply m.s1 m.w1) (WL_Solution.ResidualCapacity I σ m.w2))
  else
    WL_Solution.AssignD I
      (WL_Solution.RevokeAssignmentD I
        (WL_Solution.AssignD I (WL_Solution.RevokeAssignmentD I σ m.s1 m.w1 (σ.supply m.s1 m.w1))
          m.s1 m.w2 (σ.supply m.s1 m.w1))
        m.s2 m.w2
        ((WL_Solution.AssignD I
          (WL_Solution.RevokeAssignmentD I σ m.s1 m.w1 (σ.supply m.s1 m.w1))
          m.s1 m.w2 (σ.supply m.s1 m.w1)).supply m.s2 m.w2))
      m.s2 m.w1
      ((WL_Solution.AssignD I (WL_Solution.RevokeAssignmentD I σ m.s1 m.w1 (σ.supply m.s1 m.w1))
        m.s1 m.w2 (σ.supply m.s1 m.w1)).supply m.s2 m.w2)

/-- The loop `while (!moves.empty() && clock() / CLOCKS_PER_SEC < timeout)` on `double`
values. -/
def drainD (I : WL_Instance) :
    Nat → List Move → WL_Solution → List Nat → Nat →
      WL_Solution × List Nat × List Move × Nat
  | 0, moves, σ, invalid_warehouses, budget => (σ, invalid_warehouses, moves, budget)
  | fuel + 1, moves, σ, invalid_warehouses, budget =>
    match popMax moves with
    | none => (σ, invalid_warehouses, moves, budget)
    | some (move, rest) =>
      if budget = 0 then (σ, invalid_warehouses, moves, budget)
      else if move.w1 ∈ invalid_warehouses ∨ move.w2 ∈ invalid_warehouses then
        drainD I fuel rest σ invalid_warehouses (budget - 1)
      else
        drainD I fuel rest (applyMoveD I σ move)
          (setInsert (setInsert invalid_warehouses move.w1) move.w2) (budget - 1)

/-- The loop `while (clock() / CLOCKS_PER_SEC < timeout)` of `LocalSearch` on `double`
values. -/
def localSearchLoopD (I : WL_Instance) :
    Nat → WL_Solution → List Nat → List Move → Nat → WL_Solution × Nat
  | 0, σ, _, _, budget => (σ, budget)
  | fuel + 1, σ, invalid_warehouses, moves, budget =>
    if budget = 0 then (σ, budget)
    else if (moves ++ enumerateMovesD I σ invalid_warehouses [] []).isEmpty then (σ, budget - 1)
    else
      match drainD I (moves ++ enumerateMovesD I σ invalid_warehouses [] []).length
          (moves ++ enumerateMovesD I σ invalid_warehouses [] []) σ [] (budget - 1) with
      | (σ2, invalid2, moves2, budget2) => localSearchLoopD I fuel σ2 invalid2 moves2 budget2

/-- The method `LocalSearch(sol)` on `double` values. -/
def LocalSearchD (I : WL_Instance) (σ : WL_Solution) (budget : Nat) : WL_Solution × Nat :=
  localSearchLoopD I (budget + 1) σ (List.range I.warehouses) [] budget

/-- Case 1, the loop `while (sol->ResidualAmount(s))`, with the supply cost on `double`
values. -/
def reassignLoopD (I : WL_Instance) (s w1 : Nat) :
    Nat → WL_Solution → List Nat → Option (WL_Solution × List Nat)
  | 0, σ, invalid_warehouses =>
    if WL_Solution.ResidualAmount I σ s = 0 then some (σ, invalid_warehouses) else none
  | fuel + 1, σ, invalid_warehouses =>
    if WL_Solution.ResidualAmount I σ s = 0 then some (σ, invalid_warehouses)
    else if bestLoaded I σ s = I.warehouses then
      if bestClosed I σ s w1 = I.warehouses then none
      else
        reassignLoopD I s w1 fuel
          (WL_Solution.AssignD I σ s (bestClosed I σ s w1)
            (min (WL_Solution.ResidualAmount I σ s)
              (WL_Solution.ResidualCapacity I σ (bestClosed I σ s w1))))
          (setInsert invalid_warehouses (bestClosed I σ s w1))
    else
      reassignLoopD I s w1 fuel
        (WL_Solution.AssignD I σ s (bestLoaded I σ s)
          (min (WL_Solution.ResidualAmount I σ s)
            (WL_Solution.ResidualCapacity I σ (bestLoaded I σ s))))
        (setInsert invalid_warehouses (bestLoaded I σ s))

/-- Perturbation 1 (close a warehouse) with the supply cost on `double` values. -/
def perturbation1D (I : WL_Instance) (σ : WL_Solution) (invalid_warehouses : List Nat)
    (rng : Rng) : Option (Nat × PerturbState × Rng) :=
  if (List.range I.warehouses).filter
      (fun w => decide ((σ.supplied_stores w).length = 1 ∧ I.fixed_cost w ≠ 0)) = [] then
    some (0, ⟨σ, invalid_warehouses, [], []⟩, rng)
  else
    match rng with
    | [] => none
    | r :: rng1 =>
      ((List.range I.warehouses).filter
          (fun w => decide ((σ.supplied_stores w).length = 1 ∧ I.fixed_cost w ≠ 0)))[
        r % ((List.range I.warehouses).filter
          (fun w => decide ((σ.supplied_stores w).length = 1 ∧ I.fixed_cost w ≠ 0))).length]?
      |>.bind fun w1 =>
      (σ.supplied_stores w1).head? |>.bind fun s =>
      (reassignLoopD I s w1
        (WL_Solution.ResidualAmount I
          (WL_Solution.RevokeAssignmentD I σ s w1 (σ.supply s w1)) s)
        (WL_Solution.RevokeAssignmentD I σ s w1 (σ.supply s w1)) invalid_warehouses)
      |>.bind fun res =>
      some (1, ⟨res.1, res.2, [], setInsert [] w1⟩, rng1)

/-- The loop `while (!sol->supplied_stores[w1].empty())` of case 3 with the supply cost on
`double` values. -/
def moveAllD (I : WL_Instance) (w1 w2 : Nat) : Nat → WL_Solution → Option WL_Solution
  | 0, σ => if σ.supplied_stores w1 = [] then some σ else none
  | fuel + 1, σ =>
    match σ.supplied_stores w1 with
    | [] => some σ
    | s :: _ =>
      moveAllD I w1 w2 fuel
        (WL_Solution.AssignD I (WL_Solution.RevokeAssignmentD I σ s w1 (σ.supply s w1))
          s w2 (σ.supply s w1))

/-- Perturbation 3 (close one warehouse and open one warehouse) with the supply cost on
`double` values. -/
def perturbation3D (I : WL_Instance) (σ : WL_Solution) (invalid_warehouses : List Nat)
    (rng : Rng) : Option (Nat × PerturbState × Rng) :=
  if (List.range I.warehouses).filter
      (fun w => decide (σ.load w ≠ 0 ∧ I.fixed_cost w ≠ 0)) = [] then
    some (0, ⟨σ, invalid_warehouses, [], []⟩, rng)
  else
    match rng with
    | [] => none
    | r :: rng1 =>
      ((List.range I.warehouses).filter
          (fun w => decide (σ.load w ≠ 0 ∧ I.fixed_cost w ≠ 0)))[
        r % ((List.range I.warehouses).filter
          (fun w => decide (σ.load w ≠ 0 ∧ I.fixed_cost w ≠ 0))).length]?
      |>.bind fun w1 =>
      if (List.range I.warehouses).filter
          (fun w => decide (σ.load w = 0 ∧ I.fixed_cost w ≠ 0 ∧
            WL_Solution.ResidualCapacity I σ w ≥ σ.load w1)) = [] then
        some (0, ⟨σ, invalid_warehouses, [], []⟩, rng1)
      else
        match rng1 with
        | [] => none
        | r2 :: rng2 =>
          ((List.range I.warehouses).filter
              (fun w => decide (σ.load w = 0 ∧ I.fixed_cost w ≠ 0 ∧
                WL_Solution.ResidualCapacity I σ w ≥ σ.load w1)))[
            r2 % ((List.range I.warehouses).filter
              (fun w => decide (σ.load w = 0 ∧ I.fixed_cost w ≠ 0 ∧
                WL_Solution.ResidualCapacity I σ w ≥ σ.load w1))).length]?
          |>.bind fun w2 =>
          (moveAllD I w1 w2 (σ.supplied_stores w1).length σ).bind fun σ2 =>
          some (3, ⟨σ2, setInsert invalid_warehouses w2, setInsert [] w2, setInsert [] w1⟩,
            rng2)

/-- Case 4, the body of the loop over the stores of `best_w1`, with the supply cost on
`double` values. -/
def splitAssignD (I : WL_Instance) (σ : WL_Solution) (s w2 w3 : Nat) : WL_Solution :=
  if WL_Solution.ResidualCapacity I σ w2 ≠ 0 then
    if WL_Solution.ResidualCapacity I σ w3 ≠ 0 then
      if I.supply_cost s w2 < I.supply_cost s w3 then
        if WL_Solution.ResidualAmount I
            (WL_Solution.AssignD I σ s w2
              (min (WL_Solution.ResidualAmount I σ s) (WL_Solution.ResidualCapacity I σ w2)))
            s ≠ 0 then
          WL_Solution.AssignD I
            (WL_Solution.AssignD I σ s w2
              (min (WL_Solution.ResidualAmount I σ s) (WL_Solution.ResidualCapacity I σ w2)))
            s w3
            (WL_Solution.ResidualAmount I
              (WL_Solution.AssignD I σ s w2
                (min (WL_Solution.ResidualAmount I σ s) (WL_Solution.ResidualCapacity I σ w2)))
              s)
        else
          WL_Solution.AssignD I σ s w2
            (min (WL_Solution.ResidualAmount I σ s) (WL_Solution.ResidualCapacity I σ w2))
      else
        if WL_Solution.ResidualAmount I
            (WL_Solution.AssignD I σ s w3
              (min (WL_Solution.ResidualAmount I σ s) (WL_Solution.ResidualCapacity I σ w3)))
            s ≠ 0 then
          WL_Solution.AssignD I
            (WL_Solution.AssignD I σ s w3
              (min (WL_Solution.ResidualAmount I σ s) (WL_Solution.ResidualCapacity I σ w3)))
            s w2
            (WL_Solution.ResidualAmount I
              (WL_Solution.AssignD I σ s w3
                (min (WL_Solution.ResidualAmount I σ s) (WL_Solution.ResidualCapacity I σ w3)))
              s)
        else
          WL_Solution.AssignD I σ s w3
            (min (WL_Solution.ResidualAmount I σ s) (WL_Solution.ResidualCapacity I σ w3))
    else WL_Solution.AssignD I σ s w2 (WL_Solution.ResidualAmount I σ s)
  else WL_Solution.AssignD I σ s w3 (WL_Solution.ResidualAmount I σ s)

/-- Case 4, the loop `while (!sol->supplied_stores[best_w1].empty())`, with the supply
cost on `double` values. -/
def splitAllD (I : WL_Instance) (w1 w2 w3 : Nat) : Nat → WL_Solution → Option WL_Solution
  | 0, σ => if σ.supplied_stores w1 = [] then some σ else none
  | fuel + 1, σ =>
    match σ.supplied_stores w1 with
    | [] => some σ
    | s :: _ =>
      splitAllD I w1 w2 w3 fuel
        (splitAssignD I (WL_Solution.RevokeAssignmentD I σ s w1 (σ.supply s w1)) s w2 w3)

/-- Perturbation 4 (close one warehouse and open two warehouses) with the supply cost on
`double` values. -/
def perturbation4D (I : WL_Instance) (σ : WL_Solution) (invalid_warehouses : List Nat)
    (rng : Rng) : Option (Nat × PerturbState × Rng) :=
  if (chooseTriple4 I σ).best_fc_improvement = 0 then
    some (0, ⟨σ, invalid_warehouses, [], []⟩, rng)
  else
    (splitAllD I (chooseTriple4 I σ).best_w1 (chooseTriple4 I σ).best_w2
      (chooseTriple4 I σ).best_w3
      (σ.supplied_stores (chooseTriple4 I σ).best_w1).length σ).bind fun σ2 =>
    some (4,
      ⟨σ2,
       setInsert (setInsert invalid_warehouses (chooseTriple4 I σ).best_w2)
         (chooseTriple4 I σ).best_w3,
       setInsert (setInsert [] (chooseTriple4 I σ).best_w2) (chooseTriple4 I σ).best_w3,
       setInsert [] (chooseTriple4 I σ).best_w1⟩,
      rng)

/-- Case 5, one of the loops `while (!sol->supplied_stores[w].empty())`, with the supply
cost on `double` values. -/
def mergeAllD (I : WL_Instance) (w w1 : Nat) : Nat → WL_Solution → Option WL_Solution
  | 0, σ => if σ.supplied_stores w = [] then some σ else none
  | fuel + 1, σ =>
    match σ.supplied_stores w with
    | [] => some σ
    | s :: _ =>
      mergeAllD I w w1 fuel
        (WL_Solution.AssignD I (WL_Solution.RevokeAssignmentD I σ s w (σ.supply s w)) s w1
          (WL_Solution.ResidualAmount I
            (WL_Solution.RevokeAssignmentD I σ s w (σ.supply s w)) s))

/-- Perturbation 5 (open one warehouse and close two warehouses) with the supply cost on
`double` values. -/
def perturbation5D (I : WL_Instance) (σ : WL_Solution) (invalid_warehouses : List Nat)
    (rng : Rng) : Option (Nat × PerturbState × Rng) :=
  if (chooseTriple5 I σ).best_fc_improvement = 0 then
    some (0, ⟨σ, invalid_warehouses, [], []⟩, rng)
  else
    (mergeAllD I (chooseTriple5 I σ).best_w2 (chooseTriple5 I σ).best_w1
      (σ.supplied_stores (chooseTriple5 I σ).best_w2).length σ).bind fun σ2 =>
    (mergeAllD I (chooseTriple5 I σ).best_w3 (chooseTriple5 I σ).best_w1
      (σ2.supplied_stores (chooseTriple5 I σ).best_w3).length σ2).bind fun σ3 =>
    some (5,
      ⟨σ3,
       setInsert invalid_warehouses (chooseTriple5 I σ).best_w1,
       setInsert [] (chooseTriple5 I σ).best_w1,
       setInsert (setInsert [] (chooseTriple5 I σ).best_w2) (chooseTriple5 I σ).best_w3⟩,
      rng)

/-- The method `Perturbation` with the supply cost on `double` values. -/
def PerturbationD (I : WL_Instance) (st : PerturbState) (rng : Rng) :
    Option (Nat × PerturbState × Rng) :=
  match rng with
  | [] => none
  | r :: rng1 =>
    if 1 + r % 5 = 1 then perturbation1D I st.sol st.invalid_warehouses rng1
    else if 1 + r % 5 = 2 then perturbation2 I st.sol st.invalid_warehouses rng1
    else if 1 + r % 5 = 3 then perturbation3D I st.sol st.invalid_warehouses rng1
    else if 1 + r % 5 = 4 then perturbation4D I st.sol st.invalid_warehouses rng1
    else perturbation5D I st.sol st.invalid_warehouses rng1

/-- The loop `for (trials = 0; !perturbation && trials < 5; trials++)` with the supply
cost on `double` values. -/
def perturbTrialsD (I : WL_Instance) :
    Nat → PerturbState → Rng → Option (Nat × PerturbState × Rng)
  | 0, st, rng => some (0, st, rng)
  | trials + 1, st, rng =>
    match PerturbationD I st rng with
    | none => none
    | some (perturbation, st2, rng2) =>
      if perturbation = 0 then perturbTrialsD I trials st2 rng2
      else some (perturbation, st2, rng2)

/-- The block `if (i > 0) { ... }` on `double` values: the test
`sol->Cost() + MY_EPSILON < ils_accept * best_sol->Cost()` compares the rounded sum with
the rounded product. With `working_sol == NULL` the call `working_sol->Copy()` has no result. -/
def ilsRestartD (I : WL_Instance) (ils_accept : ℚ) (st : IlsState) :
    Option (Nat × IlsState) :=
  (if roundDouble (WL_Solution.CostD I st.sol + MY_EPSILON_D)
      < roundDouble (ils_accept * WL_Solution.CostD I st.best_sol)
    then some st.sol else st.working_sol).bind fun sol =>
  (perturbTrialsD I 5
    ⟨sol, st.invalid_warehouses, st.closing_forbidden, st.opening_forbidden⟩ st.rng).bind
  fun res =>
  some (res.1,
    { st with
      sol := res.2.1.sol
      working_sol := some sol
      invalid_warehouses := res.2.1.invalid_warehouses
      closing_forbidden := res.2.1.closing_forbidden
      opening_forbidden := res.2.1.opening_forbidden
      rng := res.2.2 })

/-- The loop `while (clock() / CLOCKS_PER_SEC < timeout)` inside the loop over `i` on
`double` values: `best_sol` is replaced when
`sol->Cost() < best_sol->Cost() - MY_EPSILON`, the difference rounded. -/
def ilsSearchLoopD (I : WL_Instance) : Nat → IlsState → IlsState
  | 0, st => st
  | fuel + 1, st =>
    if st.budget = 0 then st
    else if (st.moves ++ enumerateMovesD I st.sol st.invalid_warehouses st.closing_forbidden
        st.opening_forbidden).isEmpty then
      { st with budget := st.budget - 1 }
    else
      match drainD I
          (st.moves ++ enumerateMovesD I st.sol st.invalid_warehouses st.closing_forbidden
            st.opening_forbidden).length
          (st.moves ++ enumerateMovesD I st.sol st.invalid_warehouses st.closing_forbidden
            st.opening_forbidden)
          st.sol [] (st.budget - 1) with
      | (σ2, invalid2, moves2, budget2) =>
        ilsSearchLoopD I fuel
          { st with
            sol := σ2
            best_sol :=
              if WL_Solution.CostD I σ2
                  < roundDouble (WL_Solution.CostD I st.best_sol - MY_EPSILON_D) then σ2
              else st.best_sol
            invalid_warehouses := invalid2
            moves := moves2
            budget := budget2 }

/-- The loop `for (i = 0; clock() / CLOCKS_PER_SEC < timeout && i < ils_maxiter; i++)` on
`double` values. -/
def ilsLoopD (I : WL_Instance) (ils_accept : ℚ) : Nat → Bool → IlsState → Option IlsState
  | 0, _, st => some (if st.budget = 0 then st else { st with budget := st.budget - 1 })
  | n + 1, first, st =>
    if st.budget = 0 then some st
    else
      match (if first then some (1, { st with budget := st.budget - 1 })
          else ilsRestartD I ils_accept { st with budget := st.budget - 1 }) with
      | none => none
      | some (perturbation, st2) =>
        if perturbation = 0 then some st2
        else ilsLoopD I ils_accept n false (ilsSearchLoopD I (st2.budget + 1) st2)

/-- The method `IteratedLocalSearch(sol)` on `double` values; `ils_accept` is a `double`. -/
def IteratedLocalSearchD (I : WL_Instance) (ils_maxiter : Nat) (ils_accept : ℚ)
    (σ : WL_Solution) (budget : Nat) (rng : Rng) : Option (WL_Solution × Nat × Rng) :=
  if ils_maxiter = 1 then
    some ((LocalSearchD I σ budget).1, (LocalSearchD I σ budget).2, rng)
  else
    (ilsLoopD I ils_accept ils_maxiter true
      { sol := σ
        best_sol := σ
        working_sol := none
        invalid_warehouses := List.range I.warehouses
        closing_forbidden := []
        opening_forbidden := []
        moves := []
        budget := budget
        rng := rng }).map fun st => (st.best_sol, st.budget, st.rng)

/-! ## Instances on which rounding shows -/

/-- Two warehouses (capacities 3 and 1, no fixed cost) and four stores of demand 1. The
unit supply costs at warehouses 0 and 1 are `3 * 2^-12` and `5 * 2^-12` for store 0,
`5 * 2^-12` and `11 * 2^-12` for store 1, `3 * 2^42` and `3 * 2^43` for store 2, `2^-11` and
`2^-8` for store 3; each of them is a `double`. Around `3 * 2^42` the spacing of the
`double` values is `2^-9`. -/
def instRound : WL_Instance :=
  { stores := 4
    warehouses := 2
    reduction_opening_cost := 0
    reduction_supply_cost := 0
    capacity := fun w => [3, 1].getD w 0
    fixed_cost := fun _ => 0
    amount_of_goods := fun s => [1, 1, 1, 1].getD s 0
    supply_cost := fun s w =>
      ([[3 / 4096, 5 / 4096], [5 / 4096, 11 / 4096],
        [13194139533312, 26388279066624], [1 / 2048, 1 / 256]].getD s []).getD w 0
    store_incompatibilities := []
    incompatible := incompatibleOfPairs []
    w_incompatible := fun _ _ => false }

/-- The solution of `instRound` that supplies stores 0, 2 and 3 from warehouse 0 and store 1
from warehouse 1, built by `Assign(0, 0, 1)`, `Assign(1, 1, 1)`, `Assign(3, 0, 1)`,
`Assign(2, 0, 1)`. Its supply cost is `3 * 2^42 + 2^-8`; this sum and the partial sums of
the four calls are `double` values, so no call rounds. -/
def solRound : WL_Solution :=
  WL_Solution.Assign instRound
    (WL_Solution.Assign instRound
      (WL_Solution.Assign instRound
        (WL_Solution.Assign instRound (WL_Solution.create instRound) 0 0 1) 1 1 1) 3 0 1)
    2 0 1

/-- One warehouse of capacity 3 without fixed cost and three stores of demand 1 with the
unit supply costs `0.1`, `0.2` and `0.9` as the `double` values nearest to them. -/
def instTenths : WL_Instance :=
  { stores := 3
    warehouses := 1
    reduction_opening_cost := 0
    reduction_supply_cost := 0
    capacity := fun _ => 3
    fixed_cost := fun _ => 0
    amount_of_goods := fun _ => 1
    supply_cost := fun s _ =>
      [roundDouble (1 / 10), roundDouble (2 / 10), roundDouble (9 / 10)].getD s 0
    store_incompatibilities := []
    incompatible := incompatibleOfPairs []
    w_incompatible := fun _ _ => false }

/-- The pattern that fixes stores 0 and 1 of `instTenths` at the warehouse. -/
def patTenths : List Supply := [⟨0, 0, 1⟩, ⟨0, 1, 1⟩]

/-- The solution of the reduced instance of `instTenths` that supplies store 2. -/
def solTenths : WL_Solution :=
  WL_Solution.Assign (instTenths.reduced patTenths)
    (WL_Solution.create (instTenths.reduced patTenths)) 2 0 1

/-- One warehouse of capacity 1 without fixed cost and one store of demand 1 with the unit
supply cost `2^36`. -/
def instLarge : WL_Instance :=
  { stores := 1
    warehouses := 1
    reduction_opening_cost := 0
    reduction_supply_cost := 0
    capacity := fun _ => 1
    fixed_cost := fun _ => 0
    amount_of_goods := fun _ => 1
    supply_cost := fun _ _ => 68719476736
    store_incompatibilities := []
    incompatible := incompatibleOfPairs []
    w_incompatible := fun _ _ => false }

/-- The solution of `instLarge` that supplies the store. -/
def solLarge : WL_Solution :=
  WL_Solution.Assign instLarge (WL_Solution.create instLarge) 0 0 1

/-- The local variables with which the loop over `i` arrives at the tests of iteration
`i = k` on `double` values; it follows `ilsLoopD` as `ilsStateAt` follows `ilsLoop`. -/
def ilsStateAtD (I : WL_Instance) (ils_accept : ℚ) : Nat → Bool → IlsState → Option IlsState
  | 0, _, st => some st
  | k + 1, first, st =>
    if st.budget = 0 then none
    else
      match (if first then some (1, { st with budget := st.budget - 1 })
          else ilsRestartD I ils_accept { st with budget := st.budget - 1 }) with
      | none => none
      | some (perturbation, st2) =>
        if perturbation = 0 then none
        else ilsStateAtD I ils_accept k false (ilsSearchLoopD I (st2.budget + 1) st2)

/-! ## More instances for the relocation of a store by `LocalSearch` -/

/-- The value that the loop over the pattern leaves in `reduction_supply_cost` on `double`
values: the running sum of `supply_cost[s][w] * q` over the entries in their order, each
product and each partial sum rounded. -/
def patternSupplyCostD (I : WL_Instance) (pattern : List Supply) : ℚ :=
  pattern.foldl
    (fun acc p => roundDouble (acc + roundDouble (I.supply_cost p.s p.w * (p.q : ℚ)))) 0


/-! ## Arithmetic and loop lemmas -/

theorem uadd_eq_add {a b : Nat} (h : a + b < 4294967296) : uadd a b = a + b := by
  unfold uadd; omega

theorem usub_eq_sub {a b : Nat} (hb : b ≤ a) (ha : a < 4294967296) : usub a b = a - b := by
  unfold usub; omega

theorem usub_uadd_cancel {a : Nat} (q : Nat) (ha : a < 4294967296) :
    usub (uadd a q) q = a := by
  unfold usub uadd; omega

theorem uadd_lt (a b : Nat) : uadd a b < 4294967296 := by
  unfold uadd; omega

theorem usub_lt (a b : Nat) : usub a b < 4294967296 := by
  unfold usub; omega

@[simp] theorem set1_apply {α : Type} (f : Nat → α) (i : Nat) (v : α) (a : Nat) :
    set1 f i v a = if a = i then v else f a := rfl

@[simp] theorem set2_apply {α : Type} (f : Nat → Nat → α) (i j : Nat) (v : α) (a b : Nat) :
    set2 f i j v a b = if a = i ∧ b = j then v else f a b := rfl

/-- A loop over `s2 < n` that rewrites entry `[w][s2]` by `g` whenever `P s2` holds touches
each such entry once and nothing else. -/
theorem foldl_range_set2 {α : Type} (P : Nat → Bool) (g : α → α) (w : Nat)
    (f : Nat → Nat → α) (n a b : Nat) :
    ((List.range n).foldl
        (fun acc s2 => if P s2 then set2 acc w s2 (g (acc w s2)) else acc) f) a b
      = if a = w ∧ b < n ∧ P b = true then g (f a b) else f a b := by
  induction n generalizing a b with
  | zero => simp
  | succ n ih =>
    rw [List.range_succ, List.foldl_append]
    simp only [List.foldl_cons, List.foldl_nil]
    by_cases hP : P n = true
    · simp only [hP, if_true, set2_apply]
      by_cases hab : a = w ∧ b = n
      · obtain ⟨rfl, rfl⟩ := hab
        simp [ih, hP]
      · rw [if_neg hab, ih]
        by_cases h1 : a = w ∧ b < n ∧ P b = true
        · have : a = w ∧ b < n + 1 ∧ P b = true := ⟨h1.1, by omega, h1.2.2⟩
          rw [if_pos h1, if_pos this]
        · have : ¬ (a = w ∧ b < n + 1 ∧ P b = true) := by
            rintro ⟨h2, h3, h4⟩
            rcases Nat.lt_succ_iff_lt_or_eq.mp h3 with h5 | h5
            · exact h1 ⟨h2, h5, h4⟩
            · exact hab ⟨h2, h5⟩
          rw [if_neg h1, if_neg this]
    · simp only [hP]
      rw [if_neg (by simp), ih]
      by_cases h1 : a = w ∧ b < n ∧ P b = true
      · have : a = w ∧ b < n + 1 ∧ P b = true := ⟨h1.1, by omega, h1.2.2⟩
        rw [if_pos h1, if_pos this]
      · have : ¬ (a = w ∧ b < n + 1 ∧ P b = true) := by
          rintro ⟨h2, h3, h4⟩
          rcases Nat.lt_succ_iff_lt_or_eq.mp h3 with h5 | h5
          · exact h1 ⟨h2, h5, h4⟩
          · subst h5; exact hP h4
        rw [if_neg h1, if_neg this]

theorem incrIncompat_apply (I : WL_Instance) (inc : Nat → Nat → Nat) (s w a b : Nat) :
    WL_Solution.incrIncompat I inc s w a b
      = if a = w ∧ b < I.stores ∧ I.incompatible s b = true then uadd (inc a b) 1
        else inc a b := by
  unfold WL_Solution.incrIncompat
  exact foldl_range_set2 (fun s2 => I.incompatible s s2) (fun x => uadd x 1) w inc _ a b

theorem decrIncompat_apply (I : WL_Instance) (inc : Nat → Nat → Nat) (s w a b : Nat) :
    WL_Solution.decrIncompat I inc s w a b
      = if a = w ∧ b < I.stores ∧ I.incompatible s b = true then usub (inc a b) 1
        else inc a b := by
  unfold WL_Solution.decrIncompat
  exact foldl_range_set2 (fun s2 => I.incompatible s s2) (fun x => usub x 1) w inc _ a b

theorem markIncompatible_apply (I : WL_Instance) (w s a b : Nat) :
    I.markIncompatible w s a b
      = if a = w ∧ b < I.stores ∧ I.incompatible s b = true then true
        else I.w_incompatible a b := by
  unfold WL_Instance.markIncompatible
  exact foldl_range_set2 (fun s2 => I.incompatible s s2) (fun _ => true) w _ _ a b

theorem mem_setInsert {l : List Nat} {x y : Nat} : y ∈ setInsert l x ↔ y ∈ l ∨ y = x := by
  unfold setInsert
  split
  · constructor
    · exact Or.inl
    · rintro (h | rfl)
      · exact h
      · assumption
  · simp

theorem mem_setErase {l : List Nat} {x y : Nat} : y ∈ setErase l x ↔ y ∈ l ∧ y ≠ x := by
  unfold setErase
  simp

theorem setErase_setInsert {l : List Nat} {x : Nat} (h : x ∉ l) :
    setErase (setInsert l x) x = l := by
  unfold setErase setInsert
  rw [if_neg h, List.filter_append]
  simp only [List.filter_cons, List.filter_nil, bne_self_eq_false]
  simp only [Bool.false_eq_true, if_false, List.append_nil]
  rw [List.filter_eq_self]
  intro a ha
  simp only [bne_iff_ne, ne_eq]
  rintro rfl
  exact h ha


/-! ## The solution's cached fields under `Assign` and `RevokeAssignment` -/

theorem sum_range_change (n w : Nat) (f g : Nat → Nat) (hw : w < n)
    (h : ∀ a, a ≠ w → a < n → g a = f a) :
    (Finset.range n).sum g + f w = (Finset.range n).sum f + g w := by
  have hmem : w ∈ Finset.range n := Finset.mem_range.mpr hw
  rw [← Finset.add_sum_erase _ g hmem, ← Finset.add_sum_erase _ f hmem]
  have : ((Finset.range n).erase w).sum g = ((Finset.range n).erase w).sum f := by
    apply Finset.sum_congr rfl
    intro a ha
    rw [Finset.mem_erase, Finset.mem_range] at ha
    exact h a ha.1 ha.2
  linarith

theorem openingSum_le_totalFixed (I : WL_Instance) (σ : WL_Solution) :
    WL_Solution.openingSum I σ ≤ I.totalFixed := by
  unfold WL_Solution.openingSum WL_Instance.totalFixed
  apply Finset.sum_le_sum
  intro w _
  split <;> omega

theorem fixed_le_totalFixed (I : WL_Instance) {w : Nat} (hw : w < I.warehouses) :
    I.fixed_cost w ≤ I.totalFixed := by
  unfold WL_Instance.totalFixed
  exact Finset.single_le_sum (f := I.fixed_cost) (fun _ _ => Nat.zero_le _)
    (Finset.mem_range.mpr hw)

theorem suppliedStoresInv_step (I : WL_Instance) (σ : WL_Solution) (s w q : Nat)
    (hInv : WL_Solution.SuppliedStoresInv I σ) (hs : s < I.stores) :
    (0 < q → σ.supply s w + q < 4294967296 →
        WL_Solution.SuppliedStoresInv I (WL_Solution.Assign I σ s w q)) ∧
    (q ≤ σ.supply s w → σ.supply s w < 4294967296 →
        WL_Solution.SuppliedStoresInv I (WL_Solution.RevokeAssignment I σ s w q)) := by
  refine ⟨fun hq hfit => ?_, fun hq hty => ?_⟩
  · intro w2 hw2 s2
    have hnew : uadd (σ.supply s w) q = σ.supply s w + q := uadd_eq_add hfit
    have hI := hInv w2 hw2 s2
    by_cases h0 : σ.supply s w = 0
    · simp only [WL_Solution.Assign, h0, if_true, set1_apply, set2_apply, hnew]
      by_cases hw : w2 = w
      · subst hw
        simp only [if_true, mem_setInsert, hI]
        by_cases hss : s2 = s
        · subst hss
          have hpos : 0 < uadd 0 q := by rw [h0] at hnew; omega
          simp [hs, hpos]
        · simp [hss]
      · simp [hw, hI]
    · simp only [WL_Solution.Assign, h0, if_false, set2_apply, hnew, hI]
      by_cases hsw : s2 = s ∧ w2 = w
      · obtain ⟨rfl, rfl⟩ := hsw
        simp only [and_self, if_true]
        constructor
        · rintro ⟨h1, _⟩; exact ⟨h1, by omega⟩
        · rintro ⟨h1, _⟩; exact ⟨h1, by omega⟩
      · simp [hsw]
  · intro w2 hw2 s2
    have hnew : usub (σ.supply s w) q = σ.supply s w - q := usub_eq_sub hq hty
    have hI := hInv w2 hw2 s2
    by_cases h0 : σ.supply s w - q = 0
    · simp only [WL_Solution.RevokeAssignment, hnew, h0, if_true, set1_apply, set2_apply]
      by_cases hw : w2 = w
      · subst hw
        simp only [if_true, mem_setErase, hI]
        by_cases hss : s2 = s
        · subst hss; simp
        · simp [hss]
      · simp [hw, hI]
    · simp only [WL_Solution.RevokeAssignment, hnew, h0, if_false, set2_apply, hI]
      by_cases hsw : s2 = s ∧ w2 = w
      · obtain ⟨rfl, rfl⟩ := hsw
        simp only [and_self, if_true]
        constructor
        · rintro ⟨h1, _⟩; exact ⟨h1, by omega⟩
        · rintro ⟨h1, _⟩; exact ⟨h1, by omega⟩
      · simp [hsw]

theorem suppliedStoresInv_create (I : WL_Instance) :
    WL_Solution.SuppliedStoresInv I (WL_Solution.create I) := by
  intro w _ s
  simp [WL_Solution.create]

/-- Claim C3, as amended: in a state where `supplied_stores[w] == {s : supply[s][w] > 0}`
holds for all `w`, the equality still holds after `Assign(s, w, q)` with `q > 0` whose sum
with `supply[s][w]` fits an `unsigned`, and after `RevokeAssignment(s, w, q)` with
`q <= supply[s][w]`. -/
theorem suppliedStoresInv_preserved (I : WL_Instance) (σ : WL_Solution) (s w q : Nat)
    (hInv : WL_Solution.SuppliedStoresInv I σ) (hs : s < I.stores) :
    (0 < q → σ.supply s w + q < 4294967296 →
        WL_Solution.SuppliedStoresInv I (WL_Solution.Assign I σ s w q)) ∧
    (q ≤ σ.supply s w → σ.supply s w < 4294967296 →
        WL_Solution.SuppliedStoresInv I (WL_Solution.RevokeAssignment I σ s w q)) :=
  suppliedStoresInv_step I σ s w q hInv hs

/-- Witness for C3: the amended statement applies to the empty solution of scenario E3
(assign 3 units) and to the state after that assignment (revoke them). -/
theorem suppliedStoresInv_preserved_witness :
    WL_Solution.SuppliedStoresInv instE3
        (WL_Solution.Assign instE3 (WL_Solution.create instE3) 0 0 3) ∧
    WL_Solution.SuppliedStoresInv instE3
        (WL_Solution.RevokeAssignment instE3
          (WL_Solution.Assign instE3 (WL_Solution.create instE3) 0 0 3) 0 0 3) :=
  have h1 := (suppliedStoresInv_preserved instE3 (WL_Solution.create instE3) 0 0 3
    (suppliedStoresInv_create instE3) (by decide)).1 (by decide) (by decide)
  ⟨h1, (suppliedStoresInv_preserved instE3 _ 0 0 3 h1 (by decide)).2 (by decide) (by decide)⟩

/-- Counterexample to C3 as stated ("every quantity q"): on the empty solution of
scenario E3 the invariant holds, and `Assign(0, 0, 0)` lists store 0 in
`supplied_stores[0]` although `supply[0][0]` stays 0; likewise, after `Assign(0, 0, 1)`,
`Assign(0, 0, 4294967295)` wraps `supply[0][0]` to 0 while store 0 stays listed. -/
theorem suppliedStoresInv_counterexample :
    WL_Solution.SuppliedStoresInv instE3 (WL_Solution.create instE3) ∧
    ¬ WL_Solution.SuppliedStoresInv instE3
        (WL_Solution.Assign instE3 (WL_Solution.create instE3) 0 0 0) ∧
    WL_Solution.SuppliedStoresInv instE3
        (WL_Solution.Assign instE3 (WL_Solution.create instE3) 0 0 1) ∧
    ¬ WL_Solution.SuppliedStoresInv instE3
        (WL_Solution.Assign instE3
          (WL_Solution.Assign instE3 (WL_Solution.create instE3) 0 0 1) 0 0 4294967295) := by
  refine ⟨suppliedStoresInv_create _, ?_, ?_, ?_⟩
  · intro h
    have h1 := (h 0 (by decide) 0).mp (by decide)
    exact absurd h1.2 (by decide)
  · exact (suppliedStoresInv_step instE3 (WL_Solution.create instE3) 0 0 1
      (suppliedStoresInv_create instE3) (by decide)).1 (by decide) (by decide)
  · intro h
    have h1 := (h 0 (by decide) 0).mp (by decide)
    exact absurd h1.2 (by decide)

theorem openingSum_change (I : WL_Instance) (σ τ : WL_Solution) (w : Nat)
    (hw : w < I.warehouses) (h : ∀ a, a ≠ w → a < I.warehouses → τ.load a = σ.load a) :
    WL_Solution.openingSum I τ + (if 0 < σ.load w then I.fixed_cost w else 0)
      = WL_Solution.openingSum I σ + (if 0 < τ.load w then I.fixed_cost w else 0) := by
  unfold WL_Solution.openingSum
  exact sum_range_change I.warehouses w
    (fun a => if 0 < σ.load a then I.fixed_cost a else 0)
    (fun a => if 0 < τ.load a then I.fixed_cost a else 0) hw
    (by intro a ha hlt; simp only [h a ha hlt])

theorem openingCostInv_step (I : WL_Instance) (σ : WL_Solution) (s w q : Nat)
    (hInv : WL_Solution.OpeningCostInv I σ) (hw : w < I.warehouses)
    (hfix : I.totalFixed < 4294967296) :
    (0 < q → σ.load w + q < 4294967296 →
        WL_Solution.OpeningCostInv I (WL_Solution.Assign I σ s w q)) ∧
    (q ≤ σ.supply s w → 0 < σ.supply s w → σ.supply s w ≤ σ.load w →
        σ.load w < 4294967296 →
        WL_Solution.OpeningCostInv I (WL_Solution.RevokeAssignment I σ s w q)) := by
  have hold := openingSum_le_totalFixed I σ
  unfold WL_Solution.OpeningCostInv at hInv ⊢
  refine ⟨fun hq hfit => ?_, fun hq hpos hle hty => ?_⟩
  · have hnew := openingSum_le_totalFixed I (WL_Solution.Assign I σ s w q)
    have hl : uadd (σ.load w) q = σ.load w + q := uadd_eq_add hfit
    have hgw : (WL_Solution.Assign I σ s w q).load w = σ.load w + q := by
      simp [WL_Solution.Assign, hl]
    have hch := openingSum_change I σ (WL_Solution.Assign I σ s w q) w hw
      (by intro a ha _; simp [WL_Solution.Assign, ha])
    rw [hgw, if_pos (by omega : 0 < σ.load w + q)] at hch
    by_cases h0 : σ.load w = 0
    · rw [if_neg (by omega)] at hch
      have hoc : (WL_Solution.Assign I σ s w q).opening_cost
          = uadd σ.opening_cost (I.fixed_cost w) := by simp [WL_Solution.Assign, h0]
      rw [hoc, uadd_eq_add (by omega)]
      omega
    · rw [if_pos (by omega)] at hch
      have hoc : (WL_Solution.Assign I σ s w q).opening_cost = σ.opening_cost := by
        simp [WL_Solution.Assign, h0]
      rw [hoc]
      omega
  · have hnew := openingSum_le_totalFixed I (WL_Solution.RevokeAssignment I σ s w q)
    have hl : usub (σ.load w) q = σ.load w - q := usub_eq_sub (by omega) hty
    have hgw : (WL_Solution.RevokeAssignment I σ s w q).load w = σ.load w - q := by
      simp [WL_Solution.RevokeAssignment, hl]
    have hch := openingSum_change I σ (WL_Solution.RevokeAssignment I σ s w q) w hw
      (by intro a ha _; simp [WL_Solution.RevokeAssignment, ha])
    rw [hgw, if_pos (by omega : 0 < σ.load w)] at hch
    by_cases h0 : σ.load w - q = 0
    · rw [if_neg (by omega)] at hch
      have hoc : (WL_Solution.RevokeAssignment I σ s w q).opening_cost
          = usub σ.opening_cost (I.fixed_cost w) := by
        simp [WL_Solution.RevokeAssignment, hl, h0]
      rw [hoc, usub_eq_sub (by omega) (by omega)]
      omega
    · rw [if_pos (by omega)] at hch
      have hoc : (WL_Solution.RevokeAssignment I σ s w q).opening_cost = σ.opening_cost := by
        simp [WL_Solution.RevokeAssignment, hl, h0]
      rw [hoc]
      omega

theorem openingCostInv_create (I : WL_Instance) :
    WL_Solution.OpeningCostInv I (WL_Solution.create I) := by
  simp [WL_Solution.OpeningCostInv, WL_Solution.openingSum, WL_Solution.create]

/-- Claim C5, as amended: in a state where `opening_cost` equals the sum of
`fixed_cost[w]` over the warehouses with `load[w] > 0`, on an instance whose fixed costs
sum to less than `2^32`, the equality still holds after `Assign(s, w, q)` with `q > 0`
and `load[w] + q` fitting an `unsigned`, and after `RevokeAssignment(s, w, q)` with
`q <= supply[s][w]`, `0 < supply[s][w] <= load[w]`. -/
theorem openingCostInv_preserved (I : WL_Instance) (σ : WL_Solution) (s w q : Nat)
    (hInv : WL_Solution.OpeningCostInv I σ) (hw : w < I.warehouses)
    (hfix : I.totalFixed < 4294967296) :
    (0 < q → σ.load w + q < 4294967296 →
        WL_Solution.OpeningCostInv I (WL_Solution.Assign I σ s w q)) ∧
    (q ≤ σ.supply s w → 0 < σ.supply s w → σ.supply s w ≤ σ.load w →
        σ.load w < 4294967296 →
        WL_Solution.OpeningCostInv I (WL_Solution.RevokeAssignment I σ s w q)) :=
  openingCostInv_step I σ s w q hInv hw hfix

/-- Witness for C5: the amended statement applies to the empty solution of scenario E3
(assign 3 units) and to the state after that assignment (revoke them). -/
theorem openingCostInv_preserved_witness :
    WL_Solution.OpeningCostInv instE3
        (WL_Solution.Assign instE3 (WL_Solution.create instE3) 0 0 3) ∧
    WL_Solution.OpeningCostInv instE3
        (WL_Solution.RevokeAssignment instE3
          (WL_Solution.Assign instE3 (WL_Solution.create instE3) 0 0 3) 0 0 3) :=
  have h1 := (openingCostInv_preserved instE3 (WL_Solution.create instE3) 0 0 3
    (openingCostInv_create instE3) (by decide) (by decide)).1 (by decide) (by decide)
  ⟨h1, (openingCostInv_preserved instE3 _ 0 0 3 h1 (by decide) (by decide)).2
    (by decide) (by decide) (by decide) (by decide)⟩

/-- Counterexample to C5 as stated ("for every quantity q"): on the empty solution of
scenario E3 the invariant holds; `Assign(0, 0, 0)` adds `fixed_cost[0]` to `opening_cost`
while every load stays 0, and `RevokeAssignment(0, 0, 0)` (with `0 <= supply[0][0]`)
subtracts it from 0. -/
theorem openingCostInv_counterexample :
    WL_Solution.OpeningCostInv instE3 (WL_Solution.create instE3) ∧
    ¬ WL_Solution.OpeningCostInv instE3
        (WL_Solution.Assign instE3 (WL_Solution.create instE3) 0 0 0) ∧
    ¬ WL_Solution.OpeningCostInv instE3
        (WL_Solution.RevokeAssignment instE3 (WL_Solution.create instE3) 0 0 0) := by
  refine ⟨openingCostInv_create _, ?_, ?_⟩
  · unfold WL_Solution.OpeningCostInv; decide
  · unfold WL_Solution.OpeningCostInv; decide

/-- Claim C6, as amended: in a state whose `unsigned` fields fit the machine type and in
which `supplied_stores[w]` does not list `s` while `supply[s][w] == 0`, for every in-range
`s`, `w` and every quantity `q`, `Assign(s, w, q)` followed by `RevokeAssignment(s, w, q)`
restores every field: supply, assigned_goods, load, supplied_stores, incompatibilities,
supply_cost and opening_cost. -/
theorem assign_revoke_roundtrip (I : WL_Instance) (σ : WL_Solution) (s w q : Nat)
    (hs : s < I.stores) (hw : w < I.warehouses) (hT : WL_Solution.Typed I σ)
    (hset : σ.supply s w = 0 → s ∉ σ.supplied_stores w) :
    WL_Solution.RevokeAssignment I (WL_Solution.Assign I σ s w q) s w q = σ := by
  have hsup := hT.supply s w hs hw
  have hag := hT.assigned_goods s hs
  have hld := hT.load w hw
  have hoc := hT.opening_cost
  have e1 : (WL_Solution.Assign I σ s w q).supply s w = uadd (σ.supply s w) q := by
    simp [WL_Solution.Assign]
  have e2 : (WL_Solution.Assign I σ s w q).load w = uadd (σ.load w) q := by
    simp [WL_Solution.Assign]
  have e3 : (WL_Solution.Assign I σ s w q).assigned_goods s
      = uadd (σ.assigned_goods s) q := by
    simp [WL_Solution.Assign]
  apply WL_Solution.ext
  · -- supplied_stores
    simp only [WL_Solution.RevokeAssignment, e1, usub_uadd_cancel q hsup]
    by_cases h0 : σ.supply s w = 0
    · simp only [h0, if_true, WL_Solution.Assign]
      funext a
      by_cases ha : a = w
      · subst ha; simp [setErase_setInsert (hset h0)]
      · simp [ha]
    · simp only [h0, if_false, WL_Solution.Assign]
  · -- supply_cost
    simp only [WL_Solution.RevokeAssignment, WL_Solution.Assign]
    ring
  · -- opening_cost
    simp only [WL_Solution.RevokeAssignment, e2, usub_uadd_cancel q hld]
    by_cases h0 : σ.load w = 0
    · simp only [h0, if_true, WL_Solution.Assign]
      exact usub_uadd_cancel _ hoc
    · simp only [h0, if_false, WL_Solution.Assign]
  · -- supply
    simp only [WL_Solution.RevokeAssignment, e1, usub_uadd_cancel q hsup]
    funext a b
    by_cases hab : a = s ∧ b = w
    · obtain ⟨rfl, rfl⟩ := hab; simp
    · simp [WL_Solution.Assign, hab]
  · -- assigned_goods
    simp only [WL_Solution.RevokeAssignment, e3, usub_uadd_cancel q hag]
    funext a
    by_cases ha : a = s
    · subst ha; simp
    · simp [WL_Solution.Assign, ha]
  · -- load
    simp only [WL_Solution.RevokeAssignment, e2, usub_uadd_cancel q hld]
    funext a
    by_cases ha : a = w
    · subst ha; simp
    · simp [WL_Solution.Assign, ha]
  · -- incompatibilities
    simp only [WL_Solution.RevokeAssignment, e1, usub_uadd_cancel q hsup]
    by_cases h0 : σ.supply s w = 0
    · simp only [h0, if_true, WL_Solution.Assign]
      funext a b
      rw [decrIncompat_apply, incrIncompat_apply]
      by_cases hc : a = w ∧ b < I.stores ∧ I.incompatible s b = true
      · rw [if_pos hc, if_pos hc]
        obtain ⟨rfl, hb, _⟩ := hc
        exact usub_uadd_cancel 1 (hT.incompatibilities a b hw hb)
      · rw [if_neg hc, if_neg hc]
    · simp only [h0, if_false, WL_Solution.Assign]

theorem typed_create (I : WL_Instance) : WL_Solution.Typed I (WL_Solution.create I) := by
  constructor <;> intros <;> simp [WL_Solution.create]

/-- Witness for C6: the round trip on the empty solution of scenario E3. -/
theorem assign_revoke_roundtrip_witness :
    WL_Solution.RevokeAssignment instE3
        (WL_Solution.Assign instE3 (WL_Solution.create instE3) 0 0 3) 0 0 3
      = WL_Solution.create instE3 :=
  assign_revoke_roundtrip instE3 (WL_Solution.create instE3) 0 0 3 (by decide) (by decide)
    (typed_create instE3) (fun _ => by decide)

/-- Counterexample to C6 as stated ("every solution state ... every quantity q"): in the
state reached from the empty solution of scenario E3 by `Assign(0, 0, 0)`, store 0 is
listed in `supplied_stores[0]`; `Assign(0, 0, 0)` followed by `RevokeAssignment(0, 0, 0)`
removes it. -/
theorem assign_revoke_roundtrip_counterexample :
    (WL_Solution.Assign instE3 (WL_Solution.create instE3) 0 0 0).supplied_stores 0 = [0] ∧
    (WL_Solution.RevokeAssignment instE3
        (WL_Solution.Assign instE3
          (WL_Solution.Assign instE3 (WL_Solution.create instE3) 0 0 0) 0 0 0)
        0 0 0).supplied_stores 0 = [] := by
  constructor <;> decide

/-! ## `ComputeViolations` -/

theorem filter_length_eq_zero_iff (n : Nat) (p : Nat → Bool) :
    ((List.range n).filter p).length = 0 ↔ ∀ x, x < n → p x = false := by
  rw [List.length_eq_zero, List.filter_eq_nil_iff]
  constructor
  · intro h x hx
    have := h x (List.mem_range.mpr hx)
    simpa using this
  · intro h x hx
    simp [h x (List.mem_range.mp hx)]

theorem filter_length_le_range (n : Nat) (p : Nat → Bool) :
    ((List.range n).filter p).length ≤ n := by
  calc ((List.range n).filter p).length ≤ (List.range n).length := List.length_filter_le _ _
    _ = n := List.length_range n

theorem pairViolations_le (I : WL_Instance) (σ : WL_Solution) :
    WL_Solution.pairViolations I σ ≤ I.store_incompatibilities.length * I.warehouses := by
  unfold WL_Solution.pairViolations
  have h := List.sum_le_card_nsmul
    (I.store_incompatibilities.map (fun p =>
      ((List.range I.warehouses).filter
        (fun w => decide (σ.supply p.1 w > 0) && decide (σ.supply p.2 w > 0))).length))
    I.warehouses
    (by
      intro x hx
      rw [List.mem_map] at hx
      obtain ⟨p, _, rfl⟩ := hx
      exact filter_length_le_range _ _)
  simpa using h

theorem pairViolations_eq_zero_iff (I : WL_Instance) (σ : WL_Solution) :
    WL_Solution.pairViolations I σ = 0 ↔
      ∀ p, p ∈ I.store_incompatibilities → ∀ w, w < I.warehouses →
        ¬ (0 < σ.supply p.1 w ∧ 0 < σ.supply p.2 w) := by
  unfold WL_Solution.pairViolations
  rw [List.sum_eq_zero_iff]
  constructor
  · intro h p hp w hw
    have h1 := h _ (List.mem_map.mpr ⟨p, hp, rfl⟩)
    have h2 := (filter_length_eq_zero_iff _ _).mp h1 w hw
    simpa using h2
  · intro h x hx
    rw [List.mem_map] at hx
    obtain ⟨p, hp, rfl⟩ := hx
    rw [filter_length_eq_zero_iff]
    intro w hw
    have := h p hp w hw
    simpa using this

theorem demandViolations_eq_zero_iff (I : WL_Instance) (σ : WL_Solution) :
    WL_Solution.demandViolations I σ = 0 ↔
      ∀ s, s < I.stores → I.amount_of_goods s ≤ σ.assigned_goods s := by
  unfold WL_Solution.demandViolations
  rw [filter_length_eq_zero_iff]
  simp

theorem capacityViolations_eq_zero_iff (I : WL_Instance) (σ : WL_Solution) :
    WL_Solution.capacityViolations I σ = 0 ↔
      ∀ w, w < I.warehouses → σ.load w ≤ I.capacity w := by
  unfold WL_Solution.capacityViolations
  rw [filter_length_eq_zero_iff]
  simp

/-- What `ComputeViolations() == 0` means on every state of an instance whose loops make
fewer than `2^32` increments. -/
theorem computeViolations_zero (I : WL_Instance) (σ : WL_Solution)
    (hsize : I.stores + I.warehouses + I.store_incompatibilities.length * I.warehouses
      < 4294967296) :
    WL_Solution.ComputeViolations I σ = 0 ↔
      (∀ s, s < I.stores → I.amount_of_goods s ≤ σ.assigned_goods s) ∧
      (∀ w, w < I.warehouses → σ.load w ≤ I.capacity w) ∧
      (∀ p, p ∈ I.store_incompatibilities → ∀ w, w < I.warehouses →
        ¬ (0 < σ.supply p.1 w ∧ 0 < σ.supply p.2 w)) := by
  have h1 : WL_Solution.demandViolations I σ ≤ I.stores := filter_length_le_range _ _
  have h2 : WL_Solution.capacityViolations I σ ≤ I.warehouses := filter_length_le_range _ _
  have h3 := pairViolations_le I σ
  rw [← demandViolations_eq_zero_iff, ← capacityViolations_eq_zero_iff,
    ← pairViolations_eq_zero_iff]
  unfold WL_Solution.ComputeViolations
  constructor
  · intro h; omega
  · rintro ⟨a, b, c⟩; omega

/-- A state without violations, whatever the sizes: the counter stays 0. -/
theorem computeViolations_of_feasible (I : WL_Instance) (σ : WL_Solution)
    (hd : ∀ s, s < I.stores → I.amount_of_goods s ≤ σ.assigned_goods s)
    (hc : ∀ w, w < I.warehouses → σ.load w ≤ I.capacity w)
    (hp : ∀ p, p ∈ I.store_incompatibilities → ∀ w, w < I.warehouses →
        ¬ (0 < σ.supply p.1 w ∧ 0 < σ.supply p.2 w)) :
    WL_Solution.ComputeViolations I σ = 0 := by
  unfold WL_Solution.ComputeViolations
  rw [(demandViolations_eq_zero_iff I σ).mpr hd, (capacityViolations_eq_zero_iff I σ).mpr hc,
    (pairViolations_eq_zero_iff I σ).mpr hp]

/-- Claim C7, as amended: on an instance whose violation loops make fewer than `2^32`
increments, `ComputeViolations() == 0` holds exactly when no store is assigned less than
its demand (`assigned_goods[s] >= demand[s]`), no warehouse has `load[w] > capacity[w]`
and no listed incompatible pair has both stores supplied by the same warehouse; in the
states where no store is assigned more than its demand this is the feasibility of the
claim, with `assigned_goods[s] == demand[s]`. -/
theorem computeViolations_eq_zero_iff (I : WL_Instance) (σ : WL_Solution)
    (hsize : I.stores + I.warehouses + I.store_incompatibilities.length * I.warehouses
      < 4294967296) :
    (WL_Solution.ComputeViolations I σ = 0 ↔
      (∀ s, s < I.stores → I.amount_of_goods s ≤ σ.assigned_goods s) ∧
      (∀ w, w < I.warehouses → σ.load w ≤ I.capacity w) ∧
      (∀ p, p ∈ I.store_incompatibilities → ∀ w, w < I.warehouses →
        ¬ (0 < σ.supply p.1 w ∧ 0 < σ.supply p.2 w))) ∧
    ((∀ s, s < I.stores → σ.assigned_goods s ≤ I.amount_of_goods s) →
      (WL_Solution.ComputeViolations I σ = 0 ↔
        (∀ s, s < I.stores → σ.assigned_goods s = I.amount_of_goods s) ∧
        (∀ w, w < I.warehouses → σ.load w ≤ I.capacity w) ∧
        (∀ p, p ∈ I.store_incompatibilities → ∀ w, w < I.warehouses →
          ¬ (0 < σ.supply p.1 w ∧ 0 < σ.supply p.2 w)))) := by
  refine ⟨computeViolations_zero I σ hsize, fun hle => ?_⟩
  rw [computeViolations_zero I σ hsize]
  constructor
  · rintro ⟨a, b, c⟩
    exact ⟨fun s hs => Nat.le_antisymm (hle s hs) (a s hs), b, c⟩
  · rintro ⟨a, b, c⟩
    exact ⟨fun s hs => (a s hs).ge, b, c⟩

/-- Witness for C7: scenario E3 meets the size condition, and in its empty solution no
store is over-assigned. -/
theorem computeViolations_eq_zero_iff_witness :
    (WL_Solution.ComputeViolations instE3 (WL_Solution.create instE3) = 0 ↔
      (∀ s, s < instE3.stores →
        (WL_Solution.create instE3).assigned_goods s = instE3.amount_of_goods s) ∧
      (∀ w, w < instE3.warehouses → (WL_Solution.create instE3).load w ≤ instE3.capacity w) ∧
      (∀ p, p ∈ instE3.store_incompatibilities → ∀ w, w < instE3.warehouses →
        ¬ (0 < (WL_Solution.create instE3).supply p.1 w ∧
            0 < (WL_Solution.create instE3).supply p.2 w))) :=
  (computeViolations_eq_zero_iff instE3 (WL_Solution.create instE3) (by decide)).2
    (fun _ _ => Nat.zero_le _)

/-- Counterexample to C7 as stated: in scenario E1 (demand 7, capacity 10) the state
after `Assign(0, 0, 10)` has `ComputeViolations() == 0` although
`assigned_goods[0] == 10` differs from the demand 7. -/
theorem computeViolations_counterexample :
    WL_Solution.ComputeViolations instE1
        (WL_Solution.Assign instE1 (WL_Solution.create instE1) 0 0 10) = 0 ∧
    (WL_Solution.Assign instE1 (WL_Solution.create instE1) 0 0 10).assigned_goods 0 = 10 ∧
    instE1.amount_of_goods 0 = 7 ∧ 0 < instE1.stores := by
  refine ⟨?_, ?_, ?_, ?_⟩ <;> decide

/-! ## The incompatibility counters -/

theorem card_filter_flip (n a : Nat) (p p2 : Nat → Prop) [DecidablePred p] [DecidablePred p2]
    (ha : a < n) (hpa : ¬ p a) (hp2a : p2 a) (h : ∀ x, x ≠ a → (p2 x ↔ p x)) :
    ((Finset.range n).filter p2).card = ((Finset.range n).filter p).card + 1 := by
  have hset : (Finset.range n).filter p2 = insert a ((Finset.range n).filter p) := by
    ext x
    simp only [Finset.mem_filter, Finset.mem_range, Finset.mem_insert]
    by_cases hx : x = a
    · subst hx; simp [ha, hp2a]
    · simp [hx, h x hx]
  rw [hset, Finset.card_insert_of_not_mem]
  simp [hpa]

theorem card_filter_same (n : Nat) (p p2 : Nat → Prop) [DecidablePred p] [DecidablePred p2]
    (h : ∀ x, x < n → (p2 x ↔ p x)) :
    ((Finset.range n).filter p2).card = ((Finset.range n).filter p).card := by
  congr 1
  apply Finset.filter_congr
  intro x hx
  exact h x (Finset.mem_range.mp hx)

theorem conflictCount_le (I : WL_Instance) (σ : WL_Solution) (w s : Nat) :
    WL_Solution.conflictCount I σ w s ≤ I.stores := by
  unfold WL_Solution.conflictCount
  calc _ ≤ (Finset.range I.stores).card := Finset.card_filter_le _ _
    _ = I.stores := Finset.card_range _

/-- How the conflict count of `(w, s)` responds when only the entry `supply[s0][w0]`
changes: it moves by one exactly when the entry crosses zero, `w = w0`, `s ≠ s0` and the
two stores are incompatible. -/
theorem conflictCount_change (I : WL_Instance) (σ τ : WL_Solution) (s0 w0 w s : Nat)
    (hs0 : s0 < I.stores)
    (hother : ∀ a b, ¬ (a = s0 ∧ b = w0) → τ.supply a b = σ.supply a b) :
    (w = w0 ∧ s ≠ s0 ∧ I.incompatible s s0 = true ∧ σ.supply s0 w0 = 0 ∧ 0 < τ.supply s0 w0 →
      WL_Solution.conflictCount I τ w s = WL_Solution.conflictCount I σ w s + 1) ∧
    (w = w0 ∧ s ≠ s0 ∧ I.incompatible s s0 = true ∧ 0 < σ.supply s0 w0 ∧ τ.supply s0 w0 = 0 →
      WL_Solution.conflictCount I σ w s = WL_Solution.conflictCount I τ w s + 1) ∧
    (w ≠ w0 ∨ s = s0 ∨ I.incompatible s s0 = false ∨
        (0 < σ.supply s0 w0 ↔ 0 < τ.supply s0 w0) →
      WL_Solution.conflictCount I τ w s = WL_Solution.conflictCount I σ w s) := by
  unfold WL_Solution.conflictCount
  refine ⟨?_, ?_, ?_⟩
  · rintro ⟨rfl, hne, hinc, hz, hpos⟩
    apply card_filter_flip _ s0 _ _ hs0
    · simp [hz]
    · exact ⟨fun h => hne h.symm, hpos, hinc⟩
    · intro x hx
      rw [hother x w (by simp [hx])]
  · rintro ⟨rfl, hne, hinc, hpos, hz⟩
    apply card_filter_flip _ s0 _ _ hs0
    · simp [hz]
    · exact ⟨fun h => hne h.symm, hpos, hinc⟩
    · intro x hx
      rw [hother x w (by simp [hx])]
  · intro hcase
    apply card_filter_same
    intro x _
    by_cases hx : x = s0 ∧ w = w0
    · obtain ⟨rfl, rfl⟩ := hx
      rcases hcase with h | h | h | h
      · exact absurd rfl h
      · subst h; simp
      · simp [h]
      · rw [h]
    · rw [hother x w hx]

/-- Claim C4, as amended: on an instance whose `incompatible` matrix is symmetric and
irreflexive, in a state where `incompatibilities[w][s]` equals the number of stores
`s2 != s` with `supply[s2][w] > 0` and `incompatible[s][s2]` for all `w`, `s`, the same
equality holds after `Assign(s0, w0, q)` with `q > 0` and `supply[s0][w0] + q` fitting an
`unsigned`, and after `RevokeAssignment(s0, w0, q)` with `q <= supply[s0][w0]` and
`supply[s0][w0] > 0`. -/
theorem incompatInv_preserved (I : WL_Instance) (σ : WL_Solution) (s0 w0 q : Nat)
    (hInv : WL_Solution.IncompatInv I σ) (hsym : I.IncompatSymm) (hirr : I.IncompatIrrefl)
    (hs0 : s0 < I.stores) (hS : I.stores < 4294967296) :
    (0 < q → σ.supply s0 w0 + q < 4294967296 →
        WL_Solution.IncompatInv I (WL_Solution.Assign I σ s0 w0 q)) ∧
    (q ≤ σ.supply s0 w0 → 0 < σ.supply s0 w0 → σ.supply s0 w0 < 4294967296 →
        WL_Solution.IncompatInv I (WL_Solution.RevokeAssignment I σ s0 w0 q)) := by
  refine ⟨fun hq hfit => ?_, fun hq hpos hty => ?_⟩
  · intro w s hw hs
    have hnew : (WL_Solution.Assign I σ s0 w0 q).supply s0 w0 = σ.supply s0 w0 + q := by
      simp [WL_Solution.Assign, uadd_eq_add hfit]
    have hother : ∀ a b, ¬ (a = s0 ∧ b = w0) →
        (WL_Solution.Assign I σ s0 w0 q).supply a b = σ.supply a b := by
      intro a b hab; simp [WL_Solution.Assign, hab]
    obtain ⟨hup, -, hsame⟩ :=
      conflictCount_change I σ (WL_Solution.Assign I σ s0 w0 q) s0 w0 w s hs0 hother
    have hle := conflictCount_le I (WL_Solution.Assign I σ s0 w0 q) w s
    rw [hnew] at hup hsame
    by_cases h0 : σ.supply s0 w0 = 0
    · have hinc : (WL_Solution.Assign I σ s0 w0 q).incompatibilities w s
          = if w = w0 ∧ s < I.stores ∧ I.incompatible s0 s = true
            then uadd (σ.incompatibilities w s) 1 else σ.incompatibilities w s := by
        simp only [WL_Solution.Assign, h0, if_true]
        exact incrIncompat_apply I _ s0 w0 w s
      rw [hinc, hInv w s hw hs]
      by_cases hc : w = w0 ∧ s < I.stores ∧ I.incompatible s0 s = true
      · rw [if_pos hc]
        obtain ⟨hw0, -, hi⟩ := hc
        have hne : s ≠ s0 := by
          rintro rfl
          rw [hirr s hs] at hi
          exact Bool.false_ne_true hi
        have hi2 : I.incompatible s s0 = true := by rw [hsym s s0 hs hs0]; exact hi
        have := hup ⟨hw0, hne, hi2, h0, by omega⟩
        rw [this, uadd_eq_add (by omega)]
      · rw [if_neg hc]
        symm
        apply hsame
        by_cases hw0 : w = w0
        · right; right; left
          have : ¬ I.incompatible s0 s = true := fun h => hc ⟨hw0, hs, h⟩
          rw [hsym s s0 hs hs0]
          simpa using this
        · exact Or.inl hw0
    · have hinc : (WL_Solution.Assign I σ s0 w0 q).incompatibilities w s
          = σ.incompatibilities w s := by
        simp only [WL_Solution.Assign, h0, if_false]
      rw [hinc, hInv w s hw hs]
      symm
      apply hsame
      right; right; right
      constructor <;> intro <;> omega
  · intro w s hw hs
    have hsub : usub (σ.supply s0 w0) q = σ.supply s0 w0 - q := usub_eq_sub hq hty
    have hnew : (WL_Solution.RevokeAssignment I σ s0 w0 q).supply s0 w0
        = σ.supply s0 w0 - q := by
      simp [WL_Solution.RevokeAssignment, hsub]
    have hother : ∀ a b, ¬ (a = s0 ∧ b = w0) →
        (WL_Solution.RevokeAssignment I σ s0 w0 q).supply a b = σ.supply a b := by
      intro a b hab; simp [WL_Solution.RevokeAssignment, hab]
    obtain ⟨-, hdown, hsame⟩ :=
      conflictCount_change I σ (WL_Solution.RevokeAssignment I σ s0 w0 q) s0 w0 w s hs0 hother
    have hle := conflictCount_le I σ w s
    rw [hnew] at hdown hsame
    by_cases h0 : σ.supply s0 w0 - q = 0
    · have hinc : (WL_Solution.RevokeAssignment I σ s0 w0 q).incompatibilities w s
          = if w = w0 ∧ s < I.stores ∧ I.incompatible s0 s = true
            then usub (σ.incompatibilities w s) 1 else σ.incompatibilities w s := by
        simp only [WL_Solution.RevokeAssignment, hsub, h0, if_true]
        exact decrIncompat_apply I _ s0 w0 w s
      rw [hinc, hInv w s hw hs]
      by_cases hc : w = w0 ∧ s < I.stores ∧ I.incompatible s0 s = true
      · rw [if_pos hc]
        obtain ⟨hw0, -, hi⟩ := hc
        have hne : s ≠ s0 := by
          rintro rfl
          rw [hirr s hs] at hi
          exact Bool.false_ne_true hi
        have hi2 : I.incompatible s s0 = true := by rw [hsym s s0 hs hs0]; exact hi
        have := hdown ⟨hw0, hne, hi2, hpos, h0⟩
        rw [this, usub_eq_sub (by omega) (by omega)]
        omega
      · rw [if_neg hc]
        symm
        apply hsame
        by_cases hw0 : w = w0
        · right; right; left
          have : ¬ I.incompatible s0 s = true := fun h => hc ⟨hw0, hs, h⟩
          rw [hsym s s0 hs hs0]
          simpa using this
        · exact Or.inl hw0
    · have hinc : (WL_Solution.RevokeAssignment I σ s0 w0 q).incompatibilities w s
          = σ.incompatibilities w s := by
        simp only [WL_Solution.RevokeAssignment, hsub, h0, if_false]
      rw [hinc, hInv w s hw hs]
      symm
      apply hsame
      right; right; right
      constructor <;> intro <;> omega

theorem incompatInv_create (I : WL_Instance) :
    WL_Solution.IncompatInv I (WL_Solution.create I) := by
  intro w s _ _
  simp [WL_Solution.conflictCount, WL_Solution.create]

theorem instE3_symm : instE3.IncompatSymm := by
  intro a b ha hb
  have ha2 : a < 2 := ha
  have hb2 : b < 2 := hb
  interval_cases a <;> interval_cases b <;> rfl

theorem instE3_irrefl : instE3.IncompatIrrefl := by
  intro a ha
  have ha2 : a < 2 := ha
  interval_cases a <;> rfl

/-- Witness for C4: the amended statement applies to the empty solution of scenario E3
(assign 3 units) and to the state after that assignment (revoke them). -/
theorem incompatInv_preserved_witness :
    WL_Solution.IncompatInv instE3
        (WL_Solution.Assign instE3 (WL_Solution.create instE3) 0 0 3) ∧
    WL_Solution.IncompatInv instE3
        (WL_Solution.RevokeAssignment instE3
          (WL_Solution.Assign instE3 (WL_Solution.create instE3) 0 0 3) 0 0 3) :=
  have h1 := (incompatInv_preserved instE3 (WL_Solution.create instE3) 0 0 3
    (incompatInv_create instE3) instE3_symm instE3_irrefl (by decide) (by decide)).1
    (by decide) (by decide)
  ⟨h1, (incompatInv_preserved instE3 _ 0 0 3 h1 instE3_symm instE3_irrefl (by decide)
    (by decide)).2 (by decide) (by decide) (by decide)⟩

/-- Counterexample to C4 as stated: on the empty solution of scenario E3 the equality
holds; `Assign(0, 0, 0)` raises `incompatibilities[0][1]` to 1 while no store is supplied,
and `RevokeAssignment(0, 0, 0)` wraps it to `2^32 - 1`. On the input with the pair
`(0, 0)`, `Assign(0, 0, 5)` raises `incompatibilities[0][0]` to 1 although no store other
than 0 exists. -/
theorem incompatInv_counterexample :
    WL_Solution.IncompatInv instE3 (WL_Solution.create instE3) ∧
    ¬ WL_Solution.IncompatInv instE3
        (WL_Solution.Assign instE3 (WL_Solution.create instE3) 0 0 0) ∧
    ¬ WL_Solution.IncompatInv instE3
        (WL_Solution.RevokeAssignment instE3 (WL_Solution.create instE3) 0 0 0) ∧
    WL_Solution.IncompatInv instSelfPair (WL_Solution.create instSelfPair) ∧
    ¬ WL_Solution.IncompatInv instSelfPair
        (WL_Solution.Assign instSelfPair (WL_Solution.create instSelfPair) 0 0 5) := by
  refine ⟨incompatInv_create _, ?_, ?_, incompatInv_create _, ?_⟩
  · intro h
    exact absurd (h 0 1 (by decide) (by decide)) (by decide)
  · intro h
    exact absurd (h 0 1 (by decide) (by decide)) (by decide)
  · intro h
    exact absurd (h 0 0 (by decide) (by decide)) (by decide)


/-! ## The reduced instance -/

theorem reduced_snoc (I : WL_Instance) (pattern : List Supply) (p : Supply) :
    I.reduced (pattern ++ [p]) = (I.reduced pattern).reduceStep p := by
  unfold WL_Instance.reduced
  rw [List.foldl_append]
  rfl

theorem reduced_nil (I : WL_Instance) :
    I.reduced [] = { I with reduction_opening_cost := 0, reduction_supply_cost := 0 } := rfl

theorem reduced_frame (I : WL_Instance) (pattern : List Supply) :
    (I.reduced pattern).stores = I.stores ∧
    (I.reduced pattern).warehouses = I.warehouses ∧
    (I.reduced pattern).supply_cost = I.supply_cost ∧
    (I.reduced pattern).incompatible = I.incompatible ∧
    (I.reduced pattern).store_incompatibilities = I.store_incompatibilities := by
  induction pattern using List.reverseRecOn with
  | nil => exact ⟨rfl, rfl, rfl, rfl, rfl⟩
  | append_singleton l p ih =>
    rw [reduced_snoc]
    exact ih

theorem usub_usub (c a b : Nat) : usub (usub c a) b = usub c (a + b) := by
  unfold usub; omega

theorem usub_zero {c : Nat} (h : c < 4294967296) : usub c 0 = c := by
  unfold usub; omega

theorem patternLoad_snoc (l : List Supply) (p : Supply) (w : Nat) :
    patternLoad (l ++ [p]) w = patternLoad l w + (if p.w = w then p.q else 0) := by
  unfold patternLoad
  by_cases h : p.w = w <;> simp [List.filter_append, List.filter_cons, h]

theorem patternDemand_snoc (l : List Supply) (p : Supply) (s : Nat) :
    patternDemand (l ++ [p]) s = patternDemand l s + (if p.s = s then p.q else 0) := by
  unfold patternDemand
  by_cases h : p.s = s <;> simp [List.filter_append, List.filter_cons, h]

theorem reduced_capacity (I : WL_Instance) (pattern : List Supply) (w : Nat)
    (hc : I.capacity w < 4294967296) :
    (I.reduced pattern).capacity w = usub (I.capacity w) (patternLoad pattern w) := by
  induction pattern using List.reverseRecOn with
  | nil => simp [reduced_nil, patternLoad, usub_zero hc]
  | append_singleton l p ih =>
    rw [reduced_snoc, patternLoad_snoc]
    simp only [WL_Instance.reduceStep, set1_apply]
    by_cases h : w = p.w
    · subst h
      simp only [if_true, ih, usub_usub]
    · rw [if_neg h, if_neg (fun h2 => h h2.symm), ih, Nat.add_zero]

theorem reduced_amount (I : WL_Instance) (pattern : List Supply) (s : Nat)
    (hc : I.amount_of_goods s < 4294967296) :
    (I.reduced pattern).amount_of_goods s
      = usub (I.amount_of_goods s) (patternDemand pattern s) := by
  induction pattern using List.reverseRecOn with
  | nil => simp [reduced_nil, patternDemand, usub_zero hc]
  | append_singleton l p ih =>
    rw [reduced_snoc, patternDemand_snoc]
    simp only [WL_Instance.reduceStep, set1_apply]
    by_cases h : s = p.s
    · subst h
      simp only [if_true, ih, usub_usub]
    · rw [if_neg h, if_neg (fun h2 => h h2.symm), ih, Nat.add_zero]

theorem reduced_fixed_cost (I : WL_Instance) (pattern : List Supply) (w : Nat) :
    (I.reduced pattern).fixed_cost w
      = if w ∈ pattern.map (fun p => p.w) then 0 else I.fixed_cost w := by
  induction pattern using List.reverseRecOn with
  | nil => simp [reduced_nil]
  | append_singleton l p ih =>
    rw [reduced_snoc]
    simp only [WL_Instance.reduceStep, set1_apply, ih, List.map_append, List.mem_append,
      List.map_cons, List.map_nil, List.mem_singleton]
    by_cases h : w = p.w
    · simp [h]
    · simp [h]

theorem patternOpeningCost_snoc (I : WL_Instance) (l : List Supply) (p : Supply) :
    patternOpeningCost I (l ++ [p])
      = patternOpeningCost I l
        + (if p.w ∈ l.map (fun p => p.w) then 0 else I.fixed_cost p.w) := by
  unfold patternOpeningCost
  rw [List.map_append, List.toFinset_append]
  simp only [List.map_cons, List.map_nil, List.toFinset_cons, List.toFinset_nil,
    insert_emptyc_eq]
  by_cases h : p.w ∈ l.map (fun p => p.w)
  · rw [if_pos h]
    have : (l.map (fun p => p.w)).toFinset ∪ {p.w} = (l.map (fun p => p.w)).toFinset := by
      apply Finset.union_eq_left.mpr
      simpa using h
    rw [this, Nat.add_zero]
  · rw [if_neg h]
    have hd : Disjoint (l.map (fun p => p.w)).toFinset {p.w} := by
      simpa using h
    rw [Finset.sum_union hd, Finset.sum_singleton]

theorem reduced_opening (I : WL_Instance) (pattern : List Supply) :
    (I.reduced pattern).reduction_opening_cost
      = patternOpeningCost I pattern % 4294967296 := by
  induction pattern using List.reverseRecOn with
  | nil => simp [reduced_nil, patternOpeningCost]
  | append_singleton l p ih =>
    rw [reduced_snoc, patternOpeningCost_snoc]
    simp only [WL_Instance.reduceStep, ih, reduced_fixed_cost]
    by_cases h : p.w ∈ l.map (fun p => p.w)
    · rw [if_pos h]
      unfold uadd; omega
    · rw [if_neg h]
      unfold uadd; omega

theorem reduced_capacity_of_not_mem (I : WL_Instance) (pattern : List Supply) (w : Nat)
    (hnot : w ∉ pattern.map (fun p => p.w)) :
    (I.reduced pattern).capacity w = I.capacity w := by
  induction pattern using List.reverseRecOn with
  | nil => rfl
  | append_singleton l p ih =>
    rw [reduced_snoc]
    simp only [WL_Instance.reduceStep, set1_apply]
    have hp : w ≠ p.w := by
      intro h; apply hnot; simp [h]
    rw [if_neg hp]
    apply ih
    intro hmem; apply hnot
    rw [List.map_append, List.mem_append]; exact Or.inl hmem

theorem reduced_supply (I : WL_Instance) (pattern : List Supply) :
    (I.reduced pattern).reduction_supply_cost = patternSupplyCost I pattern := by
  induction pattern using List.reverseRecOn with
  | nil => simp [reduced_nil, patternSupplyCost]
  | append_singleton l p ih =>
    rw [reduced_snoc]
    simp only [WL_Instance.reduceStep, ih, (reduced_frame I l).2.2.1]
    simp [patternSupplyCost]

theorem reduced_w_incompatible (I : WL_Instance) (pattern : List Supply) (w s2 : Nat) :
    (I.reduced pattern).w_incompatible w s2 = true ↔
      I.w_incompatible w s2 = true ∨
      (s2 < I.stores ∧ ∃ p, p ∈ pattern ∧ p.w = w ∧ I.incompatible p.s s2 = true) := by
  induction pattern using List.reverseRecOn with
  | nil => simp [reduced_nil]
  | append_singleton l p ih =>
    rw [reduced_snoc]
    simp only [WL_Instance.reduceStep]
    rw [markIncompatible_apply, (reduced_frame I l).1, (reduced_frame I l).2.2.2.1]
    by_cases hc : w = p.w ∧ s2 < I.stores ∧ I.incompatible p.s s2 = true
    · rw [if_pos hc]
      simp only [true_iff]
      exact Or.inr ⟨hc.2.1, p, by simp, hc.1.symm, hc.2.2⟩
    · rw [if_neg hc, ih]
      constructor
      · rintro (h | ⟨h1, q, hq, h2, h3⟩)
        · exact Or.inl h
        · exact Or.inr ⟨h1, q, by simp [hq], h2, h3⟩
      · rintro (h | ⟨h1, q, hq, h2, h3⟩)
        · exact Or.inl h
        · rw [List.mem_append, List.mem_singleton] at hq
          rcases hq with hq | rfl
          · exact Or.inr ⟨h1, q, hq, h2, h3⟩
          · exact absurd ⟨h2.symm, h1, h3⟩ hc

/-- The fields of the reduced instance in exact arithmetic: for a base instance whose data fit the machine type and any pattern, the
reduced instance has `capacity[w]` equal to the base capacity minus the pattern's usage of
`w`, `demand[s]` equal to the base demand minus the pattern's usage for `s` (`unsigned`
subtraction, which is the plain difference whenever the usage does not exceed the base
value), `fixed_cost[w] = 0` on pattern warehouses, `reduction_opening_cost` the sum of
the base fixed costs of the distinct pattern warehouses (as an `unsigned`),
`reduction_supply_cost` the sum of `supply_cost[s][w] * q` over the entries,
`w_incompatible[w][s2]` true exactly where the base has it or `s2` is incompatible with a
pattern store at `w`; sizes, supply costs, the incompatibility matrix, the pair list, and
the fixed costs and capacities of the other warehouses are unchanged. -/
theorem reduced_fields (I : WL_Instance) (pattern : List Supply) (hT : I.Typed) :
    (∀ w, w < I.warehouses →
      (I.reduced pattern).capacity w = usub (I.capacity w) (patternLoad pattern w) ∧
      (patternLoad pattern w ≤ I.capacity w →
        (I.reduced pattern).capacity w = I.capacity w - patternLoad pattern w)) ∧
    (∀ s, s < I.stores →
      (I.reduced pattern).amount_of_goods s
        = usub (I.amount_of_goods s) (patternDemand pattern s) ∧
      (patternDemand pattern s ≤ I.amount_of_goods s →
        (I.reduced pattern).amount_of_goods s
          = I.amount_of_goods s - patternDemand pattern s)) ∧
    (∀ p, p ∈ pattern → (I.reduced pattern).fixed_cost p.w = 0) ∧
    (I.reduced pattern).reduction_opening_cost = patternOpeningCost I pattern % 4294967296 ∧
    (I.reduced pattern).reduction_supply_cost = patternSupplyCost I pattern ∧
    (∀ w s2, (I.reduced pattern).w_incompatible w s2 = true ↔
      I.w_incompatible w s2 = true ∨
      (s2 < I.stores ∧ ∃ p, p ∈ pattern ∧ p.w = w ∧ I.incompatible p.s s2 = true)) ∧
    (I.reduced pattern).stores = I.stores ∧
    (I.reduced pattern).warehouses = I.warehouses ∧
    (I.reduced pattern).supply_cost = I.supply_cost ∧
    (I.reduced pattern).incompatible = I.incompatible ∧
    (I.reduced pattern).store_incompatibilities = I.store_incompatibilities ∧
    (∀ w, (∀ p, p ∈ pattern → p.w ≠ w) →
      (I.reduced pattern).fixed_cost w = I.fixed_cost w ∧
      (I.reduced pattern).capacity w = I.capacity w) := by
  obtain ⟨f1, f2, f3, f4, f5⟩ := reduced_frame I pattern
  refine ⟨?_, ?_, ?_, reduced_opening I pattern, reduced_supply I pattern,
    reduced_w_incompatible I pattern, f1, f2, f3, f4, f5, ?_⟩
  · intro w hw
    have h := reduced_capacity I pattern w (hT.capacity w hw)
    refine ⟨h, fun hle => ?_⟩
    rw [h, usub_eq_sub hle (hT.capacity w hw)]
  · intro s hs
    have h := reduced_amount I pattern s (hT.amount_of_goods s hs)
    refine ⟨h, fun hle => ?_⟩
    rw [h, usub_eq_sub hle (hT.amount_of_goods s hs)]
  · intro p hp
    rw [reduced_fixed_cost, if_pos (List.mem_map.mpr ⟨p, hp, rfl⟩)]
  · intro w hw
    have hnot : w ∉ pattern.map (fun p => p.w) := by
      intro hmem
      obtain ⟨p, hp, rfl⟩ := List.mem_map.mp hmem
      exact hw p hp rfl
    exact ⟨by rw [reduced_fixed_cost, if_neg hnot], reduced_capacity_of_not_mem I pattern w hnot⟩

theorem instE1_typed : instE1.Typed := by
  constructor
  · decide
  · decide
  · intro w hw
    have h1 : w < 1 := hw
    interval_cases w; decide
  · intro w hw
    have h1 : w < 1 := hw
    interval_cases w; decide
  · intro s hs
    have h1 : s < 1 := hs
    interval_cases s; decide
  · decide

/-- Claim C9 (scenario E6): on E1 with pattern `[(w=0, s=0, q=3)]` the reduced instance
has capacity `[7]`, demand `[4]`, fixed cost `[0]`, `reduction_opening_cost = 5` and
`reduction_supply_cost = 6`; the reduced solution assigning 4 units has cost 19; the
lifted solution has `supply[0][0] = 7` and cost 19. -/
theorem scenario_E6 :
    (instE1.reduced [⟨0, 0, 3⟩]).capacity 0 = 7 ∧
    (instE1.reduced [⟨0, 0, 3⟩]).amount_of_goods 0 = 4 ∧
    (instE1.reduced [⟨0, 0, 3⟩]).fixed_cost 0 = 0 ∧
    (instE1.reduced [⟨0, 0, 3⟩]).reduction_opening_cost = 5 ∧
    (instE1.reduced [⟨0, 0, 3⟩]).reduction_supply_cost = 6 ∧
    WL_Solution.Cost (instE1.reduced [⟨0, 0, 3⟩])
      (WL_Solution.Assign (instE1.reduced [⟨0, 0, 3⟩])
        (WL_Solution.create (instE1.reduced [⟨0, 0, 3⟩])) 0 0 4) = 19 ∧
    (liftSolution instE1
      (WL_Solution.Assign (instE1.reduced [⟨0, 0, 3⟩])
        (WL_Solution.create (instE1.reduced [⟨0, 0, 3⟩])) 0 0 4) [⟨0, 0, 3⟩]).supply 0 0 = 7 ∧
    WL_Solution.Cost instE1
      (liftSolution instE1
        (WL_Solution.Assign (instE1.reduced [⟨0, 0, 3⟩])
          (WL_Solution.create (instE1.reduced [⟨0, 0, 3⟩])) 0 0 4) [⟨0, 0, 3⟩]) = 19 := by
  refine ⟨by decide, by decide, by decide, by decide, ?_, ?_, by decide, ?_⟩
  · norm_num [WL_Instance.reduced, WL_Instance.reduceStep, instE1]
  · have h1 : WL_Solution.OpeningCost (instE1.reduced [⟨0, 0, 3⟩])
        (WL_Solution.Assign (instE1.reduced [⟨0, 0, 3⟩])
        (WL_Solution.create (instE1.reduced [⟨0, 0, 3⟩])) 0 0 4) = 5 := by decide
    unfold WL_Solution.Cost
    rw [h1]
    norm_num [WL_Solution.SupplyCost, WL_Solution.Assign, WL_Solution.create,
      WL_Instance.reduced, WL_Instance.reduceStep, instE1]
  · have h1 : WL_Solution.OpeningCost instE1
        (liftSolution instE1
          (WL_Solution.Assign (instE1.reduced [⟨0, 0, 3⟩])
            (WL_Solution.create (instE1.reduced [⟨0, 0, 3⟩])) 0 0 4) [⟨0, 0, 3⟩]) = 5 := by
      decide
    have h2 : liftSolution instE1
          (WL_Solution.Assign (instE1.reduced [⟨0, 0, 3⟩])
            (WL_Solution.create (instE1.reduced [⟨0, 0, 3⟩])) 0 0 4) [⟨0, 0, 3⟩]
        = WL_Solution.Assign instE1
            (WL_Solution.Assign instE1 (WL_Solution.create instE1) 0 0 4) 0 0 3 := rfl
    unfold WL_Solution.Cost
    rw [h1, h2]
    norm_num [WL_Solution.SupplyCost, WL_Solution.Assign, WL_Solution.create, instE1]


/-! ## Consistent states are preserved by `Assign` and `RevokeAssignment` -/

theorem sum_range_change_rat (n w : Nat) (f g : Nat → ℚ) (hw : w < n)
    (h : ∀ a, a ≠ w → a < n → g a = f a) :
    (Finset.range n).sum g = (Finset.range n).sum f + (g w - f w) := by
  have hmem : w ∈ Finset.range n := Finset.mem_range.mpr hw
  rw [← Finset.add_sum_erase _ g hmem, ← Finset.add_sum_erase _ f hmem]
  have : ((Finset.range n).erase w).sum g = ((Finset.range n).erase w).sum f := by
    apply Finset.sum_congr rfl
    intro a ha
    rw [Finset.mem_erase, Finset.mem_range] at ha
    exact h a ha.1 ha.2
  linarith

/-- The weighted sum responds to a change of the single entry `supply[s][w]`. -/
theorem weightedSupply_change (I : WL_Instance) (σ τ : WL_Solution) (s w : Nat)
    (hs : s < I.stores) (hw : w < I.warehouses)
    (hother : ∀ a b, ¬ (a = s ∧ b = w) → τ.supply a b = σ.supply a b) :
    WL_Solution.weightedSupply I τ
      = WL_Solution.weightedSupply I σ
        + I.supply_cost s w * ((τ.supply s w : ℚ) - (σ.supply s w : ℚ)) := by
  unfold WL_Solution.weightedSupply
  rw [sum_range_change_rat I.stores s
    (fun a => (Finset.range I.warehouses).sum (fun b => I.supply_cost a b * (σ.supply a b : ℚ)))
    (fun a => (Finset.range I.warehouses).sum (fun b => I.supply_cost a b * (τ.supply a b : ℚ)))
    hs]
  · rw [sum_range_change_rat I.warehouses w
      (fun b => I.supply_cost s b * (σ.supply s b : ℚ))
      (fun b => I.supply_cost s b * (τ.supply s b : ℚ)) hw]
    · ring
    · intro b hb _
      rw [hother s b (by simp [hb])]
  · intro a ha _
    apply Finset.sum_congr rfl
    intro b _
    rw [hother a b (by simp [ha])]

/-- The row sum of `s0` and the column sum of `w0` respond to a change of the single
entry `supply[s0][w0]`; the other rows and columns keep their sums. -/
theorem rowSum_change (I : WL_Instance) (σ τ : WL_Solution) (s0 w0 s : Nat)
    (hw0 : w0 < I.warehouses)
    (hother : ∀ a b, ¬ (a = s0 ∧ b = w0) → τ.supply a b = σ.supply a b) :
    (Finset.range I.warehouses).sum (fun w => τ.supply s w)
        + (if s = s0 then σ.supply s0 w0 else 0)
      = (Finset.range I.warehouses).sum (fun w => σ.supply s w)
        + (if s = s0 then τ.supply s0 w0 else 0) := by
  by_cases h : s = s0
  · subst h
    rw [if_pos rfl, if_pos rfl]
    exact sum_range_change I.warehouses w0 (fun w => σ.supply s w) (fun w => τ.supply s w) hw0
      (by intro b hb _; exact hother s b (by simp [hb]))
  · rw [if_neg h, if_neg h, Nat.add_zero, Nat.add_zero]
    apply Finset.sum_congr rfl
    intro b _
    exact hother s b (by simp [h])

theorem colSum_change (I : WL_Instance) (σ τ : WL_Solution) (s0 w0 w : Nat)
    (hs0 : s0 < I.stores)
    (hother : ∀ a b, ¬ (a = s0 ∧ b = w0) → τ.supply a b = σ.supply a b) :
    (Finset.range I.stores).sum (fun s => τ.supply s w)
        + (if w = w0 then σ.supply s0 w0 else 0)
      = (Finset.range I.stores).sum (fun s => σ.supply s w)
        + (if w = w0 then τ.supply s0 w0 else 0) := by
  by_cases h : w = w0
  · subst h
    rw [if_pos rfl, if_pos rfl]
    exact sum_range_change I.stores s0 (fun s => σ.supply s w) (fun s => τ.supply s w) hs0
      (by intro a ha _; exact hother a w (by simp [ha]))
  · rw [if_neg h, if_neg h, Nat.add_zero, Nat.add_zero]
    apply Finset.sum_congr rfl
    intro a _
    exact hother a w (by simp [h])

/-- How the counter target of `(w, s)` responds when only the entry `supply[s0][w0]`
changes. -/
theorem conflictsAt_change (I : WL_Instance) (σ τ : WL_Solution) (s0 w0 w s : Nat)
    (hs0 : s0 < I.stores)
    (hother : ∀ a b, ¬ (a = s0 ∧ b = w0) → τ.supply a b = σ.supply a b) :
    (w = w0 ∧ I.incompatible s0 s = true ∧ σ.supply s0 w0 = 0 ∧ 0 < τ.supply s0 w0 →
      WL_Solution.conflictsAt I τ w s = WL_Solution.conflictsAt I σ w s + 1) ∧
    (w = w0 ∧ I.incompatible s0 s = true ∧ 0 < σ.supply s0 w0 ∧ τ.supply s0 w0 = 0 →
      WL_Solution.conflictsAt I σ w s = WL_Solution.conflictsAt I τ w s + 1) ∧
    (w ≠ w0 ∨ I.incompatible s0 s = false ∨ (0 < σ.supply s0 w0 ↔ 0 < τ.supply s0 w0) →
      WL_Solution.conflictsAt I τ w s = WL_Solution.conflictsAt I σ w s) := by
  unfold WL_Solution.conflictsAt
  refine ⟨?_, ?_, ?_⟩
  · rintro ⟨rfl, hinc, hz, hpos⟩
    apply card_filter_flip _ s0 _ _ hs0
    · simp [hz]
    · exact ⟨hpos, hinc⟩
    · intro x hx
      rw [hother x w (by simp [hx])]
  · rintro ⟨rfl, hinc, hpos, hz⟩
    apply card_filter_flip _ s0 _ _ hs0
    · simp [hz]
    · exact ⟨hpos, hinc⟩
    · intro x hx
      rw [hother x w (by simp [hx])]
  · intro hcase
    apply card_filter_same
    intro x _
    by_cases hx : x = s0 ∧ w = w0
    · obtain ⟨rfl, rfl⟩ := hx
      rcases hcase with h | h | h
      · exact absurd rfl h
      · simp [h]
      · rw [h]
    · rw [hother x w hx]

theorem conflictsAt_le (I : WL_Instance) (σ : WL_Solution) (w s : Nat) :
    WL_Solution.conflictsAt I σ w s ≤ I.stores := by
  unfold WL_Solution.conflictsAt
  calc _ ≤ (Finset.range I.stores).card := Finset.card_filter_le _ _
    _ = I.stores := Finset.card_range _

theorem supply_le_load (I : WL_Instance) (σ : WL_Solution) (hL : WL_Solution.LoadInv I σ)
    {s w : Nat} (hs : s < I.stores) (hw : w < I.warehouses) : σ.supply s w ≤ σ.load w := by
  rw [hL w hw]
  exact Finset.single_le_sum (f := fun s => σ.supply s w) (fun _ _ => Nat.zero_le _)
    (Finset.mem_range.mpr hs)

theorem supply_le_assigned (I : WL_Instance) (σ : WL_Solution)
    (hA : WL_Solution.AssignedInv I σ)
    {s w : Nat} (hs : s < I.stores) (hw : w < I.warehouses) :
    σ.supply s w ≤ σ.assigned_goods s := by
  rw [hA s hs]
  exact Finset.single_le_sum (f := fun w => σ.supply s w) (fun _ _ => Nat.zero_le _)
    (Finset.mem_range.mpr hw)

theorem nodup_setInsert {l : List Nat} (x : Nat) (h : l.Nodup) : (setInsert l x).Nodup := by
  unfold setInsert
  split
  · exact h
  · rename_i hx
    rw [List.nodup_append]
    refine ⟨h, List.nodup_singleton x, ?_⟩
    intro a ha hb
    rw [List.mem_singleton] at hb
    subst hb
    exact hx ha

theorem nodup_setErase {l : List Nat} (x : Nat) (h : l.Nodup) : (setErase l x).Nodup :=
  h.filter _

theorem consistent_create (I : WL_Instance) :
    WL_Solution.Consistent I (WL_Solution.create I) := by
  refine ⟨typed_create I, ?_, ?_, suppliedStoresInv_create I, ?_, ?_, ?_, ?_⟩
  · intro s _; simp [WL_Solution.create]
  · intro w _; simp [WL_Solution.create]
  · intro w _; simp [WL_Solution.create]
  · intro w s _ _; simp [WL_Solution.conflictsAt, WL_Solution.create]
  · simp [WL_Solution.openingSum, WL_Solution.create]
  · simp [WL_Solution.SupplyCostInv, WL_Solution.weightedSupply, WL_Solution.create]

/-- The cached opening cost, read as an `unsigned`, follows the loads through `Assign`. -/
theorem openingMod_assign (I : WL_Instance) (σ : WL_Solution) (s w q : Nat)
    (hInv : σ.opening_cost = WL_Solution.openingSum I σ % 4294967296)
    (hw : w < I.warehouses) (hq : 0 < q) (hfit : σ.load w + q < 4294967296) :
    (WL_Solution.Assign I σ s w q).opening_cost
      = WL_Solution.openingSum I (WL_Solution.Assign I σ s w q) % 4294967296 := by
  have hl : uadd (σ.load w) q = σ.load w + q := uadd_eq_add hfit
  have hgw : (WL_Solution.Assign I σ s w q).load w = σ.load w + q := by
    simp [WL_Solution.Assign, hl]
  have hch := openingSum_change I σ (WL_Solution.Assign I σ s w q) w hw
    (by intro a ha _; simp [WL_Solution.Assign, ha])
  rw [hgw, if_pos (by omega : 0 < σ.load w + q)] at hch
  by_cases h0 : σ.load w = 0
  · rw [if_neg (by omega)] at hch
    have hoc : (WL_Solution.Assign I σ s w q).opening_cost
        = uadd σ.opening_cost (I.fixed_cost w) := by simp [WL_Solution.Assign, h0]
    rw [hoc, hInv]
    unfold uadd
    omega
  · rw [if_pos (by omega)] at hch
    have hoc : (WL_Solution.Assign I σ s w q).opening_cost = σ.opening_cost := by
      simp [WL_Solution.Assign, h0]
    rw [hoc, hInv]
    omega

/-- The cached opening cost, read as an `unsigned`, follows the loads through
`RevokeAssignment`. -/
theorem openingMod_revoke (I : WL_Instance) (σ : WL_Solution) (s w q : Nat)
    (hInv : σ.opening_cost = WL_Solution.openingSum I σ % 4294967296)
    (hw : w < I.warehouses) (hq : q ≤ σ.load w) (hpos : 0 < σ.load w)
    (hty : σ.load w < 4294967296) :
    (WL_Solution.RevokeAssignment I σ s w q).opening_cost
      = WL_Solution.openingSum I (WL_Solution.RevokeAssignment I σ s w q) % 4294967296 := by
  have hl : usub (σ.load w) q = σ.load w - q := usub_eq_sub hq hty
  have hgw : (WL_Solution.RevokeAssignment I σ s w q).load w = σ.load w - q := by
    simp [WL_Solution.RevokeAssignment, hl]
  have hch := openingSum_change I σ (WL_Solution.RevokeAssignment I σ s w q) w hw
    (by intro a ha _; simp [WL_Solution.RevokeAssignment, ha])
  rw [hgw, if_pos hpos] at hch
  by_cases h0 : σ.load w - q = 0
  · rw [if_neg (by omega)] at hch
    have hoc : (WL_Solution.RevokeAssignment I σ s w q).opening_cost
        = usub σ.opening_cost (I.fixed_cost w) := by
      simp [WL_Solution.RevokeAssignment, hl, h0]
    rw [hoc, hInv]
    unfold usub
    omega
  · rw [if_pos (by omega)] at hch
    have hoc : (WL_Solution.RevokeAssignment I σ s w q).opening_cost = σ.opening_cost := by
      simp [WL_Solution.RevokeAssignment, hl, h0]
    rw [hoc, hInv]
    omega

/-- The fields written by `Assign(s0, w0, q)` when neither sum wraps. -/
theorem assign_fields (I : WL_Instance) (σ : WL_Solution) (s0 w0 q : Nat)
    (hsup : σ.supply s0 w0 + q < 4294967296) (hload : σ.load w0 + q < 4294967296)
    (hass : σ.assigned_goods s0 + q < 4294967296) :
    (∀ a b, (WL_Solution.Assign I σ s0 w0 q).supply a b
      = if a = s0 ∧ b = w0 then σ.supply s0 w0 + q else σ.supply a b) ∧
    (∀ b, (WL_Solution.Assign I σ s0 w0 q).load b
      = if b = w0 then σ.load w0 + q else σ.load b) ∧
    (∀ a, (WL_Solution.Assign I σ s0 w0 q).assigned_goods a
      = if a = s0 then σ.assigned_goods s0 + q else σ.assigned_goods a) := by
  refine ⟨?_, ?_, ?_⟩
  · intro a b; simp [WL_Solution.Assign, uadd_eq_add hsup]
  · intro b; simp [WL_Solution.Assign, uadd_eq_add hload]
  · intro a; simp [WL_Solution.Assign, uadd_eq_add hass]

/-- The fields written by `RevokeAssignment(s0, w0, q)` when nothing wraps. -/
theorem revoke_fields (I : WL_Instance) (σ : WL_Solution) (s0 w0 q : Nat)
    (hsup : q ≤ σ.supply s0 w0) (hsupT : σ.supply s0 w0 < 4294967296)
    (hload : q ≤ σ.load w0) (hloadT : σ.load w0 < 4294967296)
    (hass : q ≤ σ.assigned_goods s0) (hassT : σ.assigned_goods s0 < 4294967296) :
    (∀ a b, (WL_Solution.RevokeAssignment I σ s0 w0 q).supply a b
      = if a = s0 ∧ b = w0 then σ.supply s0 w0 - q else σ.supply a b) ∧
    (∀ b, (WL_Solution.RevokeAssignment I σ s0 w0 q).load b
      = if b = w0 then σ.load w0 - q else σ.load b) ∧
    (∀ a, (WL_Solution.RevokeAssignment I σ s0 w0 q).assigned_goods a
      = if a = s0 then σ.assigned_goods s0 - q else σ.assigned_goods a) := by
  refine ⟨?_, ?_, ?_⟩
  · intro a b; simp [WL_Solution.RevokeAssignment, usub_eq_sub hsup hsupT]
  · intro b; simp [WL_Solution.RevokeAssignment, usub_eq_sub hload hloadT]
  · intro a; simp [WL_Solution.RevokeAssignment, usub_eq_sub hass hassT]

/-- `Assign(s0, w0, q)` with `q > 0` keeps a state consistent when the new load and the
new assigned total fit an `unsigned`. -/
theorem assign_consistent (I : WL_Instance) (σ : WL_Solution) (s0 w0 q : Nat)
    (hS : I.stores < 4294967296)
    (hC : WL_Solution.Consistent I σ) (hs0 : s0 < I.stores) (hw0 : w0 < I.warehouses)
    (hq : 0 < q) (hload : σ.load w0 + q < 4294967296)
    (hass : σ.assigned_goods s0 + q < 4294967296) :
    WL_Solution.Consistent I (WL_Solution.Assign I σ s0 w0 q) := by
  have hsl := supply_le_load I σ hC.load hs0 hw0
  have hsup : σ.supply s0 w0 + q < 4294967296 := by omega
  obtain ⟨fs, fl, fa⟩ := assign_fields I σ s0 w0 q hsup hload hass
  have hother : ∀ a b, ¬ (a = s0 ∧ b = w0) →
      (WL_Solution.Assign I σ s0 w0 q).supply a b = σ.supply a b := by
    intro a b hab; rw [fs, if_neg hab]
  have hnew : (WL_Solution.Assign I σ s0 w0 q).supply s0 w0 = σ.supply s0 w0 + q := by
    rw [fs, if_pos ⟨rfl, rfl⟩]
  refine ⟨⟨?_, ?_, ?_, ?_, ?_⟩, ?_, ?_, ?_, ?_, ?_, ?_, ?_⟩
  · intro a b ha hb
    rw [fs]; split
    · exact hsup
    · exact hC.typed.supply a b ha hb
  · intro a ha
    rw [fa]; split
    · exact hass
    · exact hC.typed.assigned_goods a ha
  · intro b hb
    rw [fl]; split
    · exact hload
    · exact hC.typed.load b hb
  · intro b a hb ha
    simp only [WL_Solution.Assign]
    split
    · rw [incrIncompat_apply]; split
      · exact uadd_lt _ _
      · exact hC.typed.incompatibilities b a hb ha
    · exact hC.typed.incompatibilities b a hb ha
  · simp only [WL_Solution.Assign]
    split
    · exact uadd_lt _ _
    · exact hC.typed.opening_cost
  · -- assigned
    intro s hs
    have h := rowSum_change I σ (WL_Solution.Assign I σ s0 w0 q) s0 w0 s hw0 hother
    rw [hnew] at h
    rw [fa]
    have := hC.assigned s hs
    by_cases hss : s = s0
    · subst hss
      rw [if_pos rfl] at h ⊢
      rw [if_pos rfl] at h
      omega
    · rw [if_neg hss] at h ⊢
      rw [if_neg hss] at h
      omega
  · -- load
    intro w hw
    have h := colSum_change I σ (WL_Solution.Assign I σ s0 w0 q) s0 w0 w hs0 hother
    rw [hnew] at h
    rw [fl]
    have := hC.load w hw
    by_cases hww : w = w0
    · subst hww
      rw [if_pos rfl] at h ⊢
      rw [if_pos rfl] at h
      omega
    · rw [if_neg hww] at h ⊢
      rw [if_neg hww] at h
      omega
  · exact (suppliedStoresInv_step I σ s0 w0 q hC.stores hs0).1 hq hsup
  · intro w hw
    simp only [WL_Solution.Assign]
    split
    · rw [set1_apply]; split
      · rename_i hww; subst hww; exact nodup_setInsert _ (hC.nodup _ hw)
      · exact hC.nodup w hw
    · exact hC.nodup w hw
  · -- counters
    intro w s hw hs
    obtain ⟨hup, -, hsame⟩ :=
      conflictsAt_change I σ (WL_Solution.Assign I σ s0 w0 q) s0 w0 w s hs0 hother
    have hle := conflictsAt_le I (WL_Solution.Assign I σ s0 w0 q) w s
    rw [hnew] at hup hsame
    by_cases h0 : σ.supply s0 w0 = 0
    · have hinc : (WL_Solution.Assign I σ s0 w0 q).incompatibilities w s
          = if w = w0 ∧ s < I.stores ∧ I.incompatible s0 s = true
            then uadd (σ.incompatibilities w s) 1 else σ.incompatibilities w s := by
        simp only [WL_Solution.Assign, h0, if_true]
        exact incrIncompat_apply I _ s0 w0 w s
      rw [hinc, hC.counters w s hw hs]
      by_cases hc : w = w0 ∧ s < I.stores ∧ I.incompatible s0 s = true
      · rw [if_pos hc]
        have := hup ⟨hc.1, hc.2.2, h0, by omega⟩
        rw [this, uadd_eq_add (by omega)]
      · rw [if_neg hc]
        symm
        apply hsame
        by_cases hw0 : w = w0
        · right; left
          have : ¬ I.incompatible s0 s = true := fun h => hc ⟨hw0, hs, h⟩
          simpa using this
        · exact Or.inl hw0
    · have hinc : (WL_Solution.Assign I σ s0 w0 q).incompatibilities w s
          = σ.incompatibilities w s := by
        simp only [WL_Solution.Assign, h0, if_false]
      rw [hinc, hC.counters w s hw hs]
      symm
      apply hsame
      right; right
      constructor <;> intro <;> omega
  · exact openingMod_assign I σ s0 w0 q hC.opening hw0 hq hload
  · -- cost
    have h := weightedSupply_change I σ (WL_Solution.Assign I σ s0 w0 q) s0 w0 hs0 hw0 hother
    unfold WL_Solution.SupplyCostInv
    rw [h, hnew, ← hC.cost]
    simp only [WL_Solution.Assign]
    push_cast
    ring

/-- `RevokeAssignment(s0, w0, q)` with `q <= supply[s0][w0]` and `supply[s0][w0] > 0`
keeps a state consistent. -/
theorem revoke_consistent (I : WL_Instance) (σ : WL_Solution) (s0 w0 q : Nat)
    (hC : WL_Solution.Consistent I σ) (hs0 : s0 < I.stores) (hw0 : w0 < I.warehouses)
    (hq : q ≤ σ.supply s0 w0) (hpos : 0 < σ.supply s0 w0) :
    WL_Solution.Consistent I (WL_Solution.RevokeAssignment I σ s0 w0 q) := by
  have hsl := supply_le_load I σ hC.load hs0 hw0
  have hsa := supply_le_assigned I σ hC.assigned hs0 hw0
  have hsupT := hC.typed.supply s0 w0 hs0 hw0
  have hloadT := hC.typed.load w0 hw0
  have hassT := hC.typed.assigned_goods s0 hs0
  obtain ⟨fs, fl, fa⟩ := revoke_fields I σ s0 w0 q hq hsupT (by omega) hloadT (by omega) hassT
  have hsub : usub (σ.supply s0 w0) q = σ.supply s0 w0 - q := usub_eq_sub hq hsupT
  have hother : ∀ a b, ¬ (a = s0 ∧ b = w0) →
      (WL_Solution.RevokeAssignment I σ s0 w0 q).supply a b = σ.supply a b := by
    intro a b hab; rw [fs, if_neg hab]
  have hnew : (WL_Solution.RevokeAssignment I σ s0 w0 q).supply s0 w0
      = σ.supply s0 w0 - q := by
    rw [fs, if_pos ⟨rfl, rfl⟩]
  refine ⟨⟨?_, ?_, ?_, ?_, ?_⟩, ?_, ?_, ?_, ?_, ?_, ?_, ?_⟩
  · intro a b ha hb
    rw [fs]; split
    · omega
    · exact hC.typed.supply a b ha hb
  · intro a ha
    rw [fa]; split
    · omega
    · exact hC.typed.assigned_goods a ha
  · intro b hb
    rw [fl]; split
    · omega
    · exact hC.typed.load b hb
  · intro b a hb ha
    simp only [WL_Solution.RevokeAssignment]
    split
    · rw [decrIncompat_apply]; split
      · exact usub_lt _ _
      · exact hC.typed.incompatibilities b a hb ha
    · exact hC.typed.incompatibilities b a hb ha
  · simp only [WL_Solution.RevokeAssignment]
    split
    · exact usub_lt _ _
    · exact hC.typed.opening_cost
  · -- assigned
    intro s hs
    have h := rowSum_change I σ (WL_Solution.RevokeAssignment I σ s0 w0 q) s0 w0 s hw0 hother
    rw [hnew] at h
    rw [fa]
    have := hC.assigned s hs
    by_cases hss : s = s0
    · subst hss
      rw [if_pos rfl] at h ⊢
      rw [if_pos rfl] at h
      omega
    · rw [if_neg hss] at h ⊢
      rw [if_neg hss] at h
      omega
  · -- load
    intro w hw
    have h := colSum_change I σ (WL_Solution.RevokeAssignment I σ s0 w0 q) s0 w0 w hs0 hother
    rw [hnew] at h
    rw [fl]
    have := hC.load w hw
    by_cases hww : w = w0
    · subst hww
      rw [if_pos rfl] at h ⊢
      rw [if_pos rfl] at h
      omega
    · rw [if_neg hww] at h ⊢
      rw [if_neg hww] at h
      omega
  · exact (suppliedStoresInv_step I σ s0 w0 q hC.stores hs0).2 hq hsupT
  · intro w hw
    simp only [WL_Solution.RevokeAssignment]
    split
    · rw [set1_apply]; split
      · rename_i hww; subst hww; exact nodup_setErase _ (hC.nodup _ hw)
      · exact hC.nodup w hw
    · exact hC.nodup w hw
  · -- counters
    intro w s hw hs
    obtain ⟨-, hdown, hsame⟩ :=
      conflictsAt_change I σ (WL_Solution.RevokeAssignment I σ s0 w0 q) s0 w0 w s hs0 hother
    have hle := conflictsAt_le I σ w s
    have hT := hC.typed.incompatibilities w s hw hs
    rw [hnew] at hdown hsame
    by_cases h0 : σ.supply s0 w0 - q = 0
    · have hinc : (WL_Solution.RevokeAssignment I σ s0 w0 q).incompatibilities w s
          = if w = w0 ∧ s < I.stores ∧ I.incompatible s0 s = true
            then usub (σ.incompatibilities w s) 1 else σ.incompatibilities w s := by
        simp only [WL_Solution.RevokeAssignment, hsub, h0, if_true]
        exact decrIncompat_apply I _ s0 w0 w s
      rw [hinc]
      have hcw := hC.counters w s hw hs
      by_cases hc : w = w0 ∧ s < I.stores ∧ I.incompatible s0 s = true
      · rw [if_pos hc]
        have := hdown ⟨hc.1, hc.2.2, hpos, h0⟩
        rw [usub_eq_sub (by omega) hT]
        omega
      · rw [if_neg hc, hcw]
        symm
        apply hsame
        by_cases hw0 : w = w0
        · right; left
          have : ¬ I.incompatible s0 s = true := fun h => hc ⟨hw0, hs, h⟩
          simpa using this
        · exact Or.inl hw0
    · have hinc : (WL_Solution.RevokeAssignment I σ s0 w0 q).incompatibilities w s
          = σ.incompatibilities w s := by
        simp only [WL_Solution.RevokeAssignment, hsub, h0, if_false]
      rw [hinc, hC.counters w s hw hs]
      symm
      apply hsame
      right; right
      constructor <;> intro <;> omega
  · exact openingMod_revoke I σ s0 w0 q hC.opening hw0 (by omega) (by omega) hloadT
  · -- cost
    have h := weightedSupply_change I σ (WL_Solution.RevokeAssignment I σ s0 w0 q) s0 w0
      hs0 hw0 hother
    unfold WL_Solution.SupplyCostInv
    rw [h, hnew, ← hC.cost]
    simp only [WL_Solution.RevokeAssignment]
    rw [Nat.cast_sub hq]
    ring


/-! ## The lift of a reduced solution -/

theorem foldl_flatMap_eq {α β γ : Type} (f : α → List β) (g : γ → β → γ) (l : List α)
    (init : γ) :
    (l.flatMap f).foldl g init = l.foldl (fun acc x => (f x).foldl g acc) init := by
  induction l generalizing init with
  | nil => rfl
  | cons x xs ih => rw [List.flatMap_cons, List.foldl_append, ih]; rfl

theorem liftSolution_eq (I : WL_Instance) (σ : WL_Solution) (pattern : List Supply) :
    liftSolution I σ pattern
      = assignAll I (WL_Solution.create I) (copyList I σ ++ pattern) := by
  unfold liftSolution assignAll copyList
  rw [List.foldl_append, foldl_flatMap_eq]
  simp only [List.foldl_map]

theorem patternLoad_cons (p : Supply) (l : List Supply) (w : Nat) :
    patternLoad (p :: l) w = (if p.w = w then p.q else 0) + patternLoad l w := by
  unfold patternLoad
  by_cases h : p.w = w <;> simp [List.filter_cons, h]

theorem patternDemand_cons (p : Supply) (l : List Supply) (s : Nat) :
    patternDemand (p :: l) s = (if p.s = s then p.q else 0) + patternDemand l s := by
  unfold patternDemand
  by_cases h : p.s = s <;> simp [List.filter_cons, h]

theorem entryAt_cons (p : Supply) (l : List Supply) (s w : Nat) :
    entryAt (p :: l) s w = (if p.s = s ∧ p.w = w then p.q else 0) + entryAt l s w := by
  unfold entryAt
  by_cases h : p.s = s ∧ p.w = w <;> simp [List.filter_cons, h]

theorem entryAt_append (l1 l2 : List Supply) (s w : Nat) :
    entryAt (l1 ++ l2) s w = entryAt l1 s w + entryAt l2 s w := by
  unfold entryAt
  simp [List.filter_append]

theorem patternLoad_append (l1 l2 : List Supply) (w : Nat) :
    patternLoad (l1 ++ l2) w = patternLoad l1 w + patternLoad l2 w := by
  unfold patternLoad
  simp [List.filter_append]

theorem patternDemand_append (l1 l2 : List Supply) (s : Nat) :
    patternDemand (l1 ++ l2) s = patternDemand l1 s + patternDemand l2 s := by
  unfold patternDemand
  simp [List.filter_append]

/-- The usage of warehouse `w` by a list of in-range entries is the column sum of its
entries. -/
theorem patternLoad_eq_sum (n : Nat) (l : List Supply) (w : Nat)
    (h : ∀ p, p ∈ l → p.s < n) :
    patternLoad l w = (Finset.range n).sum (fun s => entryAt l s w) := by
  induction l with
  | nil => simp [patternLoad, entryAt]
  | cons p l ih =>
    rw [patternLoad_cons, ih (fun q hq => h q (List.mem_cons_of_mem _ hq))]
    simp only [entryAt_cons]
    rw [Finset.sum_add_distrib]
    congr 1
    have hp := h p (List.mem_cons_self _ _)
    by_cases hw : p.w = w
    · simp only [hw, and_true, if_true]
      rw [Finset.sum_ite_eq (Finset.range n) p.s (fun _ => p.q)]
      simp [hp]
    · simp [hw]

theorem patternDemand_eq_sum (n : Nat) (l : List Supply) (s : Nat)
    (h : ∀ p, p ∈ l → p.w < n) :
    patternDemand l s = (Finset.range n).sum (fun w => entryAt l s w) := by
  induction l with
  | nil => simp [patternDemand, entryAt]
  | cons p l ih =>
    rw [patternDemand_cons, ih (fun q hq => h q (List.mem_cons_of_mem _ hq))]
    simp only [entryAt_cons]
    rw [Finset.sum_add_distrib]
    congr 1
    have hp := h p (List.mem_cons_self _ _)
    by_cases hs : p.s = s
    · simp only [hs, true_and, if_true]
      rw [Finset.sum_ite_eq (Finset.range n) p.w (fun _ => p.q)]
      simp [hp]
    · simp [hs]

/-- A sequence of `Assign` calls that never exceeds a capacity or a demand keeps the state
consistent and adds each entry to its cell of `supply`. -/
theorem assignAll_spec (I : WL_Instance) (hI : I.Typed)
    (entries : List Supply) (σ : WL_Solution) (hC : WL_Solution.Consistent I σ)
    (hin : ∀ p, p ∈ entries → p.s < I.stores ∧ p.w < I.warehouses ∧ 0 < p.q)
    (hcap : ∀ w, w < I.warehouses → σ.load w + patternLoad entries w ≤ I.capacity w)
    (hdem : ∀ s, s < I.stores →
      σ.assigned_goods s + patternDemand entries s ≤ I.amount_of_goods s) :
    WL_Solution.Consistent I (assignAll I σ entries) ∧
    ∀ s w, (assignAll I σ entries).supply s w = σ.supply s w + entryAt entries s w := by
  induction entries generalizing σ with
  | nil =>
    refine ⟨hC, fun s w => ?_⟩
    simp [assignAll, entryAt]
  | cons p l ih =>
    obtain ⟨hps, hpw, hpq⟩ := hin p (List.mem_cons_self _ _)
    have hc := hcap p.w hpw
    have hd := hdem p.s hps
    rw [patternLoad_cons, if_pos rfl] at hc
    rw [patternDemand_cons, if_pos rfl] at hd
    have hcT := hI.capacity p.w hpw
    have hdT := hI.amount_of_goods p.s hps
    have hsl := supply_le_load I σ hC.load hps hpw
    have hC1 := assign_consistent I σ p.s p.w p.q (by have := hI.stores; omega) hC hps hpw hpq
      (by omega) (by omega)
    obtain ⟨fs, fl, fa⟩ := assign_fields I σ p.s p.w p.q (by omega) (by omega) (by omega)
    have := ih (WL_Solution.Assign I σ p.s p.w p.q) hC1
      (fun q hq => hin q (List.mem_cons_of_mem _ hq))
      (by
        intro w hw
        have := hcap w hw
        rw [patternLoad_cons] at this
        rw [fl]
        by_cases h : w = p.w
        · subst h; rw [if_pos rfl] at this ⊢; omega
        · rw [if_neg h]; rw [if_neg (fun h2 => h h2.symm)] at this; omega)
      (by
        intro s hs
        have := hdem s hs
        rw [patternDemand_cons] at this
        rw [fa]
        by_cases h : s = p.s
        · subst h; rw [if_pos rfl] at this ⊢; omega
        · rw [if_neg h]; rw [if_neg (fun h2 => h h2.symm)] at this; omega)
    refine ⟨this.1, fun s w => ?_⟩
    have h2 := this.2 s w
    unfold assignAll at h2 ⊢
    rw [List.foldl_cons, h2, fs, entryAt_cons]
    by_cases h : s = p.s ∧ w = p.w
    · obtain ⟨rfl, rfl⟩ := h
      simp only [and_self, if_true]; omega
    · rw [if_neg h, if_neg (fun h2 => h ⟨h2.1.symm, h2.2.symm⟩)]; omega

theorem entryAt_map_stores (l : List Nat) (hl : l.Nodup) (w0 : Nat) (f : Nat → Nat)
    (s w : Nat) :
    entryAt (l.map (fun s2 => (⟨w0, s2, f s2⟩ : Supply))) s w
      = if w0 = w ∧ s ∈ l then f s else 0 := by
  induction l with
  | nil => simp [entryAt]
  | cons x xs ih =>
    rw [List.map_cons, entryAt_cons, ih (List.nodup_cons.mp hl).2]
    have hx : x ∉ xs := (List.nodup_cons.mp hl).1
    by_cases hw : w0 = w
    · subst hw
      by_cases hxs : x = s
      · subst hxs
        simp [hx]
      · have : ¬ (s = x) := fun h => hxs h.symm
        simp [hxs, this]
    · simp [hw]

theorem entryAt_flatMap (ws : List Nat) (hws : ws.Nodup) (ss : Nat → List Nat)
    (hss : ∀ w, w ∈ ws → (ss w).Nodup) (f : Nat → Nat → Nat) (s w : Nat) :
    entryAt (ws.flatMap (fun w2 => (ss w2).map (fun s2 => (⟨w2, s2, f s2 w2⟩ : Supply)))) s w
      = if w ∈ ws ∧ s ∈ ss w then f s w else 0 := by
  induction ws with
  | nil => simp [entryAt]
  | cons x xs ih =>
    rw [List.flatMap_cons, entryAt_append, ih (List.nodup_cons.mp hws).2
      (fun w hw => hss w (List.mem_cons_of_mem _ hw)),
      entryAt_map_stores _ (hss x (List.mem_cons_self _ _)) x (fun s2 => f s2 x)]
    have hx : x ∉ xs := (List.nodup_cons.mp hws).1
    by_cases hw : x = w
    · subst hw
      simp [hx]
    · have : ¬ (w = x) := fun h => hw h.symm
      simp [hw, this]

theorem entryAt_copyList (I : WL_Instance) (σ : WL_Solution)
    (hst : WL_Solution.SuppliedStoresInv I σ)
    (hnd : ∀ w, w < I.warehouses → (σ.supplied_stores w).Nodup)
    (s w : Nat) (hw : w < I.warehouses) :
    entryAt (copyList I σ) s w = if s < I.stores then σ.supply s w else 0 := by
  unfold copyList
  rw [entryAt_flatMap (List.range I.warehouses) (List.nodup_range _) σ.supplied_stores
    (fun w2 hw2 => hnd w2 (List.mem_range.mp hw2)) σ.supply s w]
  have := hst w hw s
  by_cases hs : s < I.stores
  · rw [if_pos hs]
    by_cases h0 : 0 < σ.supply s w
    · rw [if_pos ⟨List.mem_range.mpr hw, this.mpr ⟨hs, h0⟩⟩]
    · rw [if_neg (fun h => h0 (this.mp h.2).2)]; omega
  · rw [if_neg hs, if_neg (fun h => hs (this.mp h.2).1)]

theorem copyList_entries (I : WL_Instance) (σ : WL_Solution)
    (hst : WL_Solution.SuppliedStoresInv I σ) :
    ∀ p, p ∈ copyList I σ → p.s < I.stores ∧ p.w < I.warehouses ∧ 0 < p.q := by
  intro p hp
  unfold copyList at hp
  rw [List.mem_flatMap] at hp
  obtain ⟨w, hw, hp⟩ := hp
  rw [List.mem_map] at hp
  obtain ⟨s, hs, rfl⟩ := hp
  have hw2 := List.mem_range.mp hw
  have := (hst w hw2 s).mp hs
  exact ⟨this.1, hw2, this.2⟩

theorem entryAt_pos_iff (l : List Supply) (hq : ∀ p, p ∈ l → 0 < p.q) (s w : Nat) :
    0 < entryAt l s w ↔ ∃ p, p ∈ l ∧ p.s = s ∧ p.w = w := by
  induction l with
  | nil => simp [entryAt]
  | cons x xs ih =>
    rw [entryAt_cons]
    have hx := hq x (List.mem_cons_self _ _)
    have ih2 := ih (fun p hp => hq p (List.mem_cons_of_mem _ hp))
    by_cases h : x.s = s ∧ x.w = w
    · rw [if_pos h]
      constructor
      · intro _; exact ⟨x, List.mem_cons_self _ _, h.1, h.2⟩
      · intro _; omega
    · rw [if_neg h, Nat.zero_add, ih2]
      constructor
      · rintro ⟨p, hp, h1⟩; exact ⟨p, List.mem_cons_of_mem _ hp, h1⟩
      · rintro ⟨p, hp, h1⟩
        rcases List.mem_cons.mp hp with rfl | hp2
        · exact absurd h1 h
        · exact ⟨p, hp2, h1⟩

theorem patternLoad_pos_iff (l : List Supply) (hq : ∀ p, p ∈ l → 0 < p.q) (w : Nat) :
    0 < patternLoad l w ↔ w ∈ l.map (fun p => p.w) := by
  induction l with
  | nil => simp [patternLoad]
  | cons x xs ih =>
    rw [patternLoad_cons]
    have hx := hq x (List.mem_cons_self _ _)
    have ih2 := ih (fun p hp => hq p (List.mem_cons_of_mem _ hp))
    by_cases h : x.w = w
    · rw [if_pos h]
      constructor
      · intro _; simp [h]
      · intro _; omega
    · rw [if_neg h, Nat.zero_add, ih2]
      have : ¬ (w = x.w) := fun h2 => h h2.symm
      simp [this]

theorem patternSupplyCost_eq_sum (I : WL_Instance) (l : List Supply)
    (hin : ∀ p, p ∈ l → p.s < I.stores ∧ p.w < I.warehouses) :
    (Finset.range I.stores).sum (fun s =>
      (Finset.range I.warehouses).sum (fun w => I.supply_cost s w * (entryAt l s w : ℚ)))
      = patternSupplyCost I l := by
  induction l with
  | nil => simp [patternSupplyCost, entryAt]
  | cons x xs ih =>
    have ih2 := ih (fun p hp => hin p (List.mem_cons_of_mem _ hp))
    obtain ⟨hs, hw⟩ := hin x (List.mem_cons_self _ _)
    have hcons : patternSupplyCost I (x :: xs)
        = I.supply_cost x.s x.w * (x.q : ℚ) + patternSupplyCost I xs := by
      simp [patternSupplyCost]
    rw [hcons, ← ih2]
    have hsplit : ∀ s w, I.supply_cost s w * (entryAt (x :: xs) s w : ℚ)
        = (if s = x.s then (if w = x.w then I.supply_cost s w * (x.q : ℚ) else 0) else 0)
          + I.supply_cost s w * (entryAt xs s w : ℚ) := by
      intro s w
      rw [entryAt_cons]
      by_cases h1 : s = x.s
      · by_cases h2 : w = x.w
        · subst h1; subst h2; simp; ring
        · have : ¬ (x.w = w) := fun h => h2 h.symm
          simp [h1, h2, this]
      · have : ¬ (x.s = s) := fun h => h1 h.symm
        simp [h1, this]
    simp only [hsplit, Finset.sum_add_distrib]
    congr 1
    rw [Finset.sum_eq_single x.s]
    · simp only [if_true]
      rw [Finset.sum_eq_single x.w]
      · rw [if_pos rfl]
      · intro b _ hb; rw [if_neg hb]
      · intro h; exact absurd (Finset.mem_range.mpr hw) h
    · intro b _ hb
      simp [hb]
    · intro h; exact absurd (Finset.mem_range.mpr hs) h

theorem patternOpeningCost_eq_sum (I : WL_Instance) (l : List Supply)
    (hin : ∀ p, p ∈ l → p.w < I.warehouses) :
    patternOpeningCost I l
      = (Finset.range I.warehouses).sum
          (fun w => if w ∈ l.map (fun p => p.w) then I.fixed_cost w else 0) := by
  unfold patternOpeningCost
  rw [← Finset.sum_filter]
  apply Finset.sum_congr
  · ext w
    simp only [List.mem_toFinset, Finset.mem_filter, Finset.mem_range]
    constructor
    · intro h
      refine ⟨?_, h⟩
      obtain ⟨p, hp, rfl⟩ := List.mem_map.mp h
      exact hin p hp
    · exact fun h => h.2
  · intro _ _; rfl

/-- The fields of the lifted solution in terms of the reduced solution and the pattern. -/
theorem liftSolution_fields (I : WL_Instance) (pattern : List Supply) (σ : WL_Solution)
    (hI : I.Typed) (hP : PatternFits I pattern)
    (hC : WL_Solution.Consistent (I.reduced pattern) σ)
    (hle : ∀ s, s < I.stores → σ.assigned_goods s ≤ (I.reduced pattern).amount_of_goods s)
    (hcap : ∀ w, w < I.warehouses → σ.load w ≤ (I.reduced pattern).capacity w) :
    WL_Solution.Consistent I (liftSolution I σ pattern) ∧
    (∀ s w, s < I.stores → w < I.warehouses →
      (liftSolution I σ pattern).supply s w = σ.supply s w + entryAt pattern s w) ∧
    (∀ w, w < I.warehouses →
      (liftSolution I σ pattern).load w = σ.load w + patternLoad pattern w) ∧
    (∀ s, s < I.stores →
      (liftSolution I σ pattern).assigned_goods s
        = σ.assigned_goods s + patternDemand pattern s) := by
  obtain ⟨f1, f2, -, -, -⟩ := reduced_frame I pattern
  have hst : WL_Solution.SuppliedStoresInv I σ := by
    have := hC.stores
    unfold WL_Solution.SuppliedStoresInv at this ⊢
    rw [f1, f2] at this
    exact this
  have hnd : ∀ w, w < I.warehouses → (σ.supplied_stores w).Nodup := by
    have := hC.nodup
    rw [f2] at this
    exact this
  have hload : ∀ w, w < I.warehouses →
      σ.load w = (Finset.range I.stores).sum (fun s => σ.supply s w) := by
    have := hC.load
    unfold WL_Solution.LoadInv at this
    rw [f1, f2] at this
    exact this
  have hass : ∀ s, s < I.stores →
      σ.assigned_goods s = (Finset.range I.warehouses).sum (fun w => σ.supply s w) := by
    have := hC.assigned
    unfold WL_Solution.AssignedInv at this
    rw [f1, f2] at this
    exact this
  have hcopyin := copyList_entries I σ hst
  have hcopyLoad : ∀ w, w < I.warehouses → patternLoad (copyList I σ) w = σ.load w := by
    intro w hw
    rw [patternLoad_eq_sum I.stores _ w (fun p hp => (hcopyin p hp).1), hload w hw]
    apply Finset.sum_congr rfl
    intro s hs
    rw [entryAt_copyList I σ hst hnd s w hw, if_pos (Finset.mem_range.mp hs)]
  have hcopyDem : ∀ s, s < I.stores → patternDemand (copyList I σ) s = σ.assigned_goods s := by
    intro s hs
    rw [patternDemand_eq_sum I.warehouses _ s (fun p hp => (hcopyin p hp).2.1), hass s hs]
    apply Finset.sum_congr rfl
    intro w hw
    rw [entryAt_copyList I σ hst hnd s w (Finset.mem_range.mp hw), if_pos hs]
  have hRc : ∀ w, w < I.warehouses →
      (I.reduced pattern).capacity w = I.capacity w - patternLoad pattern w := by
    intro w hw
    rw [reduced_capacity I pattern w (hI.capacity w hw),
      usub_eq_sub (hP.capacity w hw) (hI.capacity w hw)]
  have hRa : ∀ s, s < I.stores →
      (I.reduced pattern).amount_of_goods s = I.amount_of_goods s - patternDemand pattern s := by
    intro s hs
    rw [reduced_amount I pattern s (hI.amount_of_goods s hs),
      usub_eq_sub (hP.demand s hs) (hI.amount_of_goods s hs)]
  have hspec := assignAll_spec I hI (copyList I σ ++ pattern) (WL_Solution.create I)
    (consistent_create I)
    (by
      intro p hp
      rcases List.mem_append.mp hp with h | h
      · exact hcopyin p h
      · exact hP.entries p h)
    (by
      intro w hw
      rw [patternLoad_append, hcopyLoad w hw]
      have h1 := hcap w hw
      have h2 := hP.capacity w hw
      rw [hRc w hw] at h1
      show 0 + _ ≤ _
      omega)
    (by
      intro s hs
      rw [patternDemand_append, hcopyDem s hs]
      have h1 := hle s hs
      have h2 := hP.demand s hs
      rw [hRa s hs] at h1
      show 0 + _ ≤ _
      omega)
  rw [← liftSolution_eq] at hspec
  obtain ⟨hCL, hsupply⟩ := hspec
  have hsup : ∀ s w, s < I.stores → w < I.warehouses →
      (liftSolution I σ pattern).supply s w = σ.supply s w + entryAt pattern s w := by
    intro s w hs hw
    rw [hsupply s w, entryAt_append, entryAt_copyList I σ hst hnd s w hw, if_pos hs]
    show 0 + _ = _
    omega
  refine ⟨hCL, hsup, ?_, ?_⟩
  · intro w hw
    rw [hCL.load w hw, hload w hw,
      patternLoad_eq_sum I.stores pattern w (fun p hp => (hP.entries p hp).1),
      ← Finset.sum_add_distrib]
    apply Finset.sum_congr rfl
    intro s hs
    exact hsup s w (Finset.mem_range.mp hs) hw
  · intro s hs
    rw [hCL.assigned s hs, hass s hs,
      patternDemand_eq_sum I.warehouses pattern s (fun p hp => (hP.entries p hp).2.1),
      ← Finset.sum_add_distrib]
    apply Finset.sum_congr rfl
    intro w hw
    exact hsup s w hs (Finset.mem_range.mp hw)

/-- The opening cost of the lifted solution: the reduced solution's opening cost on the
reduced instance plus the fixed costs of the pattern's warehouses. -/
theorem liftSolution_openingSum (I : WL_Instance) (pattern : List Supply)
    (σ τ : WL_Solution) (hP : PatternFits I pattern)
    (hload : ∀ w, w < I.warehouses → τ.load w = σ.load w + patternLoad pattern w) :
    WL_Solution.openingSum I τ
      = WL_Solution.openingSum (I.reduced pattern) σ + patternOpeningCost I pattern := by
  rw [patternOpeningCost_eq_sum I pattern (fun p hp => (hP.entries p hp).2.1)]
  unfold WL_Solution.openingSum
  rw [(reduced_frame I pattern).2.1, ← Finset.sum_add_distrib]
  apply Finset.sum_congr rfl
  intro w hw
  rw [hload w (Finset.mem_range.mp hw), reduced_fixed_cost]
  have hpos := patternLoad_pos_iff pattern (fun p hp => (hP.entries p hp).2.2) w
  by_cases hm : w ∈ pattern.map (fun p => p.w)
  · have := hpos.mpr hm
    rw [if_pos hm, if_pos hm, if_pos (by omega)]
    simp
  · have : ¬ 0 < patternLoad pattern w := fun h => hm (hpos.mp h)
    rw [if_neg hm, if_neg hm]
    have h0 : patternLoad pattern w = 0 := by omega
    rw [h0]
    simp

/-- Claim C1, as amended: let `I` be an original instance (reduction costs 0, data and
total fixed cost within `unsigned`, pairs recorded in the matrix), `P` a pattern that fits
`I` (entries in range with `q > 0`, usage within capacities and demands, no two
incompatible stores at one warehouse), and `σ` a consistent solution state of
`ReducedInstance(I, P)` with `ComputeViolations() == 0` there, no store assigned more than
its reduced demand, and no store supplied from a warehouse that is `w_incompatible` with
it. Then the solution built on `I` by `Assign`-ing every supply of `σ` and then every
entry of `P` has `ComputeViolations() == 0`, meets every demand exactly, loads no warehouse
above its capacity, and, with the costs computed in exact arithmetic, its `Cost()` on `I`
equals `σ.Cost()` on the reduced instance (on `double` values the two costs add the same
terms in different orders and can differ by rounding). -/
theorem lift_feasible_same_cost (I : WL_Instance) (pattern : List Supply) (σ : WL_Solution)
    (hI : I.Typed) (hfix : I.totalFixed < 4294967296)
    (hro : I.reduction_opening_cost = 0) (hrs : I.reduction_supply_cost = 0)
    (hsize : I.stores + I.warehouses + I.store_incompatibilities.length * I.warehouses
      < 4294967296)
    (hpm : I.PairsInMatrix) (hP : PatternFits I pattern)
    (hC : WL_Solution.Consistent (I.reduced pattern) σ)
    (hle : ∀ s, s < I.stores → σ.assigned_goods s ≤ (I.reduced pattern).amount_of_goods s)
    (hV : WL_Solution.ComputeViolations (I.reduced pattern) σ = 0)
    (hResp : ∀ s w, s < I.stores → w < I.warehouses → 0 < σ.supply s w →
      (I.reduced pattern).w_incompatible w s = false) :
    WL_Solution.ComputeViolations I (liftSolution I σ pattern) = 0 ∧
    (∀ s, s < I.stores →
      (liftSolution I σ pattern).assigned_goods s = I.amount_of_goods s) ∧
    (∀ w, w < I.warehouses → (liftSolution I σ pattern).load w ≤ I.capacity w) ∧
    WL_Solution.Cost I (liftSolution I σ pattern)
      = WL_Solution.Cost (I.reduced pattern) σ := by
  obtain ⟨f1, f2, f3, f4, f5⟩ := reduced_frame I pattern
  have hV2 := (computeViolations_zero (I.reduced pattern) σ
    (by rw [f1, f2, f5]; exact hsize)).mp hV
  rw [f1, f2, f5] at hV2
  obtain ⟨hd, hc, hp⟩ := hV2
  obtain ⟨hCL, hsup, hload, hass⟩ :=
    liftSolution_fields I pattern σ hI hP hC hle hc
  have hRc : ∀ w, w < I.warehouses →
      (I.reduced pattern).capacity w = I.capacity w - patternLoad pattern w := by
    intro w hw
    rw [reduced_capacity I pattern w (hI.capacity w hw),
      usub_eq_sub (hP.capacity w hw) (hI.capacity w hw)]
  have hRa : ∀ s, s < I.stores →
      (I.reduced pattern).amount_of_goods s = I.amount_of_goods s - patternDemand pattern s := by
    intro s hs
    rw [reduced_amount I pattern s (hI.amount_of_goods s hs),
      usub_eq_sub (hP.demand s hs) (hI.amount_of_goods s hs)]
  have hdem : ∀ s, s < I.stores →
      (liftSolution I σ pattern).assigned_goods s = I.amount_of_goods s := by
    intro s hs
    have h1 := hd s hs
    have h2 := hle s hs
    have h3 := hP.demand s hs
    rw [hRa s hs] at h1 h2
    rw [hass s hs]
    omega
  have hcapL : ∀ w, w < I.warehouses → (liftSolution I σ pattern).load w ≤ I.capacity w := by
    intro w hw
    have h1 := hc w hw
    have h3 := hP.capacity w hw
    rw [hRc w hw] at h1
    rw [hload w hw]
    omega
  have hpairs : ∀ p, p ∈ I.store_incompatibilities → ∀ w, w < I.warehouses →
      ¬ (0 < (liftSolution I σ pattern).supply p.1 w ∧
          0 < (liftSolution I σ pattern).supply p.2 w) := by
    rintro p hpin w hw ⟨ha, hb⟩
    obtain ⟨hp1, hp2, hm12, hm21⟩ := hpm p hpin
    rw [hsup p.1 w hp1 hw] at ha
    rw [hsup p.2 w hp2 hw] at hb
    have hq : ∀ e, e ∈ pattern → 0 < e.q := fun e he => (hP.entries e he).2.2
    have ea := entryAt_pos_iff pattern hq p.1 w
    have eb := entryAt_pos_iff pattern hq p.2 w
    by_cases hpa : 0 < entryAt pattern p.1 w
    · obtain ⟨e1, he1, hs1, hw1⟩ := ea.mp hpa
      by_cases hpb : 0 < entryAt pattern p.2 w
      · obtain ⟨e2, he2, hs2, hw2⟩ := eb.mp hpb
        have := hP.compatible e1 e2 he1 he2 (by rw [hw1, hw2])
        rw [hs1, hs2, hm12] at this
        exact Bool.noConfusion this
      · have hσb : 0 < σ.supply p.2 w := by omega
        have := hResp p.2 w hp2 hw hσb
        have hmark := (reduced_w_incompatible I pattern w p.2).mpr
          (Or.inr ⟨hp2, e1, he1, hw1, by rw [hs1]; exact hm12⟩)
        rw [hmark] at this
        exact Bool.noConfusion this
    · have hσa : 0 < σ.supply p.1 w := by omega
      by_cases hpb : 0 < entryAt pattern p.2 w
      · obtain ⟨e2, he2, hs2, hw2⟩ := eb.mp hpb
        have := hResp p.1 w hp1 hw hσa
        have hmark := (reduced_w_incompatible I pattern w p.1).mpr
          (Or.inr ⟨hp1, e2, he2, hw2, by rw [hs2]; exact hm21⟩)
        rw [hmark] at this
        exact Bool.noConfusion this
      · have hσb : 0 < σ.supply p.2 w := by omega
        exact hp p hpin w hw ⟨hσa, hσb⟩
  refine ⟨computeViolations_of_feasible I _ (fun s hs => (hdem s hs).ge) hcapL hpairs,
    hdem, hcapL, ?_⟩
  -- the cost
  have hopen := liftSolution_openingSum I pattern σ (liftSolution I σ pattern) hP hload
  have hbound := openingSum_le_totalFixed I (liftSolution I σ pattern)
  have hws : WL_Solution.weightedSupply I (liftSolution I σ pattern)
      = WL_Solution.weightedSupply (I.reduced pattern) σ + patternSupplyCost I pattern := by
    rw [← patternSupplyCost_eq_sum I pattern (fun p hp => ⟨(hP.entries p hp).1,
      (hP.entries p hp).2.1⟩)]
    unfold WL_Solution.weightedSupply
    rw [f1, f2, f3, ← Finset.sum_add_distrib]
    apply Finset.sum_congr rfl
    intro s hs
    rw [← Finset.sum_add_distrib]
    apply Finset.sum_congr rfl
    intro w hw
    rw [hsup s w (Finset.mem_range.mp hs) (Finset.mem_range.mp hw)]
    push_cast
    ring
  unfold WL_Solution.Cost WL_Solution.SupplyCost WL_Solution.OpeningCost
  rw [hCL.cost, hCL.opening, hC.cost, hC.opening, hws, hopen, hro, hrs, reduced_supply,
    reduced_opening]
  have e1 : uadd
      ((WL_Solution.openingSum (I.reduced pattern) σ + patternOpeningCost I pattern)
        % 4294967296) 0
      = WL_Solution.openingSum (I.reduced pattern) σ + patternOpeningCost I pattern := by
    unfold uadd; omega
  have e2 : uadd (WL_Solution.openingSum (I.reduced pattern) σ % 4294967296)
      (patternOpeningCost I pattern % 4294967296)
      = WL_Solution.openingSum (I.reduced pattern) σ + patternOpeningCost I pattern := by
    unfold uadd; omega
  rw [e1, e2]
  ring

theorem patE6_fits : PatternFits instE1 patE6 := by
  constructor
  · intro p hp
    have : p = ⟨0, 0, 3⟩ := by simpa [patE6] using hp
    subst this; decide
  · intro w hw
    have h1 : w < 1 := hw
    interval_cases w; decide
  · intro s hs
    have h1 : s < 1 := hs
    interval_cases s; decide
  · intro p1 p2 h1 h2 _
    have e1 : p1 = ⟨0, 0, 3⟩ := by simpa [patE6] using h1
    have e2 : p2 = ⟨0, 0, 3⟩ := by simpa [patE6] using h2
    subst e1; subst e2; decide

theorem solE6_consistent : WL_Solution.Consistent (instE1.reduced patE6) solE6 :=
  assign_consistent (instE1.reduced patE6) (WL_Solution.create (instE1.reduced patE6)) 0 0 4
    (by decide) (consistent_create _) (by decide) (by decide) (by decide)
    (by decide) (by decide)

/-- Witness for C1: scenario E6 meets every hypothesis of the amended statement. -/
theorem lift_feasible_same_cost_witness :
    WL_Solution.ComputeViolations instE1 (liftSolution instE1 solE6 patE6) = 0 ∧
    (∀ s, s < instE1.stores →
      (liftSolution instE1 solE6 patE6).assigned_goods s = instE1.amount_of_goods s) ∧
    (∀ w, w < instE1.warehouses →
      (liftSolution instE1 solE6 patE6).load w ≤ instE1.capacity w) ∧
    WL_Solution.Cost instE1 (liftSolution instE1 solE6 patE6)
      = WL_Solution.Cost (instE1.reduced patE6) solE6 :=
  lift_feasible_same_cost instE1 patE6 solE6 instE1_typed (by decide) rfl rfl (by decide)
    (by intro p hp; exact absurd hp (List.not_mem_nil p))
    patE6_fits solE6_consistent
    (by intro s hs; have h1 : s < 1 := hs; interval_cases s; decide)
    (by decide)
    (by
      intro s w hs hw _
      have h1 : s < 1 := hs
      have h2 : w < 1 := hw
      interval_cases s; interval_cases w; decide)



/-! ## The constructors return feasible solutions -/

theorem residualAmount_eq (I : WL_Instance) (σ : WL_Solution) (hI : I.Typed)
    (hW : WL_Solution.Within I σ) {s : Nat} (hs : s < I.stores) :
    WL_Solution.ResidualAmount I σ s = I.amount_of_goods s - σ.assigned_goods s :=
  usub_eq_sub (hW.assigned_le s hs) (hI.amount_of_goods s hs)

theorem residualCapacity_eq (I : WL_Instance) (σ : WL_Solution) (hI : I.Typed)
    (hW : WL_Solution.Within I σ) {w : Nat} (hw : w < I.warehouses) :
    WL_Solution.ResidualCapacity I σ w = I.capacity w - σ.load w :=
  usub_eq_sub (hW.load_le w hw) (hI.capacity w hw)

/-- A zero answer of `Incompatibilities(w, s)` means that no store supplied by `w` is
incompatible with `s`. -/
theorem incompatibilities_zero (I : WL_Instance) (σ : WL_Solution) (hI : I.Typed)
    (hC : WL_Solution.Consistent I σ) {w s : Nat} (hw : w < I.warehouses) (hs : s < I.stores)
    (h0 : WL_Solution.Incompatibilities I σ w s = 0) :
    I.w_incompatible w s = false ∧
    ∀ s2, s2 < I.stores → 0 < σ.supply s2 w → I.incompatible s2 s = false := by
  have hcnt := hC.counters w s hw hs
  have hle := conflictsAt_le I σ w s
  have hS := hI.stores
  unfold WL_Solution.Incompatibilities at h0
  by_cases hwi : I.w_incompatible w s = true
  · rw [if_pos hwi] at h0
    unfold uadd at h0
    omega
  · rw [if_neg hwi] at h0
    refine ⟨by simpa using hwi, ?_⟩
    intro s2 hs2 hpos
    rw [h0] at hcnt
    unfold WL_Solution.conflictsAt at hcnt
    have hempty := Finset.card_eq_zero.mp hcnt.symm
    by_contra hne
    have hmem : s2 ∈ (Finset.range I.stores).filter
        (fun s2 => 0 < σ.supply s2 w ∧ I.incompatible s2 s = true) := by
      rw [Finset.mem_filter, Finset.mem_range]
      exact ⟨hs2, hpos, by simpa using hne⟩
    rw [hempty] at hmem
    exact absurd hmem (Finset.not_mem_empty _)

/-- An `Assign` that the constructors' guards admit keeps the state sound: the warehouse
has no store incompatible with `s`, and the quantity fits the residual amount and the
residual capacity. -/
theorem sound_assign (I : WL_Instance) (σ : WL_Solution) (s w q : Nat)
    (hI : I.Typed) (hpm : I.PairsInMatrix)
    (hns : ∀ p, p ∈ I.store_incompatibilities → p.1 ≠ p.2)
    (hS : Sound I σ) (hs : s < I.stores) (hw : w < I.warehouses) (hq : 0 < q)
    (hqa : q ≤ WL_Solution.ResidualAmount I σ s)
    (hqc : q ≤ WL_Solution.ResidualCapacity I σ w)
    (hinc : WL_Solution.Incompatibilities I σ w s = 0) :
    Sound I (WL_Solution.Assign I σ s w q) := by
  obtain ⟨hC, hW, hN⟩ := hS
  rw [residualAmount_eq I σ hI hW hs] at hqa
  rw [residualCapacity_eq I σ hI hW hw] at hqc
  have hcT := hI.capacity w hw
  have hdT := hI.amount_of_goods s hs
  have hl := hW.load_le w hw
  have ha := hW.assigned_le s hs
  have hsl := supply_le_load I σ hC.load hs hw
  obtain ⟨fs, fl, fa⟩ := assign_fields I σ s w q (by omega) (by omega) (by omega)
  refine ⟨assign_consistent I σ s w q (by have := hI.stores; omega) hC hs hw hq
    (by omega) (by omega), ⟨?_, ?_⟩, ?_⟩
  · intro b hb
    rw [fl]
    split
    · rename_i h; subst h; omega
    · exact hW.load_le b hb
  · intro a ha2
    rw [fa]
    split
    · rename_i h; subst h; omega
    · exact hW.assigned_le a ha2
  · intro p hp b hb
    obtain ⟨hp1, hp2, hm12, hm21⟩ := hpm p hp
    have hne := hns p hp
    have hz := (incompatibilities_zero I σ hI hC hw hs hinc).2
    rw [fs p.1 b, fs p.2 b]
    by_cases hbw : b = w
    · subst hbw
      by_cases h1 : p.1 = s
      · have h2 : ¬ (p.2 = s ∧ b = b) := fun h => hne (h1.trans h.1.symm)
        rw [if_neg h2]
        rintro ⟨-, hpos⟩
        have := hz p.2 hp2 hpos
        rw [← h1, hm21] at this
        exact Bool.noConfusion this
      · have h1b : ¬ (p.1 = s ∧ b = b) := fun h => h1 h.1
        rw [if_neg h1b]
        by_cases h2 : p.2 = s
        · rintro ⟨hpos, -⟩
          have := hz p.1 hp1 hpos
          rw [← h2, hm12] at this
          exact Bool.noConfusion this
        · have h2b : ¬ (p.2 = s ∧ b = b) := fun h => h2 h.1
          rw [if_neg h2b]
          exact hN p hp b hb
    · have h1b : ¬ (p.1 = s ∧ b = w) := fun h => hbw h.2
      have h2b : ¬ (p.2 = s ∧ b = w) := fun h => hbw h.2
      rw [if_neg h1b, if_neg h2b]
      exact hN p hp b hb

theorem sound_create (I : WL_Instance) : Sound I (WL_Solution.create I) := by
  refine ⟨consistent_create I, ⟨?_, ?_⟩, ?_⟩
  · intro w _; exact Nat.zero_le _
  · intro s _; exact Nat.zero_le _
  · rintro p _ w _ ⟨h, -⟩
    exact absurd h (by simp [WL_Solution.create])

/-- A sound state in which every residual amount is 0 meets the constructors' contract. -/
theorem feasible_of_sound (I : WL_Instance) (σ : WL_Solution) (hI : I.Typed)
    (hS : Sound I σ)
    (hres : ∀ s, s < I.stores → WL_Solution.ResidualAmount I σ s = 0) :
    IsFeasible I σ := by
  have hd : ∀ s, s < I.stores → σ.assigned_goods s = I.amount_of_goods s := by
    intro s hs
    have h1 := hres s hs
    rw [residualAmount_eq I σ hI hS.within hs] at h1
    have h2 := hS.within.assigned_le s hs
    omega
  exact ⟨hd, hS.within.load_le,
    computeViolations_of_feasible I σ (fun s hs => (hd s hs).ge) hS.within.load_le
      hS.noConflict⟩

theorem seedPick_spec (I : WL_Instance) (σ : WL_Solution) (wh : Nat) (hS : 0 < I.stores) :
    ∀ (fuel s trials : Nat) (rng : Rng) (s2 t2 : Nat) (rng2 : Rng), s < I.stores →
      seedPick I σ wh fuel s trials rng = some (s2, t2, rng2) → t2 ≤ I.stores →
      s2 < I.stores ∧ WL_Solution.ResidualAmount I σ s2 ≠ 0 ∧
        WL_Solution.Incompatibilities I σ wh s2 = 0 := by
  intro fuel
  induction fuel with
  | zero => intro s trials rng s2 t2 rng2 _ h; simp [seedPick] at h
  | succ n ih =>
    intro s trials rng s2 t2 rng2 hs h ht
    unfold seedPick at h
    by_cases hc : WL_Solution.ResidualAmount I σ s = 0 ∨
        WL_Solution.Incompatibilities I σ wh s ≠ 0
    · rw [if_pos hc] at h
      by_cases ht2 : trials + 1 > I.stores
      · rw [if_pos ht2] at h
        simp only [Option.some.injEq, Prod.mk.injEq] at h
        omega
      · rw [if_neg ht2] at h
        cases rng with
        | nil => simp at h
        | cons r rng1 =>
          simp only at h
          exact ih (r % I.stores) (trials + 1) rng1 s2 t2 rng2 (Nat.mod_lt _ hS) h ht
    · rw [if_neg hc] at h
      simp only [Option.some.injEq, Prod.mk.injEq] at h
      obtain ⟨rfl, -, -⟩ := h
      push_neg at hc
      exact ⟨hs, hc.1, hc.2⟩

theorem seedStep_spec (I : WL_Instance) (σ : WL_Solution) (rng : Rng) (wh : Nat)
    (hI : I.Typed) (hpm : I.PairsInMatrix)
    (hns : ∀ p, p ∈ I.store_incompatibilities → p.1 ≠ p.2)
    (hS : Sound I σ) (hw : wh < I.warehouses) (h0 : σ.load wh = 0)
    (σ2 : WL_Solution) (rng2 : Rng) (h : seedStep I σ rng wh = some (σ2, rng2)) :
    Sound I σ2 ∧ ∀ b, b ≠ wh → σ2.load b = σ.load b := by
  unfold seedStep at h
  by_cases hrc : WL_Solution.ResidualCapacity I σ wh ≠ 0
  · rw [if_pos hrc] at h
    by_cases hst : I.stores = 0
    · rw [if_pos hst] at h; simp at h
    · rw [if_neg hst] at h
      cases rng with
      | nil => simp at h
      | cons r rng1 =>
        simp only at h
        cases hpick : seedPick I σ wh (I.stores + 2) (r % I.stores) 0 rng1 with
        | none => rw [hpick] at h; simp at h
        | some res =>
          obtain ⟨s, trials, rng3⟩ := res
          rw [hpick] at h
          simp only at h
          by_cases ht : trials ≤ I.stores
          · rw [if_pos ht] at h
            simp only [Option.some.injEq, Prod.mk.injEq] at h
            obtain ⟨rfl, -⟩ := h
            obtain ⟨hs, hra, hinc⟩ := seedPick_spec I σ wh (by omega) _ _ _ _ _ _ _
              (Nat.mod_lt _ (by omega)) hpick ht
            have hrcv := residualCapacity_eq I σ hI hS.within hw
            rw [h0] at hrcv
            have hcap : WL_Solution.ResidualCapacity I σ wh = I.capacity wh := by
              rw [hrcv]; omega
            refine ⟨sound_assign I σ s wh _ hI hpm hns hS hs hw ?_ (Nat.min_le_left _ _)
              (by rw [hcap]; exact Nat.min_le_right _ _) hinc, ?_⟩
            · rw [hcap] at hrc
              omega
            · intro b hb
              simp [WL_Solution.Assign, hb]
          · rw [if_neg ht] at h
            simp only [Option.some.injEq, Prod.mk.injEq] at h
            obtain ⟨rfl, -⟩ := h
            exact ⟨hS, fun _ _ => rfl⟩
  · rw [if_neg hrc] at h
    simp only [Option.some.injEq, Prod.mk.injEq] at h
    obtain ⟨rfl, -⟩ := h
    exact ⟨hS, fun _ _ => rfl⟩

theorem seedPhase_spec (I : WL_Instance) (hI : I.Typed) (hpm : I.PairsInMatrix)
    (hns : ∀ p, p ∈ I.store_incompatibilities → p.1 ≠ p.2) :
    ∀ (l : List Nat) (σ : WL_Solution) (rng : Rng) (σ2 : WL_Solution) (rng2 : Rng),
      Sound I σ → l.Nodup → (∀ wh, wh ∈ l → wh < I.warehouses ∧ σ.load wh = 0) →
      seedPhase I l σ rng = some (σ2, rng2) → Sound I σ2 := by
  intro l
  induction l with
  | nil =>
    intro σ rng σ2 rng2 hS _ _ h
    simp only [seedPhase, Option.some.injEq, Prod.mk.injEq] at h
    obtain ⟨rfl, -⟩ := h
    exact hS
  | cons wh rest ih =>
    intro σ rng σ2 rng2 hS hnd hl h
    unfold seedPhase at h
    cases hstep : seedStep I σ rng wh with
    | none => rw [hstep] at h; simp at h
    | some res =>
      obtain ⟨σ1, rng1⟩ := res
      rw [hstep] at h
      simp only at h
      obtain ⟨hw, h0⟩ := hl wh (List.mem_cons_self _ _)
      obtain ⟨hS1, hframe⟩ := seedStep_spec I σ rng wh hI hpm hns hS hw h0 σ1 rng1 hstep
      have hnd2 := List.nodup_cons.mp hnd
      refine ih σ1 rng1 σ2 rng2 hS1 hnd2.2 ?_ h
      intro x hx
      have hxw : x ≠ wh := fun he => hnd2.1 (he ▸ hx)
      obtain ⟨h1, h2⟩ := hl x (List.mem_cons_of_mem _ hx)
      exact ⟨h1, by rw [hframe x hxw]; exact h2⟩

theorem bestOpen_spec (I : WL_Instance) (σ : WL_Solution) (s : Nat) (opened : List Nat) :
    bestOpen I σ s opened = I.warehouses ∨
      (bestOpen I σ s opened ∈ opened ∧
        WL_Solution.ResidualCapacity I σ (bestOpen I σ s opened) ≠ 0 ∧
        WL_Solution.Incompatibilities I σ (bestOpen I σ s opened) s = 0) := by
  unfold bestOpen
  have key : ∀ (l : List Nat) (acc : Nat), (∀ x, x ∈ l → x ∈ opened) →
      (acc = I.warehouses ∨ (acc ∈ opened ∧ WL_Solution.ResidualCapacity I σ acc ≠ 0 ∧
        WL_Solution.Incompatibilities I σ acc s = 0)) →
      (l.foldl
        (fun best_w wh =>
          if WL_Solution.ResidualCapacity I σ wh ≠ 0 ∧
              WL_Solution.Incompatibilities I σ wh s = 0 ∧
              (best_w = I.warehouses ∨ I.supply_cost s wh < I.supply_cost s best_w)
          then wh else best_w) acc = I.warehouses ∨
        ((l.foldl
          (fun best_w wh =>
            if WL_Solution.ResidualCapacity I σ wh ≠ 0 ∧
                WL_Solution.Incompatibilities I σ wh s = 0 ∧
                (best_w = I.warehouses ∨ I.supply_cost s wh < I.supply_cost s best_w)
            then wh else best_w) acc) ∈ opened ∧
          WL_Solution.ResidualCapacity I σ (l.foldl
            (fun best_w wh =>
              if WL_Solution.ResidualCapacity I σ wh ≠ 0 ∧
                  WL_Solution.Incompatibilities I σ wh s = 0 ∧
                  (best_w = I.warehouses ∨ I.supply_cost s wh < I.supply_cost s best_w)
              then wh else best_w) acc) ≠ 0 ∧
          WL_Solution.Incompatibilities I σ (l.foldl
            (fun best_w wh =>
              if WL_Solution.ResidualCapacity I σ wh ≠ 0 ∧
                  WL_Solution.Incompatibilities I σ wh s = 0 ∧
                  (best_w = I.warehouses ∨ I.supply_cost s wh < I.supply_cost s best_w)
              then wh else best_w) acc) s = 0)) := by
    intro l
    induction l with
    | nil => intro acc _ h; exact h
    | cons x xs ih =>
      intro acc hsub hacc
      rw [List.foldl_cons]
      apply ih _ (fun y hy => hsub y (List.mem_cons_of_mem _ hy))
      split
      · rename_i hc
        exact Or.inr ⟨hsub x (List.mem_cons_self _ _), hc.1, hc.2.1⟩
      · exact hacc
  exact key opened I.warehouses (fun _ h => h) (Or.inl rfl)

theorem findNext_ge (I : WL_Instance) (σ : WL_Solution) (s : Nat) :
    ∀ (rest : List Nat) (k : Nat), k ≤ findNext I σ s rest k := by
  intro rest
  induction rest with
  | nil => intro k; exact Nat.le_refl _
  | cons wh rest ih =>
    intro k
    unfold findNext
    split
    · exact Nat.le_trans (Nat.le_succ k) (ih (k + 1))
    · exact Nat.le_refl _

theorem findNext_spec (I : WL_Instance) (σ : WL_Solution) (s : Nat) :
    ∀ (rest : List Nat) (k x : Nat), rest[findNext I σ s rest k - k]? = some x →
      WL_Solution.ResidualCapacity I σ x ≠ 0 ∧ WL_Solution.Incompatibilities I σ x s = 0 := by
  intro rest
  induction rest with
  | nil => intro k x h; simp at h
  | cons wh rest ih =>
    intro k x h
    unfold findNext at h
    by_cases hc : WL_Solution.ResidualCapacity I σ wh = 0 ∨
        WL_Solution.Incompatibilities I σ wh s ≠ 0
    · rw [if_pos hc] at h
      have hge := findNext_ge I σ s rest (k + 1)
      have hidx : findNext I σ s rest (k + 1) - k = (findNext I σ s rest (k + 1) - (k + 1)) + 1 := by
        omega
      rw [hidx, List.getElem?_cons_succ] at h
      exact ih (k + 1) x h
    · rw [if_neg hc] at h
      simp only [Nat.sub_self, List.getElem?_cons_zero, Option.some.injEq] at h
      subst h
      push_neg at hc
      exact hc

/-- One guarded assignment of the completion phase: sound again, the other stores keep
their assigned goods. -/
theorem fill_step (I : WL_Instance) (σ : WL_Solution) (s w : Nat)
    (hI : I.Typed) (hpm : I.PairsInMatrix)
    (hns : ∀ p, p ∈ I.store_incompatibilities → p.1 ≠ p.2)
    (hS : Sound I σ) (hs : s < I.stores) (hw : w < I.warehouses)
    (hra : WL_Solution.ResidualAmount I σ s ≠ 0)
    (hrc : WL_Solution.ResidualCapacity I σ w ≠ 0)
    (hinc : WL_Solution.Incompatibilities I σ w s = 0) :
    Sound I (WL_Solution.Assign I σ s w
      (min (WL_Solution.ResidualAmount I σ s) (WL_Solution.ResidualCapacity I σ w))) ∧
    ∀ a, a ≠ s →
      (WL_Solution.Assign I σ s w
        (min (WL_Solution.ResidualAmount I σ s)
          (WL_Solution.ResidualCapacity I σ w))).assigned_goods a = σ.assigned_goods a := by
  refine ⟨sound_assign I σ s w _ hI hpm hns hS hs hw ?_ (Nat.min_le_left _ _)
    (Nat.min_le_right _ _) hinc, ?_⟩
  · have h1 : 0 < WL_Solution.ResidualAmount I σ s := Nat.pos_of_ne_zero hra
    have h2 : 0 < WL_Solution.ResidualCapacity I σ w := Nat.pos_of_ne_zero hrc
    exact Nat.lt_min.mpr ⟨h1, h2⟩
  · intro a ha
    simp [WL_Solution.Assign, ha]

theorem greedyFill_spec (I : WL_Instance) (s : Nat) (hI : I.Typed) (hpm : I.PairsInMatrix)
    (hns : ∀ p, p ∈ I.store_incompatibilities → p.1 ≠ p.2) (hs : s < I.stores) :
    ∀ (fuel : Nat) (σ : WL_Solution) (ws : List Nat) (lo : Nat)
      (σ2 : WL_Solution) (ws2 : List Nat) (lo2 : Nat),
      Sound I σ → (∀ x, x ∈ ws → x < I.warehouses) →
      greedyFill I s fuel σ ws lo = some (some (σ2, ws2, lo2)) →
      Sound I σ2 ∧ (∀ x, x ∈ ws2 → x < I.warehouses) ∧
        WL_Solution.ResidualAmount I σ2 s = 0 ∧
        ∀ a, a ≠ s → σ2.assigned_goods a = σ.assigned_goods a := by
  intro fuel
  induction fuel with
  | zero => intro σ ws lo σ2 ws2 lo2 _ _ h; simp [greedyFill] at h
  | succ n ih =>
    intro σ ws lo σ2 ws2 lo2 hS hws h
    unfold greedyFill at h
    by_cases hra : WL_Solution.ResidualAmount I σ s = 0
    · rw [if_pos hra] at h
      simp only [Option.some.injEq, Prod.mk.injEq] at h
      obtain ⟨rfl, rfl, rfl⟩ := h
      exact ⟨hS, hws, hra, fun _ _ => rfl⟩
    · rw [if_neg hra] at h
      simp only at h
      by_cases hb : bestOpen I σ s (ws.take (lo + 1)) = I.warehouses
      · rw [if_pos hb] at h
        by_cases hn : findNext I σ s (ws.drop (lo + 1)) (lo + 1) < I.warehouses
        · rw [if_pos hn] at h
          cases hget : ws[findNext I σ s (ws.drop (lo + 1)) (lo + 1)]? with
          | none => rw [hget] at h; simp at h
          | some next_w =>
            rw [hget] at h
            simp only at h
            have hge := findNext_ge I σ s (ws.drop (lo + 1)) (lo + 1)
            have hget2 : (ws.drop (lo + 1))[findNext I σ s (ws.drop (lo + 1)) (lo + 1)
                - (lo + 1)]? = some next_w := by
              rw [List.getElem?_drop, ← hget]
              congr 1
              omega
            obtain ⟨hrc, hinc⟩ := findNext_spec I σ s _ _ _ hget2
            have hmem : next_w ∈ ws := List.getElem?_mem hget
            obtain ⟨hS1, hfr⟩ := fill_step I σ s next_w hI hpm hns hS hs (hws _ hmem)
              hra hrc hinc
            obtain ⟨r1, r2, r3, r4⟩ := ih _ _ _ σ2 ws2 lo2 hS1 (by
              intro x hx
              simp only [List.mem_append, List.mem_cons] at hx
              rcases hx with (hx | hx | hx) | hx
              · exact hws x (List.mem_of_mem_take hx)
              · rw [hx]; exact hws _ hmem
              · exact hws x (List.mem_of_mem_take (List.mem_of_mem_drop hx))
              · exact hws x (List.mem_of_mem_drop hx)) h
            exact ⟨r1, r2, r3, fun a ha => by rw [r4 a ha, hfr a ha]⟩
        · rw [if_neg hn] at h
          simp at h
      · rw [if_neg hb] at h
        rcases bestOpen_spec I σ s (ws.take (lo + 1)) with hbo | ⟨hmem, hrc, hinc⟩
        · exact absurd hbo hb
        · have hlt := hws _ (List.mem_of_mem_take hmem)
          obtain ⟨hS1, hfr⟩ := fill_step I σ s _ hI hpm hns hS hs hlt hra hrc hinc
          obtain ⟨r1, r2, r3, r4⟩ := ih _ _ _ σ2 ws2 lo2 hS1 hws h
          exact ⟨r1, r2, r3, fun a ha => by rw [r4 a ha, hfr a ha]⟩

theorem greedyComplete_spec (I : WL_Instance) (fuel : Nat) (hI : I.Typed)
    (hpm : I.PairsInMatrix) (hns : ∀ p, p ∈ I.store_incompatibilities → p.1 ≠ p.2) :
    ∀ (l : List Nat) (σ : WL_Solution) (ws : List Nat) (lo : Nat) (σ2 : WL_Solution),
      Sound I σ → (∀ x, x ∈ ws → x < I.warehouses) → (∀ s, s ∈ l → s < I.stores) → l.Nodup →
      greedyComplete I fuel l σ ws lo = some (some σ2) →
      Sound I σ2 ∧ (∀ s, s ∈ l → WL_Solution.ResidualAmount I σ2 s = 0) ∧
        ∀ a, a ∉ l → σ2.assigned_goods a = σ.assigned_goods a := by
  intro l
  induction l with
  | nil =>
    intro σ ws lo σ2 hS _ _ _ h
    simp only [greedyComplete, Option.some.injEq] at h
    subst h
    exact ⟨hS, fun s hs => absurd hs (List.not_mem_nil s), fun _ _ => rfl⟩
  | cons s rest ih =>
    intro σ ws lo σ2 hS hws hl hnd h
    unfold greedyComplete at h
    cases hfill : greedyFill I s fuel σ ws lo with
    | none => rw [hfill] at h; simp at h
    | some res =>
      cases res with
      | none => rw [hfill] at h; simp at h
      | some st =>
        obtain ⟨σ1, ws1, lo1⟩ := st
        rw [hfill] at h
        simp only at h
        have hs := hl s (List.mem_cons_self _ _)
        obtain ⟨hS1, hws1, hres, hfr⟩ :=
          greedyFill_spec I s hI hpm hns hs fuel σ ws lo σ1 ws1 lo1 hS hws hfill
        have hnd2 := List.nodup_cons.mp hnd
        obtain ⟨r1, r2, r3⟩ := ih σ1 ws1 lo1 σ2 hS1 hws1
          (fun x hx => hl x (List.mem_cons_of_mem _ hx)) hnd2.2 h
        refine ⟨r1, ?_, ?_⟩
        · intro x hx
          rcases List.mem_cons.mp hx with rfl | hx2
          · have h3 := r3 x hnd2.1
            unfold WL_Solution.ResidualAmount at hres ⊢
            rw [h3]; exact hres
          · exact r2 x hx2
        · intro a ha
          have ha1 : a ≠ s := fun he => ha (he ▸ List.mem_cons_self _ _)
          have ha2 : a ∉ rest := fun he => ha (List.mem_cons_of_mem _ he)
          rw [r3 a ha2, hfr a ha1]

theorem greedyAttempt_spec (I : WL_Instance) (order : List Nat) (fuel : Nat) (hI : I.Typed)
    (hpm : I.PairsInMatrix) (hns : ∀ p, p ∈ I.store_incompatibilities → p.1 ≠ p.2)
    (hperm : order.Perm (List.range I.warehouses))
    (rng : Rng) (σ : WL_Solution) (rng2 : Rng)
    (h : greedyAttempt I order fuel rng = some (some σ, rng2)) : IsFeasible I σ := by
  have hlt : ∀ x, x ∈ order → x < I.warehouses := by
    intro x hx
    exact List.mem_range.mp (hperm.mem_iff.mp hx)
  have hnd : order.Nodup := hperm.nodup_iff.mpr (List.nodup_range _)
  unfold greedyAttempt at h
  cases order with
  | nil => exact absurd h (by simp)
  | cons x0 rest =>
    simp only [Option.bind_eq_some] at h
    obtain ⟨lo, -, seeded, hseed, r, hcomp, h⟩ := h
    simp only [Option.some.injEq, Prod.mk.injEq] at h
    obtain ⟨rfl, -⟩ := h
    have hSs := seedPhase_spec I hI hpm hns _ _ _ seeded.1 seeded.2 (sound_create I)
      (List.Nodup.sublist (List.take_sublist _ _) hnd)
      (fun wh hwh => ⟨hlt wh (List.mem_of_mem_take hwh), rfl⟩) hseed
    obtain ⟨r1, r2, -⟩ := greedyComplete_spec I fuel hI hpm hns _ _ _ _ _ hSs hlt
      (fun s hs => List.mem_range.mp hs) (List.nodup_range _) hcomp
    exact feasible_of_sound I _ hI r1 (fun s hs => r2 s (List.mem_range.mpr hs))

theorem greedyRestart_spec (I : WL_Instance) (order : List Nat) (fuel : Nat) (hI : I.Typed)
    (hpm : I.PairsInMatrix) (hns : ∀ p, p ∈ I.store_incompatibilities → p.1 ≠ p.2)
    (hperm : order.Perm (List.range I.warehouses)) :
    ∀ (n : Nat) (rng : Rng) (σ : WL_Solution) (rng2 : Rng),
      greedyRestart I order fuel n rng = some (σ, rng2) → IsFeasible I σ := by
  intro n
  induction n with
  | zero => intro rng σ rng2 h; exact absurd h (by simp [greedyRestart])
  | succ n ih =>
    intro rng σ rng2 h
    unfold greedyRestart at h
    split at h
    · exact absurd h (by simp)
    · rename_i σ1 rng1 hatt
      simp only [Option.some.injEq, Prod.mk.injEq] at h
      obtain ⟨rfl, -⟩ := h
      exact greedyAttempt_spec I order fuel hI hpm hns hperm rng _ _ hatt
    · rename_i rng1 hatt
      exact ih rng1 σ rng2 h

theorem boole_getElem_le_count (l : List Nat) (i : Nat) (h : i < l.length) (x : Nat) :
    (if l[i] == x then 1 else 0) ≤ l.count x := by
  by_cases hx : l[i] = x
  · have hmem : x ∈ l := hx ▸ List.getElem_mem h
    have := List.count_pos_iff.mpr hmem
    simp only [hx, beq_self_eq_true, if_true]
    omega
  · have : (l[i] == x) = false := by simpa using hx
    simp [this]

theorem swapInto_perm (ws : List Nat) (i w : Nat) : (swapInto ws i w).Perm ws := by
  unfold swapInto
  cases hi : ws[i]? with
  | none => exact List.Perm.refl _
  | some a =>
    cases hw : ws[w]? with
    | none => exact List.Perm.refl _
    | some b =>
      simp only
      obtain ⟨hil, hia⟩ := List.getElem?_eq_some.mp hi
      obtain ⟨hwl, hwb⟩ := List.getElem?_eq_some.mp hw
      rw [List.perm_iff_count]
      intro x
      have hwl2 : w < (ws.set i b).length := by simpa using hwl
      rw [List.count_set _ _ _ w hwl2, List.count_set _ _ _ i hil, List.getElem_set]
      have h1 := boole_getElem_le_count ws i hil x
      rw [hia]
      rw [hia] at h1
      by_cases hiw : i = w
      · subst hiw
        rw [if_pos rfl]
        have hab : a = b := by rw [← hia, ← hwb]
        subst hab
        by_cases ha : (a == x) = true
        · simp only [ha, if_true] at h1 ⊢; omega
        · simp only [ha] at h1 ⊢; simp
      · rw [if_neg hiw, hwb]
        by_cases ha : (a == x) = true
        · by_cases hb : (b == x) = true
          · simp only [ha, hb, if_true] at h1 ⊢; omega
          · simp only [ha, hb, if_true] at h1 ⊢
            simp only [Bool.false_eq_true, if_false]; omega
        · by_cases hb : (b == x) = true
          · simp only [ha, hb, if_true] at h1 ⊢; simp
          · simp only [ha, hb] at h1 ⊢; simp

theorem swapInto_getD (ws : List Nat) (i w b : Nat) (hi : i < ws.length)
    (hw : ws[w]? = some b) : (swapInto ws i w).getD i 0 = b := by
  unfold swapInto
  have hi2 : ws[i]? = some ws[i] := List.getElem?_eq_getElem hi
  rw [hi2, hw]
  simp only
  obtain ⟨hwl, hwb⟩ := List.getElem?_eq_some.mp hw
  rw [List.getD_eq_getElem?_getD, List.getElem?_set]
  by_cases hiw : w = i
  · subst hiw
    have : w < (ws.set w b).length := by simpa using hi
    rw [if_pos rfl, if_pos this]
    simp only [Option.getD_some]
    rw [← hwb]
  · rw [if_neg hiw, List.getElem?_set, if_pos rfl, if_pos hi]
    rfl

theorem roulettePick_spec (I : WL_Instance) (ws : List Nat) (relsum random : ℚ) :
    ∀ (cands : List Nat) (cum : ℚ) (w : Nat),
      roulettePick I ws relsum random cands cum = some w →
      w ∈ cands ∧ ∃ x, ws[w]? = some x := by
  intro cands
  induction cands with
  | nil => intro cum w h; exact absurd h (by simp [roulettePick])
  | cons c rest ih =>
    intro cum w h
    unfold roulettePick at h
    cases hc : ws[c]? with
    | none => rw [hc] at h; exact absurd h (by simp)
    | some x =>
      rw [hc] at h
      simp only at h
      split at h
      · simp only [Option.some.injEq] at h
        subst h
        exact ⟨List.mem_cons_self _ _, x, hc⟩
      · obtain ⟨h1, h2⟩ := ih _ w h
        exact ⟨List.mem_cons_of_mem _ h1, h2⟩

/-- A roulette draw names a position at or after `n_open` that holds a warehouse. -/
theorem roulette_draw (I : WL_Instance) (st : RouletteState) (random : ℚ) (w : Nat)
    (h : roulettePick I st.warehouses st.relative_cost_sum random
      (List.range' st.n_open (I.warehouses - st.n_open)) 0 = some w) :
    st.n_open < st.warehouses.length ∧ ∃ x, st.warehouses[w]? = some x := by
  obtain ⟨hmem, x, hx⟩ := roulettePick_spec I _ _ _ _ _ _ h
  rw [List.mem_range'] at hmem
  obtain ⟨k, _, hk⟩ := hmem
  obtain ⟨hwl, -⟩ := List.getElem?_eq_some.mp hx
  exact ⟨by omega, x, hx⟩

theorem promote_perm (I : WL_Instance) (st : RouletteState) (w : Nat)
    (hp : st.warehouses.Perm (List.range I.warehouses)) :
    (st.promote I w).warehouses.Perm (List.range I.warehouses) := by
  unfold RouletteState.promote
  exact (swapInto_perm _ _ _).trans hp

theorem rouletteOpen_spec (I : WL_Instance) (td : Nat) :
    ∀ (rng : Rng) (st st2 : RouletteState) (rng2 : Rng),
      st.warehouses.Perm (List.range I.warehouses) →
      rouletteOpen I td rng st = some (st2, rng2) →
      st2.warehouses.Perm (List.range I.warehouses) := by
  intro rng
  induction rng with
  | nil =>
    intro st st2 rng2 hp h
    unfold rouletteOpen at h
    split at h
    · exact absurd h (by simp)
    · simp only [Option.some.injEq, Prod.mk.injEq] at h
      obtain ⟨rfl, -⟩ := h
      exact hp
  | cons r rng1 ih =>
    intro st st2 rng2 hp h
    unfold rouletteOpen at h
    split at h
    · split at h
      · exact ih _ _ _ (promote_perm I st _ hp) h
      · exact ih _ _ _ hp h
    · simp only [Option.some.injEq, Prod.mk.injEq] at h
      obtain ⟨rfl, -⟩ := h
      exact hp

theorem roulettePromote_spec (I : WL_Instance) (σ : WL_Solution) (s : Nat) :
    ∀ (rng : Rng) (st : RouletteState) (bw : Nat) (st2 : RouletteState) (rng2 : Rng),
      st.warehouses.Perm (List.range I.warehouses) →
      roulettePromote I σ s rng st = some (bw, st2, rng2) →
      bw < I.warehouses ∧ WL_Solution.ResidualCapacity I σ bw ≠ 0 ∧
        WL_Solution.Incompatibilities I σ bw s = 0 ∧
        st2.warehouses.Perm (List.range I.warehouses) := by
  intro rng
  induction rng with
  | nil => intro st bw st2 rng2 _ h; exact absurd h (by simp [roulettePromote])
  | cons r rng1 ih =>
    intro st bw st2 rng2 hp h
    unfold roulettePromote at h
    cases hpick : roulettePick I st.warehouses st.relative_cost_sum ((r : ℚ) / (RAND_MAX : ℚ))
        (List.range' st.n_open (I.warehouses - st.n_open)) 0 with
    | none => rw [hpick] at h; exact ih _ _ _ _ hp h
    | some w =>
      rw [hpick] at h
      simp only at h
      obtain ⟨hn, x, hx⟩ := roulette_draw I st _ w hpick
      have hgd : st.warehouses.getD w 0 = x := by
        rw [List.getD_eq_getElem?_getD, hx]; rfl
      rw [hgd] at h
      split at h
      · rename_i hc
        simp only [Option.some.injEq, Prod.mk.injEq] at h
        obtain ⟨rfl, rfl, -⟩ := h
        have hbw : (st.promote I w).warehouses.getD st.n_open 0 = x := by
          unfold RouletteState.promote
          exact swapInto_getD _ _ _ _ hn hx
        rw [hbw]
        have hxlt : x < I.warehouses :=
          List.mem_range.mp (hp.mem_iff.mp (List.getElem?_mem hx))
        exact ⟨hxlt, hc.1, hc.2, promote_perm I st w hp⟩
      · exact ih _ _ _ _ hp h

theorem rouletteFill_spec (I : WL_Instance) (s : Nat) (hI : I.Typed) (hpm : I.PairsInMatrix)
    (hns : ∀ p, p ∈ I.store_incompatibilities → p.1 ≠ p.2) (hs : s < I.stores) :
    ∀ (fuel : Nat) (σ : WL_Solution) (st : RouletteState) (rng : Rng)
      (σ2 : WL_Solution) (st2 : RouletteState) (rng2 : Rng),
      Sound I σ → st.warehouses.Perm (List.range I.warehouses) →
      rouletteFill I s fuel σ st rng = some (some (σ2, st2), rng2) →
      Sound I σ2 ∧ st2.warehouses.Perm (List.range I.warehouses) ∧
        WL_Solution.ResidualAmount I σ2 s = 0 ∧
        ∀ a, a ≠ s → σ2.assigned_goods a = σ.assigned_goods a := by
  intro fuel
  induction fuel with
  | zero => intro σ st rng σ2 st2 rng2 _ _ h; exact absurd h (by simp [rouletteFill])
  | succ n ih =>
    intro σ st rng σ2 st2 rng2 hS hp h
    unfold rouletteFill at h
    by_cases hra : WL_Solution.ResidualAmount I σ s = 0
    · rw [if_pos hra] at h
      simp only [Option.some.injEq, Prod.mk.injEq] at h
      obtain ⟨⟨rfl, rfl⟩, -⟩ := h
      exact ⟨hS, hp, hra, fun _ _ => rfl⟩
    · rw [if_neg hra] at h
      simp only at h
      by_cases hb : bestOpen I σ s (st.warehouses.take st.n_open) = I.warehouses
      · rw [if_pos hb] at h
        by_cases hn : st.n_open < I.warehouses
        · rw [if_pos hn] at h
          cases hpr : roulettePromote I σ s rng st with
          | none => rw [hpr] at h; exact absurd h (by simp)
          | some res =>
            obtain ⟨bw, st1, rng1⟩ := res
            rw [hpr] at h
            simp only at h
            obtain ⟨hlt, hrc, hinc, hp1⟩ := roulettePromote_spec I σ s _ _ _ _ _ hp hpr
            obtain ⟨hS1, hfr⟩ := fill_step I σ s bw hI hpm hns hS hs hlt hra hrc hinc
            obtain ⟨r1, r2, r3, r4⟩ := ih _ _ _ σ2 st2 rng2 hS1 hp1 h
            exact ⟨r1, r2, r3, fun a ha => by rw [r4 a ha, hfr a ha]⟩
        · rw [if_neg hn] at h
          exact absurd h (by simp)
      · rw [if_neg hb] at h
        rcases bestOpen_spec I σ s (st.warehouses.take st.n_open) with hbo | ⟨hmem, hrc, hinc⟩
        · exact absurd hbo hb
        · have hlt : bestOpen I σ s (st.warehouses.take st.n_open) < I.warehouses :=
            List.mem_range.mp (hp.mem_iff.mp (List.mem_of_mem_take hmem))
          obtain ⟨hS1, hfr⟩ := fill_step I σ s _ hI hpm hns hS hs hlt hra hrc hinc
          obtain ⟨r1, r2, r3, r4⟩ := ih _ _ _ σ2 st2 rng2 hS1 hp h
          exact ⟨r1, r2, r3, fun a ha => by rw [r4 a ha, hfr a ha]⟩

theorem rouletteComplete_spec (I : WL_Instance) (fuel : Nat) (hI : I.Typed)
    (hpm : I.PairsInMatrix) (hns : ∀ p, p ∈ I.store_incompatibilities → p.1 ≠ p.2) :
    ∀ (l : List Nat) (σ : WL_Solution) (st : RouletteState) (rng : Rng)
      (σ2 : WL_Solution) (rng2 : Rng),
      Sound I σ → st.warehouses.Perm (List.range I.warehouses) →
      (∀ s, s ∈ l → s < I.stores) → l.Nodup →
      rouletteComplete I fuel l σ st rng = some (some σ2, rng2) →
      Sound I σ2 ∧ (∀ s, s ∈ l → WL_Solution.ResidualAmount I σ2 s = 0) ∧
        ∀ a, a ∉ l → σ2.assigned_goods a = σ.assigned_goods a := by
  intro l
  induction l with
  | nil =>
    intro σ st rng σ2 rng2 hS _ _ _ h
    simp only [rouletteComplete, Option.some.injEq, Prod.mk.injEq] at h
    obtain ⟨rfl, -⟩ := h
    exact ⟨hS, fun s hs => absurd hs (List.not_mem_nil s), fun _ _ => rfl⟩
  | cons s rest ih =>
    intro σ st rng σ2 rng2 hS hp hl hnd h
    unfold rouletteComplete at h
    cases hfill : rouletteFill I s fuel σ st rng with
    | none => rw [hfill] at h; exact absurd h (by simp)
    | some res =>
      obtain ⟨r, rng1⟩ := res
      cases r with
      | none =>
        rw [hfill] at h
        simp only [Option.some.injEq, Prod.mk.injEq] at h
        exact absurd h.1 (by simp)
      | some pr =>
        obtain ⟨σ1, st1⟩ := pr
        rw [hfill] at h
        simp only at h
        have hs := hl s (List.mem_cons_self _ _)
        obtain ⟨hS1, hp1, hres, hfr⟩ :=
          rouletteFill_spec I s hI hpm hns hs fuel σ st rng σ1 st1 rng1 hS hp hfill
        have hnd2 := List.nodup_cons.mp hnd
        obtain ⟨r1, r2, r3⟩ := ih σ1 st1 rng1 σ2 rng2 hS1 hp1
          (fun x hx => hl x (List.mem_cons_of_mem _ hx)) hnd2.2 h
        refine ⟨r1, ?_, ?_⟩
        · intro x hx
          rcases List.mem_cons.mp hx with rfl | hx2
          · have h3 := r3 x hnd2.1
            unfold WL_Solution.ResidualAmount at hres ⊢
            rw [h3]; exact hres
          · exact r2 x hx2
        · intro a ha
          have ha1 : a ≠ s := fun he => ha (he ▸ List.mem_cons_self _ _)
          have ha2 : a ∉ rest := fun he => ha (List.mem_cons_of_mem _ he)
          rw [r3 a ha2, hfr a ha1]

theorem rouletteAttempt_spec (I : WL_Instance) (fuel : Nat) (hI : I.Typed)
    (hpm : I.PairsInMatrix) (hns : ∀ p, p ∈ I.store_incompatibilities → p.1 ≠ p.2)
    (rng : Rng) (σ : WL_Solution) (rng2 : Rng)
    (h : rouletteAttempt I fuel rng = some (some σ, rng2)) : IsFeasible I σ := by
  unfold rouletteAttempt at h
  simp only [Option.bind_eq_some] at h
  obtain ⟨opened, hopen, seeded, hseed, hcomp⟩ := h
  have hp := rouletteOpen_spec I _ _ _ opened.1 opened.2 (List.Perm.refl _) hopen
  have hnd : opened.1.warehouses.Nodup := hp.nodup_iff.mpr (List.nodup_range _)
  have hSs := seedPhase_spec I hI hpm hns _ _ _ seeded.1 seeded.2 (sound_create I)
    (List.Nodup.sublist (List.take_sublist _ _) hnd)
    (fun wh hwh =>
      ⟨List.mem_range.mp (hp.mem_iff.mp (List.mem_of_mem_take hwh)), rfl⟩) hseed
  obtain ⟨r1, r2, -⟩ := rouletteComplete_spec I fuel hI hpm hns _ _ _ _ _ _ hSs hp
    (fun s hs => List.mem_range.mp hs) (List.nodup_range _) hcomp
  exact feasible_of_sound I _ hI r1 (fun s hs => r2 s (List.mem_range.mpr hs))

theorem rouletteRestart_spec (I : WL_Instance) (fuel : Nat) (hI : I.Typed)
    (hpm : I.PairsInMatrix) (hns : ∀ p, p ∈ I.store_incompatibilities → p.1 ≠ p.2) :
    ∀ (n : Nat) (rng : Rng) (σ : WL_Solution) (rng2 : Rng),
      rouletteRestart I fuel n rng = some (σ, rng2) → IsFeasible I σ := by
  intro n
  induction n with
  | zero => intro rng σ rng2 h; exact absurd h (by simp [rouletteRestart])
  | succ n ih =>
    intro rng σ rng2 h
    unfold rouletteRestart at h
    split at h
    · exact absurd h (by simp)
    · rename_i σ1 rng1 hatt
      simp only [Option.some.injEq, Prod.mk.injEq] at h
      obtain ⟨rfl, -⟩ := h
      exact rouletteAttempt_spec I fuel hI hpm hns rng _ _ hatt
    · rename_i rng1 hatt
      exact ih rng1 σ rng2 h

/-- Claim C2, as amended: on an instance whose data fit the machine type and whose listed
pairs are pairs of two different stores recorded in the `incompatible` matrix, for every
result of the sort (an ordering of the warehouses), every PRNG stream and every amount of
fuel on which `InitialSolutionGreedyOpening` or `InitialSolutionRandomOpening` returns,
the returned solution has `assigned_goods[s] == demand[s]` for all `s`,
`load[w] <= capacity[w]` for all `w`, and `ComputeViolations() == 0`. -/
theorem constructors_feasible (I : WL_Instance) (hI : I.Typed) (hpm : I.PairsInMatrix)
    (hns : ∀ p, p ∈ I.store_incompatibilities → p.1 ≠ p.2) :
    (∀ (order : List Nat) (fuel : Nat) (rng : Rng) (σ : WL_Solution) (rng2 : Rng),
      order.Perm (List.range I.warehouses) →
      InitialSolutionGreedyOpening I order fuel rng = some (σ, rng2) → IsFeasible I σ) ∧
    (∀ (fuel : Nat) (rng : Rng) (σ : WL_Solution) (rng2 : Rng),
      InitialSolutionRandomOpening I fuel rng = some (σ, rng2) → IsFeasible I σ) :=
  ⟨fun order fuel rng σ rng2 hperm h =>
      greedyRestart_spec I order fuel hI hpm hns hperm fuel rng σ rng2 h,
    fun fuel rng σ rng2 h => rouletteRestart_spec I fuel hI hpm hns fuel rng σ rng2 h⟩

theorem instE3_typed : instE3.Typed := by
  constructor
  · decide
  · decide
  · intro w hw
    have h1 : w < 2 := hw
    interval_cases w <;> decide
  · intro w hw
    have h1 : w < 2 := hw
    interval_cases w <;> decide
  · intro s hs
    have h1 : s < 2 := hs
    interval_cases s <;> decide
  · decide

theorem instE3_pairs : instE3.PairsInMatrix := by
  intro p hp
  have : p = (0, 1) := by simpa [instE3] using hp
  subst this
  decide

theorem instE3_distinct : ∀ p, p ∈ instE3.store_incompatibilities → p.1 ≠ p.2 := by
  intro p hp
  have : p = (0, 1) := by simpa [instE3] using hp
  subst this
  decide

theorem greedyE3_returns :
    (InitialSolutionGreedyOpening instE3 [0, 1] 5 [0, 1, 1, 0]).isSome = true := by decide

theorem rouletteE3_returns :
    (InitialSolutionRandomOpening instE3 5 [0, 0, 0, 1, 1, 0]).isSome = true := by decide!

/-- Witness for C2: on scenario E3 both constructors return (on the streams shown), and
the amended statement applies to what they return. -/
theorem constructors_feasible_witness :
    IsFeasible instE3
      ((InitialSolutionGreedyOpening instE3 [0, 1] 5 [0, 1, 1, 0]).get greedyE3_returns).1 ∧
    IsFeasible instE3
      ((InitialSolutionRandomOpening instE3 5 [0, 0, 0, 1, 1, 0]).get rouletteE3_returns).1 :=
  ⟨(constructors_feasible instE3 instE3_typed instE3_pairs instE3_distinct).1
      [0, 1] 5 [0, 1, 1, 0] _ _ (List.Perm.refl _) (Option.some_get greedyE3_returns).symm,
    (constructors_feasible instE3 instE3_typed instE3_pairs instE3_distinct).2
      5 [0, 0, 0, 1, 1, 0] _ _ (Option.some_get rouletteE3_returns).symm⟩

/-- Counterexample to C2 as stated ("for every instance"): on the input whose pair list
is `[(0, 0)]`, the greedy constructor (for the only ordering `[0]`, on the stream `[0]`)
returns the solution that assigns the 5 units of store 0 to warehouse 0, and
`ComputeViolations()` counts the pair `(0, 0)` there: 1 violation. -/
theorem constructors_counterexample :
    InitialSolutionGreedyOpening instSelfPair [0] 3 [0]
      = some (WL_Solution.Assign instSelfPair (WL_Solution.create instSelfPair) 0 0 5, []) ∧
    WL_Solution.ComputeViolations instSelfPair
      (WL_Solution.Assign instSelfPair (WL_Solution.create instSelfPair) 0 0 5) = 1 := by
  constructor
  · rfl
  · decide


/-! ## Local search never raises the cost -/

/-- The total cost of a consistent state, when the opening costs cannot wrap. -/
theorem cost_eq (I : WL_Instance) (σ : WL_Solution) (hC : WL_Solution.Consistent I σ)
    (hfix : I.totalFixed + I.reduction_opening_cost < 4294967296) :
    WL_Solution.Cost I σ
      = σ.supply_cost + I.reduction_supply_cost
        + ((WL_Solution.openingSum I σ : Nat) : ℚ) + (I.reduction_opening_cost : ℚ) := by
  have hle := openingSum_le_totalFixed I σ
  have ho : σ.opening_cost = WL_Solution.openingSum I σ := by
    rw [hC.opening]; exact Nat.mod_eq_of_lt (by omega)
  unfold WL_Solution.Cost WL_Solution.SupplyCost WL_Solution.OpeningCost
  rw [uadd_eq_add (by omega), ho]
  push_cast
  ring

/-- The cost after `Assign(s, w, q)` on a consistent state. -/
theorem assign_cost (I : WL_Instance) (σ : WL_Solution) (s w q : Nat)
    (hI : I.Typed) (hfix : I.totalFixed + I.reduction_opening_cost < 4294967296)
    (hC : WL_Solution.Consistent I σ) (hs : s < I.stores) (hw : w < I.warehouses)
    (hq : 0 < q) (hload : σ.load w + q < 4294967296)
    (hass : σ.assigned_goods s + q < 4294967296) :
    WL_Solution.Cost I (WL_Solution.Assign I σ s w q)
      = WL_Solution.Cost I σ + I.supply_cost s w * (q : ℚ)
        + (if σ.load w = 0 then (I.fixed_cost w : ℚ) else 0) := by
  have hC2 := assign_consistent I σ s w q (by have := hI.stores; omega) hC hs hw hq hload hass
  rw [cost_eq I _ hC2 hfix, cost_eq I σ hC hfix]
  have hgw : (WL_Solution.Assign I σ s w q).load w = σ.load w + q := by
    simp [WL_Solution.Assign, uadd_eq_add hload]
  have hch := openingSum_change I σ (WL_Solution.Assign I σ s w q) w hw
    (by intro a ha _; simp [WL_Solution.Assign, ha])
  rw [hgw, if_pos (by omega : 0 < σ.load w + q)] at hch
  have hsc : (WL_Solution.Assign I σ s w q).supply_cost
      = σ.supply_cost + I.supply_cost s w * (q : ℚ) := rfl
  rw [hsc]
  by_cases h0 : σ.load w = 0
  · rw [if_neg (by omega)] at hch
    rw [if_pos h0]
    have : ((WL_Solution.openingSum I (WL_Solution.Assign I σ s w q) : Nat) : ℚ)
        = (WL_Solution.openingSum I σ : ℚ) + (I.fixed_cost w : ℚ) := by
      rw [← Nat.cast_add]; congr 1
    rw [this]; ring
  · rw [if_pos (by omega)] at hch
    rw [if_neg h0]
    have : WL_Solution.openingSum I (WL_Solution.Assign I σ s w q)
        = WL_Solution.openingSum I σ := by omega
    rw [this]; ring

/-- The cost after `RevokeAssignment(s, w, q)` on a consistent state. -/
theorem revoke_cost (I : WL_Instance) (σ : WL_Solution) (s w q : Nat)
    (hfix : I.totalFixed + I.reduction_opening_cost < 4294967296)
    (hC : WL_Solution.Consistent I σ) (hs : s < I.stores) (hw : w < I.warehouses)
    (hq : q ≤ σ.supply s w) (hpos : 0 < σ.supply s w) :
    WL_Solution.Cost I (WL_Solution.RevokeAssignment I σ s w q)
      = WL_Solution.Cost I σ - I.supply_cost s w * (q : ℚ)
        - (if σ.load w = q then (I.fixed_cost w : ℚ) else 0) := by
  have hC2 := revoke_consistent I σ s w q hC hs hw hq hpos
  rw [cost_eq I _ hC2 hfix, cost_eq I σ hC hfix]
  have hsl := supply_le_load I σ hC.load hs hw
  have hloadT := hC.typed.load w hw
  have hgw : (WL_Solution.RevokeAssignment I σ s w q).load w = σ.load w - q := by
    simp [WL_Solution.RevokeAssignment, usub_eq_sub (by omega : q ≤ σ.load w) hloadT]
  have hch := openingSum_change I σ (WL_Solution.RevokeAssignment I σ s w q) w hw
    (by intro a ha _; simp [WL_Solution.RevokeAssignment, ha])
  rw [hgw, if_pos (by omega : 0 < σ.load w)] at hch
  have hsc : (WL_Solution.RevokeAssignment I σ s w q).supply_cost
      = σ.supply_cost - I.supply_cost s w * (q : ℚ) := rfl
  rw [hsc]
  by_cases h0 : σ.load w = q
  · rw [if_neg (by omega)] at hch
    rw [if_pos h0]
    have : (WL_Solution.openingSum I σ : ℚ)
        = ((WL_Solution.openingSum I (WL_Solution.RevokeAssignment I σ s w q) : Nat) : ℚ)
          + (I.fixed_cost w : ℚ) := by
      rw [← Nat.cast_add]; congr 1; omega
    rw [this]; ring
  · rw [if_pos (by omega)] at hch
    rw [if_neg h0]
    have : WL_Solution.openingSum I (WL_Solution.RevokeAssignment I σ s w q)
        = WL_Solution.openingSum I σ := by omega
    rw [this]; ring



/-- `Assign(s, w, q)` within the residual capacity and the residual amount keeps the state
within the bounds. -/
theorem within_assign (I : WL_Instance) (σ : WL_Solution) (s w q : Nat) (hI : I.Typed)
    (hW : WL_Solution.Within I σ) (hs : s < I.stores) (hw : w < I.warehouses)
    (hl : σ.load w + q ≤ I.capacity w) (ha : σ.assigned_goods s + q ≤ I.amount_of_goods s) :
    WL_Solution.Within I (WL_Solution.Assign I σ s w q) := by
  have hcT := hI.capacity w hw
  have haT := hI.amount_of_goods s hs
  refine ⟨?_, ?_⟩
  · intro b hb
    by_cases hbw : b = w
    · subst hbw; simp [WL_Solution.Assign, uadd_eq_add (by omega : σ.load b + q < 4294967296)]
      exact hl
    · simp [WL_Solution.Assign, hbw]; exact hW.load_le b hb
  · intro a ha2
    by_cases has : a = s
    · subst has
      simp [WL_Solution.Assign,
        uadd_eq_add (by omega : σ.assigned_goods a + q < 4294967296)]
      exact ha
    · simp [WL_Solution.Assign, has]; exact hW.assigned_le a ha2

/-- `RevokeAssignment(s, w, q)` with `q <= supply[s][w]` keeps the state within the
bounds. -/
theorem within_revoke (I : WL_Instance) (σ : WL_Solution) (s w q : Nat)
    (hC : WL_Solution.Consistent I σ) (hW : WL_Solution.Within I σ)
    (hs : s < I.stores) (hw : w < I.warehouses) (hq : q ≤ σ.supply s w) :
    WL_Solution.Within I (WL_Solution.RevokeAssignment I σ s w q) := by
  have hsl := supply_le_load I σ hC.load hs hw
  have hsa := supply_le_assigned I σ hC.assigned hs hw
  have hloadT := hC.typed.load w hw
  have hassT := hC.typed.assigned_goods s hs
  refine ⟨?_, ?_⟩
  · intro b hb
    by_cases hbw : b = w
    · subst hbw
      simp [WL_Solution.RevokeAssignment, usub_eq_sub (by omega : q ≤ σ.load b) hloadT]
      have := hW.load_le b hb
      omega
    · simp [WL_Solution.RevokeAssignment, hbw]; exact hW.load_le b hb
  · intro a ha2
    by_cases has : a = s
    · subst has
      simp [WL_Solution.RevokeAssignment,
        usub_eq_sub (by omega : q ≤ σ.assigned_goods a) hassT]
      have := hW.assigned_le a ha2
      omega
    · simp [WL_Solution.RevokeAssignment, has]; exact hW.assigned_le a ha2

/-- The relocation of `q` goods of `s1` from `w1` to `w2`, with `0 < q <= supply[s1][w1]`
and `q` within the residual capacity of `w2`: the state stays consistent and within the
bounds, and the cost changes by the supply-cost difference, the fixed cost of `w2` when it
opens and the fixed cost of `w1` when it closes. -/
theorem relocate_step (I : WL_Instance) (σ : WL_Solution) (s1 w1 w2 q : Nat)
    (hI : I.Typed) (hfix : I.totalFixed + I.reduction_opening_cost < 4294967296)
    (hC : WL_Solution.Consistent I σ) (hW : WL_Solution.Within I σ)
    (hs1 : s1 < I.stores) (hw1 : w1 < I.warehouses) (hw2 : w2 < I.warehouses)
    (hne : w1 ≠ w2) (hq : 0 < q) (hqs : q ≤ σ.supply s1 w1)
    (hqc : σ.load w2 + q ≤ I.capacity w2) :
    WL_Solution.Consistent I
      (WL_Solution.Assign I (WL_Solution.RevokeAssignment I σ s1 w1 q) s1 w2 q) ∧
    WL_Solution.Within I
      (WL_Solution.Assign I (WL_Solution.RevokeAssignment I σ s1 w1 q) s1 w2 q) ∧
    WL_Solution.Cost I
      (WL_Solution.Assign I (WL_Solution.RevokeAssignment I σ s1 w1 q) s1 w2 q)
      = WL_Solution.Cost I σ - (I.supply_cost s1 w1 - I.supply_cost s1 w2) * (q : ℚ)
        + (if σ.load w2 = 0 then (I.fixed_cost w2 : ℚ) else 0)
        - (if σ.load w1 = q then (I.fixed_cost w1 : ℚ) else 0) := by
  have hsl := supply_le_load I σ hC.load hs1 hw1
  have hsa := supply_le_assigned I σ hC.assigned hs1 hw1
  have hsupT := hC.typed.supply s1 w1 hs1 hw1
  have hloadT := hC.typed.load w1 hw1
  have hassT := hC.typed.assigned_goods s1 hs1
  have hcT := hI.capacity w2 hw2
  have hpos : 0 < σ.supply s1 w1 := by omega
  obtain ⟨_, fl, fa⟩ := revoke_fields I σ s1 w1 q hqs hsupT (by omega) hloadT (by omega) hassT
  have hC1 := revoke_consistent I σ s1 w1 q hC hs1 hw1 hqs hpos
  have hW1 := within_revoke I σ s1 w1 q hC hW hs1 hw1 hqs
  have hl2 : (WL_Solution.RevokeAssignment I σ s1 w1 q).load w2 = σ.load w2 := by
    rw [fl, if_neg (Ne.symm hne)]
  have ha1 : (WL_Solution.RevokeAssignment I σ s1 w1 q).assigned_goods s1
      = σ.assigned_goods s1 - q := by rw [fa, if_pos rfl]
  have hamt := hW.assigned_le s1 hs1
  refine ⟨?_, ?_, ?_⟩
  · exact assign_consistent I _ s1 w2 q (by have := hI.stores; omega) hC1 hs1 hw2 hq
      (by rw [hl2]; omega) (by rw [ha1]; omega)
  · exact within_assign I _ s1 w2 q hI hW1 hs1 hw2 (by rw [hl2]; exact hqc)
      (by rw [ha1]; omega)
  · rw [assign_cost I _ s1 w2 q hI hfix hC1 hs1 hw2 hq (by rw [hl2]; omega)
        (by rw [ha1]; omega),
      revoke_cost I σ s1 w1 q hfix hC hs1 hw1 hqs hpos, hl2]
    ring



theorem setErase_setInsert_comm (l : List Nat) {a b : Nat} (hab : a ≠ b) :
    setErase (setInsert l a) b = setInsert (setErase l b) a := by
  unfold setInsert
  by_cases ha : a ∈ l
  · have : a ∈ setErase l b := mem_setErase.mpr ⟨ha, hab⟩
    rw [if_pos ha, if_pos this]
  · have : a ∉ setErase l b := fun h => ha (mem_setErase.mp h).1
    rw [if_neg ha, if_neg this]
    unfold setErase
    rw [List.filter_append]
    simp [hab]

theorem usub_uadd_comm (x a b : Nat) : usub (uadd x a) b = uadd (usub x b) a := by
  unfold usub uadd
  omega

/-- An `Assign` of one store and a `RevokeAssignment` of another store at the same
warehouse can be exchanged, when the warehouse stays open in between either way. -/
theorem revoke_assign_comm (I : WL_Instance) (σ : WL_Solution) (s1 s2 w q1 q2 : Nat)
    (hne : s1 ≠ s2) (hT : σ.opening_cost < 4294967296) (hL : σ.load w < 4294967296)
    (hq2 : 0 < q2) (hq2L : q2 ≤ σ.load w) (hq1 : 0 < q1)
    (hfit : σ.load w - q2 + q1 < 4294967296) :
    WL_Solution.RevokeAssignment I (WL_Solution.Assign I σ s1 w q1) s2 w q2
      = WL_Solution.Assign I (WL_Solution.RevokeAssignment I σ s2 w q2) s1 w q1 := by
  have hne2 : s2 ≠ s1 := Ne.symm hne
  have hA : (WL_Solution.Assign I σ s1 w q1).supply s2 w = σ.supply s2 w := by
    simp [WL_Solution.Assign, hne2]
  have hR : (WL_Solution.RevokeAssignment I σ s2 w q2).supply s1 w = σ.supply s1 w := by
    simp [WL_Solution.RevokeAssignment, hne]
  have hAl : (WL_Solution.Assign I σ s1 w q1).load w = uadd (σ.load w) q1 := by
    simp [WL_Solution.Assign]
  have hRl : (WL_Solution.RevokeAssignment I σ s2 w q2).load w = usub (σ.load w) q2 := by
    simp [WL_Solution.RevokeAssignment]
  apply WL_Solution.ext
  · -- supplied_stores
    show (if usub ((WL_Solution.Assign I σ s1 w q1).supply s2 w) q2 = 0 then _ else _)
      = (if (WL_Solution.RevokeAssignment I σ s2 w q2).supply s1 w = 0 then _ else _)
    rw [hA, hR]
    by_cases h1 : σ.supply s1 w = 0 <;> by_cases h2 : usub (σ.supply s2 w) q2 = 0
    · simp only [WL_Solution.Assign, WL_Solution.RevokeAssignment, h1, h2, if_true]
      funext a
      by_cases ha : a = w
      · subst ha; simp [setErase_setInsert_comm _ hne]
      · simp [ha]
    · simp [WL_Solution.Assign, WL_Solution.RevokeAssignment, h1, h2]
    · simp [WL_Solution.Assign, WL_Solution.RevokeAssignment, h1, h2]
    · simp [WL_Solution.Assign, WL_Solution.RevokeAssignment, h1, h2]
  · -- supply_cost
    simp only [WL_Solution.Assign, WL_Solution.RevokeAssignment]
    ring
  · -- opening_cost
    show (if usub ((WL_Solution.Assign I σ s1 w q1).load w) q2 = 0 then _ else _)
      = (if (WL_Solution.RevokeAssignment I σ s2 w q2).load w = 0 then _ else _)
    rw [hAl, hRl]
    have e1 : uadd (σ.load w) q1 = (σ.load w + q1) % 4294967296 := rfl
    have e2 : usub (σ.load w) q2 = σ.load w - q2 := usub_eq_sub hq2L hL
    have e3 : usub (uadd (σ.load w) q1) q2 ≠ 0 := by
      rw [usub_uadd_comm, e2, uadd_eq_add hfit]; omega
    rw [if_neg e3]
    have e4 : (WL_Solution.Assign I σ s1 w q1).opening_cost = σ.opening_cost := by
      simp only [WL_Solution.Assign]; rw [if_neg (by omega)]
    rw [e4]
    by_cases h0 : usub (σ.load w) q2 = 0
    · rw [if_pos h0]
      simp only [WL_Solution.RevokeAssignment]
      rw [if_pos h0]
      unfold uadd usub
      omega
    · rw [if_neg h0]
      simp only [WL_Solution.RevokeAssignment]
      rw [if_neg h0]
  · -- supply
    simp only [WL_Solution.Assign, WL_Solution.RevokeAssignment]
    funext a b
    simp only [set2_apply]
    by_cases h1 : a = s1 ∧ b = w <;> by_cases h2 : a = s2 ∧ b = w
    · exact absurd (h1.1.symm.trans h2.1) hne
    · simp [h1, hne]
    · simp [h2, hne2]
    · simp [h1, h2]
  · -- assigned_goods
    simp only [WL_Solution.Assign, WL_Solution.RevokeAssignment]
    funext a
    simp only [set1_apply]
    by_cases h1 : a = s1 <;> by_cases h2 : a = s2
    · exact absurd (h1.symm.trans h2) hne
    · simp [h1, hne]
    · simp [h2, hne2]
    · simp [h1, h2]
  · -- load
    simp only [WL_Solution.Assign, WL_Solution.RevokeAssignment]
    funext a
    simp only [set1_apply]
    by_cases h1 : a = w
    · simp [h1, usub_uadd_comm]
    · simp [h1]
  · -- incompatibilities
    show (if usub ((WL_Solution.Assign I σ s1 w q1).supply s2 w) q2 = 0 then _ else _)
      = (if (WL_Solution.RevokeAssignment I σ s2 w q2).supply s1 w = 0 then _ else _)
    rw [hA, hR]
    by_cases h1 : σ.supply s1 w = 0 <;> by_cases h2 : usub (σ.supply s2 w) q2 = 0
    · simp only [WL_Solution.Assign, WL_Solution.RevokeAssignment, h1, h2, if_true]
      funext a b
      rw [decrIncompat_apply, incrIncompat_apply, incrIncompat_apply, decrIncompat_apply]
      by_cases c1 : a = w ∧ b < I.stores ∧ I.incompatible s1 b = true <;>
        by_cases c2 : a = w ∧ b < I.stores ∧ I.incompatible s2 b = true
      · rw [if_pos c2, if_pos c1, if_pos c1, if_pos c2, usub_uadd_comm]
      · rw [if_neg c2, if_pos c1, if_pos c1, if_neg c2]
      · rw [if_pos c2, if_neg c1, if_neg c1, if_pos c2]
      · rw [if_neg c2, if_neg c1, if_neg c1, if_neg c2]
    · simp [WL_Solution.Assign, WL_Solution.RevokeAssignment, h1, h2]
    · simp [WL_Solution.Assign, WL_Solution.RevokeAssignment, h1, h2]
    · simp [WL_Solution.Assign, WL_Solution.RevokeAssignment, h1, h2]



/-- The exchange of the supplies of `s1` at `w1` and of `s2` at `w2`, as the four calls of
the move application make it: the state stays consistent and within the bounds, and the
cost falls by the improvement computed for the move. -/
theorem swap_step (I : WL_Instance) (σ : WL_Solution) (s1 s2 w1 w2 : Nat)
    (hI : I.Typed) (hfix : I.totalFixed + I.reduction_opening_cost < 4294967296)
    (hC : WL_Solution.Consistent I σ) (hW : WL_Solution.Within I σ)
    (hs1 : s1 < I.stores) (hs2 : s2 < I.stores)
    (hw1 : w1 < I.warehouses) (hw2 : w2 < I.warehouses)
    (hne : w1 ≠ w2) (hs : s1 ≠ s2)
    (hp1 : 0 < σ.supply s1 w1) (hp2 : 0 < σ.supply s2 w2)
    (hc2 : σ.load w2 - σ.supply s2 w2 + σ.supply s1 w1 ≤ I.capacity w2)
    (hc1 : σ.load w1 - σ.supply s1 w1 + σ.supply s2 w2 ≤ I.capacity w1) :
    WL_Solution.Consistent I
      (WL_Solution.Assign I
        (WL_Solution.RevokeAssignment I
          (WL_Solution.Assign I (WL_Solution.RevokeAssignment I σ s1 w1 (σ.supply s1 w1))
            s1 w2 (σ.supply s1 w1))
          s2 w2 (σ.supply s2 w2))
        s2 w1 (σ.supply s2 w2)) ∧
    WL_Solution.Within I
      (WL_Solution.Assign I
        (WL_Solution.RevokeAssignment I
          (WL_Solution.Assign I (WL_Solution.RevokeAssignment I σ s1 w1 (σ.supply s1 w1))
            s1 w2 (σ.supply s1 w1))
          s2 w2 (σ.supply s2 w2))
        s2 w1 (σ.supply s2 w2)) ∧
    WL_Solution.Cost I
      (WL_Solution.Assign I
        (WL_Solution.RevokeAssignment I
          (WL_Solution.Assign I (WL_Solution.RevokeAssignment I σ s1 w1 (σ.supply s1 w1))
            s1 w2 (σ.supply s1 w1))
          s2 w2 (σ.supply s2 w2))
        s2 w1 (σ.supply s2 w2))
      = WL_Solution.Cost I σ - swapImprovement I σ s1 s2 w1 w2 := by
  have hne2 : w2 ≠ w1 := Ne.symm hne
  have hsn : s2 ≠ s1 := Ne.symm hs
  have hS : I.stores < 4294967296 := by have := hI.stores; omega
  have hsl1 := supply_le_load I σ hC.load hs1 hw1
  have hsl2 := supply_le_load I σ hC.load hs2 hw2
  have hsa1 := supply_le_assigned I σ hC.assigned hs1 hw1
  have hsa2 := supply_le_assigned I σ hC.assigned hs2 hw2
  have hl1T := hC.typed.load w1 hw1
  have hl2T := hC.typed.load w2 hw2
  have ha1T := hC.typed.assigned_goods s1 hs1
  have ha2T := hC.typed.assigned_goods s2 hs2
  have hc1T := hI.capacity w1 hw1
  have hc2T := hI.capacity w2 hw2
  have ham1 := hW.assigned_le s1 hs1
  have ham2 := hW.assigned_le s2 hs2
  -- first call
  have hC1 := revoke_consistent I σ s1 w1 (σ.supply s1 w1) hC hs1 hw1 (le_refl _) hp1
  have hW1 := within_revoke I σ s1 w1 (σ.supply s1 w1) hC hW hs1 hw1 (le_refl _)
  have f1l1 : (WL_Solution.RevokeAssignment I σ s1 w1 (σ.supply s1 w1)).load w1
      = σ.load w1 - σ.supply s1 w1 := by
    simp [WL_Solution.RevokeAssignment, usub_eq_sub hsl1 hl1T]
  have f1l2 : (WL_Solution.RevokeAssignment I σ s1 w1 (σ.supply s1 w1)).load w2
      = σ.load w2 := by
    simp [WL_Solution.RevokeAssignment, hne2]
  have f1s : (WL_Solution.RevokeAssignment I σ s1 w1 (σ.supply s1 w1)).supply s2 w2
      = σ.supply s2 w2 := by
    simp [WL_Solution.RevokeAssignment, hsn]
  have f1a1 : (WL_Solution.RevokeAssignment I σ s1 w1 (σ.supply s1 w1)).assigned_goods s1
      = σ.assigned_goods s1 - σ.supply s1 w1 := by
    simp [WL_Solution.RevokeAssignment, usub_eq_sub hsa1 ha1T]
  have f1a2 : (WL_Solution.RevokeAssignment I σ s1 w1 (σ.supply s1 w1)).assigned_goods s2
      = σ.assigned_goods s2 := by
    simp [WL_Solution.RevokeAssignment, hsn]
  -- the two middle calls, exchanged
  rw [revoke_assign_comm I _ s1 s2 w2 (σ.supply s1 w1) (σ.supply s2 w2) hs
    hC1.typed.opening_cost (by rw [f1l2]; exact hl2T) hp2 (by rw [f1l2]; exact hsl2) hp1
    (by rw [f1l2]; omega)]
  have hC2 := revoke_consistent I _ s2 w2 (σ.supply s2 w2) hC1 hs2 hw2
    (by rw [f1s]) (by rw [f1s]; exact hp2)
  have hW2 := within_revoke I _ s2 w2 (σ.supply s2 w2) hC1 hW1 hs2 hw2 (by rw [f1s])
  have f2l2 : (WL_Solution.RevokeAssignment I
      (WL_Solution.RevokeAssignment I σ s1 w1 (σ.supply s1 w1)) s2 w2 (σ.supply s2 w2)).load w2
      = σ.load w2 - σ.supply s2 w2 := by
    have : (WL_Solution.RevokeAssignment I
      (WL_Solution.RevokeAssignment I σ s1 w1 (σ.supply s1 w1)) s2 w2 (σ.supply s2 w2)).load w2
      = usub ((WL_Solution.RevokeAssignment I σ s1 w1 (σ.supply s1 w1)).load w2)
          (σ.supply s2 w2) := by
      simp [WL_Solution.RevokeAssignment]
    rw [this, f1l2, usub_eq_sub hsl2 hl2T]
  have f2l1 : (WL_Solution.RevokeAssignment I
      (WL_Solution.RevokeAssignment I σ s1 w1 (σ.supply s1 w1)) s2 w2 (σ.supply s2 w2)).load w1
      = σ.load w1 - σ.supply s1 w1 := by
    have : (WL_Solution.RevokeAssignment I
      (WL_Solution.RevokeAssignment I σ s1 w1 (σ.supply s1 w1)) s2 w2 (σ.supply s2 w2)).load w1
      = (WL_Solution.RevokeAssignment I σ s1 w1 (σ.supply s1 w1)).load w1 := by
      simp [WL_Solution.RevokeAssignment, hne]
    rw [this, f1l1]
  have f2a1 : (WL_Solution.RevokeAssignment I
      (WL_Solution.RevokeAssignment I σ s1 w1 (σ.supply s1 w1)) s2 w2
        (σ.supply s2 w2)).assigned_goods s1
      = σ.assigned_goods s1 - σ.supply s1 w1 := by
    have : (WL_Solution.RevokeAssignment I
      (WL_Solution.RevokeAssignment I σ s1 w1 (σ.supply s1 w1)) s2 w2
        (σ.supply s2 w2)).assigned_goods s1
      = (WL_Solution.RevokeAssignment I σ s1 w1 (σ.supply s1 w1)).assigned_goods s1 := by
      simp [WL_Solution.RevokeAssignment, hs]
    rw [this, f1a1]
  have f2a2 : (WL_Solution.RevokeAssignment I
      (WL_Solution.RevokeAssignment I σ s1 w1 (σ.supply s1 w1)) s2 w2
        (σ.supply s2 w2)).assigned_goods s2
      = σ.assigned_goods s2 - σ.supply s2 w2 := by
    have : (WL_Solution.RevokeAssignment I
      (WL_Solution.RevokeAssignment I σ s1 w1 (σ.supply s1 w1)) s2 w2
        (σ.supply s2 w2)).assigned_goods s2
      = usub ((WL_Solution.RevokeAssignment I σ s1 w1 (σ.supply s1 w1)).assigned_goods s2)
          (σ.supply s2 w2) := by
      simp [WL_Solution.RevokeAssignment]
    rw [this, f1a2, usub_eq_sub hsa2 ha2T]
  -- third call
  have hC3 := assign_consistent I _ s1 w2 (σ.supply s1 w1) hS hC2 hs1 hw2 hp1
    (by rw [f2l2]; omega) (by rw [f2a1]; omega)
  have hW3 := within_assign I _ s1 w2 (σ.supply s1 w1) hI hW2 hs1 hw2
    (by rw [f2l2]; exact hc2) (by rw [f2a1]; omega)
  have f3l1 : (WL_Solution.Assign I (WL_Solution.RevokeAssignment I
      (WL_Solution.RevokeAssignment I σ s1 w1 (σ.supply s1 w1)) s2 w2 (σ.supply s2 w2))
      s1 w2 (σ.supply s1 w1)).load w1 = σ.load w1 - σ.supply s1 w1 := by
    have : (WL_Solution.Assign I (WL_Solution.RevokeAssignment I
      (WL_Solution.RevokeAssignment I σ s1 w1 (σ.supply s1 w1)) s2 w2 (σ.supply s2 w2))
      s1 w2 (σ.supply s1 w1)).load w1
      = (WL_Solution.RevokeAssignment I
      (WL_Solution.RevokeAssignment I σ s1 w1 (σ.supply s1 w1)) s2 w2 (σ.supply s2 w2)).load w1
        := by
      simp [WL_Solution.Assign, hne]
    rw [this, f2l1]
  have f3a2 : (WL_Solution.Assign I (WL_Solution.RevokeAssignment I
      (WL_Solution.RevokeAssignment I σ s1 w1 (σ.supply s1 w1)) s2 w2 (σ.supply s2 w2))
      s1 w2 (σ.supply s1 w1)).assigned_goods s2 = σ.assigned_goods s2 - σ.supply s2 w2 := by
    have : (WL_Solution.Assign I (WL_Solution.RevokeAssignment I
      (WL_Solution.RevokeAssignment I σ s1 w1 (σ.supply s1 w1)) s2 w2 (σ.supply s2 w2))
      s1 w2 (σ.supply s1 w1)).assigned_goods s2
      = (WL_Solution.RevokeAssignment I
      (WL_Solution.RevokeAssignment I σ s1 w1 (σ.supply s1 w1)) s2 w2
        (σ.supply s2 w2)).assigned_goods s2 := by
      simp [WL_Solution.Assign, hsn]
    rw [this, f2a2]
  refine ⟨?_, ?_, ?_⟩
  · exact assign_consistent I _ s2 w1 (σ.supply s2 w2) hS hC3 hs2 hw1 hp2
      (by rw [f3l1]; omega) (by rw [f3a2]; omega)
  · exact within_assign I _ s2 w1 (σ.supply s2 w2) hI hW3 hs2 hw1
      (by rw [f3l1]; exact hc1) (by rw [f3a2]; omega)
  · rw [assign_cost I _ s2 w1 (σ.supply s2 w2) hI hfix hC3 hs2 hw1 hp2
        (by rw [f3l1]; omega) (by rw [f3a2]; omega),
      assign_cost I _ s1 w2 (σ.supply s1 w1) hI hfix hC2 hs1 hw2 hp1
        (by rw [f2l2]; omega) (by rw [f2a1]; omega),
      revoke_cost I _ s2 w2 (σ.supply s2 w2) hfix hC1 hs2 hw2 (by rw [f1s])
        (by rw [f1s]; exact hp2),
      revoke_cost I σ s1 w1 (σ.supply s1 w1) hfix hC hs1 hw1 (le_refl _) hp1,
      f3l1, f2l2, f1l2]
    unfold swapImprovement
    by_cases e1 : σ.load w1 = σ.supply s1 w1 <;> by_cases e2 : σ.load w2 = σ.supply s2 w2
    · rw [if_pos (by omega : σ.load w1 - σ.supply s1 w1 = 0),
        if_pos (by omega : σ.load w2 - σ.supply s2 w2 = 0), if_pos e2, if_pos e1]
      ring
    · rw [if_pos (by omega : σ.load w1 - σ.supply s1 w1 = 0),
        if_neg (by omega : ¬ σ.load w2 - σ.supply s2 w2 = 0), if_neg e2, if_pos e1]
      ring
    · rw [if_neg (by omega : ¬ σ.load w1 - σ.supply s1 w1 = 0),
        if_pos (by omega : σ.load w2 - σ.supply s2 w2 = 0), if_pos e2, if_neg e1]
      ring
    · rw [if_neg (by omega : ¬ σ.load w1 - σ.supply s1 w1 = 0),
        if_neg (by omega : ¬ σ.load w2 - σ.supply s2 w2 = 0), if_neg e2, if_neg e1]
      ring



theorem mem_relocateMove {I : WL_Instance} {σ : WL_Solution} {cf : List Nat}
    {s1 w1 w2 : Nat} {m : Move} (h : m ∈ relocateMove I σ cf s1 w1 w2) :
    WL_Solution.Incompatibilities I σ w2 s1 = 0 ∧ WL_Solution.ResidualCapacity I σ w2 ≠ 0 ∧
    MY_EPSILON < relocateImprovement I σ cf s1 w1 w2 ∧
    m.s1 = s1 ∧ m.s2 = I.stores ∧ m.w1 = w1 ∧ m.w2 = w2 ∧
    m.improvement = relocateImprovement I σ cf s1 w1 w2 := by
  unfold relocateMove at h
  by_cases h1 : WL_Solution.Incompatibilities I σ w2 s1 = 0 ∧
      WL_Solution.ResidualCapacity I σ w2 ≠ 0
  · rw [if_pos h1] at h
    by_cases h2 : relocateImprovement I σ cf s1 w1 w2 > MY_EPSILON
    · rw [if_pos h2, List.mem_singleton] at h
      subst h
      exact ⟨h1.1, h1.2, h2, rfl, rfl, rfl, rfl, rfl⟩
    · rw [if_neg h2] at h
      exact absurd h (List.not_mem_nil _)
  · rw [if_neg h1] at h
    exact absurd h (List.not_mem_nil _)

theorem mem_swapMoves {I : WL_Instance} {σ : WL_Solution} {s1 w1 w2 : Nat} {m : Move}
    (h : m ∈ swapMoves I σ s1 w1 w2) :
    WL_Solution.Incompatibilities I σ w2 s1 ≤ 1 ∧ m.s2 ∈ σ.supplied_stores w2 ∧
    swapAdmissible I σ s1 m.s2 w1 w2 ∧ MY_EPSILON < swapImprovement I σ s1 m.s2 w1 w2 ∧
    m.s1 = s1 ∧ m.w1 = w1 ∧ m.w2 = w2 ∧
    m.improvement = swapImprovement I σ s1 m.s2 w1 w2 := by
  unfold swapMoves at h
  by_cases h1 : WL_Solution.Incompatibilities I σ w2 s1 ≤ 1
  · rw [if_pos h1, List.mem_filterMap] at h
    obtain ⟨s2, hs2, hm⟩ := h
    by_cases h2 : swapAdmissible I σ s1 s2 w1 w2 ∧ swapImprovement I σ s1 s2 w1 w2 > MY_EPSILON
    · rw [if_pos h2] at hm
      have hm2 := Option.some.inj hm
      subst hm2
      exact ⟨h1, hs2, h2.1, h2.2, rfl, rfl, rfl, rfl⟩
    · rw [if_neg h2] at hm
      exact absurd hm (by simp)
  · rw [if_neg h1] at h
    exact absurd h (List.not_mem_nil _)

theorem mem_pairMoves {I : WL_Instance} {σ : WL_Solution} {cf : List Nat}
    {s1 w1 w2 : Nat} {m : Move} (h : m ∈ pairMoves I σ cf s1 w1 w2) :
    m.s1 = s1 ∧ m.w1 = w1 ∧ m.w2 = w2 := by
  rcases List.mem_append.mp h with h | h
  · obtain ⟨_, _, _, a, _, b, c, _⟩ := mem_relocateMove h
    exact ⟨a, b, c⟩
  · obtain ⟨_, _, _, _, a, b, c, _⟩ := mem_swapMoves h
    exact ⟨a, b, c⟩

/-- The application of a move that the enumeration pushes in the current state: the state
stays consistent and within the bounds, and the cost falls by at least the improvement
recorded in the move, which exceeds `MY_EPSILON`. -/
theorem applyMove_spec (I : WL_Instance) (σ : WL_Solution) (cf : List Nat) (m : Move)
    (hI : I.Typed) (hfix : I.totalFixed + I.reduction_opening_cost < 4294967296)
    (hC : WL_Solution.Consistent I σ) (hW : WL_Solution.Within I σ)
    (hm : MoveOK I σ cf m) :
    WL_Solution.Consistent I (applyMove I σ m) ∧ WL_Solution.Within I (applyMove I σ m) ∧
    WL_Solution.Cost I (applyMove I σ m) + m.improvement ≤ WL_Solution.Cost I σ ∧
    MY_EPSILON < m.improvement := by
  obtain ⟨hw1, hw2, hne, hmem, hpm⟩ := hm
  obtain ⟨hs1, hp1⟩ := (hC.stores m.w1 hw1 m.s1).mp hmem
  have hsl1 := supply_le_load I σ hC.load hs1 hw1
  have hrc2 := residualCapacity_eq I σ hI hW hw2
  have hrc1 := residualCapacity_eq I σ hI hW hw1
  have hl1 := hW.load_le m.w1 hw1
  have hl2 := hW.load_le m.w2 hw2
  have hc1T := hI.capacity m.w1 hw1
  have hc2T := hI.capacity m.w2 hw2
  rcases List.mem_append.mp hpm with hr | hsw
  · obtain ⟨_, hres, himp, _, e2, _, _, eimp⟩ := mem_relocateMove hr
    unfold applyMove
    rw [if_pos e2]
    rw [hrc2] at hres
    have hq : 0 < min (σ.supply m.s1 m.w1) (WL_Solution.ResidualCapacity I σ m.w2) := by
      rw [hrc2]; exact lt_min hp1 (by omega)
    have hqs : min (σ.supply m.s1 m.w1) (WL_Solution.ResidualCapacity I σ m.w2)
        ≤ σ.supply m.s1 m.w1 := min_le_left _ _
    have hqc : σ.load m.w2 + min (σ.supply m.s1 m.w1) (WL_Solution.ResidualCapacity I σ m.w2)
        ≤ I.capacity m.w2 := by
      have := min_le_right (σ.supply m.s1 m.w1) (WL_Solution.ResidualCapacity I σ m.w2)
      rw [hrc2] at this ⊢
      omega
    obtain ⟨c1, c2, c3⟩ := relocate_step I σ m.s1 m.w1 m.w2 _ hI hfix hC hW hs1 hw1 hw2 hne
      hq hqs hqc
    refine ⟨c1, c2, ?_, by rw [eimp]; exact himp⟩
    rw [c3, eimp]
    unfold relocateImprovement
    have hf : (0 : ℚ) ≤ (I.fixed_cost m.w1 : ℚ) := Nat.cast_nonneg _
    have key : (if min (σ.supply m.s1 m.w1) (WL_Solution.ResidualCapacity I σ m.w2)
          = σ.load m.w1 ∧ m.w1 ∉ cf then (I.fixed_cost m.w1 : ℚ) else 0)
        ≤ (if σ.load m.w1 = min (σ.supply m.s1 m.w1) (WL_Solution.ResidualCapacity I σ m.w2)
          then (I.fixed_cost m.w1 : ℚ) else 0) := by
      by_cases e : σ.load m.w1
          = min (σ.supply m.s1 m.w1) (WL_Solution.ResidualCapacity I σ m.w2)
      · rw [if_pos e]
        split
        · exact le_refl _
        · exact hf
      · rw [if_neg e, if_neg (fun h => e h.1.symm)]
    linarith
  · obtain ⟨_, hmem2, hadm, himp, _, _, _, eimp⟩ := mem_swapMoves hsw
    obtain ⟨hs2, hp2⟩ := (hC.stores m.w2 hw2 m.s2).mp hmem2
    have hsl2 := supply_le_load I σ hC.load hs2 hw2
    obtain ⟨hss, _, ha1, ha2⟩ := hadm
    rw [hrc2, uadd_eq_add (by omega)] at ha1
    rw [hrc1, uadd_eq_add (by omega)] at ha2
    unfold applyMove
    rw [if_neg (by omega : ¬ m.s2 = I.stores)]
    have hread : (WL_Solution.Assign I
        (WL_Solution.RevokeAssignment I σ m.s1 m.w1 (σ.supply m.s1 m.w1))
        m.s1 m.w2 (σ.supply m.s1 m.w1)).supply m.s2 m.w2 = σ.supply m.s2 m.w2 := by
      simp [WL_Solution.Assign, WL_Solution.RevokeAssignment, Ne.symm hss]
    rw [hread]
    obtain ⟨c1, c2, c3⟩ := swap_step I σ m.s1 m.s2 m.w1 m.w2 hI hfix hC hW hs1 hs2 hw1 hw2
      hne hss hp1 hp2 (by omega) (by omega)
    refine ⟨c1, c2, ?_, by rw [eimp]; exact himp⟩
    rw [c3, eimp]
    linarith



/-- `Assign(s, w0, q)` leaves the data of every other warehouse as they are. -/
theorem assign_agree (I : WL_Instance) (σ : WL_Solution) (s w0 q : Nat) {w : Nat}
    (h : w ≠ w0) : AgreeAt σ (WL_Solution.Assign I σ s w0 q) w := by
  refine ⟨?_, ?_, ?_, ?_⟩
  · simp [WL_Solution.Assign, h]
  · simp only [WL_Solution.Assign]
    split
    · simp [h]
    · rfl
  · intro a
    simp [WL_Solution.Assign, h]
  · intro a
    simp only [WL_Solution.Assign]
    split
    · rw [incrIncompat_apply, if_neg (fun c => h c.1)]
    · rfl

/-- `RevokeAssignment(s, w0, q)` leaves the data of every other warehouse as they are. -/
theorem revoke_agree (I : WL_Instance) (σ : WL_Solution) (s w0 q : Nat) {w : Nat}
    (h : w ≠ w0) : AgreeAt σ (WL_Solution.RevokeAssignment I σ s w0 q) w := by
  refine ⟨?_, ?_, ?_, ?_⟩
  · simp [WL_Solution.RevokeAssignment, h]
  · simp only [WL_Solution.RevokeAssignment]
    split
    · simp [h]
    · rfl
  · intro a
    simp [WL_Solution.RevokeAssignment, h]
  · intro a
    simp only [WL_Solution.RevokeAssignment]
    split
    · rw [decrIncompat_apply, if_neg (fun c => h c.1)]
    · rfl

theorem agreeAt_trans {σ τ υ : WL_Solution} {w : Nat} (h1 : AgreeAt σ τ w)
    (h2 : AgreeAt τ υ w) : AgreeAt σ υ w :=
  ⟨h2.1.trans h1.1, h2.2.1.trans h1.2.1, fun s => (h2.2.2.1 s).trans (h1.2.2.1 s),
    fun s => (h2.2.2.2 s).trans (h1.2.2.2 s)⟩

/-- The application of a move leaves the data of every warehouse other than its two
endpoints as they are. -/
theorem applyMove_agree (I : WL_Instance) (σ : WL_Solution) (m : Move) {w : Nat}
    (h1 : w ≠ m.w1) (h2 : w ≠ m.w2) : AgreeAt σ (applyMove I σ m) w := by
  unfold applyMove
  split
  · exact agreeAt_trans (revoke_agree I σ _ _ _ h1) (assign_agree I _ _ _ _ h2)
  · exact agreeAt_trans
      (agreeAt_trans
        (agreeAt_trans (revoke_agree I σ _ _ _ h1) (assign_agree I _ _ _ _ h2))
        (revoke_agree I _ _ _ _ h2))
      (assign_agree I _ _ _ _ h1)

/-- The moves of a triple `(s1, w1, w2)` depend on the state only through the data of
`w1` and `w2`. -/
theorem pairMoves_agree (I : WL_Instance) (σ τ : WL_Solution) (cf : List Nat)
    (s1 w1 w2 : Nat) (h1 : AgreeAt σ τ w1) (h2 : AgreeAt σ τ w2) :
    pairMoves I τ cf s1 w1 w2 = pairMoves I σ cf s1 w1 w2 := by
  obtain ⟨a1, b1, c1, d1⟩ := h1
  obtain ⟨a2, b2, c2, d2⟩ := h2
  simp only [pairMoves, relocateMove, relocateImprovement, swapMoves, swapAdmissible,
    swapImprovement, WL_Solution.Incompatibilities, WL_Solution.ResidualCapacity,
    a1, b1, c1, d1, a2, b2, c2, d2]

theorem moveOK_agree (I : WL_Instance) (σ τ : WL_Solution) (cf : List Nat) (m : Move)
    (hm : MoveOK I σ cf m) (h1 : AgreeAt σ τ m.w1) (h2 : AgreeAt σ τ m.w2) :
    MoveOK I τ cf m := by
  obtain ⟨hw1, hw2, hne, hmem, hpm⟩ := hm
  refine ⟨hw1, hw2, hne, ?_, ?_⟩
  · rw [h1.2.1]; exact hmem
  · rw [pairMoves_agree I σ τ cf m.s1 m.w1 m.w2 h1 h2]; exact hpm

theorem popMax_none {moves : List Move} (h : popMax moves = none) : moves = [] := by
  cases moves with
  | nil => rfl
  | cons m rest =>
    unfold popMax at h
    split at h
    · exact absurd h (by simp)
    · split at h <;> exact absurd h (by simp)

theorem popMax_some : ∀ (moves : List Move) (m : Move) (rest : List Move),
    popMax moves = some (m, rest) →
    m ∈ moves ∧ (∀ x, x ∈ rest → x ∈ moves) ∧ rest.length + 1 = moves.length := by
  intro moves
  induction moves with
  | nil => intro m rest h; simp [popMax] at h
  | cons a l ih =>
    intro m rest h
    unfold popMax at h
    split at h
    · next hn =>
      have hl := popMax_none hn
      subst hl
      simp only [Option.some.injEq, Prod.mk.injEq] at h
      obtain ⟨rfl, rfl⟩ := h
      simp
    · next m2 rest2 hs =>
      obtain ⟨i1, i2, i3⟩ := ih m2 rest2 hs
      split at h
      · simp only [Option.some.injEq, Prod.mk.injEq] at h
        obtain ⟨rfl, rfl⟩ := h
        refine ⟨List.mem_cons_of_mem _ i1, ?_, by simp [← i3]⟩
        intro x hx
        rcases List.mem_cons.mp hx with hx | hx
        · subst hx; exact List.mem_cons_self _ _
        · exact List.mem_cons_of_mem _ (i2 x hx)
      · simp only [Option.some.injEq, Prod.mk.injEq] at h
        obtain ⟨rfl, rfl⟩ := h
        exact ⟨List.mem_cons_self _ _, fun x hx => List.mem_cons_of_mem _ hx, by simp⟩

/-- Every move the enumeration pushes is a move of the current state. -/
theorem mem_enumerateMoves (I : WL_Instance) (σ : WL_Solution) (inv cf opf : List Nat)
    (hinv : ∀ w, w ∈ inv → w < I.warehouses) (m : Move)
    (h : m ∈ enumerateMoves I σ inv cf opf) : MoveOK I σ cf m := by
  unfold enumerateMoves at h
  rcases List.mem_append.mp h with h | h
  · obtain ⟨w1, hw1, h⟩ := List.mem_flatMap.mp h
    split at h
    · obtain ⟨s1, hs1, h⟩ := List.mem_flatMap.mp h
      obtain ⟨w2, hw2, h⟩ := List.mem_flatMap.mp h
      split at h
      · next hc =>
        obtain ⟨e1, e2, e3⟩ := mem_pairMoves h
        rw [List.mem_range] at hw2
        subst e1 e2 e3
        exact ⟨hinv _ hw1, hw2, hc.1, hs1, h⟩
      · exact absurd h (List.not_mem_nil _)
    · exact absurd h (List.not_mem_nil _)
  · obtain ⟨w1, hw1, h⟩ := List.mem_flatMap.mp h
    split at h
    · obtain ⟨s1, hs1, h⟩ := List.mem_flatMap.mp h
      obtain ⟨w2, hw2, h⟩ := List.mem_flatMap.mp h
      split at h
      · next hc =>
        obtain ⟨e1, e2, e3⟩ := mem_pairMoves h
        rw [List.mem_range] at hw1
        subst e1 e2 e3
        exact ⟨hw1, hinv _ hw2, hc.1, hs1, h⟩
      · exact absurd h (List.not_mem_nil _)
    · exact absurd h (List.not_mem_nil _)



/-- The heap drain, started in a consistent state within the bounds with a heap whose
moves at valid warehouses are moves of the current state: it ends in such a state, of no
higher cost, with the heap empty or the clock budget spent. -/
theorem drain_spec (I : WL_Instance) (hI : I.Typed)
    (hfix : I.totalFixed + I.reduction_opening_cost < 4294967296) (cf : List Nat) :
    ∀ (fuel : Nat) (moves : List Move) (σ : WL_Solution) (inv : List Nat) (budget : Nat),
      WL_Solution.Consistent I σ → WL_Solution.Within I σ →
      (∀ m, m ∈ moves → m.w1 ∉ inv → m.w2 ∉ inv → MoveOK I σ cf m) →
      (∀ w, w ∈ inv → w < I.warehouses) → moves.length ≤ fuel →
      WL_Solution.Consistent I (drain I fuel moves σ inv budget).1 ∧
      WL_Solution.Within I (drain I fuel moves σ inv budget).1 ∧
      WL_Solution.Cost I (drain I fuel moves σ inv budget).1 ≤ WL_Solution.Cost I σ ∧
      (∀ w, w ∈ (drain I fuel moves σ inv budget).2.1 → w < I.warehouses) ∧
      ((drain I fuel moves σ inv budget).2.2.1 = [] ∨
        (drain I fuel moves σ inv budget).2.2.2 = 0) := by
  intro fuel
  induction fuel with
  | zero =>
    intro moves σ inv budget hC hW _ hinv hlen
    have : moves = [] := List.length_eq_zero.mp (Nat.le_zero.mp hlen)
    simp only [drain]
    exact ⟨hC, hW, le_refl _, hinv, Or.inl this⟩
  | succ fuel ih =>
    intro moves σ inv budget hC hW hmv hinv hlen
    simp only [drain]
    cases hp : popMax moves with
    | none =>
      simp only []
      exact ⟨hC, hW, le_refl _, hinv, Or.inl (popMax_none hp)⟩
    | some pr =>
      obtain ⟨m, rest⟩ := pr
      obtain ⟨hm, hrest, hl⟩ := popMax_some moves m rest hp
      simp only []
      by_cases hb : budget = 0
      · rw [if_pos hb]
        exact ⟨hC, hW, le_refl _, hinv, Or.inr hb⟩
      · rw [if_neg hb]
        by_cases hsk : m.w1 ∈ inv ∨ m.w2 ∈ inv
        · rw [if_pos hsk]
          exact ih rest σ inv (budget - 1) hC hW
            (fun x hx => hmv x (hrest x hx)) hinv (by omega)
        · rw [if_neg hsk]
          have hok := hmv m hm (fun h => hsk (Or.inl h)) (fun h => hsk (Or.inr h))
          obtain ⟨c1, c2, c3, c4⟩ := applyMove_spec I σ cf m hI hfix hC hW hok
          have heps : (0 : ℚ) < MY_EPSILON := by unfold MY_EPSILON; norm_num
          have hinv2 : ∀ w, w ∈ setInsert (setInsert inv m.w1) m.w2 → w < I.warehouses := by
            intro w hw
            rcases mem_setInsert.mp hw with hw | hw
            · rcases mem_setInsert.mp hw with hw | hw
              · exact hinv w hw
              · rw [hw]; exact hok.1
            · rw [hw]; exact hok.2.1
          have hmv2 : ∀ x, x ∈ rest → x.w1 ∉ setInsert (setInsert inv m.w1) m.w2 →
              x.w2 ∉ setInsert (setInsert inv m.w1) m.w2 →
              MoveOK I (applyMove I σ m) cf x := by
            intro x hx h1 h2
            have n1 : x.w1 ∉ inv ∧ x.w1 ≠ m.w1 ∧ x.w1 ≠ m.w2 := by
              refine ⟨fun h => h1 ?_, fun h => h1 ?_, fun h => h1 ?_⟩
              · exact mem_setInsert.mpr (Or.inl (mem_setInsert.mpr (Or.inl h)))
              · exact mem_setInsert.mpr (Or.inl (mem_setInsert.mpr (Or.inr h)))
              · exact mem_setInsert.mpr (Or.inr h)
            have n2 : x.w2 ∉ inv ∧ x.w2 ≠ m.w1 ∧ x.w2 ≠ m.w2 := by
              refine ⟨fun h => h2 ?_, fun h => h2 ?_, fun h => h2 ?_⟩
              · exact mem_setInsert.mpr (Or.inl (mem_setInsert.mpr (Or.inl h)))
              · exact mem_setInsert.mpr (Or.inl (mem_setInsert.mpr (Or.inr h)))
              · exact mem_setInsert.mpr (Or.inr h)
            exact moveOK_agree I σ _ cf x (hmv x (hrest x hx) n1.1 n2.1)
              (applyMove_agree I σ m n1.2.1 n1.2.2) (applyMove_agree I σ m n2.2.1 n2.2.2)
          obtain ⟨d1, d2, d3, d4, d5⟩ := ih rest (applyMove I σ m)
            (setInsert (setInsert inv m.w1) m.w2) (budget - 1) c1 c2 hmv2 hinv2 (by omega)
          exact ⟨d1, d2, by linarith, d4, d5⟩

/-- The search loop of `LocalSearch`, started in a consistent state within the bounds with
an empty heap (or no budget): it ends in such a state, of no higher cost. -/
theorem localSearchLoop_spec (I : WL_Instance) (hI : I.Typed)
    (hfix : I.totalFixed + I.reduction_opening_cost < 4294967296) :
    ∀ (fuel : Nat) (σ : WL_Solution) (inv : List Nat) (moves : List Move) (budget : Nat),
      WL_Solution.Consistent I σ → WL_Solution.Within I σ →
      (∀ w, w ∈ inv → w < I.warehouses) → (moves = [] ∨ budget = 0) →
      WL_Solution.Consistent I (localSearchLoop I fuel σ inv moves budget).1 ∧
      WL_Solution.Within I (localSearchLoop I fuel σ inv moves budget).1 ∧
      WL_Solution.Cost I (localSearchLoop I fuel σ inv moves budget).1
        ≤ WL_Solution.Cost I σ := by
  intro fuel
  induction fuel with
  | zero =>
    intro σ inv moves budget hC hW _ _
    simp only [localSearchLoop]
    exact ⟨hC, hW, le_refl _⟩
  | succ fuel ih =>
    intro σ inv moves budget hC hW hinv hmv
    simp only [localSearchLoop]
    by_cases hb : budget = 0
    · rw [if_pos hb]
      exact ⟨hC, hW, le_refl _⟩
    · rw [if_neg hb]
      have hnil : moves = [] := hmv.resolve_right hb
      subst hnil
      split
      · exact ⟨hC, hW, le_refl _⟩
      · obtain ⟨d1, d2, d3, d4, d5⟩ := drain_spec I hI hfix []
          ([] ++ enumerateMoves I σ inv [] []).length
          ([] ++ enumerateMoves I σ inv [] []) σ [] (budget - 1) hC hW
          (fun m hm _ _ => mem_enumerateMoves I σ inv [] [] hinv m (by simpa using hm))
          (fun w hw => absurd hw (List.not_mem_nil _)) (le_refl _)
        obtain ⟨e1, e2, e3⟩ := ih _ _ _ _ d1 d2 d4 d5
        exact ⟨e1, e2, le_trans e3 d3⟩

/-- The method `LocalSearch` never raises the cost of a consistent state within the
bounds. -/
theorem localSearch_cost_le (I : WL_Instance) (hI : I.Typed)
    (hfix : I.totalFixed + I.reduction_opening_cost < 4294967296) (σ : WL_Solution)
    (hC : WL_Solution.Consistent I σ) (hW : WL_Solution.Within I σ) (budget : Nat) :
    WL_Solution.Consistent I (LocalSearch I σ budget).1 ∧
    WL_Solution.Within I (LocalSearch I σ budget).1 ∧
    WL_Solution.Cost I (LocalSearch I σ budget).1 ≤ WL_Solution.Cost I σ :=
  localSearchLoop_spec I hI hfix (budget + 1) σ (List.range I.warehouses) [] budget hC hW
    (fun _ hw => List.mem_range.mp hw) (Or.inl rfl)



/-- The search loop inside the loop over `i` replaces `best_sol` only by a cheaper
solution. -/
theorem ilsSearchLoop_best (I : WL_Instance) :
    ∀ (fuel : Nat) (st : IlsState),
      WL_Solution.Cost I (ilsSearchLoop I fuel st).best_sol
        ≤ WL_Solution.Cost I st.best_sol := by
  intro fuel
  induction fuel with
  | zero => intro st; simp only [ilsSearchLoop]; exact le_refl _
  | succ fuel ih =>
    intro st
    simp only [ilsSearchLoop]
    split
    · exact le_refl _
    · split
      · exact le_refl _
      · refine le_trans (ih _) ?_
        simp only []
        have heps : (0 : ℚ) < MY_EPSILON := by unfold MY_EPSILON; norm_num
        split
        · linarith
        · exact le_refl _

theorem ilsRestart_best (I : WL_Instance) (ils_accept : ℚ) (st : IlsState)
    (p : Nat) (st2 : IlsState) (h : ilsRestart I ils_accept st = some (p, st2)) :
    st2.best_sol = st.best_sol := by
  unfold ilsRestart at h
  simp only [Option.bind_eq_some] at h
  obtain ⟨sol, _, res, _, h⟩ := h
  have h2 := (Prod.mk.inj (Option.some.inj h)).2
  rw [← h2]

/-- The loop over `i` returns a `best_sol` that costs no more than the one it starts
with. -/
theorem ilsLoop_best (I : WL_Instance) (ils_accept : ℚ) :
    ∀ (n : Nat) (first : Bool) (st r : IlsState),
      ilsLoop I ils_accept n first st = some r →
      WL_Solution.Cost I r.best_sol ≤ WL_Solution.Cost I st.best_sol := by
  intro n
  induction n with
  | zero =>
    intro first st r h
    simp only [ilsLoop] at h
    have h2 := Option.some.inj h
    rw [← h2]
    split <;> exact le_refl _
  | succ n ih =>
    intro first st r h
    simp only [ilsLoop] at h
    by_cases hb : st.budget = 0
    · rw [if_pos hb] at h
      rw [← Option.some.inj h]
    · rw [if_neg hb] at h
      cases first with
      | true =>
        simp only [if_true] at h
        rw [if_neg (by decide)] at h
        refine le_trans (ih false _ r h) ?_
        exact ilsSearchLoop_best I _ _
      | false =>
        simp only [Bool.false_eq_true, if_false] at h
        cases hr : ilsRestart I ils_accept { st with budget := st.budget - 1 } with
        | none => rw [hr] at h; exact absurd h (by simp)
        | some pr =>
          obtain ⟨p, st2⟩ := pr
          rw [hr] at h
          simp only [] at h
          have hbest := ilsRestart_best I ils_accept _ p st2 hr
          by_cases hp : p = 0
          · rw [if_pos hp] at h
            rw [← Option.some.inj h, hbest]
          · rw [if_neg hp] at h
            refine le_trans (ih false _ r h) ?_
            refine le_trans (ilsSearchLoop_best I _ _) ?_
            rw [hbest]



/-- C10 (amended): on an instance whose data fit an `unsigned` and whose fixed costs, with
the reduction opening cost, total less than `2^32`, let the input solution be consistent
(its cached fields agree with its supplies) with no warehouse above its capacity and no
store above its demand, as every feasible solution is. Then for every `ils_maxiter`,
`ils_accept`, clock budget and pseudo-random stream, a solution returned by
`IteratedLocalSearch` costs no more than the input solution when every cost is computed in
exact arithmetic (costs as exact rationals; on `double` values the rounding of the updates
of `supply_cost` can raise the cost), and with `ils_maxiter <= 1` a solution is returned. -/
theorem ils_cost_le (I : WL_Instance) (hI : I.Typed)
    (hfix : I.totalFixed + I.reduction_opening_cost < 4294967296)
    (σ : WL_Solution) (hC : WL_Solution.Consistent I σ) (hW : WL_Solution.Within I σ)
    (ils_maxiter : Nat) (ils_accept : ℚ) (budget : Nat) (rng : Rng) :
    (ils_maxiter ≤ 1 →
      (IteratedLocalSearch I ils_maxiter ils_accept σ budget rng).isSome = true) ∧
    ∀ r, IteratedLocalSearch I ils_maxiter ils_accept σ budget rng = some r →
      WL_Solution.Cost I r.1 ≤ WL_Solution.Cost I σ := by
  refine ⟨?_, ?_⟩
  · intro hle
    unfold IteratedLocalSearch
    by_cases h1 : ils_maxiter = 1
    · rw [if_pos h1]; rfl
    · have h0 : ils_maxiter = 0 := by omega
      rw [if_neg h1, h0]
      simp [ilsLoop]
  · intro r h
    unfold IteratedLocalSearch at h
    by_cases h1 : ils_maxiter = 1
    · rw [if_pos h1] at h
      rw [← Option.some.inj h]
      exact (localSearch_cost_le I hI hfix σ hC hW budget).2.2
    · rw [if_neg h1, Option.map_eq_some'] at h
      obtain ⟨st, hst, hr⟩ := h
      rw [← hr]
      exact ilsLoop_best I ils_accept ils_maxiter true _ st hst

theorem instRelocate_typed : instRelocate.Typed := by
  constructor
  · decide
  · decide
  · intro w hw
    have h1 : w < 2 := hw
    interval_cases w <;> decide
  · intro w hw
    have h1 : w < 2 := hw
    interval_cases w <;> decide
  · intro s hs
    have h1 : s < 1 := hs
    interval_cases s; decide
  · decide

theorem solRelocate_consistent : WL_Solution.Consistent instRelocate solRelocate :=
  assign_consistent instRelocate (WL_Solution.create instRelocate) 0 0 4
    (by decide) (consistent_create _) (by decide) (by decide) (by decide)
    (by decide) (by decide)

theorem solRelocate_within : WL_Solution.Within instRelocate solRelocate := by
  constructor
  · intro w hw
    have h1 : w < 2 := hw
    interval_cases w <;> decide
  · intro s hs
    have h1 : s < 1 := hs
    interval_cases s; decide

/-- Witness for C10: the solution of `instRelocate` that supplies the store from the dearer
warehouse meets the hypotheses; one pass of the local search with a budget of 5 clock
tests returns a solution that costs no more. -/
theorem ils_cost_le_witness :
    (IteratedLocalSearch instRelocate 1 1 solRelocate 5 []).isSome = true ∧
    ∀ r, IteratedLocalSearch instRelocate 1 1 solRelocate 5 [] = some r →
      WL_Solution.Cost instRelocate r.1 ≤ WL_Solution.Cost instRelocate solRelocate :=
  ⟨(ils_cost_le instRelocate instRelocate_typed (by decide) solRelocate
      solRelocate_consistent solRelocate_within 1 1 5 []).1 (le_refl 1),
    (ils_cost_le instRelocate instRelocate_typed (by decide) solRelocate
      solRelocate_consistent solRelocate_within 1 1 5 []).2⟩

/-- The local search on `solRelocate` moves the store to the cheaper warehouse: the cost
falls from 17 to 9. -/
theorem ils_relocate_value :
    WL_Solution.Cost instRelocate solRelocate = 17 ∧
    (IteratedLocalSearch instRelocate 1 1 solRelocate 5 []).map
      (fun r => WL_Solution.Cost instRelocate r.1) = some 9 := by
  constructor <;> decide!




/-! ## A heap-drain pass that applies a move lowers the cost by more than the precision -/

/-- The heap drain keeps every warehouse that is invalid. -/
theorem drain_invalid_mono (I : WL_Instance) :
    ∀ (fuel : Nat) (moves : List Move) (σ : WL_Solution) (inv : List Nat) (budget : Nat) (w : Nat),
      w ∈ inv → w ∈ (drain I fuel moves σ inv budget).2.1 := by
  intro fuel
  induction fuel with
  | zero => intro moves σ inv budget w hw; simpa only [drain] using hw
  | succ fuel ih =>
    intro moves σ inv budget w hw
    simp only [drain]
    cases hp : popMax moves with
    | none => exact hw
    | some pr =>
      obtain ⟨m, rest⟩ := pr
      simp only []
      by_cases hb : budget = 0
      · rw [if_pos hb]; exact hw
      · rw [if_neg hb]
        by_cases hsk : m.w1 ∈ inv ∨ m.w2 ∈ inv
        · rw [if_pos hsk]; exact ih rest σ inv (budget - 1) w hw
        · rw [if_neg hsk]
          exact ih rest _ _ (budget - 1) w
            (mem_setInsert.mpr (Or.inl (mem_setInsert.mpr (Or.inl hw))))

/-- The heap drain either applies no move, and leaves the solution and the invalid set as
they are, or applies one, and then the invalid set is not empty and the cost has fallen by
more than `MY_EPSILON`. -/
theorem drain_applied (I : WL_Instance) (hI : I.Typed)
    (hfix : I.totalFixed + I.reduction_opening_cost < 4294967296) (cf : List Nat) :
    ∀ (fuel : Nat) (moves : List Move) (σ : WL_Solution) (inv : List Nat) (budget : Nat),
      WL_Solution.Consistent I σ → WL_Solution.Within I σ →
      (∀ m, m ∈ moves → m.w1 ∉ inv → m.w2 ∉ inv → MoveOK I σ cf m) →
      (∀ w, w ∈ inv → w < I.warehouses) → moves.length ≤ fuel →
      ((drain I fuel moves σ inv budget).1 = σ ∧ (drain I fuel moves σ inv budget).2.1 = inv) ∨
      ((drain I fuel moves σ inv budget).2.1 ≠ [] ∧
        WL_Solution.Cost I (drain I fuel moves σ inv budget).1 + MY_EPSILON
          < WL_Solution.Cost I σ) := by
  intro fuel
  induction fuel with
  | zero =>
    intro moves σ inv budget _ _ _ _ _
    left
    simp only [drain, and_self]
  | succ fuel ih =>
    intro moves σ inv budget hC hW hmv hinv hlen
    simp only [drain]
    cases hp : popMax moves with
    | none => exact Or.inl ⟨rfl, rfl⟩
    | some pr =>
      obtain ⟨m, rest⟩ := pr
      obtain ⟨hm, hrest, hl⟩ := popMax_some moves m rest hp
      simp only []
      by_cases hb : budget = 0
      · rw [if_pos hb]; exact Or.inl ⟨rfl, rfl⟩
      · rw [if_neg hb]
        by_cases hsk : m.w1 ∈ inv ∨ m.w2 ∈ inv
        · rw [if_pos hsk]
          exact ih rest σ inv (budget - 1) hC hW (fun x hx => hmv x (hrest x hx)) hinv
            (by omega)
        · rw [if_neg hsk]
          right
          have hok := hmv m hm (fun h => hsk (Or.inl h)) (fun h => hsk (Or.inr h))
          obtain ⟨c1, c2, c3, c4⟩ := applyMove_spec I σ cf m hI hfix hC hW hok
          have hinv2 : ∀ w, w ∈ setInsert (setInsert inv m.w1) m.w2 → w < I.warehouses := by
            intro w hw
            rcases mem_setInsert.mp hw with hw | hw
            · rcases mem_setInsert.mp hw with hw | hw
              · exact hinv w hw
              · rw [hw]; exact hok.1
            · rw [hw]; exact hok.2.1
          have hmv2 : ∀ x, x ∈ rest → x.w1 ∉ setInsert (setInsert inv m.w1) m.w2 →
              x.w2 ∉ setInsert (setInsert inv m.w1) m.w2 →
              MoveOK I (applyMove I σ m) cf x := by
            intro x hx h1 h2
            have n1 : x.w1 ∉ inv ∧ x.w1 ≠ m.w1 ∧ x.w1 ≠ m.w2 := by
              refine ⟨fun h => h1 ?_, fun h => h1 ?_, fun h => h1 ?_⟩
              · exact mem_setInsert.mpr (Or.inl (mem_setInsert.mpr (Or.inl h)))
              · exact mem_setInsert.mpr (Or.inl (mem_setInsert.mpr (Or.inr h)))
              · exact mem_setInsert.mpr (Or.inr h)
            have n2 : x.w2 ∉ inv ∧ x.w2 ≠ m.w1 ∧ x.w2 ≠ m.w2 := by
              refine ⟨fun h => h2 ?_, fun h => h2 ?_, fun h => h2 ?_⟩
              · exact mem_setInsert.mpr (Or.inl (mem_setInsert.mpr (Or.inl h)))
              · exact mem_setInsert.mpr (Or.inl (mem_setInsert.mpr (Or.inr h)))
              · exact mem_setInsert.mpr (Or.inr h)
            exact moveOK_agree I σ _ cf x (hmv x (hrest x hx) n1.1 n2.1)
              (applyMove_agree I σ m n1.2.1 n1.2.2) (applyMove_agree I σ m n2.2.1 n2.2.2)
          obtain ⟨_, _, d3, _, _⟩ := drain_spec I hI hfix cf fuel rest (applyMove I σ m)
            (setInsert (setInsert inv m.w1) m.w2) (budget - 1) c1 c2 hmv2 hinv2 (by omega)
          refine ⟨?_, by linarith⟩
          have hin := drain_invalid_mono I fuel rest (applyMove I σ m)
            (setInsert (setInsert inv m.w1) m.w2) (budget - 1) m.w2
            (mem_setInsert.mpr (Or.inr rfl))
          exact List.ne_nil_of_mem hin

/-- C11 (amended): on an instance whose data fit an `unsigned` and whose fixed costs, with
the reduction opening cost, total less than `2^32`, take a consistent solution within the
capacities and demands (as every feasible solution is) and a heap-drain pass on the moves
enumerated from it, for any sets of invalid, closing-forbidden and opening-forbidden
warehouses (empty forbidden sets in `LocalSearch`) and any clock budget. The pass starts
with `invalid_warehouses` empty and only an applied move inserts into it; when it is not
empty after the pass (or the solution has changed), the cost before the pass is at least
the cost after it plus `MY_EPSILON` when every cost is computed in exact arithmetic (costs
as exact rationals; on `double` values the rounding of the updates of `supply_cost` can
raise the cost). -/
theorem drain_pass_cost (I : WL_Instance) (hI : I.Typed)
    (hfix : I.totalFixed + I.reduction_opening_cost < 4294967296)
    (σ : WL_Solution) (hC : WL_Solution.Consistent I σ) (hW : WL_Solution.Within I σ)
    (inv cf opf : List Nat) (hinv : ∀ w, w ∈ inv → w < I.warehouses) (budget : Nat) :
    ((drain I (enumerateMoves I σ inv cf opf).length (enumerateMoves I σ inv cf opf)
        σ [] budget).2.1 ≠ [] ∨
      (drain I (enumerateMoves I σ inv cf opf).length (enumerateMoves I σ inv cf opf)
        σ [] budget).1 ≠ σ) →
    WL_Solution.Cost I (drain I (enumerateMoves I σ inv cf opf).length
        (enumerateMoves I σ inv cf opf) σ [] budget).1 + MY_EPSILON
      ≤ WL_Solution.Cost I σ := by
  intro h
  rcases drain_applied I hI hfix cf _ (enumerateMoves I σ inv cf opf) σ [] budget hC hW
      (fun m hm _ _ => mem_enumerateMoves I σ inv cf opf hinv m hm)
      (fun w hw => absurd hw (List.not_mem_nil _)) (le_refl _) with h1 | h1
  · rcases h with h | h
    · exact absurd h1.2 h
    · exact absurd h1.1 h
  · exact le_of_lt h1.2

/-- Witness for C11: on `instRelocate` the pass on the moves enumerated from `solRelocate`
applies the relocation of the store to the cheaper warehouse. -/
theorem drain_pass_cost_witness :
    (drain instRelocate (enumerateMoves instRelocate solRelocate [0, 1] [] []).length
        (enumerateMoves instRelocate solRelocate [0, 1] [] []) solRelocate [] 4).2.1 ≠ [] ∧
    WL_Solution.Cost instRelocate
        (drain instRelocate (enumerateMoves instRelocate solRelocate [0, 1] [] []).length
          (enumerateMoves instRelocate solRelocate [0, 1] [] []) solRelocate [] 4).1
        + MY_EPSILON
      ≤ WL_Solution.Cost instRelocate solRelocate :=
  ⟨by decide!,
    drain_pass_cost instRelocate instRelocate_typed (by decide) solRelocate
      solRelocate_consistent solRelocate_within [0, 1] [] []
      (by intro w hw; simp at hw; rcases hw with rfl | rfl <;> decide) 4
      (Or.inl (by decide!))⟩




/-! ## Perturbation operators 4 and 1 on small inputs -/

/-- C12, the code at the failing input: on `instFc4` with the store at warehouse 0 the only
triple that meets the conditions of operator 4 is `(0, 1, 2)`, for which
`fixed_cost[1] + fixed_cost[2] = 7 > 5 = fixed_cost[0]`. The `unsigned` difference
`5 - 7` wraps to 4294967294, which the search takes as the best improvement; the operator
is applied (returns 4), closes warehouse 0 and opens warehouses 1 and 2, and the cost goes
from 9 to 11. -/
theorem perturbation4_wrap :
    chooseTriple4 instFc4 solFc4
      = { best_fc_improvement := 4294967294, best_w1 := 0, best_w2 := 1, best_w3 := 2 } ∧
    instFc4.fixed_cost 0 < instFc4.fixed_cost 1 + instFc4.fixed_cost 2 ∧
    WL_Solution.Cost instFc4 solFc4 = 9 ∧
    (Perturbation instFc4 ⟨solFc4, [], [], []⟩ [3]).map
      (fun r => (r.1, WL_Solution.Cost instFc4 r.2.1.sol, r.2.1.sol.load 0,
        r.2.1.sol.load 1, r.2.1.sol.load 2)) = some (4, 11, 0, 2, 2) := by
  refine ⟨by decide, by decide, by decide!, by decide!⟩

/-- C13, the code at the failing input: on scenario E1 the only warehouse is a candidate of
operator 1 (one store, fixed cost 5). After the revocation the store has 7 units to place,
the loop over the open warehouses and the loop over the closed warehouses other than `w1`
both leave `best_w == warehouses`, and `Assign` is called with that index: the run reads
the vectors out of bounds and has no result. -/
theorem perturbation1_out_of_bounds :
    IsFeasible instE1 solE1 ∧
    (List.range instE1.warehouses).filter
      (fun w => decide ((solE1.supplied_stores w).length = 1 ∧ instE1.fixed_cost w ≠ 0)) = [0] ∧
    WL_Solution.ResidualAmount instE1
      (WL_Solution.RevokeAssignment instE1 solE1 0 0 (solE1.supply 0 0)) 0 = 7 ∧
    bestLoaded instE1 (WL_Solution.RevokeAssignment instE1 solE1 0 0 (solE1.supply 0 0)) 0
      = instE1.warehouses ∧
    bestClosed instE1 (WL_Solution.RevokeAssignment instE1 solE1 0 0 (solE1.supply 0 0)) 0 0
      = instE1.warehouses ∧
    (Perturbation instE1 ⟨solE1, [], [], []⟩ [0, 0]).isNone = true := by
  refine ⟨⟨?_, ?_, by decide⟩, by decide, by decide, by decide, by decide, by decide!⟩
  · intro s hs
    have h1 : s < 1 := hs
    interval_cases s; decide
  · intro w hw
    have h1 : w < 1 := hw
    interval_cases w; decide



/-! ## The value returned by `Perturbation` -/

theorem perturbation1_result (I : WL_Instance) (σ : WL_Solution) (inv : List Nat) (rng : Rng)
    (p : Nat) (st2 : PerturbState) (rng2 : Rng)
    (h : perturbation1 I σ inv rng = some (p, st2, rng2)) :
    (p = 0 ∧ st2.sol = σ) ∨ p = 1 := by
  unfold perturbation1 at h
  split at h
  · simp only [Option.some.injEq, Prod.mk.injEq] at h
    obtain ⟨rfl, rfl, -⟩ := h
    exact Or.inl ⟨rfl, rfl⟩
  · cases rng with
    | nil => exact absurd h (by simp)
    | cons r rng1 =>
      simp only [Option.bind_eq_some, Option.some.injEq, Prod.mk.injEq] at h
      obtain ⟨_, _, _, _, _, _, h, -⟩ := h
      exact Or.inr h.symm

theorem perturbation2_result (I : WL_Instance) (σ : WL_Solution) (inv : List Nat) (rng : Rng)
    (p : Nat) (st2 : PerturbState) (rng2 : Rng)
    (h : perturbation2 I σ inv rng = some (p, st2, rng2)) :
    (p = 0 ∧ st2.sol = σ) ∨ p = 2 := by
  unfold perturbation2 at h
  split at h
  · simp only [Option.some.injEq, Prod.mk.injEq] at h
    obtain ⟨rfl, rfl, -⟩ := h
    exact Or.inl ⟨rfl, rfl⟩
  · cases rng with
    | nil => exact absurd h (by simp)
    | cons r rng1 =>
      simp only [Option.bind_eq_some, Option.some.injEq, Prod.mk.injEq] at h
      obtain ⟨_, _, h, -⟩ := h
      exact Or.inr h.symm

theorem perturbation3_result (I : WL_Instance) (σ : WL_Solution) (inv : List Nat) (rng : Rng)
    (p : Nat) (st2 : PerturbState) (rng2 : Rng)
    (h : perturbation3 I σ inv rng = some (p, st2, rng2)) :
    (p = 0 ∧ st2.sol = σ) ∨ p = 3 := by
  unfold perturbation3 at h
  split at h
  · simp only [Option.some.injEq, Prod.mk.injEq] at h
    obtain ⟨rfl, rfl, -⟩ := h
    exact Or.inl ⟨rfl, rfl⟩
  · cases rng with
    | nil => exact absurd h (by simp)
    | cons r rng1 =>
      simp only [Option.bind_eq_some] at h
      obtain ⟨w1, _, h⟩ := h
      split at h
      · simp only [Option.some.injEq, Prod.mk.injEq] at h
        obtain ⟨rfl, rfl, -⟩ := h
        exact Or.inl ⟨rfl, rfl⟩
      · cases rng1 with
        | nil => exact absurd h (by simp)
        | cons r2 rng3 =>
          simp only [Option.bind_eq_some, Option.some.injEq, Prod.mk.injEq] at h
          obtain ⟨_, _, _, _, h, -⟩ := h
          exact Or.inr h.symm

theorem perturbation4_result (I : WL_Instance) (σ : WL_Solution) (inv : List Nat) (rng : Rng)
    (p : Nat) (st2 : PerturbState) (rng2 : Rng)
    (h : perturbation4 I σ inv rng = some (p, st2, rng2)) :
    (p = 0 ∧ st2.sol = σ) ∨ p = 4 := by
  unfold perturbation4 at h
  split at h
  · simp only [Option.some.injEq, Prod.mk.injEq] at h
    obtain ⟨rfl, rfl, -⟩ := h
    exact Or.inl ⟨rfl, rfl⟩
  · simp only [Option.bind_eq_some, Option.some.injEq, Prod.mk.injEq] at h
    obtain ⟨_, _, h, -⟩ := h
    exact Or.inr h.symm

theorem perturbation5_result (I : WL_Instance) (σ : WL_Solution) (inv : List Nat) (rng : Rng)
    (p : Nat) (st2 : PerturbState) (rng2 : Rng)
    (h : perturbation5 I σ inv rng = some (p, st2, rng2)) :
    (p = 0 ∧ st2.sol = σ) ∨ p = 5 := by
  unfold perturbation5 at h
  split at h
  · simp only [Option.some.injEq, Prod.mk.injEq] at h
    obtain ⟨rfl, rfl, -⟩ := h
    exact Or.inl ⟨rfl, rfl⟩
  · simp only [Option.bind_eq_some, Option.some.injEq, Prod.mk.injEq] at h
    obtain ⟨_, _, _, _, h, -⟩ := h
    exact Or.inr h.symm

/-- C16: whenever `Perturbation` returns 0 the solution is the one it was given, with
every supply, load, assigned total and cost; whenever it returns a nonzero value, that
value is the number `1 + rand() % 5` drawn at the start of the call, it lies in 1..5, and
the result of the call is the result of the operator with that number. -/
theorem perturbation_result (I : WL_Instance) (st : PerturbState) (rng : Rng)
    (p : Nat) (st2 : PerturbState) (rng2 : Rng)
    (h : Perturbation I st rng = some (p, st2, rng2)) :
    (p = 0 → st2.sol = st.sol ∧
      (∀ s w, st2.sol.supply s w = st.sol.supply s w) ∧
      (∀ w, st2.sol.load w = st.sol.load w) ∧
      (∀ s, st2.sol.assigned_goods s = st.sol.assigned_goods s) ∧
      WL_Solution.Cost I st2.sol = WL_Solution.Cost I st.sol) ∧
    (p ≠ 0 → 1 ≤ p ∧ p ≤ 5 ∧
      ∃ r rng1, rng = r :: rng1 ∧ p = 1 + r % 5 ∧
        (p = 1 → perturbation1 I st.sol st.invalid_warehouses rng1 = some (p, st2, rng2)) ∧
        (p = 2 → perturbation2 I st.sol st.invalid_warehouses rng1 = some (p, st2, rng2)) ∧
        (p = 3 → perturbation3 I st.sol st.invalid_warehouses rng1 = some (p, st2, rng2)) ∧
        (p = 4 → perturbation4 I st.sol st.invalid_warehouses rng1 = some (p, st2, rng2)) ∧
        (p = 5 → perturbation5 I st.sol st.invalid_warehouses rng1 = some (p, st2, rng2))) := by
  cases rng with
  | nil => exact absurd h (by simp [Perturbation])
  | cons r rng1 =>
    simp only [Perturbation] at h
    have key : ((p = 0 ∧ st2.sol = st.sol) ∨ p = 1 + r % 5) ∧
        (p = 1 + r % 5 →
          (p = 1 → perturbation1 I st.sol st.invalid_warehouses rng1 = some (p, st2, rng2)) ∧
          (p = 2 → perturbation2 I st.sol st.invalid_warehouses rng1 = some (p, st2, rng2)) ∧
          (p = 3 → perturbation3 I st.sol st.invalid_warehouses rng1 = some (p, st2, rng2)) ∧
          (p = 4 → perturbation4 I st.sol st.invalid_warehouses rng1 = some (p, st2, rng2)) ∧
          (p = 5 → perturbation5 I st.sol st.invalid_warehouses rng1
            = some (p, st2, rng2))) := by
      have hr : r % 5 < 5 := Nat.mod_lt _ (by decide)
      by_cases h1 : 1 + r % 5 = 1
      · rw [if_pos h1] at h
        refine ⟨?_, fun e => ⟨fun _ => h, ?_, ?_, ?_, ?_⟩⟩
        · rcases perturbation1_result I _ _ _ _ _ _ h with c | c
          · exact Or.inl c
          · exact Or.inr (by omega)
        all_goals intro e2; omega
      · rw [if_neg h1] at h
        by_cases h2 : 1 + r % 5 = 2
        · rw [if_pos h2] at h
          refine ⟨?_, fun e => ⟨?_, fun _ => h, ?_, ?_, ?_⟩⟩
          · rcases perturbation2_result I _ _ _ _ _ _ h with c | c
            · exact Or.inl c
            · exact Or.inr (by omega)
          all_goals intro e2; omega
        · rw [if_neg h2] at h
          by_cases h3 : 1 + r % 5 = 3
          · rw [if_pos h3] at h
            refine ⟨?_, fun e => ⟨?_, ?_, fun _ => h, ?_, ?_⟩⟩
            · rcases perturbation3_result I _ _ _ _ _ _ h with c | c
              · exact Or.inl c
              · exact Or.inr (by omega)
            all_goals intro e2; omega
          · rw [if_neg h3] at h
            by_cases h4 : 1 + r % 5 = 4
            · rw [if_pos h4] at h
              refine ⟨?_, fun e => ⟨?_, ?_, ?_, fun _ => h, ?_⟩⟩
              · rcases perturbation4_result I _ _ _ _ _ _ h with c | c
                · exact Or.inl c
                · exact Or.inr (by omega)
              all_goals intro e2; omega
            · rw [if_neg h4] at h
              refine ⟨?_, fun e => ⟨?_, ?_, ?_, ?_, fun _ => h⟩⟩
              · rcases perturbation5_result I _ _ _ _ _ _ h with c | c
                · exact Or.inl c
                · exact Or.inr (by omega)
              all_goals intro e2; omega
    have hr : r % 5 < 5 := Nat.mod_lt _ (by decide)
    refine ⟨fun h0 => ?_, fun hne => ?_⟩
    · rcases key.1 with c | c
      · rw [c.2]; exact ⟨rfl, fun _ _ => rfl, fun _ => rfl, fun _ => rfl, rfl⟩
      · omega
    · rcases key.1 with c | c
      · exact absurd c.1 hne
      · exact ⟨by omega, by omega, r, rng1, rfl, c, key.2 c⟩

/-- Witness for C16: on `instRelocate` with the stream `[1, 0]` the call draws operator 2,
which picks the closed warehouse 1, and returns 2. -/
theorem perturbation_result_witness :
    (2 = 0 → solRelocate = solRelocate ∧
      (∀ s w, solRelocate.supply s w = solRelocate.supply s w) ∧
      (∀ w, solRelocate.load w = solRelocate.load w) ∧
      (∀ s, solRelocate.assigned_goods s = solRelocate.assigned_goods s) ∧
      WL_Solution.Cost instRelocate solRelocate = WL_Solution.Cost instRelocate solRelocate) ∧
    (2 ≠ 0 → 1 ≤ 2 ∧ 2 ≤ 5 ∧
      ∃ r rng1, [1, 0] = r :: rng1 ∧ 2 = 1 + r % 5 ∧
        (2 = 1 → perturbation1 instRelocate solRelocate [] rng1
          = some (2, ⟨solRelocate, [1], [1], []⟩, [])) ∧
        (2 = 2 → perturbation2 instRelocate solRelocate [] rng1
          = some (2, ⟨solRelocate, [1], [1], []⟩, [])) ∧
        (2 = 3 → perturbation3 instRelocate solRelocate [] rng1
          = some (2, ⟨solRelocate, [1], [1], []⟩, [])) ∧
        (2 = 4 → perturbation4 instRelocate solRelocate [] rng1
          = some (2, ⟨solRelocate, [1], [1], []⟩, [])) ∧
        (2 = 5 → perturbation5 instRelocate solRelocate [] rng1
          = some (2, ⟨solRelocate, [1], [1], []⟩, []))) :=
  perturbation_result instRelocate ⟨solRelocate, [], [], []⟩ [1, 0] 2
    ⟨solRelocate, [1], [1], []⟩ [] rfl



/-! ## The loops that empty a warehouse (perturbation operators 3 and 5) -/

/-- The fields after the relocation of `q` goods of `s` from `a` to `b`. -/
theorem relocate_fields (I : WL_Instance) (σ : WL_Solution) (s a b q : Nat)
    (hC : WL_Solution.Consistent I σ) (hs : s < I.stores) (ha : a < I.warehouses)
    (hb : b < I.warehouses) (hab : a ≠ b) (hqs : q ≤ σ.supply s a)
    (hfit : σ.load b + q < 4294967296) :
    (∀ x y, (WL_Solution.Assign I (WL_Solution.RevokeAssignment I σ s a q) s b q).supply x y
      = if x = s ∧ y = b then σ.supply s b + q
        else if x = s ∧ y = a then σ.supply s a - q else σ.supply x y) ∧
    (∀ y, (WL_Solution.Assign I (WL_Solution.RevokeAssignment I σ s a q) s b q).load y
      = if y = b then σ.load b + q else if y = a then σ.load a - q else σ.load y) ∧
    (∀ x, (WL_Solution.Assign I (WL_Solution.RevokeAssignment I σ s a q) s b q).assigned_goods x
      = σ.assigned_goods x) ∧
    (WL_Solution.Assign I (WL_Solution.RevokeAssignment I σ s a q) s b q).supplied_stores a
      = (if σ.supply s a - q = 0 then setErase (σ.supplied_stores a) s
         else σ.supplied_stores a) := by
  have hsla := supply_le_load I σ hC.load hs ha
  have hslb := supply_le_load I σ hC.load hs hb
  have hsa := supply_le_assigned I σ hC.assigned hs ha
  have hsupT := hC.typed.supply s a hs ha
  have hloadT := hC.typed.load a ha
  have hassT := hC.typed.assigned_goods s hs
  have hba : b ≠ a := Ne.symm hab
  have e1 : usub (σ.supply s a) q = σ.supply s a - q := usub_eq_sub hqs hsupT
  have e2 : usub (σ.load a) q = σ.load a - q := usub_eq_sub (by omega) hloadT
  have e3 : usub (σ.assigned_goods s) q = σ.assigned_goods s - q :=
    usub_eq_sub (by omega) hassT
  refine ⟨?_, ?_, ?_, ?_⟩
  · intro x y
    by_cases h1 : x = s ∧ y = b
    · obtain ⟨rfl, rfl⟩ := h1
      simp [WL_Solution.Assign, WL_Solution.RevokeAssignment, hba,
        uadd_eq_add (by omega : σ.supply x y + q < 4294967296)]
    · by_cases h2 : x = s ∧ y = a
      · obtain ⟨rfl, rfl⟩ := h2
        simp [WL_Solution.Assign, WL_Solution.RevokeAssignment, hab, e1]
      · simp [WL_Solution.Assign, WL_Solution.RevokeAssignment, h1, h2]
  · intro y
    by_cases h1 : y = b
    · subst h1
      simp [WL_Solution.Assign, WL_Solution.RevokeAssignment, hba, uadd_eq_add hfit]
    · by_cases h2 : y = a
      · subst h2
        simp [WL_Solution.Assign, WL_Solution.RevokeAssignment, hab, e2]
      · simp [WL_Solution.Assign, WL_Solution.RevokeAssignment, h1, h2]
  · intro x
    by_cases h1 : x = s
    · subst h1
      simp only [WL_Solution.Assign, WL_Solution.RevokeAssignment, set1_apply, if_true]
      rw [e3, uadd_eq_add (by omega)]
      omega
    · simp [WL_Solution.Assign, WL_Solution.RevokeAssignment, h1]
  · simp only [WL_Solution.Assign, WL_Solution.RevokeAssignment, set2_apply, set1_apply, e1,
      hba, and_false, if_false, true_and]
    by_cases h0 : σ.supply s a - q = 0
    · simp only [h0, if_true]
      split
      · simp [hab]
      · simp
    · simp only [h0, if_false]
      split
      · simp [hab]
      · rfl

/-- One pass of a loop that empties warehouse `a` into warehouse `b`: the first store of
`a` goes to `b` with its whole supply. -/
theorem transfer_step (I : WL_Instance) (hI : I.Typed) (σ0 σ : WL_Solution) (a b s : Nat)
    (ha : a < I.warehouses) (hb : b < I.warehouses) (hab : a ≠ b)
    (hcap : σ0.load a + σ0.load b ≤ I.capacity b)
    (hT : Transfer I σ0 σ a b) (hmem : s ∈ σ.supplied_stores a) :
    Transfer I σ0
      (WL_Solution.Assign I (WL_Solution.RevokeAssignment I σ s a (σ.supply s a)) s b
        (σ.supply s a)) a b ∧
    (WL_Solution.Assign I (WL_Solution.RevokeAssignment I σ s a (σ.supply s a)) s b
        (σ.supply s a)).supplied_stores a = setErase (σ.supplied_stores a) s := by
  obtain ⟨hC, hW, hA, hP, hO, hL, hOL⟩ := hT
  obtain ⟨hs, hpos⟩ := (hC.stores a ha s).mp hmem
  have hsla := supply_le_load I σ hC.load hs ha
  have hsa := supply_le_assigned I σ hC.assigned hs ha
  have hcT := hI.capacity b hb
  have hassT := hC.typed.assigned_goods s hs
  have hamt := hW.assigned_le s hs
  have hfit : σ.load b + σ.supply s a < 4294967296 := by omega
  obtain ⟨fs, fl, fa, fss⟩ := relocate_fields I σ s a b (σ.supply s a) hC hs ha hb hab
    (le_refl _) hfit
  have hC1 := revoke_consistent I σ s a (σ.supply s a) hC hs ha (le_refl _) hpos
  have hW1 := within_revoke I σ s a (σ.supply s a) hC hW hs ha (le_refl _)
  have hl1 : (WL_Solution.RevokeAssignment I σ s a (σ.supply s a)).load b = σ.load b := by
    simp [WL_Solution.RevokeAssignment, Ne.symm hab]
  have ha1 : (WL_Solution.RevokeAssignment I σ s a (σ.supply s a)).assigned_goods s
      = σ.assigned_goods s - σ.supply s a := by
    simp [WL_Solution.RevokeAssignment, usub_eq_sub hsa hassT]
  refine ⟨⟨?_, ?_, ?_, ?_, ?_, ?_, ?_⟩, ?_⟩
  · exact assign_consistent I _ s b _ (by have := hI.stores; omega) hC1 hs hb hpos
      (by rw [hl1]; omega) (by rw [ha1]; omega)
  · exact within_assign I _ s b _ hI hW1 hs hb (by rw [hl1]; omega) (by rw [ha1]; omega)
  · intro x; rw [fa, hA]
  · intro x
    rw [fs, fs, ← hP x]
    by_cases hx : x = s
    · subst hx
      simp [hab, Ne.symm hab]
      omega
    · simp [hx]
  · intro x w hwa hwb
    rw [fs, if_neg (fun h => hwb h.2), if_neg (fun h => hwa h.2), hO x w hwa hwb]
  · rw [fl, fl, ← hL]
    simp [hab, Ne.symm hab]
    omega
  · intro w hwa hwb
    rw [fl, if_neg hwb, if_neg hwa, hOL w hwa hwb]
  · rw [fss, Nat.sub_self, if_pos rfl]



theorem setErase_head {s : Nat} {rest : List Nat} (h : (s :: rest).Nodup) :
    setErase (s :: rest) s = rest := by
  have hn : s ∉ rest := (List.nodup_cons.mp h).1
  unfold setErase
  rw [List.filter_cons_of_neg (by simp)]
  apply List.filter_eq_self.mpr
  intro x hx
  have : x ≠ s := fun e => hn (e ▸ hx)
  simpa using this

/-- The loop of operator 3 that empties `a` into `b` ends, with `a` empty. -/
theorem moveAll_spec (I : WL_Instance) (hI : I.Typed) (σ0 : WL_Solution) (a b : Nat)
    (ha : a < I.warehouses) (hb : b < I.warehouses) (hab : a ≠ b)
    (hcap : σ0.load a + σ0.load b ≤ I.capacity b) :
    ∀ (fuel : Nat) (σ : WL_Solution), Transfer I σ0 σ a b →
      (σ.supplied_stores a).length ≤ fuel →
      ∃ σ2, moveAll I a b fuel σ = some σ2 ∧ Transfer I σ0 σ2 a b ∧
        σ2.supplied_stores a = [] := by
  intro fuel
  induction fuel with
  | zero =>
    intro σ hT hlen
    have hnil : σ.supplied_stores a = [] := List.length_eq_zero.mp (Nat.le_zero.mp hlen)
    exact ⟨σ, by simp [moveAll, hnil], hT, hnil⟩
  | succ fuel ih =>
    intro σ hT hlen
    cases hss : σ.supplied_stores a with
    | nil => exact ⟨σ, by simp [moveAll, hss], hT, hss⟩
    | cons s rest =>
      have hmem : s ∈ σ.supplied_stores a := by rw [hss]; exact List.mem_cons_self _ _
      obtain ⟨hT2, hss2⟩ := transfer_step I hI σ0 σ a b s ha hb hab hcap hT hmem
      have hnd := hT.consistent.nodup a ha
      rw [hss] at hnd hss2
      rw [setErase_head hnd] at hss2
      obtain ⟨σ2, h1, h2, h3⟩ := ih _ hT2 (by rw [hss2]; rw [hss] at hlen; simpa using hlen)
      refine ⟨σ2, ?_, h2, h3⟩
      simp only [moveAll, hss]
      exact h1

/-- The quantity `ResidualAmount(s)` that operator 5 assigns after the revocation is the
quantity revoked, when the store was assigned its whole amount. -/
theorem residual_after_revoke (I : WL_Instance) (hI : I.Typed) (σ : WL_Solution) (s a : Nat)
    (hC : WL_Solution.Consistent I σ) (hs : s < I.stores) (ha : a < I.warehouses)
    (hd : σ.assigned_goods s = I.amount_of_goods s) :
    WL_Solution.ResidualAmount I (WL_Solution.RevokeAssignment I σ s a (σ.supply s a)) s
      = σ.supply s a := by
  have hsa := supply_le_assigned I σ hC.assigned hs ha
  have hassT := hC.typed.assigned_goods s hs
  have hamT := hI.amount_of_goods s hs
  have h1 : (WL_Solution.RevokeAssignment I σ s a (σ.supply s a)).assigned_goods s
      = σ.assigned_goods s - σ.supply s a := by
    simp [WL_Solution.RevokeAssignment, usub_eq_sub hsa hassT]
  unfold WL_Solution.ResidualAmount
  rw [h1, usub_eq_sub (by omega) hamT]
  omega

/-- The loops of operator 5 that empty `a` into `b` end, with `a` empty, when every store
is assigned its whole amount. -/
theorem mergeAll_spec (I : WL_Instance) (hI : I.Typed) (σ0 : WL_Solution) (a b : Nat)
    (ha : a < I.warehouses) (hb : b < I.warehouses) (hab : a ≠ b)
    (hcap : σ0.load a + σ0.load b ≤ I.capacity b) (hd : DemandMet I σ0) :
    ∀ (fuel : Nat) (σ : WL_Solution), Transfer I σ0 σ a b →
      (σ.supplied_stores a).length ≤ fuel →
      ∃ σ2, mergeAll I a b fuel σ = some σ2 ∧ Transfer I σ0 σ2 a b ∧
        σ2.supplied_stores a = [] := by
  intro fuel
  induction fuel with
  | zero =>
    intro σ hT hlen
    have hnil : σ.supplied_stores a = [] := List.length_eq_zero.mp (Nat.le_zero.mp hlen)
    exact ⟨σ, by simp [mergeAll, hnil], hT, hnil⟩
  | succ fuel ih =>
    intro σ hT hlen
    cases hss : σ.supplied_stores a with
    | nil => exact ⟨σ, by simp [mergeAll, hss], hT, hss⟩
    | cons s rest =>
      have hmem : s ∈ σ.supplied_stores a := by rw [hss]; exact List.mem_cons_self _ _
      have hs := ((hT.consistent.stores a ha s).mp hmem).1
      obtain ⟨hT2, hss2⟩ := transfer_step I hI σ0 σ a b s ha hb hab hcap hT hmem
      have hnd := hT.consistent.nodup a ha
      rw [hss] at hnd hss2
      rw [setErase_head hnd] at hss2
      obtain ⟨σ2, h1, h2, h3⟩ := ih _ hT2 (by rw [hss2]; rw [hss] at hlen; simpa using hlen)
      refine ⟨σ2, ?_, h2, h3⟩
      simp only [mergeAll, hss]
      rw [residual_after_revoke I hI σ s a hT.consistent hs ha
        (by rw [hT.assigned s]; exact hd s hs)]
      exact h1

/-- The state at the end of a loop that has emptied `a` into `b`. -/
theorem transfer_done (I : WL_Instance) (σ0 σ : WL_Solution) (a b : Nat)
    (ha : a < I.warehouses) (hT : Transfer I σ0 σ a b) (hnil : σ.supplied_stores a = []) :
    (∀ s, s < I.stores → σ.supply s a = 0) ∧ σ.load a = 0 ∧
    (∀ s, s < I.stores → σ.supply s b = σ0.supply s a + σ0.supply s b) ∧
    σ.load b = σ0.load a + σ0.load b := by
  have h0 : ∀ s, s < I.stores → σ.supply s a = 0 := by
    intro s hs
    by_contra hne
    have : s ∈ σ.supplied_stores a :=
      (hT.consistent.stores a ha s).mpr ⟨hs, Nat.pos_of_ne_zero hne⟩
    rw [hnil] at this
    exact absurd this (List.not_mem_nil _)
  have hl : σ.load a = 0 := by
    rw [hT.consistent.load a ha]
    apply Finset.sum_eq_zero
    intro s hs
    exact h0 s (Finset.mem_range.mp hs)
  refine ⟨h0, hl, ?_, ?_⟩
  · intro s hs
    have := hT.pair s
    rw [h0 s hs] at this
    omega
  · have := hT.loads
    omega

theorem transfer_refl (I : WL_Instance) (σ : WL_Solution) (a b : Nat)
    (hC : WL_Solution.Consistent I σ) (hW : WL_Solution.Within I σ) : Transfer I σ σ a b :=
  ⟨hC, hW, fun _ => rfl, fun _ => rfl, fun _ _ _ _ => rfl, rfl, fun _ _ _ => rfl⟩



/-- C15: whenever perturbation operator 3 succeeds on a feasible solution (a consistent
state within the bounds, without a co-located incompatible pair, every demand met) of an
instance whose data fit an `unsigned` and whose listed pairs are pairs of stores, with the
chosen `w1` (recorded in `opening_forbidden`) and `w2` (recorded in `closing_forbidden`):
afterwards `supply[s][w2]` is the former `supply[s][w1]` for every store `s`, `load[w1]` is
0 with `supply[s][w1] == 0` for every store, every supply entry outside the columns `w1`
and `w2` is unchanged, and the solution is feasible. -/
theorem perturbation3_spec (I : WL_Instance) (hI : I.Typed)
    (hpr : ∀ p, p ∈ I.store_incompatibilities → p.1 < I.stores ∧ p.2 < I.stores)
    (σ : WL_Solution) (hS : Sound I σ) (hD : DemandMet I σ)
    (inv : List Nat) (rng : Rng) (p : Nat) (st2 : PerturbState) (rng2 : Rng)
    (h : perturbation3 I σ inv rng = some (p, st2, rng2)) (hp : p ≠ 0) :
    ∃ w1 w2, w1 < I.warehouses ∧ w2 < I.warehouses ∧ w1 ≠ w2 ∧
      st2.opening_forbidden = [w1] ∧ st2.closing_forbidden = [w2] ∧
      (∀ s, s < I.stores → st2.sol.supply s w2 = σ.supply s w1) ∧
      st2.sol.load w1 = 0 ∧ (∀ s, s < I.stores → st2.sol.supply s w1 = 0) ∧
      (∀ s w, w ≠ w1 → w ≠ w2 → st2.sol.supply s w = σ.supply s w) ∧
      Sound I st2.sol ∧ DemandMet I st2.sol ∧ IsFeasible I st2.sol := by
  obtain ⟨hC, hW, hN⟩ := hS
  unfold perturbation3 at h
  split at h
  · simp only [Option.some.injEq, Prod.mk.injEq] at h
    exact absurd h.1.symm hp
  · cases rng with
    | nil => exact absurd h (by simp)
    | cons r rng1 =>
      simp only [Option.bind_eq_some] at h
      obtain ⟨w1, hw1, h⟩ := h
      have hm1 := List.getElem?_mem hw1
      rw [List.mem_filter, List.mem_range, decide_eq_true_eq] at hm1
      obtain ⟨hw1lt, hl1, _⟩ := hm1
      split at h
      · simp only [Option.some.injEq, Prod.mk.injEq] at h
        exact absurd h.1.symm hp
      · cases rng1 with
        | nil => exact absurd h (by simp)
        | cons r2 rng3 =>
          simp only [Option.bind_eq_some, Option.some.injEq, Prod.mk.injEq] at h
          obtain ⟨w2, hw2, σ2, hmv, -, hst, -⟩ := h
          have hm2 := List.getElem?_mem hw2
          rw [List.mem_filter, List.mem_range, decide_eq_true_eq] at hm2
          obtain ⟨hw2lt, hl2, _, hrc⟩ := hm2
          have hne : w1 ≠ w2 := fun e => hl1 (e ▸ hl2)
          rw [residualCapacity_eq I σ hI hW hw2lt, hl2] at hrc
          have hcap : σ.load w1 + σ.load w2 ≤ I.capacity w2 := by
            rw [hl2]; simpa using hrc
          obtain ⟨σ3, e1, hT, hnil⟩ := moveAll_spec I hI σ w1 w2 hw1lt hw2lt hne hcap
            (σ.supplied_stores w1).length σ (transfer_refl I σ w1 w2 hC hW) (le_refl _)
          rw [hmv] at e1
          have e2 := Option.some.inj e1
          subst e2
          obtain ⟨d1, d2, d3, d4⟩ := transfer_done I σ σ2 w1 w2 hw1lt hT hnil
          have hz : ∀ s, s < I.stores → σ.supply s w2 = 0 := by
            intro s hs
            have := supply_le_load I σ hC.load hs hw2lt
            omega
          have hsup2 : ∀ s, s < I.stores → σ2.supply s w2 = σ.supply s w1 := by
            intro s hs
            rw [d3 s hs, hz s hs]
            rfl
          have hN2 : NoConflict I σ2 := by
            intro q hq w hw ⟨c1, c2⟩
            obtain ⟨hq1, hq2⟩ := hpr q hq
            by_cases e : w = w1
            · subst e
              rw [d1 _ hq1] at c1
              exact absurd c1 (lt_irrefl 0)
            · by_cases e' : w = w2
              · subst e'
                rw [hsup2 _ hq1] at c1
                rw [hsup2 _ hq2] at c2
                exact hN q hq w1 hw1lt ⟨c1, c2⟩
              · rw [hT.other _ w e e'] at c1 c2
                exact hN q hq w hw ⟨c1, c2⟩
          have hD2 : DemandMet I σ2 := by
            intro s hs
            rw [hT.assigned s]
            exact hD s hs
          refine ⟨w1, w2, hw1lt, hw2lt, hne, ?_, ?_, ?_, ?_, ?_, ?_, ?_, ?_, ?_⟩
          · rw [← hst]; rfl
          · rw [← hst]; rfl
          · rw [← hst]; exact hsup2
          · rw [← hst]; exact d2
          · rw [← hst]; exact d1
          · rw [← hst]; exact fun s w a b => hT.other s w a b
          · rw [← hst]; exact ⟨hT.consistent, hT.within, hN2⟩
          · rw [← hst]; exact hD2
          · rw [← hst]
            exact ⟨hD2, hT.within.load_le,
              computeViolations_of_feasible I σ2 (fun s hs => (hD2 s hs).ge)
                hT.within.load_le hN2⟩



theorem foldl_invariant {α β : Type} (P : β → Prop) (f : β → α → β) :
    ∀ (l : List α) (init : β), P init → (∀ acc x, x ∈ l → P acc → P (f acc x)) →
      P (l.foldl f init) := by
  intro l
  induction l with
  | nil => intro init h0 _; exact h0
  | cons a l ih =>
    intro init h0 hstep
    rw [List.foldl_cons]
    exact ih _ (hstep init a (List.mem_cons_self _ _) h0)
      (fun acc x hx hacc => hstep acc x (List.mem_cons_of_mem _ hx) hacc)

/-- The triple that the loops of operator 5 leave, when they leave one, has passed their
tests. -/
theorem chooseTriple5_spec (I : WL_Instance) (σ : WL_Solution)
    (h : (chooseTriple5 I σ).best_fc_improvement ≠ 0) : Chosen5 I σ (chooseTriple5 I σ) := by
  have key : (chooseTriple5 I σ).best_fc_improvement = 0 ∨ Chosen5 I σ (chooseTriple5 I σ) := by
    unfold chooseTriple5
    apply foldl_invariant (fun t => t.best_fc_improvement = 0 ∨ Chosen5 I σ t)
    · exact Or.inl rfl
    · intro acc1 w1 hw1 h1
      rw [List.mem_range] at hw1
      split
      · next c1 =>
        apply foldl_invariant (fun t => t.best_fc_improvement = 0 ∨ Chosen5 I σ t)
        · exact h1
        · intro acc2 w2 hw2 h2
          rw [List.mem_range] at hw2
          split
          · next c2 =>
            apply foldl_invariant (fun t => t.best_fc_improvement = 0 ∨ Chosen5 I σ t)
            · exact h2
            · intro acc3 w3 hw3 h3
              rw [List.mem_range'_1] at hw3
              split
              · next c3 =>
                right
                exact ⟨hw1, hw2, (by show w3 < I.warehouses; omega), (by show w2 < w3; omega), c1.1, c1.2, c2.1, c2.2.1, c2.2.2.1,
                  c2.2.2.2, c3.1, c3.2.1, c3.2.2.1, c3.2.2.2.2, rfl⟩
              · exact h3
          · exact h2
      · exact h1
  exact key.resolve_left h



theorem compatibleStores_spec (I : WL_Instance) (σ : WL_Solution) (w2 w3 : Nat)
    (h : compatibleStores I σ w2 w3 = true) {s1 s2 : Nat}
    (h1 : s1 ∈ σ.supplied_stores w2) (h2 : s2 ∈ σ.supplied_stores w3) :
    I.incompatible s1 s2 = false := by
  unfold compatibleStores at h
  rw [List.all_eq_true] at h
  have := h s1 h1
  rw [List.all_eq_true] at this
  simpa using this s2 h2

/-- C14 (amended): on an instance whose data fit an `unsigned` and whose listed pairs are
recorded in the `incompatible` matrix, whenever perturbation operator 5 succeeds on a
feasible solution (a consistent state within the bounds, without a co-located incompatible
pair, every demand met) in which the loads of no two distinct warehouses sum to `2^32` or
more, with the chosen `w1` (recorded in `closing_forbidden`), `w2` and `w3` (recorded in
`opening_forbidden`): afterwards `supply[s][w1]` is the former `supply[s][w2] + supply[s][w3]` for every store
`s`, `w2` and `w3` have load 0, `load[w1] <= capacity[w1]`, no listed pair has both of its
stores at `w1`, and the solution is feasible. -/
theorem perturbation5_spec (I : WL_Instance) (hI : I.Typed) (hpm : I.PairsInMatrix)
    (σ : WL_Solution) (hS : Sound I σ) (hD : DemandMet I σ)
    (hnw : ∀ a b, a < I.warehouses → b < I.warehouses → a ≠ b →
      σ.load a + σ.load b < 4294967296)
    (inv : List Nat) (rng : Rng) (p : Nat) (st2 : PerturbState) (rng2 : Rng)
    (h : perturbation5 I σ inv rng = some (p, st2, rng2)) (hp : p ≠ 0) :
    ∃ w1 w2 w3, w1 < I.warehouses ∧ w2 < I.warehouses ∧ w3 < I.warehouses ∧
      w1 ≠ w2 ∧ w1 ≠ w3 ∧ w2 ≠ w3 ∧
      st2.closing_forbidden = [w1] ∧ st2.opening_forbidden = [w2, w3] ∧
      (∀ s, s < I.stores → st2.sol.supply s w1 = σ.supply s w2 + σ.supply s w3) ∧
      st2.sol.load w2 = 0 ∧ st2.sol.load w3 = 0 ∧ st2.sol.load w1 ≤ I.capacity w1 ∧
      (∀ q, q ∈ I.store_incompatibilities →
        ¬ (0 < st2.sol.supply q.1 w1 ∧ 0 < st2.sol.supply q.2 w1)) ∧
      Sound I st2.sol ∧ DemandMet I st2.sol ∧ IsFeasible I st2.sol := by
  obtain ⟨hC, hW, hN⟩ := hS
  unfold perturbation5 at h
  split at h
  · simp only [Option.some.injEq, Prod.mk.injEq] at h
    exact absurd h.1.symm hp
  · next hbest =>
    have hch := chooseTriple5_spec I σ hbest
    generalize chooseTriple5 I σ = t at h hch
    obtain ⟨hw1, hw2, hw3, hord, hc1, -, ho2, -, -, -, ho3, -, hroom, hcomp, -⟩ := hch
    simp only [Option.bind_eq_some, Option.some.injEq, Prod.mk.injEq] at h
    obtain ⟨σ2, hm1, σ3, hm2, -, hst, -⟩ := h
    have n12 : t.best_w1 ≠ t.best_w2 := fun e => ho2 (e ▸ hc1)
    have n13 : t.best_w1 ≠ t.best_w3 := fun e => ho3 (e ▸ hc1)
    have n23 : t.best_w2 ≠ t.best_w3 := by omega
    rw [uadd_eq_add (hnw _ _ hw2 hw3 n23)] at hroom
    -- first loop: `best_w2` into `best_w1`
    obtain ⟨τ2, e1, hT1, hnil1⟩ := mergeAll_spec I hI σ t.best_w2 t.best_w1 hw2 hw1
      (Ne.symm n12) (by omega) hD (σ.supplied_stores t.best_w2).length σ
      (transfer_refl I σ _ _ hC hW) (le_refl _)
    rw [hm1] at e1
    have e1' := Option.some.inj e1
    subst e1'
    obtain ⟨a1, a2, a3, a4⟩ := transfer_done I σ σ2 t.best_w2 t.best_w1 hw2 hT1 hnil1
    have hD2 : DemandMet I σ2 := by
      intro s hs; rw [hT1.assigned s]; exact hD s hs
    have hl3 : σ2.load t.best_w3 = σ.load t.best_w3 :=
      hT1.otherLoads _ (Ne.symm n23) (Ne.symm n13)
    -- second loop: `best_w3` into `best_w1`
    obtain ⟨τ3, e2, hT2, hnil2⟩ := mergeAll_spec I hI σ2 t.best_w3 t.best_w1 hw3 hw1
      (Ne.symm n13) (by rw [hl3, a4]; omega) hD2 (σ2.supplied_stores t.best_w3).length σ2
      (transfer_refl I σ2 _ _ hT1.consistent hT1.within) (le_refl _)
    rw [hm2] at e2
    have e2' := Option.some.inj e2
    subst e2'
    obtain ⟨b1, b2, b3, b4⟩ := transfer_done I σ2 σ3 t.best_w3 t.best_w1 hw3 hT2 hnil2
    have hz1 : ∀ s, s < I.stores → σ.supply s t.best_w1 = 0 := by
      intro s hs
      have := supply_le_load I σ hC.load hs hw1
      omega
    have hsup : ∀ s, s < I.stores →
        σ3.supply s t.best_w1 = σ.supply s t.best_w2 + σ.supply s t.best_w3 := by
      intro s hs
      rw [b3 s hs, hT1.other s _ (Ne.symm n23) (Ne.symm n13), a3 s hs, hz1 s hs]
      omega
    have hsup2 : ∀ s, s < I.stores → σ3.supply s t.best_w2 = 0 := by
      intro s hs
      rw [hT2.other s _ n23 (Ne.symm n12), a1 s hs]
    have hD3 : DemandMet I σ3 := by
      intro s hs; rw [hT2.assigned s]; exact hD2 s hs
    have hN3 : NoConflict I σ3 := by
      intro q hq w hw ⟨c1, c2⟩
      obtain ⟨hq1, hq2, hm12, hm21⟩ := hpm q hq
      by_cases e : w = t.best_w1
      · subst e
        rw [hsup _ hq1] at c1
        rw [hsup _ hq2] at c2
        have mem : ∀ x w, x < I.stores → w < I.warehouses → 0 < σ.supply x w →
            x ∈ σ.supplied_stores w := fun x w hx hw hp => (hC.stores w hw x).mpr ⟨hx, hp⟩
        by_cases p1 : 0 < σ.supply q.1 t.best_w2
        · by_cases p2 : 0 < σ.supply q.2 t.best_w2
          · exact hN q hq _ hw2 ⟨p1, p2⟩
          · have p3 : 0 < σ.supply q.2 t.best_w3 := by omega
            have := compatibleStores_spec I σ _ _ hcomp (mem _ _ hq1 hw2 p1)
              (mem _ _ hq2 hw3 p3)
            rw [hm12] at this
            exact absurd this (by simp)
        · have p1' : 0 < σ.supply q.1 t.best_w3 := by omega
          by_cases p2 : 0 < σ.supply q.2 t.best_w2
          · have := compatibleStores_spec I σ _ _ hcomp (mem _ _ hq2 hw2 p2)
              (mem _ _ hq1 hw3 p1')
            rw [hm21] at this
            exact absurd this (by simp)
          · have p3 : 0 < σ.supply q.2 t.best_w3 := by omega
            exact hN q hq _ hw3 ⟨p1', p3⟩
      · by_cases e2 : w = t.best_w2
        · subst e2
          rw [hsup2 _ hq1] at c1
          exact absurd c1 (lt_irrefl 0)
        · by_cases e3 : w = t.best_w3
          · subst e3
            rw [b1 _ hq1] at c1
            exact absurd c1 (lt_irrefl 0)
          · rw [hT2.other _ w e3 e, hT1.other _ w e2 e] at c1 c2
            exact hN q hq w hw ⟨c1, c2⟩
    refine ⟨t.best_w1, t.best_w2, t.best_w3, hw1, hw2, hw3, n12, n13, n23, ?_, ?_, ?_, ?_, ?_,
      ?_, ?_, ?_, ?_, ?_⟩
    · rw [← hst]; rfl
    · rw [← hst]
      show setInsert (setInsert [] t.best_w2) t.best_w3 = [t.best_w2, t.best_w3]
      simp [setInsert, Ne.symm n23]
    · rw [← hst]; exact hsup
    · rw [← hst]
      show σ3.load t.best_w2 = 0
      rw [hT2.otherLoads _ n23 (Ne.symm n12), a2]
    · rw [← hst]; exact b2
    · rw [← hst]; exact hT2.within.load_le _ hw1
    · rw [← hst]; exact fun q hq => hN3 q hq _ hw1
    · rw [← hst]; exact ⟨hT2.consistent, hT2.within, hN3⟩
    · rw [← hst]; exact hD3
    · rw [← hst]
      exact ⟨hD3, hT2.within.load_le,
        computeViolations_of_feasible I σ3 (fun s hs => (hD3 s hs).ge)
          hT2.within.load_le hN3⟩



theorem solRelocate_sound : Sound instRelocate solRelocate :=
  ⟨solRelocate_consistent, solRelocate_within,
    fun p hp => absurd hp (List.not_mem_nil p)⟩

theorem solRelocate_demandMet : DemandMet instRelocate solRelocate := by
  intro s hs
  have h1 : s < 1 := hs
  interval_cases s; decide

/-- Witness for C15: on `instRelocate` with the stream `[0, 0]` operator 3 picks the open
warehouse 0 and the closed warehouse 1 and moves the store. -/
theorem perturbation3_spec_witness :
    ∃ w1 w2, w1 < instRelocate.warehouses ∧ w2 < instRelocate.warehouses ∧ w1 ≠ w2 ∧
      [0] = [w1] ∧ [1] = [w2] ∧
      (∀ s, s < instRelocate.stores →
        (WL_Solution.Assign instRelocate
          (WL_Solution.RevokeAssignment instRelocate solRelocate 0 0 4) 0 1 4).supply s w2
          = solRelocate.supply s w1) ∧
      (WL_Solution.Assign instRelocate
          (WL_Solution.RevokeAssignment instRelocate solRelocate 0 0 4) 0 1 4).load w1 = 0 ∧
      (∀ s, s < instRelocate.stores →
        (WL_Solution.Assign instRelocate
          (WL_Solution.RevokeAssignment instRelocate solRelocate 0 0 4) 0 1 4).supply s w1
          = 0) ∧
      (∀ s w, w ≠ w1 → w ≠ w2 →
        (WL_Solution.Assign instRelocate
          (WL_Solution.RevokeAssignment instRelocate solRelocate 0 0 4) 0 1 4).supply s w
          = solRelocate.supply s w) ∧
      Sound instRelocate
        (WL_Solution.Assign instRelocate
          (WL_Solution.RevokeAssignment instRelocate solRelocate 0 0 4) 0 1 4) ∧
      DemandMet instRelocate
        (WL_Solution.Assign instRelocate
          (WL_Solution.RevokeAssignment instRelocate solRelocate 0 0 4) 0 1 4) ∧
      IsFeasible instRelocate
        (WL_Solution.Assign instRelocate
          (WL_Solution.RevokeAssignment instRelocate solRelocate 0 0 4) 0 1 4) :=
  perturbation3_spec instRelocate instRelocate_typed
    (fun p hp => absurd hp (List.not_mem_nil p)) solRelocate solRelocate_sound
    solRelocate_demandMet [] [0, 0] 3
    ⟨WL_Solution.Assign instRelocate
      (WL_Solution.RevokeAssignment instRelocate solRelocate 0 0 4) 0 1 4, [1], [1], [0]⟩
    [] rfl (by decide)

theorem instMergeSmall_typed : instMergeSmall.Typed := by
  constructor
  · decide
  · decide
  · intro w hw
    have h1 : w < 3 := hw
    interval_cases w <;> decide
  · intro w hw
    have h1 : w < 3 := hw
    interval_cases w <;> decide
  · intro s hs
    have h1 : s < 2 := hs
    interval_cases s <;> decide
  · decide

theorem solMergeSmall_sound : Sound instMergeSmall solMergeSmall := by
  refine ⟨?_, ⟨?_, ?_⟩, fun p hp => absurd hp (List.not_mem_nil p)⟩
  · exact assign_consistent instMergeSmall _ 1 2 3 (by decide)
      (assign_consistent instMergeSmall (WL_Solution.create instMergeSmall) 0 1 3
        (by decide) (consistent_create _) (by decide) (by decide) (by decide)
        (by decide) (by decide))
      (by decide) (by decide) (by decide) (by decide) (by decide)
  · intro w hw
    have h1 : w < 3 := hw
    interval_cases w <;> decide
  · intro s hs
    have h1 : s < 2 := hs
    interval_cases s <;> decide

theorem solMergeSmall_demandMet : DemandMet instMergeSmall solMergeSmall := by
  intro s hs
  have h1 : s < 2 := hs
  interval_cases s <;> decide

theorem perturbation5_small_returns :
    (perturbation5 instMergeSmall solMergeSmall [] []).isSome = true := by decide

/-- Witness for C14: on `instMergeSmall` operator 5 opens warehouse 0 and closes warehouses
1 and 2; the hypotheses of the amended statement hold there. -/
theorem perturbation5_spec_witness :
    ∃ w1 w2 w3, w1 < instMergeSmall.warehouses ∧ w2 < instMergeSmall.warehouses ∧
      w3 < instMergeSmall.warehouses ∧ w1 ≠ w2 ∧ w1 ≠ w3 ∧ w2 ≠ w3 ∧
      ((perturbation5 instMergeSmall solMergeSmall [] []).get
        perturbation5_small_returns).2.1.closing_forbidden = [w1] ∧
      ((perturbation5 instMergeSmall solMergeSmall [] []).get
        perturbation5_small_returns).2.1.opening_forbidden = [w2, w3] ∧
      (∀ s, s < instMergeSmall.stores →
        ((perturbation5 instMergeSmall solMergeSmall [] []).get
          perturbation5_small_returns).2.1.sol.supply s w1
          = solMergeSmall.supply s w2 + solMergeSmall.supply s w3) ∧
      ((perturbation5 instMergeSmall solMergeSmall [] []).get
        perturbation5_small_returns).2.1.sol.load w2 = 0 ∧
      ((perturbation5 instMergeSmall solMergeSmall [] []).get
        perturbation5_small_returns).2.1.sol.load w3 = 0 ∧
      ((perturbation5 instMergeSmall solMergeSmall [] []).get
        perturbation5_small_returns).2.1.sol.load w1 ≤ instMergeSmall.capacity w1 ∧
      (∀ q, q ∈ instMergeSmall.store_incompatibilities →
        ¬ (0 < ((perturbation5 instMergeSmall solMergeSmall [] []).get
            perturbation5_small_returns).2.1.sol.supply q.1 w1 ∧
          0 < ((perturbation5 instMergeSmall solMergeSmall [] []).get
            perturbation5_small_returns).2.1.sol.supply q.2 w1)) ∧
      Sound instMergeSmall ((perturbation5 instMergeSmall solMergeSmall [] []).get
        perturbation5_small_returns).2.1.sol ∧
      DemandMet instMergeSmall ((perturbation5 instMergeSmall solMergeSmall [] []).get
        perturbation5_small_returns).2.1.sol ∧
      IsFeasible instMergeSmall ((perturbation5 instMergeSmall solMergeSmall [] []).get
        perturbation5_small_returns).2.1.sol :=
  perturbation5_spec instMergeSmall instMergeSmall_typed
    (fun p hp => absurd hp (List.not_mem_nil p)) solMergeSmall solMergeSmall_sound
    solMergeSmall_demandMet
    (by
      intro a b ha hb _
      have h1 : a < 3 := ha
      have h2 : b < 3 := hb
      interval_cases a <;> interval_cases b <;> decide)
    [] [] _ _ _ (Option.some_get perturbation5_small_returns).symm (by decide)

/-- Counterexample to C14 as stated: on `instMerge` the solution `solMerge` is feasible
and consistent (store 0 at warehouse 1, store 1 at warehouse 2, 3000000000 units each).
The capacity test of operator 5 adds the two loads as `unsigned`:
`6000000000 mod 2^32 = 1705032704 <= 3500000000`, so the triple `(0, 1, 2)` passes and the
operator returns 5. Afterwards warehouse 0 supplies 3000000000 units to each store,
6000000000 in all, above its capacity 3500000000, while its cached load is 1705032704:
the solution is not feasible and the cached load is not the column sum. -/
theorem perturbation5_counterexample :
    Sound instMerge solMerge ∧ DemandMet instMerge solMerge ∧ IsFeasible instMerge solMerge ∧
    (perturbation5 instMerge solMerge [] []).map
      (fun r => (r.1, r.2.1.closing_forbidden, r.2.1.opening_forbidden,
        r.2.1.sol.supply 0 0, r.2.1.sol.supply 1 0, r.2.1.sol.load 0))
      = some (5, [0], [1, 2], 3000000000, 3000000000, 1705032704) ∧
    instMerge.capacity 0 < 3000000000 + 3000000000 := by
  have hsound : Sound instMerge solMerge := by
    refine ⟨?_, ⟨?_, ?_⟩, fun p hp => absurd hp (List.not_mem_nil p)⟩
    · exact assign_consistent instMerge _ 1 2 3000000000 (by decide)
        (assign_consistent instMerge (WL_Solution.create instMerge) 0 1 3000000000
          (by decide) (consistent_create _) (by decide) (by decide) (by decide)
          (by decide) (by decide))
        (by decide) (by decide) (by decide) (by decide) (by decide)
    · intro w hw
      have h1 : w < 3 := hw
      interval_cases w <;> decide
    · intro s hs
      have h1 : s < 2 := hs
      interval_cases s <;> decide
  have hdem : DemandMet instMerge solMerge := by
    intro s hs
    have h1 : s < 2 := hs
    interval_cases s <;> decide
  refine ⟨hsound, hdem, ⟨hdem, hsound.within.load_le, by decide⟩, by decide, by decide⟩




/-! ## The reduction-forbidden pairs `w_incompatible` are respected -/

/-- With `w_incompatible[w][s]` the accessor `Incompatibilities(w, s)` answers at least 2:
the counter is at most the number of stores, so the `+ 2` does not wrap. -/
theorem incompatibilities_ge_two (I : WL_Instance) (σ : WL_Solution) (hI : I.Typed)
    (hC : WL_Solution.Consistent I σ) {w s : Nat} (hw : w < I.warehouses) (hs : s < I.stores)
    (h : I.w_incompatible w s = true) : 2 ≤ WL_Solution.Incompatibilities I σ w s := by
  have hcnt := hC.counters w s hw hs
  have hle := conflictsAt_le I σ w s
  have hS := hI.stores
  unfold WL_Solution.Incompatibilities
  rw [if_pos h, uadd_eq_add (by omega)]
  omega

theorem w_incompatible_of_lt_two (I : WL_Instance) (σ : WL_Solution) (hI : I.Typed)
    (hC : WL_Solution.Consistent I σ) {w s : Nat} (hw : w < I.warehouses) (hs : s < I.stores)
    (h : WL_Solution.Incompatibilities I σ w s < 2) : I.w_incompatible w s = false := by
  by_contra hne
  have := incompatibilities_ge_two I σ hI hC hw hs (by simpa using hne)
  omega

/-- An `Assign` that the constructors' guards admit keeps the state tame. -/
theorem tame_assign (I : WL_Instance) (σ : WL_Solution) (s w q : Nat)
    (hI : I.Typed)
    (hS : Tame I σ) (hs : s < I.stores) (hw : w < I.warehouses) (hq : 0 < q)
    (hqa : q ≤ WL_Solution.ResidualAmount I σ s)
    (hqc : q ≤ WL_Solution.ResidualCapacity I σ w)
    (hinc : WL_Solution.Incompatibilities I σ w s = 0) :
    Tame I (WL_Solution.Assign I σ s w q) := by
  obtain ⟨hC, hW, hR⟩ := hS
  have hwi := w_incompatible_of_lt_two I σ hI hC hw hs (by omega)
  rw [residualAmount_eq I σ hI hW hs] at hqa
  rw [residualCapacity_eq I σ hI hW hw] at hqc
  have hcT := hI.capacity w hw
  have hdT := hI.amount_of_goods s hs
  have hl := hW.load_le w hw
  have ha := hW.assigned_le s hs
  have hsl := supply_le_load I σ hC.load hs hw
  obtain ⟨fs, fl, fa⟩ := assign_fields I σ s w q (by omega) (by omega) (by omega)
  refine ⟨assign_consistent I σ s w q (by have := hI.stores; omega) hC hs hw hq
    (by omega) (by omega), within_assign I σ s w q hI hW hs hw (by omega) (by omega), ?_⟩
  intro b a hb ha2 hba
  rw [fs]
  split
  · rename_i h
    obtain ⟨rfl, rfl⟩ := h
    rw [hwi] at hba
    exact absurd hba (by simp)
  · exact hR b a hb ha2 hba

theorem tame_create (I : WL_Instance) : Tame I (WL_Solution.create I) := by
  refine ⟨consistent_create I, ⟨?_, ?_⟩, ?_⟩
  · intro w _; exact Nat.zero_le _
  · intro s _; exact Nat.zero_le _
  · intro w s _ _ _; rfl

theorem seedStep_tame (I : WL_Instance) (σ : WL_Solution) (rng : Rng) (wh : Nat)
    (hI : I.Typed)
    (hS : Tame I σ) (hw : wh < I.warehouses) (h0 : σ.load wh = 0)
    (σ2 : WL_Solution) (rng2 : Rng) (h : seedStep I σ rng wh = some (σ2, rng2)) :
    Tame I σ2 ∧ ∀ b, b ≠ wh → σ2.load b = σ.load b := by
  unfold seedStep at h
  by_cases hrc : WL_Solution.ResidualCapacity I σ wh ≠ 0
  · rw [if_pos hrc] at h
    by_cases hst : I.stores = 0
    · rw [if_pos hst] at h; simp at h
    · rw [if_neg hst] at h
      cases rng with
      | nil => simp at h
      | cons r rng1 =>
        simp only at h
        cases hpick : seedPick I σ wh (I.stores + 2) (r % I.stores) 0 rng1 with
        | none => rw [hpick] at h; simp at h
        | some res =>
          obtain ⟨s, trials, rng3⟩ := res
          rw [hpick] at h
          simp only at h
          by_cases ht : trials ≤ I.stores
          · rw [if_pos ht] at h
            simp only [Option.some.injEq, Prod.mk.injEq] at h
            obtain ⟨rfl, -⟩ := h
            obtain ⟨hs, hra, hinc⟩ := seedPick_spec I σ wh (by omega) _ _ _ _ _ _ _
              (Nat.mod_lt _ (by omega)) hpick ht
            have hrcv := residualCapacity_eq I σ hI hS.within hw
            rw [h0] at hrcv
            have hcap : WL_Solution.ResidualCapacity I σ wh = I.capacity wh := by
              rw [hrcv]; omega
            refine ⟨tame_assign I σ s wh _ hI hS hs hw ?_ (Nat.min_le_left _ _)
              (by rw [hcap]; exact Nat.min_le_right _ _) hinc, ?_⟩
            · rw [hcap] at hrc
              omega
            · intro b hb
              simp [WL_Solution.Assign, hb]
          · rw [if_neg ht] at h
            simp only [Option.some.injEq, Prod.mk.injEq] at h
            obtain ⟨rfl, -⟩ := h
            exact ⟨hS, fun _ _ => rfl⟩
  · rw [if_neg hrc] at h
    simp only [Option.some.injEq, Prod.mk.injEq] at h
    obtain ⟨rfl, -⟩ := h
    exact ⟨hS, fun _ _ => rfl⟩

theorem seedPhase_tame (I : WL_Instance) (hI : I.Typed) :
    ∀ (l : List Nat) (σ : WL_Solution) (rng : Rng) (σ2 : WL_Solution) (rng2 : Rng),
      Tame I σ → l.Nodup → (∀ wh, wh ∈ l → wh < I.warehouses ∧ σ.load wh = 0) →
      seedPhase I l σ rng = some (σ2, rng2) → Tame I σ2 := by
  intro l
  induction l with
  | nil =>
    intro σ rng σ2 rng2 hS _ _ h
    simp only [seedPhase, Option.some.injEq, Prod.mk.injEq] at h
    obtain ⟨rfl, -⟩ := h
    exact hS
  | cons wh rest ih =>
    intro σ rng σ2 rng2 hS hnd hl h
    unfold seedPhase at h
    cases hstep : seedStep I σ rng wh with
    | none => rw [hstep] at h; simp at h
    | some res =>
      obtain ⟨σ1, rng1⟩ := res
      rw [hstep] at h
      simp only at h
      obtain ⟨hw, h0⟩ := hl wh (List.mem_cons_self _ _)
      obtain ⟨hS1, hframe⟩ := seedStep_tame I σ rng wh hI hS hw h0 σ1 rng1 hstep
      have hnd2 := List.nodup_cons.mp hnd
      refine ih σ1 rng1 σ2 rng2 hS1 hnd2.2 ?_ h
      intro x hx
      have hxw : x ≠ wh := fun he => hnd2.1 (he ▸ hx)
      obtain ⟨h1, h2⟩ := hl x (List.mem_cons_of_mem _ hx)
      exact ⟨h1, by rw [hframe x hxw]; exact h2⟩

/-- One guarded assignment of the completion phase: tame again, the other stores keep
their assigned goods. -/
theorem fill_step_tame (I : WL_Instance) (σ : WL_Solution) (s w : Nat)
    (hI : I.Typed)
    (hS : Tame I σ) (hs : s < I.stores) (hw : w < I.warehouses)
    (hra : WL_Solution.ResidualAmount I σ s ≠ 0)
    (hrc : WL_Solution.ResidualCapacity I σ w ≠ 0)
    (hinc : WL_Solution.Incompatibilities I σ w s = 0) :
    Tame I (WL_Solution.Assign I σ s w
      (min (WL_Solution.ResidualAmount I σ s) (WL_Solution.ResidualCapacity I σ w))) ∧
    ∀ a, a ≠ s →
      (WL_Solution.Assign I σ s w
        (min (WL_Solution.ResidualAmount I σ s)
          (WL_Solution.ResidualCapacity I σ w))).assigned_goods a = σ.assigned_goods a := by
  refine ⟨tame_assign I σ s w _ hI hS hs hw ?_ (Nat.min_le_left _ _)
    (Nat.min_le_right _ _) hinc, ?_⟩
  · have h1 : 0 < WL_Solution.ResidualAmount I σ s := Nat.pos_of_ne_zero hra
    have h2 : 0 < WL_Solution.ResidualCapacity I σ w := Nat.pos_of_ne_zero hrc
    exact Nat.lt_min.mpr ⟨h1, h2⟩
  · intro a ha
    simp [WL_Solution.Assign, ha]

theorem greedyFill_tame (I : WL_Instance) (s : Nat) (hI : I.Typed) (hs : s < I.stores) :
    ∀ (fuel : Nat) (σ : WL_Solution) (ws : List Nat) (lo : Nat)
      (σ2 : WL_Solution) (ws2 : List Nat) (lo2 : Nat),
      Tame I σ → (∀ x, x ∈ ws → x < I.warehouses) →
      greedyFill I s fuel σ ws lo = some (some (σ2, ws2, lo2)) →
      Tame I σ2 ∧ (∀ x, x ∈ ws2 → x < I.warehouses) ∧
        WL_Solution.ResidualAmount I σ2 s = 0 ∧
        ∀ a, a ≠ s → σ2.assigned_goods a = σ.assigned_goods a := by
  intro fuel
  induction fuel with
  | zero => intro σ ws lo σ2 ws2 lo2 _ _ h; simp [greedyFill] at h
  | succ n ih =>
    intro σ ws lo σ2 ws2 lo2 hS hws h
    unfold greedyFill at h
    by_cases hra : WL_Solution.ResidualAmount I σ s = 0
    · rw [if_pos hra] at h
      simp only [Option.some.injEq, Prod.mk.injEq] at h
      obtain ⟨rfl, rfl, rfl⟩ := h
      exact ⟨hS, hws, hra, fun _ _ => rfl⟩
    · rw [if_neg hra] at h
      simp only at h
      by_cases hb : bestOpen I σ s (ws.take (lo + 1)) = I.warehouses
      · rw [if_pos hb] at h
        by_cases hn : findNext I σ s (ws.drop (lo + 1)) (lo + 1) < I.warehouses
        · rw [if_pos hn] at h
          cases hget : ws[findNext I σ s (ws.drop (lo + 1)) (lo + 1)]? with
          | none => rw [hget] at h; simp at h
          | some next_w =>
            rw [hget] at h
            simp only at h
            have hge := findNext_ge I σ s (ws.drop (lo + 1)) (lo + 1)
            have hget2 : (ws.drop (lo + 1))[findNext I σ s (ws.drop (lo + 1)) (lo + 1)
                - (lo + 1)]? = some next_w := by
              rw [List.getElem?_drop, ← hget]
              congr 1
              omega
            obtain ⟨hrc, hinc⟩ := findNext_spec I σ s _ _ _ hget2
            have hmem : next_w ∈ ws := List.getElem?_mem hget
            obtain ⟨hS1, hfr⟩ := fill_step_tame I σ s next_w hI hS hs (hws _ hmem)
              hra hrc hinc
            obtain ⟨r1, r2, r3, r4⟩ := ih _ _ _ σ2 ws2 lo2 hS1 (by
              intro x hx
              simp only [List.mem_append, List.mem_cons] at hx
              rcases hx with (hx | hx | hx) | hx
              · exact hws x (List.mem_of_mem_take hx)
              · rw [hx]; exact hws _ hmem
              · exact hws x (List.mem_of_mem_take (List.mem_of_mem_drop hx))
              · exact hws x (List.mem_of_mem_drop hx)) h
            exact ⟨r1, r2, r3, fun a ha => by rw [r4 a ha, hfr a ha]⟩
        · rw [if_neg hn] at h
          simp at h
      · rw [if_neg hb] at h
        rcases bestOpen_spec I σ s (ws.take (lo + 1)) with hbo | ⟨hmem, hrc, hinc⟩
        · exact absurd hbo hb
        · have hlt := hws _ (List.mem_of_mem_take hmem)
          obtain ⟨hS1, hfr⟩ := fill_step_tame I σ s _ hI hS hs hlt hra hrc hinc
          obtain ⟨r1, r2, r3, r4⟩ := ih _ _ _ σ2 ws2 lo2 hS1 hws h
          exact ⟨r1, r2, r3, fun a ha => by rw [r4 a ha, hfr a ha]⟩

theorem greedyComplete_tame (I : WL_Instance) (fuel : Nat) (hI : I.Typed) :
    ∀ (l : List Nat) (σ : WL_Solution) (ws : List Nat) (lo : Nat) (σ2 : WL_Solution),
      Tame I σ → (∀ x, x ∈ ws → x < I.warehouses) → (∀ s, s ∈ l → s < I.stores) → l.Nodup →
      greedyComplete I fuel l σ ws lo = some (some σ2) →
      Tame I σ2 ∧ (∀ s, s ∈ l → WL_Solution.ResidualAmount I σ2 s = 0) ∧
        ∀ a, a ∉ l → σ2.assigned_goods a = σ.assigned_goods a := by
  intro l
  induction l with
  | nil =>
    intro σ ws lo σ2 hS _ _ _ h
    simp only [greedyComplete, Option.some.injEq] at h
    subst h
    exact ⟨hS, fun s hs => absurd hs (List.not_mem_nil s), fun _ _ => rfl⟩
  | cons s rest ih =>
    intro σ ws lo σ2 hS hws hl hnd h
    unfold greedyComplete at h
    cases hfill : greedyFill I s fuel σ ws lo with
    | none => rw [hfill] at h; simp at h
    | some res =>
      cases res with
      | none => rw [hfill] at h; simp at h
      | some st =>
        obtain ⟨σ1, ws1, lo1⟩ := st
        rw [hfill] at h
        simp only at h
        have hs := hl s (List.mem_cons_self _ _)
        obtain ⟨hS1, hws1, hres, hfr⟩ :=
          greedyFill_tame I s hI hs fuel σ ws lo σ1 ws1 lo1 hS hws hfill
        have hnd2 := List.nodup_cons.mp hnd
        obtain ⟨r1, r2, r3⟩ := ih σ1 ws1 lo1 σ2 hS1 hws1
          (fun x hx => hl x (List.mem_cons_of_mem _ hx)) hnd2.2 h
        refine ⟨r1, ?_, ?_⟩
        · intro x hx
          rcases List.mem_cons.mp hx with rfl | hx2
          · have h3 := r3 x hnd2.1
            unfold WL_Solution.ResidualAmount at hres ⊢
            rw [h3]; exact hres
          · exact r2 x hx2
        · intro a ha
          have ha1 : a ≠ s := fun he => ha (he ▸ List.mem_cons_self _ _)
          have ha2 : a ∉ rest := fun he => ha (List.mem_cons_of_mem _ he)
          rw [r3 a ha2, hfr a ha1]

theorem greedyAttempt_tame (I : WL_Instance) (order : List Nat) (fuel : Nat) (hI : I.Typed)
    (hperm : order.Perm (List.range I.warehouses))
    (rng : Rng) (σ : WL_Solution) (rng2 : Rng)
    (h : greedyAttempt I order fuel rng = some (some σ, rng2)) : Tame I σ := by
  have hlt : ∀ x, x ∈ order → x < I.warehouses := by
    intro x hx
    exact List.mem_range.mp (hperm.mem_iff.mp hx)
  have hnd : order.Nodup := hperm.nodup_iff.mpr (List.nodup_range _)
  unfold greedyAttempt at h
  cases order with
  | nil => exact absurd h (by simp)
  | cons x0 rest =>
    simp only [Option.bind_eq_some] at h
    obtain ⟨lo, -, seeded, hseed, r, hcomp, h⟩ := h
    simp only [Option.some.injEq, Prod.mk.injEq] at h
    obtain ⟨rfl, -⟩ := h
    have hSs := seedPhase_tame I hI _ _ _ seeded.1 seeded.2 (tame_create I)
      (List.Nodup.sublist (List.take_sublist _ _) hnd)
      (fun wh hwh => ⟨hlt wh (List.mem_of_mem_take hwh), rfl⟩) hseed
    obtain ⟨r1, r2, -⟩ := greedyComplete_tame I fuel hI _ _ _ _ _ hSs hlt
      (fun s hs => List.mem_range.mp hs) (List.nodup_range _) hcomp
    exact r1

theorem greedyRestart_tame (I : WL_Instance) (order : List Nat) (fuel : Nat) (hI : I.Typed)
    (hperm : order.Perm (List.range I.warehouses)) :
    ∀ (n : Nat) (rng : Rng) (σ : WL_Solution) (rng2 : Rng),
      greedyRestart I order fuel n rng = some (σ, rng2) → Tame I σ := by
  intro n
  induction n with
  | zero => intro rng σ rng2 h; exact absurd h (by simp [greedyRestart])
  | succ n ih =>
    intro rng σ rng2 h
    unfold greedyRestart at h
    split at h
    · exact absurd h (by simp)
    · rename_i σ1 rng1 hatt
      simp only [Option.some.injEq, Prod.mk.injEq] at h
      obtain ⟨rfl, -⟩ := h
      exact greedyAttempt_tame I order fuel hI hperm rng _ _ hatt
    · rename_i rng1 hatt
      exact ih rng1 σ rng2 h

theorem rouletteFill_tame (I : WL_Instance) (s : Nat) (hI : I.Typed) (hs : s < I.stores) :
    ∀ (fuel : Nat) (σ : WL_Solution) (st : RouletteState) (rng : Rng)
      (σ2 : WL_Solution) (st2 : RouletteState) (rng2 : Rng),
      Tame I σ → st.warehouses.Perm (List.range I.warehouses) →
      rouletteFill I s fuel σ st rng = some (some (σ2, st2), rng2) →
      Tame I σ2 ∧ st2.warehouses.Perm (List.range I.warehouses) ∧
        WL_Solution.ResidualAmount I σ2 s = 0 ∧
        ∀ a, a ≠ s → σ2.assigned_goods a = σ.assigned_goods a := by
  intro fuel
  induction fuel with
  | zero => intro σ st rng σ2 st2 rng2 _ _ h; exact absurd h (by simp [rouletteFill])
  | succ n ih =>
    intro σ st rng σ2 st2 rng2 hS hp h
    unfold rouletteFill at h
    by_cases hra : WL_Solution.ResidualAmount I σ s = 0
    · rw [if_pos hra] at h
      simp only [Option.some.injEq, Prod.mk.injEq] at h
      obtain ⟨⟨rfl, rfl⟩, -⟩ := h
      exact ⟨hS, hp, hra, fun _ _ => rfl⟩
    · rw [if_neg hra] at h
      simp only at h
      by_cases hb : bestOpen I σ s (st.warehouses.take st.n_open) = I.warehouses
      · rw [if_pos hb] at h
        by_cases hn : st.n_open < I.warehouses
        · rw [if_pos hn] at h
          cases hpr : roulettePromote I σ s rng st with
          | none => rw [hpr] at h; exact absurd h (by simp)
          | some res =>
            obtain ⟨bw, st1, rng1⟩ := res
            rw [hpr] at h
            simp only at h
            obtain ⟨hlt, hrc, hinc, hp1⟩ := roulettePromote_spec I σ s _ _ _ _ _ hp hpr
            obtain ⟨hS1, hfr⟩ := fill_step_tame I σ s bw hI hS hs hlt hra hrc hinc
            obtain ⟨r1, r2, r3, r4⟩ := ih _ _ _ σ2 st2 rng2 hS1 hp1 h
            exact ⟨r1, r2, r3, fun a ha => by rw [r4 a ha, hfr a ha]⟩
        · rw [if_neg hn] at h
          exact absurd h (by simp)
      · rw [if_neg hb] at h
        rcases bestOpen_spec I σ s (st.warehouses.take st.n_open) with hbo | ⟨hmem, hrc, hinc⟩
        · exact absurd hbo hb
        · have hlt : bestOpen I σ s (st.warehouses.take st.n_open) < I.warehouses :=
            List.mem_range.mp (hp.mem_iff.mp (List.mem_of_mem_take hmem))
          obtain ⟨hS1, hfr⟩ := fill_step_tame I σ s _ hI hS hs hlt hra hrc hinc
          obtain ⟨r1, r2, r3, r4⟩ := ih _ _ _ σ2 st2 rng2 hS1 hp h
          exact ⟨r1, r2, r3, fun a ha => by rw [r4 a ha, hfr a ha]⟩

theorem rouletteComplete_tame (I : WL_Instance) (fuel : Nat) (hI : I.Typed) :
    ∀ (l : List Nat) (σ : WL_Solution) (st : RouletteState) (rng : Rng)
      (σ2 : WL_Solution) (rng2 : Rng),
      Tame I σ → st.warehouses.Perm (List.range I.warehouses) →
      (∀ s, s ∈ l → s < I.stores) → l.Nodup →
      rouletteComplete I fuel l σ st rng = some (some σ2, rng2) →
      Tame I σ2 ∧ (∀ s, s ∈ l → WL_Solution.ResidualAmount I σ2 s = 0) ∧
        ∀ a, a ∉ l → σ2.assigned_goods a = σ.assigned_goods a := by
  intro l
  induction l with
  | nil =>
    intro σ st rng σ2 rng2 hS _ _ _ h
    simp only [rouletteComplete, Option.some.injEq, Prod.mk.injEq] at h
    obtain ⟨rfl, -⟩ := h
    exact ⟨hS, fun s hs => absurd hs (List.not_mem_nil s), fun _ _ => rfl⟩
  | cons s rest ih =>
    intro σ st rng σ2 rng2 hS hp hl hnd h
    unfold rouletteComplete at h
    cases hfill : rouletteFill I s fuel σ st rng with
    | none => rw [hfill] at h; exact absurd h (by simp)
    | some res =>
      obtain ⟨r, rng1⟩ := res
      cases r with
      | none =>
        rw [hfill] at h
        simp only [Option.some.injEq, Prod.mk.injEq] at h
        exact absurd h.1 (by simp)
      | some pr =>
        obtain ⟨σ1, st1⟩ := pr
        rw [hfill] at h
        simp only at h
        have hs := hl s (List.mem_cons_self _ _)
        obtain ⟨hS1, hp1, hres, hfr⟩ :=
          rouletteFill_tame I s hI hs fuel σ st rng σ1 st1 rng1 hS hp hfill
        have hnd2 := List.nodup_cons.mp hnd
        obtain ⟨r1, r2, r3⟩ := ih σ1 st1 rng1 σ2 rng2 hS1 hp1
          (fun x hx => hl x (List.mem_cons_of_mem _ hx)) hnd2.2 h
        refine ⟨r1, ?_, ?_⟩
        · intro x hx
          rcases List.mem_cons.mp hx with rfl | hx2
          · have h3 := r3 x hnd2.1
            unfold WL_Solution.ResidualAmount at hres ⊢
            rw [h3]; exact hres
          · exact r2 x hx2
        · intro a ha
          have ha1 : a ≠ s := fun he => ha (he ▸ List.mem_cons_self _ _)
          have ha2 : a ∉ rest := fun he => ha (List.mem_cons_of_mem _ he)
          rw [r3 a ha2, hfr a ha1]

theorem rouletteAttempt_tame (I : WL_Instance) (fuel : Nat) (hI : I.Typed)
    (rng : Rng) (σ : WL_Solution) (rng2 : Rng)
    (h : rouletteAttempt I fuel rng = some (some σ, rng2)) : Tame I σ := by
  unfold rouletteAttempt at h
  simp only [Option.bind_eq_some] at h
  obtain ⟨opened, hopen, seeded, hseed, hcomp⟩ := h
  have hp := rouletteOpen_spec I _ _ _ opened.1 opened.2 (List.Perm.refl _) hopen
  have hnd : opened.1.warehouses.Nodup := hp.nodup_iff.mpr (List.nodup_range _)
  have hSs := seedPhase_tame I hI _ _ _ seeded.1 seeded.2 (tame_create I)
    (List.Nodup.sublist (List.take_sublist _ _) hnd)
    (fun wh hwh =>
      ⟨List.mem_range.mp (hp.mem_iff.mp (List.mem_of_mem_take hwh)), rfl⟩) hseed
  obtain ⟨r1, r2, -⟩ := rouletteComplete_tame I fuel hI _ _ _ _ _ _ hSs hp
    (fun s hs => List.mem_range.mp hs) (List.nodup_range _) hcomp
  exact r1

theorem rouletteRestart_tame (I : WL_Instance) (fuel : Nat) (hI : I.Typed) :
    ∀ (n : Nat) (rng : Rng) (σ : WL_Solution) (rng2 : Rng),
      rouletteRestart I fuel n rng = some (σ, rng2) → Tame I σ := by
  intro n
  induction n with
  | zero => intro rng σ rng2 h; exact absurd h (by simp [rouletteRestart])
  | succ n ih =>
    intro rng σ rng2 h
    unfold rouletteRestart at h
    split at h
    · exact absurd h (by simp)
    · rename_i σ1 rng1 hatt
      simp only [Option.some.injEq, Prod.mk.injEq] at h
      obtain ⟨rfl, -⟩ := h
      exact rouletteAttempt_tame I fuel hI rng _ _ hatt
    · rename_i rng1 hatt
      exact ih rng1 σ rng2 h



/-- No move of the enumeration places a store into a warehouse that the reduction forbids
for it. -/
theorem moves_respect (I : WL_Instance) (hI : I.Typed) (σ : WL_Solution)
    (hC : WL_Solution.Consistent I σ) (inv cf opf : List Nat)
    (hinv : ∀ w, w ∈ inv → w < I.warehouses) (m : Move)
    (hm : m ∈ enumerateMoves I σ inv cf opf) :
    I.w_incompatible m.w2 m.s1 = false ∧
    (m.s2 ≠ I.stores → I.w_incompatible m.w1 m.s2 = false) := by
  obtain ⟨hw1, hw2, _, hmem, hpm⟩ := mem_enumerateMoves I σ inv cf opf hinv m hm
  obtain ⟨hs1, _⟩ := (hC.stores m.w1 hw1 m.s1).mp hmem
  rcases List.mem_append.mp hpm with hr | hsw
  · obtain ⟨h0, _, _, _, e2, _, _, _⟩ := mem_relocateMove hr
    exact ⟨w_incompatible_of_lt_two I σ hI hC hw2 hs1 (by omega), fun h => absurd e2 h⟩
  · obtain ⟨h1, hmem2, hadm, _, _, _, _, _⟩ := mem_swapMoves hsw
    obtain ⟨hs2, _⟩ := (hC.stores m.w2 hw2 m.s2).mp hmem2
    refine ⟨w_incompatible_of_lt_two I σ hI hC hw2 hs1 (by omega), fun _ => ?_⟩
    apply w_incompatible_of_lt_two I σ hI hC hw1 hs2
    rcases hadm.2.1 with c | c
    · omega
    · omega

/-- C17: on an instance whose data fit an `unsigned`, for every consistent solution state
and every `(w, s)` with `w_incompatible[w][s]`, `Incompatibilities(w, s) >= 2`; no move
that `LocalSearch` or the inner loop of the iterated search enumerates places such a store
`s` into `w` (a relocation places `s1` into `w2`, an exchange also `s2` into `w1`); and in
a solution returned by either constructor `w` supplies nothing to `s`. -/
theorem w_incompatible_respected (I : WL_Instance) (hI : I.Typed) :
    (∀ σ, WL_Solution.Consistent I σ → ∀ w s, w < I.warehouses → s < I.stores →
      I.w_incompatible w s = true → 2 ≤ WL_Solution.Incompatibilities I σ w s) ∧
    (∀ σ, WL_Solution.Consistent I σ → ∀ inv cf opf : List Nat,
      (∀ w, w ∈ inv → w < I.warehouses) → ∀ m, m ∈ enumerateMoves I σ inv cf opf →
        I.w_incompatible m.w2 m.s1 = false ∧
        (m.s2 ≠ I.stores → I.w_incompatible m.w1 m.s2 = false)) ∧
    (∀ (order : List Nat) (fuel : Nat) (rng : Rng) (σ : WL_Solution) (rng2 : Rng),
      order.Perm (List.range I.warehouses) →
      InitialSolutionGreedyOpening I order fuel rng = some (σ, rng2) →
      ∀ w s, w < I.warehouses → s < I.stores → I.w_incompatible w s = true →
        σ.supply s w = 0) ∧
    (∀ (fuel : Nat) (rng : Rng) (σ : WL_Solution) (rng2 : Rng),
      InitialSolutionRandomOpening I fuel rng = some (σ, rng2) →
      ∀ w s, w < I.warehouses → s < I.stores → I.w_incompatible w s = true →
        σ.supply s w = 0) :=
  ⟨fun σ hC _ _ hw hs h => incompatibilities_ge_two I σ hI hC hw hs h,
    fun σ hC inv cf opf hinv m hm => moves_respect I hI σ hC inv cf opf hinv m hm,
    fun order fuel rng σ rng2 hperm h =>
      (greedyRestart_tame I order fuel hI hperm fuel rng σ rng2 h).respect,
    fun fuel rng σ rng2 h => (rouletteRestart_tame I fuel hI fuel rng σ rng2 h).respect⟩

theorem instE3_reduced_typed : (instE3.reduced [⟨0, 0, 3⟩]).Typed := by
  constructor
  · decide
  · decide
  · intro w hw
    have h1 : w < 2 := hw
    interval_cases w <;> decide
  · intro w hw
    have h1 : w < 2 := hw
    interval_cases w <;> decide
  · intro s hs
    have h1 : s < 2 := hs
    interval_cases s <;> decide
  · decide

/-- Witness for C17: scenario E3 reduced by the pattern `[(w=0, s=0, q=3)]` forbids store 1
at warehouse 0; on the empty solution `Incompatibilities(0, 1)` is at least 2, and the
greedy constructor (ordering `[0, 1]`, stream `[1, 1, 1]`) returns a solution in which
warehouse 0 supplies nothing to store 1. -/
theorem w_incompatible_respected_witness :
    (instE3.reduced [⟨0, 0, 3⟩]).w_incompatible 0 1 = true ∧
    2 ≤ WL_Solution.Incompatibilities (instE3.reduced [⟨0, 0, 3⟩])
      (WL_Solution.create (instE3.reduced [⟨0, 0, 3⟩])) 0 1 ∧
    (∀ σ rng2, InitialSolutionGreedyOpening (instE3.reduced [⟨0, 0, 3⟩]) [0, 1] 5 [1, 1, 1]
        = some (σ, rng2) → σ.supply 1 0 = 0) :=
  ⟨by decide,
    (w_incompatible_respected (instE3.reduced [⟨0, 0, 3⟩]) instE3_reduced_typed).1 _
      (consistent_create _) 0 1 (by decide) (by decide) (by decide),
    fun σ rng2 h =>
      (w_incompatible_respected (instE3.reduced [⟨0, 0, 3⟩]) instE3_reduced_typed).2.2.1
        [0, 1] 5 [1, 1, 1] σ rng2 (List.Perm.refl _) h 0 1 (by decide) (by decide)
        (by decide)⟩




/-! ## The minimum support of the elite mining -/

theorem truncToInt_eq (x : ℚ) (hr : -2147483649 < x ∧ x < 2147483648) :
    truncToInt x = some (if 0 ≤ x then Int.floor x else Int.ceil x) := by
  unfold truncToInt
  rw [if_pos hr]

theorem trunc_le_ceil (x : ℚ) : (if 0 ≤ x then Int.floor x else Int.ceil x) ≤ Int.ceil x := by
  split
  · exact Int.floor_le_ceil x
  · exact le_refl _

theorem max_trunc_eq_iff (x : ℚ) :
    max 2 (if 0 ≤ x then Int.floor x else Int.ceil x) = max 2 (Int.ceil x) ↔
      (x ≤ 2 ∨ ((Int.floor x : ℤ) : ℚ) = x) := by
  by_cases h0 : 0 ≤ x
  · rw [if_pos h0]
    by_cases h2 : x ≤ 2
    · have c1 : Int.ceil x ≤ 2 := Int.ceil_le.mpr (by exact_mod_cast h2)
      have c2 : Int.floor x ≤ 2 := le_trans (Int.floor_le_ceil x) c1
      simp only [h2, true_or, iff_true]
      rw [max_eq_left c1, max_eq_left c2]
    · have h2' : (2 : ℚ) < x := lt_of_not_le h2
      have f2 : (2 : ℤ) ≤ Int.floor x := Int.le_floor.mpr (by exact_mod_cast h2'.le)
      have c2 : (2 : ℤ) ≤ Int.ceil x := le_trans f2 (Int.floor_le_ceil x)
      rw [max_eq_right f2, max_eq_right c2]
      simp only [h2, false_or]
      constructor
      · intro e
        have a := Int.floor_le x
        have b := Int.le_ceil x
        rw [← e] at b
        exact le_antisymm a b
      · intro e
        have : Int.ceil x = Int.ceil ((Int.floor x : ℤ) : ℚ) := by rw [e]
        rw [this, Int.ceil_intCast]
  · rw [if_neg h0]
    have : x ≤ 2 := by linarith
    simp [this]

/-! ## The item encoding of the elite mining -/

theorem toUnsigned_toInt (n : Nat) (h : n < 4294967296) : toUnsigned (toInt n) = n := by
  unfold toUnsigned toInt
  rw [Nat.mod_eq_of_lt h]
  split <;> omega

theorem toInt_injective (a b : Nat) (ha : a < 4294967296) (hb : b < 4294967296)
    (h : toInt a = toInt b) : a = b := by
  rw [← toUnsigned_toInt a ha, ← toUnsigned_toInt b hb, h]

theorem itemIndex_eq (I : WL_Instance) (w s : Nat) (h : w * I.stores + s < 4294967296) :
    itemIndex I w s = w * I.stores + s := by
  unfold itemIndex umul
  have h1 : w * I.stores < 4294967296 := by omega
  rw [Nat.mod_eq_of_lt h1, uadd_eq_add h]

theorem decode_div (S w s : Nat) (hs : s < S) : (w * S + s) / S = w := by
  have hS : 0 < S := by omega
  rw [Nat.add_comm, Nat.add_mul_div_right _ _ hS, Nat.div_eq_of_lt hs, Nat.zero_add]

theorem decode_mod (S w s : Nat) (hs : s < S) : (w * S + s) % S = s := by
  rw [Nat.add_comm, Nat.add_mul_mod_self_right, Nat.mod_eq_of_lt hs]

/-- C19 (amended): for every store `s < S` and every warehouse `w` with
`w * S + s < 2^32` (every cell of an instance with at most `2^32` cells), decoding the
item of `(w, s)` by `(i / S, i mod S)` returns `(w, s)`; the encoding is injective on such
pairs, and `MineElite` decodes the item into the triple `(w, s, min_supply[s][w])`. -/
theorem item_roundtrip (I : WL_Instance) (w s : Nat) (hs : s < I.stores)
    (hfit : w * I.stores + s < 4294967296) :
    toUnsigned (toInt (itemIndex I w s)) / I.stores = w ∧
    toUnsigned (toInt (itemIndex I w s)) % I.stores = s ∧
    (∀ w2 s2, s2 < I.stores → w2 * I.stores + s2 < 4294967296 →
      toInt (itemIndex I w2 s2) = toInt (itemIndex I w s) → w2 = w ∧ s2 = s) ∧
    (∀ min_supply : Nat → Nat → Nat, w < I.warehouses →
      decodeItem I min_supply (toInt (itemIndex I w s))
        = some { w := w, s := s, q := min_supply s w }) := by
  have e := itemIndex_eq I w s hfit
  have r : toUnsigned (toInt (itemIndex I w s)) = w * I.stores + s := by
    rw [e, toUnsigned_toInt _ hfit]
  refine ⟨by rw [r, decode_div _ _ _ hs], by rw [r, decode_mod _ _ _ hs], ?_, ?_⟩
  · intro w2 s2 hs2 hfit2 h
    have e2 := itemIndex_eq I w2 s2 hfit2
    rw [e, e2] at h
    have h3 := toInt_injective _ _ hfit2 hfit h
    have d1 := decode_div I.stores w2 s2 hs2
    have d2 := decode_mod I.stores w2 s2 hs2
    rw [h3, decode_div _ _ _ hs] at d1
    rw [h3, decode_mod _ _ _ hs] at d2
    exact ⟨d1.symm, d2.symm⟩
  · intro ms hw
    unfold decodeItem
    rw [if_neg (by omega), r, decode_div _ _ _ hs, decode_mod _ _ _ hs, if_pos hw]

/-- Witness for C19: the cell `(w, s) = (1, 1)` of scenario E3. -/
theorem item_roundtrip_witness :
    toUnsigned (toInt (itemIndex instE3 1 1)) / instE3.stores = 1 ∧
    toUnsigned (toInt (itemIndex instE3 1 1)) % instE3.stores = 1 ∧
    (∀ w2 s2, s2 < instE3.stores → w2 * instE3.stores + s2 < 4294967296 →
      toInt (itemIndex instE3 w2 s2) = toInt (itemIndex instE3 1 1) → w2 = 1 ∧ s2 = 1) ∧
    (∀ min_supply : Nat → Nat → Nat, 1 < instE3.warehouses →
      decodeItem instE3 min_supply (toInt (itemIndex instE3 1 1))
        = some { w := 1, s := 1, q := min_supply 1 1 }) :=
  item_roundtrip instE3 1 1 (by decide) (by decide)

/-- Counterexample to C19 as stated: with `S = 65536` stores and 65537 warehouses the item
of the cell `(w, s) = (65536, 0)` is `65536 * 65536 mod 2^32 = 0`, the item of the cell
`(0, 0)`; decoding it returns `(0, 0)`. -/
theorem item_counterexample :
    0 < instWide.stores ∧ 65536 < instWide.warehouses ∧
    itemIndex instWide 65536 0 = itemIndex instWide 0 0 ∧
    toUnsigned (toInt (itemIndex instWide 65536 0)) / instWide.stores = 0 ∧
    toUnsigned (toInt (itemIndex instWide 65536 0)) % instWide.stores = 0 := by
  decide



/-! ## The patterns of the elite mining -/

theorem mem_intSetInsert (x y : Int) : ∀ l : List Int, y ∈ intSetInsert x l ↔ y = x ∨ y ∈ l := by
  intro l
  induction l with
  | nil => simp [intSetInsert]
  | cons a l ih =>
    unfold intSetInsert
    split
    · simp
    · split
      · next h => subst h; simp
      · rw [List.mem_cons, ih, List.mem_cons]
        tauto

/-- The loop over the stores of one warehouse: the items added and the entries of
`min_supply` lowered. -/
theorem emitStores_spec (I : WL_Instance) (sol : WL_Solution) (w : Nat) :
    ∀ (l : List Nat) (acc : List Int × (Nat → Nat → Nat)),
      (∀ i, i ∈ (l.foldl
          (fun acc2 s =>
            (intSetInsert (toInt (itemIndex I w s)) acc2.1,
              set2 acc2.2 s w (min (acc2.2 s w) (sol.supply s w)))) acc).1
        ↔ i ∈ acc.1 ∨ ∃ s, s ∈ l ∧ i = toInt (itemIndex I w s)) ∧
      (∀ a b, (l.foldl
          (fun acc2 s =>
            (intSetInsert (toInt (itemIndex I w s)) acc2.1,
              set2 acc2.2 s w (min (acc2.2 s w) (sol.supply s w)))) acc).2 a b
        = if b = w ∧ a ∈ l then min (acc.2 a b) (sol.supply a b) else acc.2 a b) := by
  intro l
  induction l with
  | nil => intro acc; simp
  | cons s l ih =>
    intro acc
    rw [List.foldl_cons]
    obtain ⟨h1, h2⟩ := ih
      (intSetInsert (toInt (itemIndex I w s)) acc.1,
        set2 acc.2 s w (min (acc.2 s w) (sol.supply s w)))
    refine ⟨?_, ?_⟩
    · intro i
      rw [h1 i]
      simp only [mem_intSetInsert, List.mem_cons]
      constructor
      · rintro ((h | h) | ⟨x, hx, h⟩)
        · exact Or.inr ⟨s, Or.inl rfl, h⟩
        · exact Or.inl h
        · exact Or.inr ⟨x, Or.inr hx, h⟩
      · rintro (h | ⟨x, hx | hx, h⟩)
        · exact Or.inl (Or.inr h)
        · subst hx; exact Or.inl (Or.inl h)
        · exact Or.inr ⟨x, hx, h⟩
    · intro a b
      rw [h2 a b]
      simp only [set2_apply, List.mem_cons]
      by_cases hb : b = w
      · subst hb
        by_cases has : a = s
        · subst has
          by_cases hal : a ∈ l
          · simp [hal]
          · simp [hal]
        · by_cases hal : a ∈ l
          · simp [has, hal]
          · simp [has, hal]
      · simp [hb]

/-- The two loops for one elite solution: the transaction holds the items of the cells
`(s, w)` with `s` in `supplied_stores[w]`, and `min_supply` is lowered at those cells. -/
theorem emitWarehouses_spec (I : WL_Instance) (sol : WL_Solution) :
    ∀ (ws : List Nat) (acc : List Int × (Nat → Nat → Nat)),
      (∀ i, i ∈ (ws.foldl
          (fun acc w =>
            (sol.supplied_stores w).foldl
              (fun acc2 s =>
                (intSetInsert (toInt (itemIndex I w s)) acc2.1,
                  set2 acc2.2 s w (min (acc2.2 s w) (sol.supply s w))))
              acc) acc).1
        ↔ i ∈ acc.1 ∨ ∃ w, w ∈ ws ∧ ∃ s, s ∈ sol.supplied_stores w ∧
            i = toInt (itemIndex I w s)) ∧
      (∀ a b, (ws.foldl
          (fun acc w =>
            (sol.supplied_stores w).foldl
              (fun acc2 s =>
                (intSetInsert (toInt (itemIndex I w s)) acc2.1,
                  set2 acc2.2 s w (min (acc2.2 s w) (sol.supply s w))))
              acc) acc).2 a b
        = if b ∈ ws ∧ a ∈ sol.supplied_stores b then min (acc.2 a b) (sol.supply a b)
          else acc.2 a b) := by
  intro ws
  induction ws with
  | nil => intro acc; simp
  | cons w ws ih =>
    intro acc
    rw [List.foldl_cons]
    obtain ⟨h1, h2⟩ := ih ((sol.supplied_stores w).foldl
      (fun acc2 s =>
        (intSetInsert (toInt (itemIndex I w s)) acc2.1,
          set2 acc2.2 s w (min (acc2.2 s w) (sol.supply s w)))) acc)
    obtain ⟨g1, g2⟩ := emitStores_spec I sol w (sol.supplied_stores w) acc
    refine ⟨?_, ?_⟩
    · intro i
      rw [h1 i, g1 i]
      simp only [List.mem_cons]
      constructor
      · rintro ((h | ⟨s, hs, h⟩) | ⟨x, hx, s, hs, h⟩)
        · exact Or.inl h
        · exact Or.inr ⟨w, Or.inl rfl, s, hs, h⟩
        · exact Or.inr ⟨x, Or.inr hx, s, hs, h⟩
      · rintro (h | ⟨x, hx | hx, s, hs, h⟩)
        · exact Or.inl (Or.inl h)
        · subst hx; exact Or.inl (Or.inr ⟨s, hs, h⟩)
        · exact Or.inr ⟨x, hx, s, hs, h⟩
    · intro a b
      rw [h2 a b, g2 a b]
      simp only [List.mem_cons]
      by_cases hb : b = w
      · subst hb
        by_cases hm : a ∈ sol.supplied_stores b
        · by_cases hbw : b ∈ ws
          · simp [hm, hbw]
          · simp [hm, hbw]
        · simp [hm]
      · simp [hb]

theorem emitSolution_spec (I : WL_Instance) (sol : WL_Solution) (ms : Nat → Nat → Nat) :
    (∀ i, i ∈ (emitSolution I sol ms).1 ↔
      ∃ w, w < I.warehouses ∧ ∃ s, s ∈ sol.supplied_stores w ∧ i = toInt (itemIndex I w s)) ∧
    (∀ a b, (emitSolution I sol ms).2 a b
      = if b < I.warehouses ∧ a ∈ sol.supplied_stores b then min (ms a b) (sol.supply a b)
        else ms a b) := by
  obtain ⟨h1, h2⟩ := emitWarehouses_spec I sol (List.range I.warehouses) ([], ms)
  refine ⟨?_, ?_⟩
  · intro i
    unfold emitSolution
    rw [h1 i]
    simp [List.mem_range]
  · intro a b
    unfold emitSolution
    rw [h2 a b]
    simp [List.mem_range]



/-- The loop over the elite: every transaction of the dataset is the set of the items of
the cells one elite solution supplies, and `min_supply` is the least supply of each cell
among the elite solutions that supply it, capped by its initial value. -/
theorem emitLoop_spec (I : WL_Instance) :
    ∀ (elite : List WL_Solution) (acc : List (List Int) × (Nat → Nat → Nat)),
      (∀ t, t ∈ (elite.foldl
          (fun acc sol =>
            (acc.1 ++ [(emitSolution I sol acc.2).1], (emitSolution I sol acc.2).2)) acc).1 →
        t ∈ acc.1 ∨ ∃ σ, σ ∈ elite ∧ ∀ i, i ∈ t ↔
          ∃ w, w < I.warehouses ∧ ∃ s, s ∈ σ.supplied_stores w ∧
            i = toInt (itemIndex I w s)) ∧
      (∀ a b, (elite.foldl
          (fun acc sol =>
            (acc.1 ++ [(emitSolution I sol acc.2).1], (emitSolution I sol acc.2).2)) acc).2 a b
        ≤ acc.2 a b) ∧
      (∀ σ, σ ∈ elite → ∀ a b, b < I.warehouses → a ∈ σ.supplied_stores b →
        (elite.foldl
          (fun acc sol =>
            (acc.1 ++ [(emitSolution I sol acc.2).1], (emitSolution I sol acc.2).2)) acc).2 a b
          ≤ σ.supply a b) ∧
      (∀ a b, (elite.foldl
          (fun acc sol =>
            (acc.1 ++ [(emitSolution I sol acc.2).1], (emitSolution I sol acc.2).2)) acc).2 a b
          = acc.2 a b ∨
        ∃ σ, σ ∈ elite ∧ b < I.warehouses ∧ a ∈ σ.supplied_stores b ∧
          (elite.foldl
            (fun acc sol =>
              (acc.1 ++ [(emitSolution I sol acc.2).1], (emitSolution I sol acc.2).2))
            acc).2 a b = σ.supply a b) := by
  intro elite
  induction elite with
  | nil =>
    intro acc
    refine ⟨fun t ht => Or.inl ht, fun _ _ => le_refl _, ?_, fun _ _ => Or.inl rfl⟩
    intro σ hσ
    exact absurd hσ (List.not_mem_nil _)
  | cons σ0 rest ih =>
    intro acc
    rw [List.foldl_cons]
    obtain ⟨hA, hB, hC, hD⟩ :=
      ih (acc.1 ++ [(emitSolution I σ0 acc.2).1], (emitSolution I σ0 acc.2).2)
    obtain ⟨g1, g2⟩ := emitSolution_spec I σ0 acc.2
    have hstep : ∀ a b, (emitSolution I σ0 acc.2).2 a b ≤ acc.2 a b := by
      intro a b
      rw [g2 a b]
      split
      · exact min_le_left _ _
      · exact le_refl _
    refine ⟨?_, ?_, ?_, ?_⟩
    · intro t ht
      rcases hA t ht with h | ⟨σ, hσ, h⟩
      · rcases List.mem_append.mp h with h | h
        · exact Or.inl h
        · rw [List.mem_singleton] at h
          subst h
          exact Or.inr ⟨σ0, List.mem_cons_self _ _, g1⟩
      · exact Or.inr ⟨σ, List.mem_cons_of_mem _ hσ, h⟩
    · intro a b
      exact le_trans (hB a b) (hstep a b)
    · intro σ hσ a b hb ha
      rcases List.mem_cons.mp hσ with e | hσ
      · subst e
        refine le_trans (hB a b) ?_
        show (emitSolution I σ acc.2).2 a b ≤ σ.supply a b
        rw [g2 a b, if_pos ⟨hb, ha⟩]
        exact min_le_right _ _
      · exact hC σ hσ a b hb ha
    · intro a b
      rcases hD a b with h | ⟨σ, hσ, h⟩
      · have h2 : (emitSolution I σ0 acc.2).2 a b
            = if b < I.warehouses ∧ a ∈ σ0.supplied_stores b
              then min (acc.2 a b) (σ0.supply a b) else acc.2 a b := g2 a b
        by_cases c : b < I.warehouses ∧ a ∈ σ0.supplied_stores b
        · rw [if_pos c] at h2
          rcases le_total (acc.2 a b) (σ0.supply a b) with h1 | h1
          · left
            rw [h]
            show (emitSolution I σ0 acc.2).2 a b = acc.2 a b
            rw [h2, min_eq_left h1]
          · right
            refine ⟨σ0, List.mem_cons_self _ _, c.1, c.2, ?_⟩
            rw [h]
            show (emitSolution I σ0 acc.2).2 a b = σ0.supply a b
            rw [h2, min_eq_right h1]
        · rw [if_neg c] at h2
          left
          rw [h]
          exact h2
      · exact Or.inr ⟨σ, List.mem_cons_of_mem _ hσ, h⟩

theorem decodeItemset_mem (I : WL_Instance) (ms : Nat → Nat → Nat) :
    ∀ (l : List Int) (pattern : List Supply), decodeItemset I ms l = some pattern →
      ∀ t, t ∈ pattern → ∃ i, i ∈ l ∧ decodeItem I ms i = some t := by
  intro l
  induction l with
  | nil =>
    intro pattern h t ht
    simp only [decodeItemset, Option.some.injEq] at h
    subst h
    exact absurd ht (List.not_mem_nil _)
  | cons i l ih =>
    intro pattern h t ht
    simp only [decodeItemset, Option.bind_eq_some, Option.map_eq_some'] at h
    obtain ⟨t0, h0, p, hp, rfl⟩ := h
    rcases List.mem_cons.mp ht with e | e
    · subst e; exact ⟨i, List.mem_cons_self _ _, h0⟩
    · obtain ⟨j, hj, hd⟩ := ih p hp t e
      exact ⟨j, List.mem_cons_of_mem _ hj, hd⟩

theorem decodeAll_mem (I : WL_Instance) (ms : Nat → Nat → Nat) :
    ∀ (l : List (List Int)) (result : List (List Supply)), decodeAll I ms l = some result →
      ∀ pattern, pattern ∈ result → ∃ itemset, itemset ∈ l ∧
        decodeItemset I ms itemset = some pattern := by
  intro l
  induction l with
  | nil =>
    intro result h p hp
    simp only [decodeAll, Option.some.injEq] at h
    subst h
    exact absurd hp (List.not_mem_nil _)
  | cons x l ih =>
    intro result h p hp
    simp only [decodeAll, Option.bind_eq_some, Option.map_eq_some'] at h
    obtain ⟨p0, h0, r, hr, rfl⟩ := h
    rcases List.mem_cons.mp hp with e | e
    · subst e; exact ⟨x, List.mem_cons_self _ _, h0⟩
    · obtain ⟨y, hy, hd⟩ := ih r hr p e
      exact ⟨y, List.mem_cons_of_mem _ hy, hd⟩

theorem decodeItemset_isSome (I : WL_Instance) (ms : Nat → Nat → Nat) :
    ∀ (l : List Int), (∀ i, i ∈ l → (decodeItem I ms i).isSome = true) →
      (decodeItemset I ms l).isSome = true := by
  intro l
  induction l with
  | nil => intro _; rfl
  | cons i l ih =>
    intro h
    obtain ⟨t, ht⟩ := Option.isSome_iff_exists.mp (h i (List.mem_cons_self _ _))
    obtain ⟨p, hp⟩ := Option.isSome_iff_exists.mp
      (ih (fun j hj => h j (List.mem_cons_of_mem _ hj)))
    simp [decodeItemset, ht, hp]

theorem decodeAll_isSome (I : WL_Instance) (ms : Nat → Nat → Nat) :
    ∀ (l : List (List Int)), (∀ x, x ∈ l → (decodeItemset I ms x).isSome = true) →
      (decodeAll I ms l).isSome = true := by
  intro l
  induction l with
  | nil => intro _; rfl
  | cons x l ih =>
    intro h
    obtain ⟨t, ht⟩ := Option.isSome_iff_exists.mp (h x (List.mem_cons_self _ _))
    obtain ⟨p, hp⟩ := Option.isSome_iff_exists.mp
      (ih (fun j hj => h j (List.mem_cons_of_mem _ hj)))
    simp [decodeAll, ht, hp]

/-- The decoding of the item of a cell of an instance with at most `2^32` cells. -/
theorem decodeItem_itemIndex (I : WL_Instance) (ms : Nat → Nat → Nat) (w s : Nat)
    (hWS : I.warehouses * I.stores ≤ 4294967296) (hw : w < I.warehouses)
    (hs : s < I.stores) :
    decodeItem I ms (toInt (itemIndex I w s)) = some { w := w, s := s, q := ms s w } := by
  have h1 : (w + 1) * I.stores ≤ I.warehouses * I.stores := Nat.mul_le_mul_right _ hw
  have hfit : w * I.stores + s < 4294967296 := by
    rw [Nat.add_mul, Nat.one_mul] at h1
    omega
  unfold decodeItem
  rw [if_neg (by omega), itemIndex_eq I w s hfit, toUnsigned_toInt _ hfit,
    decode_div _ _ _ hs, decode_mod _ _ _ hs, if_pos hw]



/-- What the mining stores for a cell whose item occurs in a transaction. -/
theorem pattern_entry (I : WL_Instance) (elite : List WL_Solution)
    (hWS : I.warehouses * I.stores ≤ 4294967296)
    (hE : ∀ σ, σ ∈ elite → WL_Solution.Consistent I σ)
    (i : Int) (hi : ∃ tr, tr ∈ (emitAll I elite).1 ∧ i ∈ tr) :
    ∃ t, decodeItem I (emitAll I elite).2 i = some t ∧
      t.w < I.warehouses ∧ t.s < I.stores ∧
      (∃ σ, σ ∈ elite ∧ t.s ∈ σ.supplied_stores t.w) ∧
      0 < t.q ∧ t.q ≤ INT_MAX ∧
      (∀ σ, σ ∈ elite → t.s ∈ σ.supplied_stores t.w → t.q ≤ σ.supply t.s t.w) ∧
      ((∃ σ, σ ∈ elite ∧ t.s ∈ σ.supplied_stores t.w ∧ σ.supply t.s t.w < INT_MAX) →
        t.q ≠ INT_MAX) := by
  obtain ⟨hA, hB, hC, hD⟩ := emitLoop_spec I elite ([], fun _ _ => INT_MAX)
  obtain ⟨tr, htr, hitr⟩ := hi
  rcases hA tr htr with h | ⟨σ, hσ, h⟩
  · exact absurd h (List.not_mem_nil _)
  · obtain ⟨w, hw, s, hs, rfl⟩ := (h i).mp hitr
    have hsS := ((hE σ hσ).stores w hw s).mp hs
    refine ⟨_, decodeItem_itemIndex I _ w s hWS hw hsS.1, hw, hsS.1, ⟨σ, hσ, hs⟩, ?_, ?_, ?_, ?_⟩
    · show 0 < (emitAll I elite).2 s w
      rcases hD s w with e | ⟨σ2, hσ2, hw2, hs2, e⟩
      · have e' : (emitAll I elite).2 s w = INT_MAX := e
        rw [e']; decide
      · have e' : (emitAll I elite).2 s w = σ2.supply s w := e
        rw [e']
        exact (((hE σ2 hσ2).stores w hw s).mp hs2).2
    · exact hB s w
    · intro σ2 hσ2 hs2
      exact hC σ2 hσ2 s w hw hs2
    · rintro ⟨σ2, hσ2, hs2, hlt⟩ e
      have h1 : (emitAll I elite).2 s w ≤ σ2.supply s w := hC σ2 hσ2 s w hw hs2
      have e' : (emitAll I elite).2 s w = INT_MAX := e
      have hlt' : σ2.supply s w < INT_MAX := hlt
      omega

/-- C20 (amended): on an instance with at most `2^32` cells, for every elite pool of at
least two consistent solutions, every `min_sup` whose product with the elite size is in
the range of `int`, and every miner result whose items all occur in some emitted
transaction, `MineElite` produces patterns, and every triple `(w, s, q)` of every pattern
names a cell that some elite solution supplies, with `0 < q <= INT_MAX` and
`q <= supply[s][w]` in every elite solution that supplies `s` from `w`; `q` differs from
the initial value `INT_MAX` when some elite solution supplies `s` from `w` with fewer than
`INT_MAX` units. -/
theorem mineElite_patterns (I : WL_Instance)
    (fpmax : List (List Int) → Nat → Nat → List (List Int)) (min_sup : ℚ) (n_patterns : Nat)
    (elite : List WL_Solution) (patterns : List (List Supply))
    (hWS : I.warehouses * I.stores ≤ 4294967296)
    (hE : ∀ σ, σ ∈ elite → WL_Solution.Consistent I σ) (hlen : 2 ≤ elite.length)
    (hr : -2147483649 < min_sup * (elite.length : ℚ) ∧
      min_sup * (elite.length : ℚ) < 2147483648)
    (hitems : ∀ m_sup itemset, itemset ∈ fpmax (emitAll I elite).1 m_sup n_patterns →
      ∀ i, i ∈ itemset → ∃ tr, tr ∈ (emitAll I elite).1 ∧ i ∈ tr) :
    ∃ result, MineElite I fpmax min_sup n_patterns elite patterns = some result ∧
      ∀ pattern, pattern ∈ result → ∀ t, t ∈ pattern →
        t.w < I.warehouses ∧ t.s < I.stores ∧
        (∃ σ, σ ∈ elite ∧ t.s ∈ σ.supplied_stores t.w) ∧
        0 < t.q ∧ t.q ≤ INT_MAX ∧
        (∀ σ, σ ∈ elite → t.s ∈ σ.supplied_stores t.w → t.q ≤ σ.supply t.s t.w) ∧
        ((∃ σ, σ ∈ elite ∧ t.s ∈ σ.supplied_stores t.w ∧ σ.supply t.s t.w < INT_MAX) →
          t.q ≠ INT_MAX) := by
  have hms : ∃ m, mineSupport min_sup elite.length = some m := by
    unfold mineSupport
    rw [truncToInt_eq _ hr]
    exact ⟨_, rfl⟩
  obtain ⟨m, hm⟩ := hms
  have hsome : (decodeAll I (emitAll I elite).2
      (fpmax (emitAll I elite).1 m n_patterns)).isSome = true := by
    apply decodeAll_isSome
    intro x hx
    apply decodeItemset_isSome
    intro i hi
    obtain ⟨t, ht, -⟩ := pattern_entry I elite hWS hE i (hitems m x hx i hi)
    rw [ht]; rfl
  obtain ⟨result, hres⟩ := Option.isSome_iff_exists.mp hsome
  refine ⟨result, ?_, ?_⟩
  · unfold MineElite
    rw [if_pos (by omega), hm]
    exact hres
  · intro pattern hp t ht
    obtain ⟨itemset, hmem, hdec⟩ := decodeAll_mem I _ _ result hres pattern hp
    obtain ⟨i, hi, hd⟩ := decodeItemset_mem I _ itemset pattern hdec t ht
    obtain ⟨t2, ht2, hprops⟩ := pattern_entry I elite hWS hE i (hitems m itemset hmem i hi)
    rw [hd] at ht2
    have e := Option.some.inj ht2
    subst e
    exact hprops

theorem solBulk_consistent :
    WL_Solution.Consistent instBulk solBulkA ∧ WL_Solution.Consistent instBulk solBulkB :=
  ⟨assign_consistent instBulk _ 1 0 1 (by decide)
      (assign_consistent instBulk (WL_Solution.create instBulk) 0 0 3000000000
        (by decide) (consistent_create _) (by decide) (by decide) (by decide)
        (by decide) (by decide))
      (by decide) (by decide) (by decide) (by decide) (by decide),
    assign_consistent instBulk _ 1 1 1 (by decide)
      (assign_consistent instBulk (WL_Solution.create instBulk) 0 0 3000000000
        (by decide) (consistent_create _) (by decide) (by decide) (by decide)
        (by decide) (by decide))
      (by decide) (by decide) (by decide) (by decide) (by decide)⟩

theorem emitAll_bulk : (emitAll instBulk [solBulkA, solBulkB]).1 = [[0, 1], [0, 3]] := by
  decide

/-- Witness for C20: the elite of the two solutions of `instBulk`, with a miner that
returns the itemset of the cell `(w, s) = (0, 1)`, which only `solBulkA` supplies. -/
theorem mineElite_patterns_witness :
    ∃ result, MineElite instBulk (fun _ _ _ => [[1]]) (1 / 2) 1 [solBulkA, solBulkB] []
        = some result ∧
      ∀ pattern, pattern ∈ result → ∀ t, t ∈ pattern →
        t.w < instBulk.warehouses ∧ t.s < instBulk.stores ∧
        (∃ σ, σ ∈ [solBulkA, solBulkB] ∧ t.s ∈ σ.supplied_stores t.w) ∧
        0 < t.q ∧ t.q ≤ INT_MAX ∧
        (∀ σ, σ ∈ [solBulkA, solBulkB] → t.s ∈ σ.supplied_stores t.w →
          t.q ≤ σ.supply t.s t.w) ∧
        ((∃ σ, σ ∈ [solBulkA, solBulkB] ∧ t.s ∈ σ.supplied_stores t.w ∧
            σ.supply t.s t.w < INT_MAX) → t.q ≠ INT_MAX) :=
  mineElite_patterns instBulk (fun _ _ _ => [[1]]) (1 / 2) 1 [solBulkA, solBulkB] []
    (by decide)
    (by
      intro σ hσ
      rcases List.mem_cons.mp hσ with h | h
      · rw [h]; exact solBulk_consistent.1
      · rw [List.mem_singleton] at h
        rw [h]; exact solBulk_consistent.2)
    (by decide) (by norm_num)
    (by
      intro m_sup itemset hset i hi
      rw [List.mem_singleton] at hset
      subst hset
      rw [List.mem_singleton] at hi
      subst hi
      rw [emitAll_bulk]
      exact ⟨[0, 1], by simp, by simp⟩)

/-- Counterexample to C20 as stated: the two solutions of `instBulk` both supply the
3000000000 units of store 0 from warehouse 0, so the item 0 of the cell `(0, 0)` occurs in
both transactions. `min_supply[0][0]` starts at `INT_MAX = 2147483647` and
`min(2147483647, 3000000000)` leaves it there: for the itemset `[0]` the pattern is
`[(w=0, s=0, q=2147483647)]`, whose `q` is the initial value. -/
theorem mineElite_counterexample :
    solBulkA.supply 0 0 = 3000000000 ∧ solBulkB.supply 0 0 = 3000000000 ∧
    (emitAll instBulk [solBulkA, solBulkB]).1 = [[0, 1], [0, 3]] ∧
    MineElite instBulk (fun _ _ _ => [[0]]) (1 / 2) 1 [solBulkA, solBulkB] []
      = some [[{ w := 0, s := 0, q := 2147483647 }]] ∧
    INT_MAX = 2147483647 := by
  refine ⟨by decide, by decide, by decide, ?_, rfl⟩
  have hm : mineSupport (1 / 2) 2 = some 2 := by
    unfold mineSupport
    rw [truncToInt_eq _ (by norm_num), if_pos (by norm_num)]
    have hf : Int.floor ((1 / 2 : ℚ) * ((2 : Nat) : ℚ)) = 1 := by
      rw [Int.floor_eq_iff]; constructor <;> norm_num
    rw [hf]
    rfl
  unfold MineElite
  rw [if_pos (by decide)]
  show (mineSupport (1 / 2) 2).bind _ = _
  rw [hm]
  decide


/-! ## The invariants along a sequence of calls -/

theorem applyCall_consistent (I : WL_Instance) (hS : I.stores < 4294967296)
    (σ : WL_Solution) (c : Call) (hC : WL_Solution.Consistent I σ) (hc : CallFits I σ c) :
    WL_Solution.Consistent I (applyCall I σ c) := by
  cases c with
  | assign s w q =>
    obtain ⟨hs, hw, hq, hl, ha⟩ := hc
    exact assign_consistent I σ s w q hS hC hs hw hq hl ha
  | revoke s w q =>
    obtain ⟨hs, hw, hq, hle⟩ := hc
    exact revoke_consistent I σ s w q hC hs hw hle (by omega)

theorem runCalls_consistent (I : WL_Instance) (hS : I.stores < 4294967296) :
    ∀ (calls : List Call) (σ : WL_Solution), WL_Solution.Consistent I σ →
      CallsFit I σ calls → WL_Solution.Consistent I (calls.foldl (applyCall I) σ) := by
  intro calls
  induction calls with
  | nil => intro σ hC _; exact hC
  | cons c rest ih =>
    intro σ hC hfit
    exact ih _ (applyCall_consistent I hS σ c hC hfit.1) hfit.2

theorem conflictCount_eq_conflictsAt (I : WL_Instance) (hsym : I.IncompatSymm)
    (hirr : I.IncompatIrrefl) (σ : WL_Solution) (w s : Nat) (hs : s < I.stores) :
    WL_Solution.conflictCount I σ w s = WL_Solution.conflictsAt I σ w s := by
  unfold WL_Solution.conflictCount WL_Solution.conflictsAt
  congr 1
  apply Finset.filter_congr
  intro s2 hs2
  have hs2' : s2 < I.stores := Finset.mem_range.1 hs2
  rw [hsym s2 s hs2' hs]
  constructor
  · rintro ⟨_, h1, h2⟩; exact ⟨h1, h2⟩
  · rintro ⟨h1, h2⟩
    refine ⟨?_, h1, h2⟩
    intro h
    rw [h, hirr s hs] at h2
    exact absurd h2 (by decide)

theorem sixInvariants_of_consistent (I : WL_Instance) (hsym : I.IncompatSymm)
    (hirr : I.IncompatIrrefl) (hfix : I.totalFixed < 4294967296) (σ : WL_Solution)
    (hC : WL_Solution.Consistent I σ) : SixInvariants I σ := by
  refine ⟨hC.assigned, hC.load, hC.stores, ?_, ?_, hC.cost⟩
  · intro w s hw hs
    rw [hC.counters w s hw hs, conflictCount_eq_conflictsAt I hsym hirr σ w s hs]
  · unfold WL_Solution.OpeningCostInv
    rw [hC.opening]
    exact Nat.mod_eq_of_lt (lt_of_le_of_lt (openingSum_le_totalFixed I σ) hfix)

/-- C30 (amended): on an instance whose incompatible matrix is symmetric and irreflexive,
with fewer than `2^32` stores and fixed costs that sum to less than `2^32`, every state
reached from the empty solution by a sequence of `Assign` calls with `q > 0` that leave
`load[w]` and `assigned_goods[s]` below `2^32` and of `RevokeAssignment` calls with
`0 < q <= supply[s][w]` satisfies all six invariants, the sixth with `supply_cost`
accumulated in exact arithmetic (on `double` values the cached `supply_cost` can differ
from the weighted sum by rounding). -/
theorem invariants_reachable (I : WL_Instance) (hS : I.stores < 4294967296)
    (hsym : I.IncompatSymm) (hirr : I.IncompatIrrefl)
    (hfix : I.totalFixed < 4294967296) (calls : List Call)
    (hcalls : CallsFit I (WL_Solution.create I) calls) :
    SixInvariants I (runCalls I calls) :=
  sixInvariants_of_consistent I hsym hirr hfix _
    (runCalls_consistent I hS calls _ (consistent_create I) hcalls)

theorem instWrap_symm : instWrap.IncompatSymm := by
  intro a b ha hb
  have ha2 : a < 2 := ha
  have hb2 : b < 2 := hb
  interval_cases a <;> interval_cases b <;> rfl

theorem instWrap_irrefl : instWrap.IncompatIrrefl := by
  intro a ha
  have ha2 : a < 2 := ha
  interval_cases a <;> rfl

theorem instE3_totalFixed : instE3.totalFixed < 4294967296 := by decide

/-- The amended C30 on scenario E3, for the calls `Assign(0, 0, 3)`, `Assign(1, 1, 3)`,
`RevokeAssignment(0, 0, 1)`. -/
theorem invariants_reachable_witness :
    CallsFit instE3 (WL_Solution.create instE3)
      [Call.assign 0 0 3, Call.assign 1 1 3, Call.revoke 0 0 1] ∧
    SixInvariants instE3 (runCalls instE3
      [Call.assign 0 0 3, Call.assign 1 1 3, Call.revoke 0 0 1]) :=
  ⟨⟨by decide, by decide, by decide, trivial⟩,
    invariants_reachable instE3 (by decide) instE3_symm instE3_irrefl instE3_totalFixed
      [Call.assign 0 0 3, Call.assign 1 1 3, Call.revoke 0 0 1]
      ⟨by decide, by decide, by decide, trivial⟩⟩

theorem instTenths_symm : instTenths.IncompatSymm := by
  intro a b _ _
  rfl

theorem instTenths_irrefl : instTenths.IncompatIrrefl := by
  intro a _
  rfl

/-- Counterexample to C30 as stated, in three parts. On the instance with two fixed costs
of 3000000000 (symmetric and irreflexive, no incompatible pair), `Assign(0, 0, 1)` and
`Assign(1, 1, 1)` open both warehouses: the cached `opening_cost` is
`6000000000 mod 2^32 = 1705032704`, not the sum 6000000000 of the fixed costs of the loaded
warehouses. On scenario E1, `Assign(0, 0, 4294967295)` and `Assign(0, 0, 1)` leave
`supply[0][0] == 0` with store 0 still listed in `supplied_stores[0]`. On `instTenths`
(unit costs `0.1` and `0.2` as `double` values for stores 0 and 1, no fixed cost), the calls
`Assign(0, 0, 1)`, `Assign(1, 0, 1)`, `RevokeAssignment(0, 0, 1)` stay within capacity and
demand; on `double` values they leave `supply_cost = (0.1 + 0.2) - 0.1 =
0.20000000000000004`, while the weighted sum of the supplies is `0.2`. In exact arithmetic
the same calls leave `supply_cost` equal to the weighted sum. -/
theorem invariants_counterexample :
    instWrap.IncompatSymm ∧ instWrap.IncompatIrrefl ∧
    CallsAdmitted instWrap (WL_Solution.create instWrap)
      [Call.assign 0 0 1, Call.assign 1 1 1] ∧
    (runCalls instWrap [Call.assign 0 0 1, Call.assign 1 1 1]).opening_cost = 1705032704 ∧
    WL_Solution.openingSum instWrap (runCalls instWrap [Call.assign 0 0 1, Call.assign 1 1 1])
      = 6000000000 ∧
    ¬ SixInvariants instWrap (runCalls instWrap [Call.assign 0 0 1, Call.assign 1 1 1]) ∧
    CallsAdmitted instE1 (WL_Solution.create instE1)
      [Call.assign 0 0 4294967295, Call.assign 0 0 1] ∧
    (runCalls instE1 [Call.assign 0 0 4294967295, Call.assign 0 0 1]).supply 0 0 = 0 ∧
    0 ∈ (runCalls instE1 [Call.assign 0 0 4294967295, Call.assign 0 0 1]).supplied_stores 0 ∧
    ¬ SixInvariants instE1 (runCalls instE1 [Call.assign 0 0 4294967295, Call.assign 0 0 1]) ∧
    instTenths.IncompatSymm ∧ instTenths.IncompatIrrefl ∧ instTenths.totalFixed = 0 ∧
    CallsFit instTenths (WL_Solution.create instTenths)
      [Call.assign 0 0 1, Call.assign 1 0 1, Call.revoke 0 0 1] ∧
    (runCallsD instTenths [Call.assign 0 0 1, Call.assign 1 0 1, Call.revoke 0 0 1]).supply_cost
      = 7205759403792795 / 36028797018963968 ∧
    WL_Solution.weightedSupply instTenths
        (runCallsD instTenths [Call.assign 0 0 1, Call.assign 1 0 1, Call.revoke 0 0 1])
      = 7205759403792794 / 36028797018963968 ∧
    ¬ WL_Solution.SupplyCostInv instTenths
        (runCallsD instTenths [Call.assign 0 0 1, Call.assign 1 0 1, Call.revoke 0 0 1]) ∧
    (runCalls instTenths [Call.assign 0 0 1, Call.assign 1 0 1, Call.revoke 0 0 1]).supply_cost
      = 7205759403792794 / 36028797018963968 := by
  refine ⟨instWrap_symm, instWrap_irrefl, ⟨by decide, by decide, trivial⟩, by decide,
    by decide, ?_, ⟨by decide, by decide, trivial⟩, by decide, by decide, ?_,
    instTenths_symm, instTenths_irrefl, by decide, ⟨by decide, by decide, by decide, trivial⟩,
    ?_, ?_, ?_, ?_⟩
  · intro h
    have := h.opening
    unfold WL_Solution.OpeningCostInv at this
    revert this
    decide
  · intro h
    have := (h.stores 0 (by decide) 0).1 (by decide)
    revert this
    decide
  · decide!
  · decide!
  · unfold WL_Solution.SupplyCostInv
    decide!
  · decide!

/-! ## The elite pool -/

theorem compare_trans (I : WL_Instance) {a b c : WL_Solution}
    (h1 : CompareSolutions I a b = true) (h2 : CompareSolutions I b c = true) :
    CompareSolutions I a c = true := by
  simp only [CompareSolutions, decide_eq_true_eq, MY_EPSILON] at *
  linarith

theorem compare_le (I : WL_Instance) {a b : WL_Solution}
    (h : CompareSolutions I a b = true) : WL_Solution.Cost I a ≤ WL_Solution.Cost I b := by
  simp only [CompareSolutions, decide_eq_true_eq, MY_EPSILON] at h
  linarith

theorem mem_eliteInsert (I : WL_Instance) (sol : WL_Solution) :
    ∀ (l : List WL_Solution) (z : WL_Solution), z ∈ eliteInsert I l sol → z ∈ l ∨ z = sol := by
  intro l
  induction l with
  | nil => intro z hz; simp only [eliteInsert, List.mem_singleton] at hz; exact Or.inr hz
  | cons y rest ih =>
    intro z hz
    simp only [eliteInsert] at hz
    split at hz
    · rcases List.mem_cons.1 hz with h | h
      · exact Or.inr h
      · exact Or.inl h
    · split at hz
      · rcases List.mem_cons.1 hz with h | h
        · exact Or.inl (h ▸ List.mem_cons_self _ _)
        · rcases ih z h with h2 | h2
          · exact Or.inl (List.mem_cons_of_mem _ h2)
          · exact Or.inr h2
      · exact Or.inl hz

theorem eliteInsert_pairwise (I : WL_Instance) (sol : WL_Solution) :
    ∀ (l : List WL_Solution), l.Pairwise (fun a b => CompareSolutions I a b = true) →
      (eliteInsert I l sol).Pairwise (fun a b => CompareSolutions I a b = true) := by
  intro l
  induction l with
  | nil => intro _; simp [eliteInsert]
  | cons y rest ih =>
    intro hp
    have hp2 := List.pairwise_cons.1 hp
    simp only [eliteInsert]
    split
    · rename_i hxy
      refine List.pairwise_cons.2 ⟨?_, hp⟩
      intro z hz
      rcases List.mem_cons.1 hz with h | h
      · rw [h]; exact hxy
      · exact compare_trans I hxy (hp2.1 z h)
    · split
      · rename_i hyx
        refine List.pairwise_cons.2 ⟨?_, ih hp2.2⟩
        intro z hz
        rcases mem_eliteInsert I sol rest z hz with h | h
        · exact hp2.1 z h
        · rw [h]; exact hyx
      · exact hp

theorem eliteInsert_length (I : WL_Instance) (sol : WL_Solution) :
    ∀ (l : List WL_Solution),
      l.length ≤ (eliteInsert I l sol).length ∧ (eliteInsert I l sol).length ≤ l.length + 1 := by
  intro l
  induction l with
  | nil => simp [eliteInsert]
  | cons y rest ih =>
    simp only [eliteInsert]
    split
    · simp
    · split
      · simp only [List.length_cons]; omega
      · simp

theorem pairwise_last_max (I : WL_Instance) (l : List WL_Solution) (m : WL_Solution)
    (hp : (l ++ [m]).Pairwise (fun a b => CompareSolutions I a b = true)) :
    ∀ x, x ∈ l ++ [m] → WL_Solution.Cost I x ≤ WL_Solution.Cost I m := by
  intro x hx
  rcases List.mem_append.1 hx with h | h
  · exact compare_le I ((List.pairwise_append.1 hp).2.2 x h m (List.mem_singleton_self m))
  · rw [List.mem_singleton.1 h]

theorem eliteUpdate_elite (I : WL_Instance) (elite_max_size : Nat) (st : EliteState)
    (sol : WL_Solution) (h0 : elite_max_size ≠ 0) :
    (eliteUpdate I elite_max_size st sol).elite =
      if (eliteInsert I st.elite sol).length > elite_max_size
      then (eliteInsert I st.elite sol).dropLast else eliteInsert I st.elite sol := by
  simp only [eliteUpdate, if_pos h0]
  split
  · rename_i hgt
    cases hl : (eliteInsert I st.elite sol).getLast? with
    | none =>
      rw [List.getLast?_eq_none_iff] at hl
      rw [hl] at hgt
      simp at hgt
    | some worst =>
      simp only
      split <;> rfl
  · split <;> rfl

theorem eliteUpdate_inv (I : WL_Instance) (elite_max_size : Nat) (st : EliteState)
    (sol : WL_Solution) (hlen : st.elite.length ≤ elite_max_size)
    (hp : st.elite.Pairwise (fun a b => CompareSolutions I a b = true)) :
    (eliteUpdate I elite_max_size st sol).elite.length ≤ elite_max_size ∧
    (eliteUpdate I elite_max_size st sol).elite.Pairwise
      (fun a b => CompareSolutions I a b = true) := by
  by_cases h0 : elite_max_size = 0
  · simp only [eliteUpdate, h0, ne_eq, not_true_eq_false, if_false]
    exact ⟨h0 ▸ hlen, hp⟩
  · rw [eliteUpdate_elite I elite_max_size st sol h0]
    have hl := eliteInsert_length I sol st.elite
    have hq := eliteInsert_pairwise I sol st.elite hp
    split
    · refine ⟨?_, hq.sublist (List.dropLast_sublist _)⟩
      rw [List.length_dropLast]; omega
    · exact ⟨by omega, hq⟩

theorem eliteRun_inv (I : WL_Instance) (elite_max_size : Nat) :
    ∀ (sols : List WL_Solution) (st : EliteState), st.elite.length ≤ elite_max_size →
      st.elite.Pairwise (fun a b => CompareSolutions I a b = true) →
      (sols.foldl (eliteUpdate I elite_max_size) st).elite.length ≤ elite_max_size ∧
      (sols.foldl (eliteUpdate I elite_max_size) st).elite.Pairwise
        (fun a b => CompareSolutions I a b = true) := by
  intro sols
  induction sols with
  | nil => intro st h1 h2; exact ⟨h1, h2⟩
  | cons x rest ih =>
    intro st h1 h2
    have h := eliteUpdate_inv I elite_max_size st x h1 h2
    exact ih _ h.1 h.2

/-- C21: after the elite update of every iteration of `Run` (for any sequence `sols` of
solutions that the earlier iterations produce, and the solution `sol` of this one), the
pool holds at most `elite_max_size` solutions and is ordered by `Cost()` ascending (each
member is before the next in the order of `CompareSolutions`, so its cost is lower by more
than `MY_EPSILON`); and when the insertion of `sol` makes the pool exceed `elite_max_size`,
the member removed is the last one, whose cost no member of the pool exceeds. -/
theorem elite_update_spec (I : WL_Instance) (elite_max_size : Nat)
    (sols : List WL_Solution) (sol : WL_Solution) :
    (eliteRun I elite_max_size (sols ++ [sol])).elite.length ≤ elite_max_size ∧
    (eliteRun I elite_max_size (sols ++ [sol])).elite.Pairwise
      (fun a b => WL_Solution.Cost I a + MY_EPSILON < WL_Solution.Cost I b) ∧
    (elite_max_size ≠ 0 →
      elite_max_size < (eliteInsert I (eliteRun I elite_max_size sols).elite sol).length →
      ∃ worst,
        eliteInsert I (eliteRun I elite_max_size sols).elite sol
          = (eliteRun I elite_max_size (sols ++ [sol])).elite ++ [worst] ∧
        ∀ x, x ∈ eliteInsert I (eliteRun I elite_max_size sols).elite sol →
          WL_Solution.Cost I x ≤ WL_Solution.Cost I worst) := by
  have hrun : ∀ l, (eliteRun I elite_max_size l).elite.length ≤ elite_max_size ∧
      (eliteRun I elite_max_size l).elite.Pairwise
        (fun a b => CompareSolutions I a b = true) := fun l =>
    eliteRun_inv I elite_max_size l _ (Nat.zero_le _) List.Pairwise.nil
  refine ⟨(hrun _).1, ?_, ?_⟩
  · refine (hrun _).2.imp ?_
    intro a b hab
    simp only [CompareSolutions, decide_eq_true_eq] at hab
    linarith
  · intro h0 hgt
    have hstep : (eliteRun I elite_max_size (sols ++ [sol])).elite
        = (eliteInsert I (eliteRun I elite_max_size sols).elite sol).dropLast := by
      simp only [eliteRun, List.foldl_append, List.foldl_cons, List.foldl_nil]
      rw [eliteUpdate_elite I elite_max_size _ sol h0]
      exact if_pos hgt
    have hq := eliteInsert_pairwise I sol _ (hrun sols).2
    cases hl : (eliteInsert I (eliteRun I elite_max_size sols).elite sol).getLast? with
    | none =>
      rw [List.getLast?_eq_none_iff] at hl
      rw [hl] at hgt
      simp at hgt
    | some worst =>
      have hsplit := List.dropLast_append_getLast? worst (by rw [hl]; exact rfl)
      refine ⟨worst, by rw [hstep]; exact hsplit.symm, ?_⟩
      rw [← hsplit] at hq ⊢
      exact pairwise_last_max I _ worst hq

/-- Three solutions of scenario E3 of different costs entering a pool of size 2. -/
theorem elite_update_spec_witness :
    (2 : Nat) ≠ 0 ∧
    2 < (eliteInsert instE3 (eliteRun instE3 2
      [WL_Solution.create instE3, WL_Solution.Assign instE3 (WL_Solution.create instE3) 0 0 3]).elite
      (WL_Solution.Assign instE3 (WL_Solution.create instE3) 0 0 1)).length ∧
    ∃ worst,
      eliteInsert instE3 (eliteRun instE3 2
        [WL_Solution.create instE3,
          WL_Solution.Assign instE3 (WL_Solution.create instE3) 0 0 3]).elite
        (WL_Solution.Assign instE3 (WL_Solution.create instE3) 0 0 1)
        = (eliteRun instE3 2
          ([WL_Solution.create instE3,
            WL_Solution.Assign instE3 (WL_Solution.create instE3) 0 0 3] ++
            [WL_Solution.Assign instE3 (WL_Solution.create instE3) 0 0 1])).elite ++ [worst] ∧
      ∀ x, x ∈ eliteInsert instE3 (eliteRun instE3 2
        [WL_Solution.create instE3,
          WL_Solution.Assign instE3 (WL_Solution.create instE3) 0 0 3]).elite
        (WL_Solution.Assign instE3 (WL_Solution.create instE3) 0 0 1) →
        WL_Solution.Cost instE3 x ≤ WL_Solution.Cost instE3 worst := by
  have h : 2 < (eliteInsert instE3 (eliteRun instE3 2
      [WL_Solution.create instE3, WL_Solution.Assign instE3 (WL_Solution.create instE3) 0 0 3]).elite
      (WL_Solution.Assign instE3 (WL_Solution.create instE3) 0 0 1)).length := by
    decide!
  exact ⟨by decide, h,
    (elite_update_spec instE3 2
      [WL_Solution.create instE3, WL_Solution.Assign instE3 (WL_Solution.create instE3) 0 0 3]
      (WL_Solution.Assign instE3 (WL_Solution.create instE3) 0 0 1)).2.2 (by decide) h⟩


/-! ## Scenario E2 -/

theorem sortedE2 (order : List Nat) (h : SortedWarehouses instE2 order) : order = [1, 0] := by
  obtain ⟨hp, hs⟩ := h
  have hlen := hp.length_eq
  simp only [instE2, List.length_range] at hlen
  match order, hlen with
  | [a, b], _ =>
    have ha : a ∈ List.range 2 := hp.subset (List.mem_cons_self _ _)
    have hb : b ∈ List.range 2 := hp.subset (List.mem_cons_of_mem _ (List.mem_cons_self _ _))
    have hnd : [a, b].Nodup := hp.nodup_iff.2 (List.nodup_range 2)
    simp only [List.mem_range] at ha hb
    simp only [List.nodup_cons, List.mem_singleton, List.not_mem_nil, not_false_eq_true,
      List.nodup_nil, and_true] at hnd
    have hab := (List.pairwise_cons.1 hs).1 b (List.mem_singleton_self b)
    interval_cases a <;> interval_cases b
    · exact absurd rfl hnd
    · exact absurd hab (by decide!)
    · rfl
    · exact absurd rfl hnd

theorem seedE2_capacity : WL_Solution.ResidualCapacity instE2 (WL_Solution.create instE2) 1 ≠ 0 := by decide
theorem seedE2_admissible : ¬ (WL_Solution.ResidualAmount instE2 (WL_Solution.create instE2) 0 = 0 ∨
      WL_Solution.Incompatibilities instE2 (WL_Solution.create instE2) 1 0 ≠ 0) := by decide
theorem seedE2_pick (rng : Rng) : seedPick instE2 (WL_Solution.create instE2) 1 (1 + 2) 0 0 rng
      = some (0, 0, rng) := by
    unfold seedPick
    rw [if_neg seedE2_admissible]
theorem seedStep_first (I : WL_Instance) (σ : WL_Solution) (wh r : Nat) (rng : Rng)
    (hc : WL_Solution.ResidualCapacity I σ wh ≠ 0) (hs : I.stores ≠ 0)
    (hok : ¬ (WL_Solution.ResidualAmount I σ (r % I.stores) = 0 ∨
      WL_Solution.Incompatibilities I σ wh (r % I.stores) ≠ 0)) :
    seedStep I σ (r :: rng) wh
      = some (WL_Solution.Assign I σ (r % I.stores) wh
          (min (WL_Solution.ResidualAmount I σ (r % I.stores)) (I.capacity wh)), rng) := by
  have hp : seedPick I σ wh (I.stores + 2) (r % I.stores) 0 rng
      = some (r % I.stores, 0, rng) := by
    simp only [seedPick, if_neg hok]
  unfold seedStep
  rw [if_pos hc, if_neg hs]
  simp only [hp, Nat.zero_le, if_true]

theorem seedE2 (r : Nat) (rng : Rng) :
    seedStep instE2 (WL_Solution.create instE2) (r :: rng) 1
      = some (WL_Solution.Assign instE2 (WL_Solution.create instE2) 0 1 5, rng) := by
  have hr : r % instE2.stores = 0 := Nat.mod_one r
  have h := seedStep_first instE2 (WL_Solution.create instE2) 1 r rng seedE2_capacity
    (by decide) (by rw [hr]; exact seedE2_admissible)
  rw [hr] at h
  exact h
theorem seedPhase_single (I : WL_Instance) (σ σ2 : WL_Solution) (rng rng2 : Rng) (wh : Nat)
    (h : seedStep I σ rng wh = some (σ2, rng2)) :
    seedPhase I [wh] σ rng = some (σ2, rng2) := by
  simp only [seedPhase, h]

theorem greedyAttempt_eq (I : WL_Instance) (x0 : Nat) (rest : List Nat) (fuel : Nat)
    (rng rng2 : Rng) (last_open : Nat) (σ : WL_Solution) (r : Option WL_Solution)
    (h1 : greedyPrefixLoop I (totalDemand I) rest 1 (I.capacity x0) 0 = some last_open)
    (h2 : seedPhase I ((x0 :: rest).take (last_open + 1)) (WL_Solution.create I) rng
      = some (σ, rng2))
    (h3 : greedyComplete I fuel (List.range I.stores) σ (x0 :: rest) last_open = some r) :
    greedyAttempt I (x0 :: rest) fuel rng = some (r, rng2) := by
  unfold greedyAttempt
  simp only []
  rw [h1, Option.some_bind, h2, Option.some_bind, h3, Option.some_bind]

theorem greedyRestart_eq (I : WL_Instance) (order : List Nat) (fuel n : Nat)
    (rng rng2 : Rng) (σ : WL_Solution)
    (h : greedyAttempt I order fuel rng = some (some σ, rng2)) :
    greedyRestart I order fuel (n + 1) rng = some (σ, rng2) := by
  simp only [greedyRestart, h]

theorem greedyComplete_served (I : WL_Instance) (fuel s : Nat) (σ : WL_Solution)
    (warehouses : List Nat) (last_open : Nat)
    (h : WL_Solution.ResidualAmount I σ s = 0) :
    greedyComplete I (fuel + 1) [s] σ warehouses last_open = some (some σ) := by
  simp only [greedyComplete, greedyFill, if_pos h]

theorem greedyE2_value (fuel r : Nat) (rng : Rng) :
    InitialSolutionGreedyOpening instE2 [1, 0] (fuel + 1) (r :: rng)
      = some (WL_Solution.Assign instE2 (WL_Solution.create instE2) 0 1 5, rng) :=
  greedyRestart_eq instE2 [1, 0] (fuel + 1) fuel (r :: rng) rng _
    (greedyAttempt_eq instE2 1 [0] (fuel + 1) (r :: rng) rng 0 _ _ (by decide)
      (seedPhase_single instE2 _ _ _ _ 1 (seedE2 r rng))
      (greedyComplete_served instE2 fuel 0 _ [1, 0] 0 (by decide)))
theorem costE2 :
    WL_Solution.Cost instE2 (WL_Solution.Assign instE2 (WL_Solution.create instE2) 0 1 5)
      = 501 := by decide!

/-- C22: on scenario E2, for every ordering that the sort by `WarehouseComparator` may
leave and every PRNG stream (the run draws one number `r`), the greedy constructor orders
warehouse 1 before warehouse 0 and returns the solution with `supply[0][1] = 5`,
`supply[0][0] = 0` and `Cost() = 501`. -/
theorem scenario_E2 (order : List Nat) (hsort : SortedWarehouses instE2 order)
    (fuel r : Nat) (rng : Rng) :
    WarehouseComparator instE2 1 0 = true ∧ order = [1, 0] ∧
    ∃ σ, InitialSolutionGreedyOpening instE2 order (fuel + 1) (r :: rng) = some (σ, rng) ∧
      σ.supply 0 1 = 5 ∧ σ.supply 0 0 = 0 ∧ WL_Solution.Cost instE2 σ = 501 := by
  have ho := sortedE2 order hsort
  subst ho
  exact ⟨by decide!, rfl, _, greedyE2_value fuel r rng, by decide, by decide, costE2⟩

theorem sortedE2_holds : SortedWarehouses instE2 [1, 0] :=
  ⟨List.Perm.swap 0 1 [], by decide!⟩

/-- The statement of C22 at the ordering `[1, 0]` and the stream `[7, 3]`. -/
theorem scenario_E2_witness :
    SortedWarehouses instE2 [1, 0] ∧
    ∃ σ, InitialSolutionGreedyOpening instE2 [1, 0] (4 + 1) (7 :: [3]) = some (σ, [3]) ∧
      σ.supply 0 1 = 5 ∧ σ.supply 0 0 = 0 ∧ WL_Solution.Cost instE2 σ = 501 :=
  ⟨sortedE2_holds, (scenario_E2 [1, 0] sortedE2_holds 4 7 [3]).2.2⟩

/-! ## Scenario E3 -/

theorem instE3_size :
    instE3.stores + instE3.warehouses + instE3.store_incompatibilities.length * instE3.warehouses
      < 4294967296 := by decide

/-- C23 (amended): on scenario E3, every solution state whose cached fields agree with its
supply matrix and that is feasible (`ComputeViolations() == 0` with every demand exactly
met) has both warehouses open and `Cost() == 8`. -/
theorem scenario_E3 (σ : WL_Solution) (hC : WL_Solution.Consistent instE3 σ)
    (hV : WL_Solution.ComputeViolations instE3 σ = 0)
    (hD : ∀ s, s < instE3.stores → σ.assigned_goods s = instE3.amount_of_goods s) :
    0 < σ.load 0 ∧ 0 < σ.load 1 ∧ WL_Solution.Cost instE3 σ = 8 := by
  obtain ⟨_, _, hpair⟩ := (computeViolations_zero instE3 σ instE3_size).1 hV
  have hp0 := hpair (0, 1) (by decide) 0 (by decide)
  have hp1 := hpair (0, 1) (by decide) 1 (by decide)
  have ha0 := hC.assigned 0 (by decide)
  have ha1 := hC.assigned 1 (by decide)
  have hl0 := hC.load 0 (by decide)
  have hl1 := hC.load 1 (by decide)
  have hd0 := hD 0 (by decide)
  have hd1 := hD 1 (by decide)
  have e2 : instE3.warehouses = 2 := rfl
  have e3 : instE3.stores = 2 := rfl
  have e4 : instE3.amount_of_goods 0 = 3 := rfl
  have e5 : instE3.amount_of_goods 1 = 3 := rfl
  rw [e2] at ha0 ha1
  rw [e3] at hl0 hl1
  rw [e4] at hd0
  rw [e5] at hd1
  simp only [Finset.sum_range_succ, Finset.sum_range_zero, zero_add] at ha0 ha1 hl0 hl1
  simp only at hp0 hp1
  have h0 : 0 < σ.load 0 := by omega
  have h1 : 0 < σ.load 1 := by omega
  refine ⟨h0, h1, ?_⟩
  have hop : σ.opening_cost = 2 := by
    rw [hC.opening]
    simp only [WL_Solution.openingSum, e2, Finset.sum_range_succ, Finset.sum_range_zero,
      zero_add, if_pos h0, if_pos h1]
    rfl
  have hsc : σ.supply_cost = ((σ.supply 0 0 + σ.supply 0 1 + σ.supply 1 0 + σ.supply 1 1 : Nat) : ℚ) := by
    rw [hC.cost]
    simp only [WL_Solution.weightedSupply, e2, e3, Finset.sum_range_succ, Finset.sum_range_zero,
      zero_add]
    have c00 : instE3.supply_cost 0 0 = 1 := rfl
    have c01 : instE3.supply_cost 0 1 = 1 := rfl
    have c10 : instE3.supply_cost 1 0 = 1 := rfl
    have c11 : instE3.supply_cost 1 1 = 1 := rfl
    rw [c00, c01, c10, c11]
    push_cast
    ring
  have hsum : σ.supply 0 0 + σ.supply 0 1 + σ.supply 1 0 + σ.supply 1 1 = 6 := by omega
  simp only [WL_Solution.Cost, WL_Solution.SupplyCost, WL_Solution.OpeningCost, hop, hsc, hsum]
  have r1 : instE3.reduction_supply_cost = 0 := rfl
  have r2 : instE3.reduction_opening_cost = 0 := rfl
  rw [r1, r2]
  norm_num [uadd]

/-- The solution of scenario E3 that supplies store 0 from warehouse 0 and store 1 from
warehouse 1 is consistent. -/
theorem solE3_consistent :
    WL_Solution.Consistent instE3
      (WL_Solution.Assign instE3
        (WL_Solution.Assign instE3 (WL_Solution.create instE3) 0 0 3) 1 1 3) :=
  assign_consistent instE3 _ 1 1 3 (by decide)
    (assign_consistent instE3 _ 0 0 3 (by decide) (consistent_create instE3)
      (by decide) (by decide) (by decide) (by decide) (by decide))
    (by decide) (by decide) (by decide) (by decide) (by decide)

/-- The amended C23 at the solution that supplies store 0 from warehouse 0 and store 1
from warehouse 1. -/
theorem scenario_E3_witness :
    WL_Solution.ComputeViolations instE3
      (WL_Solution.Assign instE3
        (WL_Solution.Assign instE3 (WL_Solution.create instE3) 0 0 3) 1 1 3) = 0 ∧
    WL_Solution.Cost instE3
      (WL_Solution.Assign instE3
        (WL_Solution.Assign instE3 (WL_Solution.create instE3) 0 0 3) 1 1 3) = 8 :=
  ⟨by decide, (scenario_E3 _ solE3_consistent (by decide) (by decide)).2.2⟩

/-- Counterexample to C23 as stated: the calls `Assign(0, 0, 0)`, `Assign(0, 0, 3)`,
`Assign(1, 1, 3)` on the empty solution of scenario E3 reach a state with
`ComputeViolations() == 0` and every demand exactly met, in which `Assign(0, 0, 0)` and
`Assign(0, 0, 3)` have both found `load[0] == 0` and added `fixed_cost[0]`: the cached
opening cost is 3 and `Cost()` is 9, not 8. -/
theorem scenario_E3_counterexample :
    WL_Solution.ComputeViolations instE3
      (runCalls instE3 [Call.assign 0 0 0, Call.assign 0 0 3, Call.assign 1 1 3]) = 0 ∧
    (∀ s, s < instE3.stores →
      (runCalls instE3 [Call.assign 0 0 0, Call.assign 0 0 3, Call.assign 1 1 3]).assigned_goods s
        = instE3.amount_of_goods s) ∧
    (runCalls instE3 [Call.assign 0 0 0, Call.assign 0 0 3, Call.assign 1 1 3]).opening_cost
      = 3 ∧
    WL_Solution.Cost instE3
      (runCalls instE3 [Call.assign 0 0 0, Call.assign 0 0 3, Call.assign 1 1 3]) = 9 ∧
    ¬ (∀ calls : List Call,
      WL_Solution.ComputeViolations instE3 (runCalls instE3 calls) = 0 →
      (∀ s, s < instE3.stores →
        (runCalls instE3 calls).assigned_goods s = instE3.amount_of_goods s) →
      0 < (runCalls instE3 calls).load 0 ∧ 0 < (runCalls instE3 calls).load 1 ∧
        WL_Solution.Cost instE3 (runCalls instE3 calls) = 8) := by
  have h9 : WL_Solution.Cost instE3
      (runCalls instE3 [Call.assign 0 0 0, Call.assign 0 0 3, Call.assign 1 1 3]) = 9 := by
    decide!
  refine ⟨by decide, by decide, by decide, h9, ?_⟩
  intro h
  have h8 := (h [Call.assign 0 0 0, Call.assign 0 0 3, Call.assign 1 1 3]
    (by decide) (by decide)).2.2
  rw [h9] at h8
  exact absurd h8 (by norm_num)


/-! ## The recorded improvement of a move -/

/-- C26 (amended): on an instance whose data fit an `unsigned` and whose fixed costs, with
the reduction opening cost, total less than `2^32`, for every consistent solution state
within the capacities and demands (as every feasible solution is) and every move that the
enumeration of `LocalSearch` or of the inner loop of the iterated search pushes from it,
applying the move to that state lowers `Cost()` by exactly the recorded improvement (costs
as exact rationals): for a relocation whose `w1` is not in `closing_forbidden` the
improvement is `(supply_cost[s1][w1] - supply_cost[s1][w2]) * q`, minus `fixed_cost[w2]`
when `load[w2] == 0`, plus `fixed_cost[w1]` when `q == load[w1]`, with
`q = min(supply[s1][w1], ResidualCapacity(w2))`; for an exchange it is the supply-cost
difference alone. -/
theorem move_improvement_exact (I : WL_Instance) (hI : I.Typed)
    (hfix : I.totalFixed + I.reduction_opening_cost < 4294967296)
    (σ : WL_Solution) (hC : WL_Solution.Consistent I σ) (hW : WL_Solution.Within I σ)
    (inv cf opf : List Nat) (hinv : ∀ w, w ∈ inv → w < I.warehouses)
    (m : Move) (hm : m ∈ enumerateMoves I σ inv cf opf) :
    (m.s2 = I.stores → m.w1 ∉ cf →
      m.improvement
        = (I.supply_cost m.s1 m.w1 - I.supply_cost m.s1 m.w2)
            * ((min (σ.supply m.s1 m.w1) (WL_Solution.ResidualCapacity I σ m.w2) : Nat) : ℚ)
          - (if σ.load m.w2 = 0 then (I.fixed_cost m.w2 : ℚ) else 0)
          + (if min (σ.supply m.s1 m.w1) (WL_Solution.ResidualCapacity I σ m.w2) = σ.load m.w1
              then (I.fixed_cost m.w1 : ℚ) else 0) ∧
      WL_Solution.Cost I (applyMove I σ m) = WL_Solution.Cost I σ - m.improvement) ∧
    (m.s2 ≠ I.stores →
      m.improvement
        = (I.supply_cost m.s1 m.w1 - I.supply_cost m.s1 m.w2) * (σ.supply m.s1 m.w1 : ℚ)
          + (I.supply_cost m.s2 m.w2 - I.supply_cost m.s2 m.w1) * (σ.supply m.s2 m.w2 : ℚ) ∧
      WL_Solution.Cost I (applyMove I σ m) = WL_Solution.Cost I σ - m.improvement) := by
  obtain ⟨hw1, hw2, hne, hmem, hpm⟩ := mem_enumerateMoves I σ inv cf opf hinv m hm
  obtain ⟨hs1, hp1⟩ := (hC.stores m.w1 hw1 m.s1).mp hmem
  have hsl1 := supply_le_load I σ hC.load hs1 hw1
  have hrc2 := residualCapacity_eq I σ hI hW hw2
  have hrc1 := residualCapacity_eq I σ hI hW hw1
  have hl1 := hW.load_le m.w1 hw1
  have hl2 := hW.load_le m.w2 hw2
  have hc1T := hI.capacity m.w1 hw1
  have hc2T := hI.capacity m.w2 hw2
  rcases List.mem_append.mp hpm with hr | hsw
  · obtain ⟨_, hres, himp, _, e2, _, _, eimp⟩ := mem_relocateMove hr
    refine ⟨fun _ hcf => ?_, fun h => absurd e2 h⟩
    have hform : m.improvement
        = (I.supply_cost m.s1 m.w1 - I.supply_cost m.s1 m.w2)
            * ((min (σ.supply m.s1 m.w1) (WL_Solution.ResidualCapacity I σ m.w2) : Nat) : ℚ)
          - (if σ.load m.w2 = 0 then (I.fixed_cost m.w2 : ℚ) else 0)
          + (if min (σ.supply m.s1 m.w1) (WL_Solution.ResidualCapacity I σ m.w2) = σ.load m.w1
              then (I.fixed_cost m.w1 : ℚ) else 0) := by
      rw [eimp]
      unfold relocateImprovement
      have key : (if min (σ.supply m.s1 m.w1) (WL_Solution.ResidualCapacity I σ m.w2)
            = σ.load m.w1 ∧ m.w1 ∉ cf then (I.fixed_cost m.w1 : ℚ) else 0)
          = (if min (σ.supply m.s1 m.w1) (WL_Solution.ResidualCapacity I σ m.w2)
            = σ.load m.w1 then (I.fixed_cost m.w1 : ℚ) else 0) := by
        by_cases e : min (σ.supply m.s1 m.w1) (WL_Solution.ResidualCapacity I σ m.w2)
            = σ.load m.w1
        · rw [if_pos (And.intro e hcf), if_pos e]
        · rw [if_neg (fun h => e h.1), if_neg e]
      rw [key]
    refine ⟨hform, ?_⟩
    unfold applyMove
    rw [if_pos e2]
    rw [hrc2] at hres
    have hq : 0 < min (σ.supply m.s1 m.w1) (WL_Solution.ResidualCapacity I σ m.w2) := by
      rw [hrc2]; exact lt_min hp1 (by omega)
    have hqs : min (σ.supply m.s1 m.w1) (WL_Solution.ResidualCapacity I σ m.w2)
        ≤ σ.supply m.s1 m.w1 := min_le_left _ _
    have hqc : σ.load m.w2 + min (σ.supply m.s1 m.w1) (WL_Solution.ResidualCapacity I σ m.w2)
        ≤ I.capacity m.w2 := by
      have := min_le_right (σ.supply m.s1 m.w1) (WL_Solution.ResidualCapacity I σ m.w2)
      rw [hrc2] at this ⊢
      omega
    obtain ⟨_, _, c3⟩ := relocate_step I σ m.s1 m.w1 m.w2 _ hI hfix hC hW hs1 hw1 hw2 hne
      hq hqs hqc
    have key2 : (if σ.load m.w1
          = min (σ.supply m.s1 m.w1) (WL_Solution.ResidualCapacity I σ m.w2)
          then (I.fixed_cost m.w1 : ℚ) else 0)
        = (if min (σ.supply m.s1 m.w1) (WL_Solution.ResidualCapacity I σ m.w2)
          = σ.load m.w1 then (I.fixed_cost m.w1 : ℚ) else 0) := by
      by_cases e : min (σ.supply m.s1 m.w1) (WL_Solution.ResidualCapacity I σ m.w2)
          = σ.load m.w1
      · rw [if_pos e, if_pos e.symm]
      · rw [if_neg e, if_neg (fun h => e h.symm)]
    rw [c3, hform, key2]
    ring
  · obtain ⟨_, hmem2, hadm, himp, _, _, _, eimp⟩ := mem_swapMoves hsw
    obtain ⟨hs2, hp2⟩ := (hC.stores m.w2 hw2 m.s2).mp hmem2
    have hsl2 := supply_le_load I σ hC.load hs2 hw2
    obtain ⟨hss, _, ha1, ha2⟩ := hadm
    rw [hrc2, uadd_eq_add (by omega)] at ha1
    rw [hrc1, uadd_eq_add (by omega)] at ha2
    refine ⟨fun h => absurd h (by omega), fun _ => ?_⟩
    have hform : m.improvement
        = (I.supply_cost m.s1 m.w1 - I.supply_cost m.s1 m.w2) * (σ.supply m.s1 m.w1 : ℚ)
          + (I.supply_cost m.s2 m.w2 - I.supply_cost m.s2 m.w1) * (σ.supply m.s2 m.w2 : ℚ) := by
      rw [eimp]; rfl
    refine ⟨hform, ?_⟩
    unfold applyMove
    rw [if_neg (by omega : ¬ m.s2 = I.stores)]
    have hread : (WL_Solution.Assign I
        (WL_Solution.RevokeAssignment I σ m.s1 m.w1 (σ.supply m.s1 m.w1))
        m.s1 m.w2 (σ.supply m.s1 m.w1)).supply m.s2 m.w2 = σ.supply m.s2 m.w2 := by
      simp [WL_Solution.Assign, WL_Solution.RevokeAssignment, Ne.symm hss]
    rw [hread]
    obtain ⟨_, _, c3⟩ := swap_step I σ m.s1 m.s2 m.w1 m.w2 hI hfix hC hW hs1 hs2 hw1 hw2
      hne hss hp1 hp2 (by omega) (by omega)
    rw [c3, eimp]

/-- The amended C26 on `instRelocate`, for the relocation of the store from warehouse 0 to
the cheaper warehouse 1 that the enumeration pushes from `solRelocate`. -/
theorem move_improvement_exact_witness :
    ({ s1 := 0, s2 := 1, w1 := 0, w2 := 1, improvement := 8 } : Move)
      ∈ enumerateMoves instRelocate solRelocate [0, 1] [] [] ∧
    WL_Solution.Cost instRelocate
        (applyMove instRelocate solRelocate
          { s1 := 0, s2 := 1, w1 := 0, w2 := 1, improvement := 8 })
      = WL_Solution.Cost instRelocate solRelocate - 8 :=
  ⟨by decide!,
    ((move_improvement_exact instRelocate instRelocate_typed (by decide) solRelocate
      solRelocate_consistent solRelocate_within [0, 1] [] []
      (by intro w hw; simp at hw; rcases hw with rfl | rfl <;> decide)
      { s1 := 0, s2 := 1, w1 := 0, w2 := 1, improvement := 8 } (by decide!)).1 rfl
      (List.not_mem_nil _)).2⟩

/-- Counterexample to C26 as stated: on `instWrap` the feasible solution `solWrap` costs
1705032706 (its cached `opening_cost` is `6000000000 mod 2^32`). The enumeration pushes the
relocation of store 0 from warehouse 0 to warehouse 1 with the improvement 3000000000 (the
fixed cost of warehouse 0, which closes); applied, it leaves the cost 3000000002: the cost
has risen by 1294967296 instead of falling by the recorded improvement. -/
theorem move_improvement_counterexample :
    IsFeasible instWrap solWrap ∧
    ({ s1 := 0, s2 := 2, w1 := 0, w2 := 1, improvement := 3000000000 } : Move)
      ∈ enumerateMoves instWrap solWrap [0, 1] [] [] ∧
    WL_Solution.Cost instWrap solWrap = 1705032706 ∧
    WL_Solution.Cost instWrap
        (applyMove instWrap solWrap
          { s1 := 0, s2 := 2, w1 := 0, w2 := 1, improvement := 3000000000 }) = 3000000002 ∧
    WL_Solution.Cost instWrap
        (applyMove instWrap solWrap
          { s1 := 0, s2 := 2, w1 := 0, w2 := 1, improvement := 3000000000 })
      ≠ WL_Solution.Cost instWrap solWrap - 3000000000 := by
  refine ⟨⟨?_, ?_, ?_⟩, ?_, ?_, ?_, ?_⟩
  · intro s hs
    have h1 : s < 2 := hs
    interval_cases s <;> decide
  · intro w hw
    have h1 : w < 2 := hw
    interval_cases w <;> decide
  · decide
  · decide!
  · decide!
  · decide!
  · decide!

/-! ## Feasibility after a move -/

/-- The relocation of `q` goods keeps the state consistent and within the bounds, whatever
the fixed costs. -/
theorem relocate_sound (I : WL_Instance) (σ : WL_Solution) (s1 w1 w2 q : Nat)
    (hI : I.Typed)
    (hC : WL_Solution.Consistent I σ) (hW : WL_Solution.Within I σ)
    (hs1 : s1 < I.stores) (hw1 : w1 < I.warehouses) (hw2 : w2 < I.warehouses)
    (hne : w1 ≠ w2) (hq : 0 < q) (hqs : q ≤ σ.supply s1 w1)
    (hqc : σ.load w2 + q ≤ I.capacity w2) :
    WL_Solution.Consistent I
      (WL_Solution.Assign I (WL_Solution.RevokeAssignment I σ s1 w1 q) s1 w2 q) ∧
    WL_Solution.Within I
      (WL_Solution.Assign I (WL_Solution.RevokeAssignment I σ s1 w1 q) s1 w2 q) := by
  have hsl := supply_le_load I σ hC.load hs1 hw1
  have hsa := supply_le_assigned I σ hC.assigned hs1 hw1
  have hsupT := hC.typed.supply s1 w1 hs1 hw1
  have hloadT := hC.typed.load w1 hw1
  have hassT := hC.typed.assigned_goods s1 hs1
  have hcT := hI.capacity w2 hw2
  have hpos : 0 < σ.supply s1 w1 := by omega
  obtain ⟨_, fl, fa⟩ := revoke_fields I σ s1 w1 q hqs hsupT (by omega) hloadT (by omega) hassT
  have hC1 := revoke_consistent I σ s1 w1 q hC hs1 hw1 hqs hpos
  have hW1 := within_revoke I σ s1 w1 q hC hW hs1 hw1 hqs
  have hl2 : (WL_Solution.RevokeAssignment I σ s1 w1 q).load w2 = σ.load w2 := by
    rw [fl, if_neg (Ne.symm hne)]
  have ha1 : (WL_Solution.RevokeAssignment I σ s1 w1 q).assigned_goods s1
      = σ.assigned_goods s1 - q := by rw [fa, if_pos rfl]
  have hamt := hW.assigned_le s1 hs1
  refine ⟨?_, ?_⟩
  · exact assign_consistent I _ s1 w2 q (by have := hI.stores; omega) hC1 hs1 hw2 hq
      (by rw [hl2]; omega) (by rw [ha1]; omega)
  · exact within_assign I _ s1 w2 q hI hW1 hs1 hw2 (by rw [hl2]; exact hqc)
      (by rw [ha1]; omega)

/-- The exchange of two supplies keeps the state consistent and within the bounds, whatever
the fixed costs. -/
theorem swap_sound (I : WL_Instance) (σ : WL_Solution) (s1 s2 w1 w2 : Nat)
    (hI : I.Typed)
    (hC : WL_Solution.Consistent I σ) (hW : WL_Solution.Within I σ)
    (hs1 : s1 < I.stores) (hs2 : s2 < I.stores)
    (hw1 : w1 < I.warehouses) (hw2 : w2 < I.warehouses)
    (hne : w1 ≠ w2) (hs : s1 ≠ s2)
    (hp1 : 0 < σ.supply s1 w1) (hp2 : 0 < σ.supply s2 w2)
    (hc2 : σ.load w2 - σ.supply s2 w2 + σ.supply s1 w1 ≤ I.capacity w2)
    (hc1 : σ.load w1 - σ.supply s1 w1 + σ.supply s2 w2 ≤ I.capacity w1) :
    WL_Solution.Consistent I
      (WL_Solution.Assign I
        (WL_Solution.RevokeAssignment I
          (WL_Solution.Assign I (WL_Solution.RevokeAssignment I σ s1 w1 (σ.supply s1 w1))
            s1 w2 (σ.supply s1 w1))
          s2 w2 (σ.supply s2 w2))
        s2 w1 (σ.supply s2 w2)) ∧
    WL_Solution.Within I
      (WL_Solution.Assign I
        (WL_Solution.RevokeAssignment I
          (WL_Solution.Assign I (WL_Solution.RevokeAssignment I σ s1 w1 (σ.supply s1 w1))
            s1 w2 (σ.supply s1 w1))
          s2 w2 (σ.supply s2 w2))
        s2 w1 (σ.supply s2 w2)) := by
  have hne2 : w2 ≠ w1 := Ne.symm hne
  have hsn : s2 ≠ s1 := Ne.symm hs
  have hS : I.stores < 4294967296 := by have := hI.stores; omega
  have hsl1 := supply_le_load I σ hC.load hs1 hw1
  have hsl2 := supply_le_load I σ hC.load hs2 hw2
  have hsa1 := supply_le_assigned I σ hC.assigned hs1 hw1
  have hsa2 := supply_le_assigned I σ hC.assigned hs2 hw2
  have hl1T := hC.typed.load w1 hw1
  have hl2T := hC.typed.load w2 hw2
  have ha1T := hC.typed.assigned_goods s1 hs1
  have ha2T := hC.typed.assigned_goods s2 hs2
  have hc1T := hI.capacity w1 hw1
  have hc2T := hI.capacity w2 hw2
  have ham1 := hW.assigned_le s1 hs1
  have ham2 := hW.assigned_le s2 hs2
  -- first call
  have hC1 := revoke_consistent I σ s1 w1 (σ.supply s1 w1) hC hs1 hw1 (le_refl _) hp1
  have hW1 := within_revoke I σ s1 w1 (σ.supply s1 w1) hC hW hs1 hw1 (le_refl _)
  have f1l1 : (WL_Solution.RevokeAssignment I σ s1 w1 (σ.supply s1 w1)).load w1
      = σ.load w1 - σ.supply s1 w1 := by
    simp [WL_Solution.RevokeAssignment, usub_eq_sub hsl1 hl1T]
  have f1l2 : (WL_Solution.RevokeAssignment I σ s1 w1 (σ.supply s1 w1)).load w2
      = σ.load w2 := by
    simp [WL_Solution.RevokeAssignment, hne2]
  have f1s : (WL_Solution.RevokeAssignment I σ s1 w1 (σ.supply s1 w1)).supply s2 w2
      = σ.supply s2 w2 := by
    simp [WL_Solution.RevokeAssignment, hsn]
  have f1a1 : (WL_Solution.RevokeAssignment I σ s1 w1 (σ.supply s1 w1)).assigned_goods s1
      = σ.assigned_goods s1 - σ.supply s1 w1 := by
    simp [WL_Solution.RevokeAssignment, usub_eq_sub hsa1 ha1T]
  have f1a2 : (WL_Solution.RevokeAssignment I σ s1 w1 (σ.supply s1 w1)).assigned_goods s2
      = σ.assigned_goods s2 := by
    simp [WL_Solution.RevokeAssignment, hsn]
  -- the two middle calls, exchanged
  rw [revoke_assign_comm I _ s1 s2 w2 (σ.supply s1 w1) (σ.supply s2 w2) hs
    hC1.typed.opening_cost (by rw [f1l2]; exact hl2T) hp2 (by rw [f1l2]; exact hsl2) hp1
    (by rw [f1l2]; omega)]
  have hC2 := revoke_consistent I _ s2 w2 (σ.supply s2 w2) hC1 hs2 hw2
    (by rw [f1s]) (by rw [f1s]; exact hp2)
  have hW2 := within_revoke I _ s2 w2 (σ.supply s2 w2) hC1 hW1 hs2 hw2 (by rw [f1s])
  have f2l2 : (WL_Solution.RevokeAssignment I
      (WL_Solution.RevokeAssignment I σ s1 w1 (σ.supply s1 w1)) s2 w2 (σ.supply s2 w2)).load w2
      = σ.load w2 - σ.supply s2 w2 := by
    have : (WL_Solution.RevokeAssignment I
      (WL_Solution.RevokeAssignment I σ s1 w1 (σ.supply s1 w1)) s2 w2 (σ.supply s2 w2)).load w2
      = usub ((WL_Solution.RevokeAssignment I σ s1 w1 (σ.supply s1 w1)).load w2)
          (σ.supply s2 w2) := by
      simp [WL_Solution.RevokeAssignment]
    rw [this, f1l2, usub_eq_sub hsl2 hl2T]
  have f2l1 : (WL_Solution.RevokeAssignment I
      (WL_Solution.RevokeAssignment I σ s1 w1 (σ.supply s1 w1)) s2 w2 (σ.supply s2 w2)).load w1
      = σ.load w1 - σ.supply s1 w1 := by
    have : (WL_Solution.RevokeAssignment I
      (WL_Solution.RevokeAssignment I σ s1 w1 (σ.supply s1 w1)) s2 w2 (σ.supply s2 w2)).load w1
      = (WL_Solution.RevokeAssignment I σ s1 w1 (σ.supply s1 w1)).load w1 := by
      simp [WL_Solution.RevokeAssignment, hne]
    rw [this, f1l1]
  have f2a1 : (WL_Solution.RevokeAssignment I
      (WL_Solution.RevokeAssignment I σ s1 w1 (σ.supply s1 w1)) s2 w2
        (σ.supply s2 w2)).assigned_goods s1
      = σ.assigned_goods s1 - σ.supply s1 w1 := by
    have : (WL_Solution.RevokeAssignment I
      (WL_Solution.RevokeAssignment I σ s1 w1 (σ.supply s1 w1)) s2 w2
        (σ.supply s2 w2)).assigned_goods s1
      = (WL_Solution.RevokeAssignment I σ s1 w1 (σ.supply s1 w1)).assigned_goods s1 := by
      simp [WL_Solution.RevokeAssignment, hs]
    rw [this, f1a1]
  have f2a2 : (WL_Solution.RevokeAssignment I
      (WL_Solution.RevokeAssignment I σ s1 w1 (σ.supply s1 w1)) s2 w2
        (σ.supply s2 w2)).assigned_goods s2
      = σ.assigned_goods s2 - σ.supply s2 w2 := by
    have : (WL_Solution.RevokeAssignment I
      (WL_Solution.RevokeAssignment I σ s1 w1 (σ.supply s1 w1)) s2 w2
        (σ.supply s2 w2)).assigned_goods s2
      = usub ((WL_Solution.RevokeAssignment I σ s1 w1 (σ.supply s1 w1)).assigned_goods s2)
          (σ.supply s2 w2) := by
      simp [WL_Solution.RevokeAssignment]
    rw [this, f1a2, usub_eq_sub hsa2 ha2T]
  -- third call
  have hC3 := assign_consistent I _ s1 w2 (σ.supply s1 w1) hS hC2 hs1 hw2 hp1
    (by rw [f2l2]; omega) (by rw [f2a1]; omega)
  have hW3 := within_assign I _ s1 w2 (σ.supply s1 w1) hI hW2 hs1 hw2
    (by rw [f2l2]; exact hc2) (by rw [f2a1]; omega)
  have f3l1 : (WL_Solution.Assign I (WL_Solution.RevokeAssignment I
      (WL_Solution.RevokeAssignment I σ s1 w1 (σ.supply s1 w1)) s2 w2 (σ.supply s2 w2))
      s1 w2 (σ.supply s1 w1)).load w1 = σ.load w1 - σ.supply s1 w1 := by
    have : (WL_Solution.Assign I (WL_Solution.RevokeAssignment I
      (WL_Solution.RevokeAssignment I σ s1 w1 (σ.supply s1 w1)) s2 w2 (σ.supply s2 w2))
      s1 w2 (σ.supply s1 w1)).load w1
      = (WL_Solution.RevokeAssignment I
      (WL_Solution.RevokeAssignment I σ s1 w1 (σ.supply s1 w1)) s2 w2 (σ.supply s2 w2)).load w1
        := by
      simp [WL_Solution.Assign, hne]
    rw [this, f2l1]
  have f3a2 : (WL_Solution.Assign I (WL_Solution.RevokeAssignment I
      (WL_Solution.RevokeAssignment I σ s1 w1 (σ.supply s1 w1)) s2 w2 (σ.supply s2 w2))
      s1 w2 (σ.supply s1 w1)).assigned_goods s2 = σ.assigned_goods s2 - σ.supply s2 w2 := by
    have : (WL_Solution.Assign I (WL_Solution.RevokeAssignment I
      (WL_Solution.RevokeAssignment I σ s1 w1 (σ.supply s1 w1)) s2 w2 (σ.supply s2 w2))
      s1 w2 (σ.supply s1 w1)).assigned_goods s2
      = (WL_Solution.RevokeAssignment I
      (WL_Solution.RevokeAssignment I σ s1 w1 (σ.supply s1 w1)) s2 w2
        (σ.supply s2 w2)).assigned_goods s2 := by
      simp [WL_Solution.Assign, hsn]
    rw [this, f2a2]
  refine ⟨?_, ?_⟩
  · exact assign_consistent I _ s2 w1 (σ.supply s2 w2) hS hC3 hs2 hw1 hp2
      (by rw [f3l1]; omega) (by rw [f3a2]; omega)
  · exact within_assign I _ s2 w1 (σ.supply s2 w2) hI hW3 hs2 hw1
      (by rw [f3l1]; exact hc1) (by rw [f3a2]; omega)

theorem pair_le_sum (n a b : Nat) (f : Nat → Nat) (ha : a < n) (hb : b < n) (hab : a ≠ b) :
    f a + f b ≤ (Finset.range n).sum f := by
  have hsub : ({a, b} : Finset Nat) ⊆ Finset.range n := by
    intro x hx
    simp only [Finset.mem_insert, Finset.mem_singleton] at hx
    rcases hx with rfl | rfl <;> exact Finset.mem_range.2 (by assumption)
  have := Finset.sum_le_sum_of_subset (f := f) hsub
  rwa [Finset.sum_pair hab] at this

/-- Two supplies of one store at different warehouses are together at most what the store
is assigned. -/
theorem supply_pair_le_assigned (I : WL_Instance) (σ : WL_Solution)
    (hA : WL_Solution.AssignedInv I σ) {s a b : Nat} (hs : s < I.stores)
    (ha : a < I.warehouses) (hb : b < I.warehouses) (hab : a ≠ b) :
    σ.supply s a + σ.supply s b ≤ σ.assigned_goods s := by
  rw [hA s hs]
  exact pair_le_sum I.warehouses a b (fun w => σ.supply s w) ha hb hab

/-- The `supply` matrix and the assigned goods after the four calls of an exchange. -/
theorem swap_fields (I : WL_Instance) (σ : WL_Solution) (s1 s2 w1 w2 : Nat)
    (hne : w1 ≠ w2) (hs : s1 ≠ s2)
    (h1 : σ.supply s1 w2 + σ.supply s1 w1 < 4294967296)
    (h2 : σ.supply s2 w1 + σ.supply s2 w2 < 4294967296)
    (ha1T : σ.assigned_goods s1 < 4294967296) (ha2T : σ.assigned_goods s2 < 4294967296) :
    (∀ x y, (WL_Solution.Assign I
        (WL_Solution.RevokeAssignment I
          (WL_Solution.Assign I (WL_Solution.RevokeAssignment I σ s1 w1 (σ.supply s1 w1))
            s1 w2 (σ.supply s1 w1))
          s2 w2 (σ.supply s2 w2))
        s2 w1 (σ.supply s2 w2)).supply x y
      = if x = s1 ∧ y = w1 then 0
        else if x = s1 ∧ y = w2 then σ.supply s1 w2 + σ.supply s1 w1
        else if x = s2 ∧ y = w2 then 0
        else if x = s2 ∧ y = w1 then σ.supply s2 w1 + σ.supply s2 w2
        else σ.supply x y) ∧
    (∀ x, (WL_Solution.Assign I
        (WL_Solution.RevokeAssignment I
          (WL_Solution.Assign I (WL_Solution.RevokeAssignment I σ s1 w1 (σ.supply s1 w1))
            s1 w2 (σ.supply s1 w1))
          s2 w2 (σ.supply s2 w2))
        s2 w1 (σ.supply s2 w2)).assigned_goods x = σ.assigned_goods x) := by
  have hne2 : w2 ≠ w1 := Ne.symm hne
  have hsn : s2 ≠ s1 := Ne.symm hs
  constructor
  · intro x y
    simp only [WL_Solution.Assign, WL_Solution.RevokeAssignment, set2]
    by_cases e1 : x = s1 <;> by_cases e2 : x = s2 <;> by_cases e3 : y = w1 <;>
      by_cases e4 : y = w2 <;>
      simp [e1, e2, e3, e4, hne, hne2, hs, hsn, uadd, usub] <;> omega
  · intro x
    simp only [WL_Solution.Assign, WL_Solution.RevokeAssignment, set1]
    by_cases e1 : x = s1 <;> by_cases e2 : x = s2 <;>
      simp [e1, e2, hs, hsn, uadd, usub] <;> omega

/-- Two different stores supplied by `w` and incompatible with `s` make the counter of
`(w, s)` at least 2. -/
theorem conflictsAt_two (I : WL_Instance) (σ : WL_Solution) (w s a b : Nat)
    (ha : a < I.stores) (hb : b < I.stores) (hab : a ≠ b)
    (pa : 0 < σ.supply a w) (pb : 0 < σ.supply b w)
    (ia : I.incompatible a s = true) (ib : I.incompatible b s = true) :
    2 ≤ WL_Solution.conflictsAt I σ w s := by
  unfold WL_Solution.conflictsAt
  exact Finset.one_lt_card.2
    ⟨a, Finset.mem_filter.2 ⟨Finset.mem_range.2 ha, pa, ia⟩,
     b, Finset.mem_filter.2 ⟨Finset.mem_range.2 hb, pb, ib⟩, hab⟩

/-- When `Incompatibilities(w, s) <= 1`, at most one store supplied by `w` is incompatible
with `s`. -/
theorem incompatibilities_le_one (I : WL_Instance) (σ : WL_Solution) (hI : I.Typed)
    (hC : WL_Solution.Consistent I σ) {w s : Nat} (hw : w < I.warehouses) (hs : s < I.stores)
    (h : WL_Solution.Incompatibilities I σ w s ≤ 1) {a b : Nat}
    (ha : a < I.stores) (hb : b < I.stores)
    (pa : 0 < σ.supply a w) (pb : 0 < σ.supply b w)
    (ia : I.incompatible a s = true) (ib : I.incompatible b s = true) : a = b := by
  by_contra hab
  have h2 := conflictsAt_two I σ w s a b ha hb hab pa pb ia ib
  have hwi := w_incompatible_of_lt_two I σ hI hC hw hs (by omega)
  have hc := hC.counters w s hw hs
  unfold WL_Solution.Incompatibilities at h
  rw [hwi] at h
  simp only [Bool.false_eq_true, if_false] at h
  omega

/-- The application of a move that the enumeration pushes in a sound state (consistent,
within the capacities and demands, no listed pair co-located) leaves a sound state, and
every store is assigned what it was. -/
theorem applyMove_sound (I : WL_Instance) (hI : I.Typed) (hpm : I.PairsInMatrix)
    (hsym : I.IncompatSymm) (σ : WL_Solution) (hS : Sound I σ) (cf : List Nat) (m : Move)
    (hm : MoveOK I σ cf m) :
    Sound I (applyMove I σ m) ∧
    ∀ s, (applyMove I σ m).assigned_goods s = σ.assigned_goods s := by
  obtain ⟨hC, hW, hN⟩ := hS
  obtain ⟨hw1, hw2, hne, hmem, hpmv⟩ := hm
  obtain ⟨hs1, hp1⟩ := (hC.stores m.w1 hw1 m.s1).mp hmem
  have hsl1 := supply_le_load I σ hC.load hs1 hw1
  have hrc2 := residualCapacity_eq I σ hI hW hw2
  have hrc1 := residualCapacity_eq I σ hI hW hw1
  have hl1 := hW.load_le m.w1 hw1
  have hl2 := hW.load_le m.w2 hw2
  have hc1T := hI.capacity m.w1 hw1
  have hc2T := hI.capacity m.w2 hw2
  rcases List.mem_append.mp hpmv with hr | hsw
  · obtain ⟨hinc, hres, _, _, e2, _, _, _⟩ := mem_relocateMove hr
    unfold applyMove
    rw [if_pos e2]
    rw [hrc2] at hres
    have hq : 0 < min (σ.supply m.s1 m.w1) (WL_Solution.ResidualCapacity I σ m.w2) := by
      rw [hrc2]; exact lt_min hp1 (by omega)
    have hqs : min (σ.supply m.s1 m.w1) (WL_Solution.ResidualCapacity I σ m.w2)
        ≤ σ.supply m.s1 m.w1 := min_le_left _ _
    have hqc : σ.load m.w2 + min (σ.supply m.s1 m.w1) (WL_Solution.ResidualCapacity I σ m.w2)
        ≤ I.capacity m.w2 := by
      have := min_le_right (σ.supply m.s1 m.w1) (WL_Solution.ResidualCapacity I σ m.w2)
      rw [hrc2] at this ⊢
      omega
    obtain ⟨c1, c2⟩ := relocate_sound I σ m.s1 m.w1 m.w2 _ hI hC hW hs1 hw1 hw2 hne hq hqs hqc
    obtain ⟨fs, _, fa, _⟩ := relocate_fields I σ m.s1 m.w1 m.w2 _ hC hs1 hw1 hw2 hne hqs
      (by omega)
    refine ⟨⟨c1, c2, ?_⟩, fa⟩
    have hz := (incompatibilities_zero I σ hI hC hw2 hs1 hinc).2
    have key : ∀ x w, 0 < (WL_Solution.Assign I (WL_Solution.RevokeAssignment I σ m.s1 m.w1
          (min (σ.supply m.s1 m.w1) (WL_Solution.ResidualCapacity I σ m.w2))) m.s1 m.w2
          (min (σ.supply m.s1 m.w1) (WL_Solution.ResidualCapacity I σ m.w2))).supply x w →
        0 < σ.supply x w ∨ (x = m.s1 ∧ w = m.w2) := by
      intro x w h
      rw [fs] at h
      by_cases e1 : x = m.s1 ∧ w = m.w2
      · exact Or.inr e1
      · rw [if_neg e1] at h
        by_cases e3 : x = m.s1 ∧ w = m.w1
        · rw [if_pos e3] at h
          rw [e3.1, e3.2]
          exact Or.inl (by omega)
        · rw [if_neg e3] at h
          exact Or.inl h
    intro p hp w hw ⟨h1, h2⟩
    obtain ⟨q1, q2, i12, i21⟩ := hpm p hp
    rcases key _ _ h1 with k1 | k1 <;> rcases key _ _ h2 with k2 | k2
    · exact hN p hp w hw ⟨k1, k2⟩
    · rw [k2.2] at k1
      have := hz p.1 q1 k1
      rw [← k2.1, i12] at this
      exact absurd this (by decide)
    · rw [k1.2] at k2
      have := hz p.2 q2 k2
      rw [← k1.1, i21] at this
      exact absurd this (by decide)
    · exact hN p hp m.w1 hw1 ⟨by rw [k1.1]; exact hp1, by rw [k2.1]; exact hp1⟩
  · obtain ⟨hguard, hmem2, hadm, _, _, _, _, _⟩ := mem_swapMoves hsw
    obtain ⟨hs2, hp2⟩ := (hC.stores m.w2 hw2 m.s2).mp hmem2
    have hsl2 := supply_le_load I σ hC.load hs2 hw2
    obtain ⟨hss, hcase, ha1, ha2⟩ := hadm
    rw [hrc2, uadd_eq_add (by omega)] at ha1
    rw [hrc1, uadd_eq_add (by omega)] at ha2
    unfold applyMove
    rw [if_neg (by omega : ¬ m.s2 = I.stores)]
    have hread : (WL_Solution.Assign I
        (WL_Solution.RevokeAssignment I σ m.s1 m.w1 (σ.supply m.s1 m.w1))
        m.s1 m.w2 (σ.supply m.s1 m.w1)).supply m.s2 m.w2 = σ.supply m.s2 m.w2 := by
      simp [WL_Solution.Assign, WL_Solution.RevokeAssignment, Ne.symm hss]
    rw [hread]
    obtain ⟨c1, c2⟩ := swap_sound I σ m.s1 m.s2 m.w1 m.w2 hI hC hW hs1 hs2 hw1 hw2
      hne hss hp1 hp2 (by omega) (by omega)
    have hr1 := supply_pair_le_assigned I σ hC.assigned hs1 hw2 hw1 (Ne.symm hne)
    have hr2 := supply_pair_le_assigned I σ hC.assigned hs2 hw1 hw2 hne
    have ha1T := hC.typed.assigned_goods m.s1 hs1
    have ha2T := hC.typed.assigned_goods m.s2 hs2
    obtain ⟨fs, fa⟩ := swap_fields I σ m.s1 m.s2 m.w1 m.w2 hne hss (by omega) (by omega)
      ha1T ha2T
    refine ⟨⟨c1, c2, ?_⟩, fa⟩
    have key : ∀ x w, 0 < (WL_Solution.Assign I
        (WL_Solution.RevokeAssignment I
          (WL_Solution.Assign I (WL_Solution.RevokeAssignment I σ m.s1 m.w1 (σ.supply m.s1 m.w1))
            m.s1 m.w2 (σ.supply m.s1 m.w1))
          m.s2 m.w2 (σ.supply m.s2 m.w2))
        m.s2 m.w1 (σ.supply m.s2 m.w2)).supply x w →
        (x = m.s1 ∧ w = m.w2) ∨ (x = m.s2 ∧ w = m.w1) ∨
          (0 < σ.supply x w ∧ ¬ (x = m.s1 ∧ w = m.w1) ∧ ¬ (x = m.s2 ∧ w = m.w2)) := by
      intro x w h
      rw [fs] at h
      by_cases e1 : x = m.s1 ∧ w = m.w1
      · rw [if_pos e1] at h; exact absurd h (lt_irrefl 0)
      · rw [if_neg e1] at h
        by_cases e2 : x = m.s1 ∧ w = m.w2
        · exact Or.inl e2
        · rw [if_neg e2] at h
          by_cases e3 : x = m.s2 ∧ w = m.w2
          · rw [if_pos e3] at h; exact absurd h (lt_irrefl 0)
          · rw [if_neg e3] at h
            by_cases e4 : x = m.s2 ∧ w = m.w1
            · exact Or.inr (Or.inl e4)
            · rw [if_neg e4] at h
              exact Or.inr (Or.inr ⟨h, e1, e3⟩)
    -- a store other than `s2` at `w2` is compatible with `s1`
    have free2 : ∀ x, x < I.stores → 0 < σ.supply x m.w2 → x ≠ m.s2 →
        I.incompatible x m.s1 = true → False := by
      intro x hx px hxs ix
      rcases hcase with ⟨_, hB⟩ | ⟨_, hB⟩
      · have := (incompatibilities_zero I σ hI hC hw2 hs1 hB).2 x hx px
        rw [ix] at this
        exact absurd this (by decide)
      · have is21 : I.incompatible m.s2 m.s1 = true := by rw [hsym m.s2 m.s1 hs2 hs1]; exact hB
        exact hxs (incompatibilities_le_one I σ hI hC hw2 hs1 hguard hx hs2 px hp2 ix is21)
    -- a store other than `s1` at `w1` is compatible with `s2`
    have free1 : ∀ x, x < I.stores → 0 < σ.supply x m.w1 → x ≠ m.s1 →
        I.incompatible x m.s2 = true → False := by
      intro x hx px hxs ix
      rcases hcase with ⟨hA, _⟩ | ⟨hA, hB⟩
      · have := (incompatibilities_zero I σ hI hC hw1 hs2 hA).2 x hx px
        rw [ix] at this
        exact absurd this (by decide)
      · exact hxs (incompatibilities_le_one I σ hI hC hw1 hs2 (by omega) hx hs1 px hp1 ix hB)
    intro p hp w hw ⟨h1, h2⟩
    obtain ⟨q1, q2, i12, i21⟩ := hpm p hp
    rcases key _ _ h1 with k1 | k1 | k1 <;> rcases key _ _ h2 with k2 | k2 | k2
    · exact hN p hp m.w1 hw1 ⟨by rw [k1.1]; exact hp1, by rw [k2.1]; exact hp1⟩
    · exact hne (k2.2.symm.trans k1.2)
    · have e : w = m.w2 := k1.2
      rw [e] at k2
      exact free2 p.2 q2 k2.1 (fun h => k2.2.2 ⟨h, rfl⟩) (by rw [← k1.1]; exact i21)
    · exact hne (k1.2.symm.trans k2.2)
    · exact hN p hp m.w2 hw2 ⟨by rw [k1.1]; exact hp2, by rw [k2.1]; exact hp2⟩
    · have e : w = m.w1 := k1.2
      rw [e] at k2
      exact free1 p.2 q2 k2.1 (fun h => k2.2.1 ⟨h, rfl⟩) (by rw [← k1.1]; exact i21)
    · have e : w = m.w2 := k2.2
      rw [e] at k1
      exact free2 p.1 q1 k1.1 (fun h => k1.2.2 ⟨h, rfl⟩) (by rw [← k2.1]; exact i12)
    · have e : w = m.w1 := k2.2
      rw [e] at k1
      exact free1 p.1 q1 k1.1 (fun h => k1.2.1 ⟨h, rfl⟩) (by rw [← k2.1]; exact i12)
    · exact hN p hp w hw ⟨k1.1, k2.1⟩

/-- C27: on an instance whose data fit an `unsigned` and whose `incompatible` matrix is
symmetric and holds the listed pairs (as the file reader builds it), for every feasible
solution state (consistent, every demand met, no load above capacity, no listed pair
co-located) and every move that the enumeration of `LocalSearch` or of the inner loop of
the iterated search pushes from it (for any invalid and forbidden sets), applying the move
to that state yields a feasible solution: every store's assigned total is unchanged, no
warehouse exceeds its capacity, and no two incompatible stores share a warehouse. -/
theorem move_keeps_feasible (I : WL_Instance) (hI : I.Typed) (hpm : I.PairsInMatrix)
    (hsym : I.IncompatSymm) (σ : WL_Solution) (hS : Sound I σ) (hD : DemandMet I σ)
    (inv cf opf : List Nat) (hinv : ∀ w, w ∈ inv → w < I.warehouses)
    (m : Move) (hm : m ∈ enumerateMoves I σ inv cf opf) :
    (∀ s, (applyMove I σ m).assigned_goods s = σ.assigned_goods s) ∧
    (∀ w, w < I.warehouses → (applyMove I σ m).load w ≤ I.capacity w) ∧
    NoConflict I (applyMove I σ m) ∧
    Sound I (applyMove I σ m) ∧ DemandMet I (applyMove I σ m) ∧
    IsFeasible I (applyMove I σ m) := by
  obtain ⟨hS2, ha⟩ := applyMove_sound I hI hpm hsym σ hS cf m
    (mem_enumerateMoves I σ inv cf opf hinv m hm)
  have hD2 : DemandMet I (applyMove I σ m) := fun s hs => by rw [ha s]; exact hD s hs
  refine ⟨ha, hS2.within.load_le, hS2.noConflict, hS2, hD2, hD2, hS2.within.load_le, ?_⟩
  exact computeViolations_of_feasible I _ (fun s hs => le_of_eq (hD2 s hs).symm)
    hS2.within.load_le hS2.noConflict

theorem instRelocate_pairs : instRelocate.PairsInMatrix := by
  intro p hp
  exact absurd hp (List.not_mem_nil _)

theorem instRelocate_symm : instRelocate.IncompatSymm := by
  intro a b ha hb
  have ha2 : a < 1 := ha
  have hb2 : b < 1 := hb
  interval_cases a; interval_cases b; rfl

/-- C27 on `instRelocate`, for the relocation of the store from warehouse 0 to warehouse 1
that the enumeration pushes from `solRelocate`. -/
theorem move_keeps_feasible_witness :
    ({ s1 := 0, s2 := 1, w1 := 0, w2 := 1, improvement := 8 } : Move)
      ∈ enumerateMoves instRelocate solRelocate [0, 1] [] [] ∧
    IsFeasible instRelocate
      (applyMove instRelocate solRelocate
        { s1 := 0, s2 := 1, w1 := 0, w2 := 1, improvement := 8 }) :=
  ⟨by decide!,
    (move_keeps_feasible instRelocate instRelocate_typed instRelocate_pairs instRelocate_symm
      solRelocate solRelocate_sound solRelocate_demandMet [0, 1] [] []
      (by intro w hw; simp at hw; rcases hw with rfl | rfl <;> decide)
      { s1 := 0, s2 := 1, w1 := 0, w2 := 1, improvement := 8 } (by decide!)).2.2.2.2.2⟩

/-! ## The generation of an exchange -/

/-- When every position that a roulette draw can name holds a warehouse without residual
capacity or with an incompatibility for `s`, the promotion loop returns on no stream. -/
theorem roulettePromote_none (I : WL_Instance) (σ : WL_Solution) (s : Nat)
    (st : RouletteState)
    (hbad : ∀ w, w ∈ List.range' st.n_open (I.warehouses - st.n_open) →
      ¬ (WL_Solution.ResidualCapacity I σ (st.warehouses.getD w 0) ≠ 0 ∧
        WL_Solution.Incompatibilities I σ (st.warehouses.getD w 0) s = 0)) :
    ∀ rng : Rng, roulettePromote I σ s rng st = none := by
  intro rng
  induction rng with
  | nil => rfl
  | cons r rng1 ih =>
    unfold roulettePromote
    cases hp : roulettePick I st.warehouses st.relative_cost_sum ((r : ℚ) / (RAND_MAX : ℚ))
        (List.range' st.n_open (I.warehouses - st.n_open)) 0 with
    | none => exact ih
    | some w =>
      have hw := (roulettePick_spec I _ _ _ _ _ w hp).1
      simp only [if_neg (hbad w hw)]
      exact ih

/-- A store with residual demand, no admissible open candidate and a closed warehouse left:
when the promotion loop does not return, the loop of the store does not either. -/
theorem rouletteFill_stuck (I : WL_Instance) (s : Nat) (σ : WL_Solution) (st : RouletteState)
    (hres : WL_Solution.ResidualAmount I σ s ≠ 0)
    (hbest : bestOpen I σ s (st.warehouses.take st.n_open) = I.warehouses)
    (hclosed : st.n_open < I.warehouses)
    (hloop : ∀ rng : Rng, roulettePromote I σ s rng st = none) :
    ∀ (fuel : Nat) (rng : Rng), rouletteFill I s fuel σ st rng = none := by
  intro fuel rng
  cases fuel with
  | zero => rfl
  | succ n =>
    unfold rouletteFill
    rw [if_neg hres]
    simp only [hbest, if_true, if_pos hclosed, hloop rng]

/-- One pass of the loop of a store that an open candidate can serve. -/
theorem rouletteFill_open (I : WL_Instance) (s : Nat) (σ : WL_Solution) (st : RouletteState)
    (fuel : Nat) (rng : Rng)
    (hres : WL_Solution.ResidualAmount I σ s ≠ 0)
    (hbest : bestOpen I σ s (st.warehouses.take st.n_open) ≠ I.warehouses) :
    rouletteFill I s (fuel + 1) σ st rng
      = rouletteFill I s fuel
          (WL_Solution.Assign I σ s (bestOpen I σ s (st.warehouses.take st.n_open))
            (min (WL_Solution.ResidualAmount I σ s)
              (WL_Solution.ResidualCapacity I σ
                (bestOpen I σ s (st.warehouses.take st.n_open)))))
          st rng := by
  conv_lhs => unfold rouletteFill
  rw [if_neg hres]
  simp only [if_neg hbest]

/-- The completion phase when the first store is served and the loop of the second one
does not return. -/
theorem rouletteComplete_stuck (I : WL_Instance) (s0 s1 : Nat) (rest : List Nat)
    (σ : WL_Solution) (st : RouletteState)
    (h0 : WL_Solution.ResidualAmount I σ s0 = 0)
    (h1 : ∀ (fuel : Nat) (rng : Rng), rouletteFill I s1 fuel σ st rng = none) :
    ∀ (fuel : Nat) (rng : Rng), rouletteComplete I fuel (s0 :: s1 :: rest) σ st rng = none := by
  intro fuel rng
  cases fuel with
  | zero => rfl
  | succ n =>
    have hf : rouletteFill I s0 (n + 1) σ st rng = some (some (σ, st), rng) := by
      unfold rouletteFill
      rw [if_pos h0]
    simp only [rouletteComplete, hf, h1]

theorem rouletteOpen_pick (I : WL_Instance) (total_demand r : Nat) (rng1 : Rng)
    (st : RouletteState) (w : Nat) (hlt : st.total_capacity < total_demand)
    (hp : roulettePick I st.warehouses st.relative_cost_sum ((r : ℚ) / (RAND_MAX : ℚ))
      (List.range' st.n_open (I.warehouses - st.n_open)) 0 = some w) :
    rouletteOpen I total_demand (r :: rng1) st = rouletteOpen I total_demand rng1 (st.promote I w) := by
  conv_lhs => unfold rouletteOpen
  rw [if_pos hlt]
  simp only [hp]

theorem rouletteOpen_stop (I : WL_Instance) (total_demand r : Nat) (rng1 : Rng)
    (st : RouletteState) (hge : ¬ st.total_capacity < total_demand) :
    rouletteOpen I total_demand (r :: rng1) st = some (st, r :: rng1) := by
  unfold rouletteOpen
  rw [if_neg hge]

theorem seedPhase_cons (I : WL_Instance) (σ σ2 : WL_Solution) (rng rng2 : Rng) (wh : Nat)
    (rest : List Nat) (h : seedStep I σ rng wh = some (σ2, rng2)) :
    seedPhase I (wh :: rest) σ rng = seedPhase I rest σ2 rng2 := by
  conv_lhs => unfold seedPhase
  simp only [h]

theorem rouletteAttempt_none (I : WL_Instance) (fuel : Nat) (rng rng1 rng2 : Rng)
    (st : RouletteState) (σ : WL_Solution)
    (h1 : rouletteOpen I (totalDemand I) rng
      { warehouses := List.range I.warehouses
        n_open := 0
        total_capacity := 0
        relative_cost_sum := initialCostSum I } = some (st, rng1))
    (h2 : seedPhase I (st.warehouses.take st.n_open) (WL_Solution.create I) rng1
      = some (σ, rng2))
    (h3 : rouletteComplete I fuel (List.range I.stores) σ st rng2 = none) :
    rouletteAttempt I fuel rng = none := by
  unfold rouletteAttempt
  rw [h1, Option.some_bind, h2, Option.some_bind, h3]

theorem rouletteRestart_none (I : WL_Instance) (fuel : Nat) (rng : Rng)
    (h : rouletteAttempt I fuel rng = none) :
    ∀ n : Nat, rouletteRestart I fuel n rng = none := by
  intro n
  cases n with
  | zero => rfl
  | succ k => simp only [rouletteRestart, h]

theorem greedyFill_infeasible (I : WL_Instance) (s : Nat) (σ : WL_Solution)
    (warehouses : List Nat) (last_open fuel : Nat)
    (hres : WL_Solution.ResidualAmount I σ s ≠ 0)
    (hbest : bestOpen I σ s (warehouses.take (last_open + 1)) = I.warehouses)
    (hnext : ¬ findNext I σ s (warehouses.drop (last_open + 1)) (last_open + 1)
      < I.warehouses) :
    greedyFill I s (fuel + 1) σ warehouses last_open = some none := by
  unfold greedyFill
  rw [if_neg hres]
  simp only [hbest, if_true, if_neg hnext]

theorem stuck_open (tail : Rng) :
    rouletteOpen instStuckReduced (totalDemand instStuckReduced) (0 :: 0 :: 0 :: 2 :: tail)
      { warehouses := List.range instStuckReduced.warehouses
        n_open := 0
        total_capacity := 0
        relative_cost_sum := initialCostSum instStuckReduced }
      = some (stStuck, 0 :: 2 :: tail) := by
  have e1 := rouletteOpen_pick instStuckReduced (totalDemand instStuckReduced) 0
    (0 :: 0 :: 2 :: tail)
    { warehouses := List.range instStuckReduced.warehouses
      n_open := 0
      total_capacity := 0
      relative_cost_sum := initialCostSum instStuckReduced } 0 (by decide) (by decide!)
  have e2 := rouletteOpen_pick instStuckReduced (totalDemand instStuckReduced) 0
    (0 :: 2 :: tail)
    (RouletteState.promote instStuckReduced
      { warehouses := List.range instStuckReduced.warehouses
        n_open := 0
        total_capacity := 0
        relative_cost_sum := initialCostSum instStuckReduced } 0) 1 (by decide) (by decide!)
  have hst : RouletteState.promote instStuckReduced
      (RouletteState.promote instStuckReduced
        { warehouses := List.range instStuckReduced.warehouses
          n_open := 0
          total_capacity := 0
          relative_cost_sum := initialCostSum instStuckReduced } 0) 1 = stStuck := by decide!
  rw [hst] at e2
  have e3 := rouletteOpen_stop instStuckReduced (totalDemand instStuckReduced) 0 (2 :: tail)
    stStuck (by decide)
  exact e1.trans (e2.trans e3)

theorem stuck_seed (tail : Rng) :
    seedPhase instStuckReduced (stStuck.warehouses.take stStuck.n_open)
      (WL_Solution.create instStuckReduced) (0 :: 2 :: tail) = some (solStuckSeed, tail) := by
  have h0 : seedStep instStuckReduced (WL_Solution.create instStuckReduced) (0 :: 2 :: tail) 0
      = some (WL_Solution.Assign instStuckReduced (WL_Solution.create instStuckReduced) 0 0 2,
          2 :: tail) :=
    seedStep_first instStuckReduced (WL_Solution.create instStuckReduced) 0 0 (2 :: tail)
      (by decide) (by decide) (by decide)
  have h1 : seedStep instStuckReduced
      (WL_Solution.Assign instStuckReduced (WL_Solution.create instStuckReduced) 0 0 2)
      (2 :: tail) 1 = some (solStuckSeed, tail) :=
    seedStep_first instStuckReduced
      (WL_Solution.Assign instStuckReduced (WL_Solution.create instStuckReduced) 0 0 2)
      1 2 tail (by decide) (by decide) (by decide)
  have hl : stStuck.warehouses.take stStuck.n_open = [0, 1] := by decide
  rw [hl]
  exact (seedPhase_cons instStuckReduced _ _ _ _ 0 [1] h0).trans
    (seedPhase_single instStuckReduced _ _ _ _ 1 h1)

theorem stuck_bad : ∀ w, w ∈ List.range' stStuck.n_open
      (instStuckReduced.warehouses - stStuck.n_open) →
    ¬ (WL_Solution.ResidualCapacity instStuckReduced solStuck (stStuck.warehouses.getD w 0) ≠ 0 ∧
      WL_Solution.Incompatibilities instStuckReduced solStuck
        (stStuck.warehouses.getD w 0) 1 = 0) := by decide

theorem stuck_fill (fuel : Nat) (rng : Rng) :
    rouletteFill instStuckReduced 1 fuel solStuckSeed stStuck rng = none := by
  cases fuel with
  | zero => rfl
  | succ n =>
    have hb : bestOpen instStuckReduced solStuckSeed 1
        (stStuck.warehouses.take stStuck.n_open) = 1 := by decide!
    have h := rouletteFill_open instStuckReduced 1 solStuckSeed stStuck n rng (by decide)
      (by rw [hb]; decide)
    rw [hb] at h
    have hmin : min (WL_Solution.ResidualAmount instStuckReduced solStuckSeed 1)
        (WL_Solution.ResidualCapacity instStuckReduced solStuckSeed 1) = 1 := by decide
    rw [hmin] at h
    rw [h]
    exact rouletteFill_stuck instStuckReduced 1 solStuck stStuck (by decide) (by decide!)
      (by decide) (roulettePromote_none instStuckReduced solStuck 1 stStuck stuck_bad) n rng

theorem stuck_attempt (fuel : Nat) (tail : Rng) :
    rouletteAttempt instStuckReduced fuel (0 :: 0 :: 0 :: 2 :: tail) = none := by
  have hr : List.range instStuckReduced.stores = [0, 1, 2] := by decide
  refine rouletteAttempt_none instStuckReduced fuel _ _ _ stStuck solStuckSeed
    (stuck_open tail) (stuck_seed tail) ?_
  rw [hr]
  exact rouletteComplete_stuck instStuckReduced 0 1 [2] solStuckSeed stStuck (by decide)
    stuck_fill fuel tail

/-- C29, the code at the failing input. On `instStuckReduced`, in the state `solStuck` of
the roulette constructor (open candidates 0 and 1, warehouse 2 closed), store 1 has one
unit of residual demand, no open candidate can take it (`best_w` stays `Warehouses()`), and
the only closed warehouse has residual capacity 4 but `Incompatibilities(2, 1) == 2`. The
promotion loop of `InitialSolutionRandomOpening` then returns on no stream, and the
constructor returns on no stream that starts with `0, 0, 0, 2` (the draws that lead to this
state), for any bound on its loops; the loop of `InitialSolutionGreedyOpening` in the same
state declares the attempt infeasible. The instance is not infeasible: on the stream
`0, 0, 0, 1` the roulette constructor returns. -/
theorem roulette_promotion_stuck :
    WL_Solution.ResidualAmount instStuckReduced solStuck 1 = 1 ∧
    bestOpen instStuckReduced solStuck 1 (stStuck.warehouses.take stStuck.n_open)
      = instStuckReduced.warehouses ∧
    stStuck.n_open < instStuckReduced.warehouses ∧
    WL_Solution.ResidualCapacity instStuckReduced solStuck 2 = 4 ∧
    WL_Solution.Incompatibilities instStuckReduced solStuck 2 1 = 2 ∧
    (∀ rng : Rng, roulettePromote instStuckReduced solStuck 1 rng stStuck = none) ∧
    (∀ (fuel : Nat) (rng : Rng),
      rouletteFill instStuckReduced 1 fuel solStuck stStuck rng = none) ∧
    (∀ (fuel : Nat) (tail : Rng),
      InitialSolutionRandomOpening instStuckReduced fuel (0 :: 0 :: 0 :: 2 :: tail) = none) ∧
    (∀ fuel : Nat,
      greedyFill instStuckReduced 1 (fuel + 1) solStuck [0, 1, 2] 1 = some none) ∧
    (InitialSolutionRandomOpening instStuckReduced 5 [0, 0, 0, 1]).isSome = true := by
  have hloop := roulettePromote_none instStuckReduced solStuck 1 stStuck stuck_bad
  refine ⟨by decide, by decide!, by decide, by decide, by decide, hloop, ?_, ?_, ?_, by decide!⟩
  · exact rouletteFill_stuck instStuckReduced 1 solStuck stStuck (by decide) (by decide!)
      (by decide) hloop
  · intro fuel tail
    exact rouletteRestart_none instStuckReduced fuel _ (stuck_attempt fuel tail) fuel
  · intro fuel
    exact greedyFill_infeasible instStuckReduced 1 solStuck [0, 1, 2] 1 fuel (by decide)
      (by decide!) (by decide)


/-! ## The relocation of a store to a cheaper warehouse by `LocalSearch` -/

theorem instShift_typed : instShift.Typed := by
  constructor
  · decide
  · decide
  · intro w hw
    have h1 : w < 2 := hw
    interval_cases w <;> decide
  · intro w hw
    have h1 : w < 2 := hw
    interval_cases w <;> decide
  · intro s hs
    have h1 : s < 2 := hs
    interval_cases s <;> decide
  · decide

theorem solShift_consistent : WL_Solution.Consistent instShift solShift :=
  assign_consistent instShift _ 1 0 3 (by decide)
    (assign_consistent instShift _ 0 0 4 (by decide) (consistent_create instShift)
      (by decide) (by decide) (by decide) (by decide) (by decide))
    (by decide) (by decide) (by decide) (by decide) (by decide)

theorem solShift_within : WL_Solution.Within instShift solShift := by
  constructor
  · intro w hw
    have h1 : w < 2 := hw
    interval_cases w <;> decide
  · intro s hs
    have h1 : s < 2 := hs
    interval_cases s <;> decide


/-! ## The redistribution of perturbation operator 4 -/

/-- The triple that the loops of operator 4 leave, when they leave one, has passed their
tests on the loads and the capacities. -/
theorem chooseTriple4_spec (I : WL_Instance) (σ : WL_Solution)
    (h : (chooseTriple4 I σ).best_fc_improvement ≠ 0) : Chosen4 I σ (chooseTriple4 I σ) := by
  have key : (chooseTriple4 I σ).best_fc_improvement = 0 ∨ Chosen4 I σ (chooseTriple4 I σ) := by
    unfold chooseTriple4
    apply foldl_invariant (fun t => t.best_fc_improvement = 0 ∨ Chosen4 I σ t)
    · exact Or.inl rfl
    · intro acc1 w1 hw1 h1
      rw [List.mem_range] at hw1
      split
      · next c1 =>
        apply foldl_invariant (fun t => t.best_fc_improvement = 0 ∨ Chosen4 I σ t)
        · exact h1
        · intro acc2 w2 hw2 h2
          rw [List.mem_range] at hw2
          split
          · next c2 =>
            apply foldl_invariant (fun t => t.best_fc_improvement = 0 ∨ Chosen4 I σ t)
            · exact h2
            · intro acc3 w3 hw3 h3
              rw [List.mem_range'_1] at hw3
              split
              · next c3 =>
                right
                exact ⟨hw1, hw2, (by show w3 < I.warehouses; omega),
                  (by show w2 < w3; omega), c1.1, c2.1, c3.1, c3.2.2.1⟩
              · exact h3
          · exact h2
      · exact h1
  exact key.resolve_left h

/-- An `Assign` of a positive quantity within the residual amount and the residual
capacity: the state stays consistent and within the bounds, and the written fields are the
plain sums. -/
theorem assign_within (I : WL_Instance) (hI : I.Typed) (σ : WL_Solution) (s w q : Nat)
    (hC : WL_Solution.Consistent I σ) (hW : WL_Solution.Within I σ)
    (hs : s < I.stores) (hw : w < I.warehouses) (hq : 0 < q)
    (hqa : σ.assigned_goods s + q ≤ I.amount_of_goods s)
    (hqc : σ.load w + q ≤ I.capacity w) :
    WL_Solution.Consistent I (WL_Solution.Assign I σ s w q) ∧
    WL_Solution.Within I (WL_Solution.Assign I σ s w q) ∧
    (∀ a b, (WL_Solution.Assign I σ s w q).supply a b
      = if a = s ∧ b = w then σ.supply s w + q else σ.supply a b) ∧
    (∀ b, (WL_Solution.Assign I σ s w q).load b
      = if b = w then σ.load w + q else σ.load b) ∧
    (∀ a, (WL_Solution.Assign I σ s w q).assigned_goods a
      = if a = s then σ.assigned_goods s + q else σ.assigned_goods a) ∧
    (∀ b, b ≠ w → (WL_Solution.Assign I σ s w q).supplied_stores b = σ.supplied_stores b) := by
  have hcT := hI.capacity w hw
  have haT := hI.amount_of_goods s hs
  have hsl := supply_le_load I σ hC.load hs hw
  obtain ⟨f1, f2, f3⟩ := assign_fields I σ s w q (by omega) (by omega) (by omega)
  refine ⟨assign_consistent I σ s w q (by have := hI.stores; omega) hC hs hw hq (by omega)
      (by omega), within_assign I σ s w q hI hW hs hw hqc hqa, f1, f2, f3, ?_⟩
  intro b hb
  simp only [WL_Solution.Assign]
  split
  · simp [set1, hb]
  · rfl

/-- The goods of store `s` placed at two warehouses: `x > 0` at `wa` and then, when
`y` is not 0, `y` at `wb`. -/
theorem assign_pair (I : WL_Instance) (hI : I.Typed) (ρ : WL_Solution) (s wa wb x y : Nat)
    (hC : WL_Solution.Consistent I ρ) (hW : WL_Solution.Within I ρ)
    (hs : s < I.stores) (hwa : wa < I.warehouses) (hwb : wb < I.warehouses) (hab : wa ≠ wb)
    (hx : 0 < x) (hamt : ρ.assigned_goods s + x + y ≤ I.amount_of_goods s)
    (hca : ρ.load wa + x ≤ I.capacity wa) (hcb : ρ.load wb + y ≤ I.capacity wb)
    (τ : WL_Solution)
    (hτ : τ = if y ≠ 0 then WL_Solution.Assign I (WL_Solution.Assign I ρ s wa x) s wb y
      else WL_Solution.Assign I ρ s wa x) :
    WL_Solution.Consistent I τ ∧ WL_Solution.Within I τ ∧
    τ.supply s wa = ρ.supply s wa + x ∧ τ.supply s wb = ρ.supply s wb + y ∧
    (∀ a b, ¬ (a = s ∧ (b = wa ∨ b = wb)) → τ.supply a b = ρ.supply a b) ∧
    τ.load wa = ρ.load wa + x ∧ τ.load wb = ρ.load wb + y ∧
    (∀ b, b ≠ wa → b ≠ wb → τ.load b = ρ.load b) ∧
    τ.assigned_goods s = ρ.assigned_goods s + (x + y) ∧
    (∀ a, a ≠ s → τ.assigned_goods a = ρ.assigned_goods a) ∧
    (∀ b, b ≠ wa → b ≠ wb → τ.supplied_stores b = ρ.supplied_stores b) := by
  have hba : wb ≠ wa := Ne.symm hab
  obtain ⟨a1, a2, a3, a4, a5, a6⟩ := assign_within I hI ρ s wa x hC hW hs hwa hx (by omega) hca
  by_cases hy : y ≠ 0
  · rw [if_pos hy] at hτ
    obtain ⟨b1, b2, b3, b4, b5, b6⟩ := assign_within I hI _ s wb y a1 a2 hs hwb (by omega)
      (by rw [a5, if_pos rfl]; omega) (by rw [a4, if_neg hba]; omega)
    subst hτ
    refine ⟨b1, b2, ?_, ?_, ?_, ?_, ?_, ?_, ?_, ?_, ?_⟩
    · rw [b3, if_neg (fun h => hab h.2), a3, if_pos ⟨rfl, rfl⟩]
    · rw [b3, if_pos ⟨rfl, rfl⟩, a3, if_neg (fun h => hba h.2)]
    · intro a b h
      rw [b3, if_neg (fun e => h ⟨e.1, Or.inr e.2⟩), a3, if_neg (fun e => h ⟨e.1, Or.inl e.2⟩)]
    · rw [b4, if_neg hab, a4, if_pos rfl]
    · rw [b4, if_pos rfl, a4, if_neg hba]
    · intro b h1 h2
      rw [b4, if_neg h2, a4, if_neg h1]
    · rw [b5, if_pos rfl, a5, if_pos rfl]; omega
    · intro a h
      rw [b5, if_neg h, a5, if_neg h]
    · intro b h1 h2
      rw [b6 b h2, a6 b h1]
  · rw [if_neg hy] at hτ
    have hy0 : y = 0 := by omega
    subst hτ
    subst hy0
    refine ⟨a1, a2, ?_, ?_, ?_, ?_, ?_, ?_, ?_, ?_, ?_⟩
    · rw [a3, if_pos ⟨rfl, rfl⟩]
    · rw [a3, if_neg (fun h => hba h.2)]; rfl
    · intro a b h
      rw [a3, if_neg (fun e => h ⟨e.1, Or.inl e.2⟩)]
    · rw [a4, if_pos rfl]
    · rw [a4, if_neg hba]; rfl
    · intro b h1 _
      rw [a4, if_neg h1]
    · rw [a5, if_pos rfl]; rfl
    · intro a h
      rw [a5, if_neg h]
    · intro b h1 _
      exact a6 b h1

/-- The body of the loop of operator 4 after the revocation of store `s`, which has `q`
goods to place, when `w2` and `w3` together have room for them: `x` goods go to `w2` and
`y` to `w3`, with `x + y = q`, and the dearer of the two receives goods only when the
cheaper one is full afterwards. -/
theorem splitAssign_spec (I : WL_Instance) (hI : I.Typed) (ρ : WL_Solution) (s w2 w3 q : Nat)
    (hC : WL_Solution.Consistent I ρ) (hW : WL_Solution.Within I ρ)
    (hs : s < I.stores) (hw2 : w2 < I.warehouses) (hw3 : w3 < I.warehouses) (h23 : w2 ≠ w3)
    (hq : 0 < q) (hres : ρ.assigned_goods s + q = I.amount_of_goods s)
    (hroom : ρ.load w2 + ρ.load w3 + q ≤ I.capacity w2 + I.capacity w3) :
    ∃ x y, x + y = q ∧
      WL_Solution.Consistent I (splitAssign I ρ s w2 w3) ∧
      WL_Solution.Within I (splitAssign I ρ s w2 w3) ∧
      (splitAssign I ρ s w2 w3).supply s w2 = ρ.supply s w2 + x ∧
      (splitAssign I ρ s w2 w3).supply s w3 = ρ.supply s w3 + y ∧
      (∀ a b, ¬ (a = s ∧ (b = w2 ∨ b = w3)) →
        (splitAssign I ρ s w2 w3).supply a b = ρ.supply a b) ∧
      (splitAssign I ρ s w2 w3).load w2 = ρ.load w2 + x ∧
      (splitAssign I ρ s w2 w3).load w3 = ρ.load w3 + y ∧
      (∀ b, b ≠ w2 → b ≠ w3 → (splitAssign I ρ s w2 w3).load b = ρ.load b) ∧
      (splitAssign I ρ s w2 w3).assigned_goods s = ρ.assigned_goods s + q ∧
      (∀ a, a ≠ s → (splitAssign I ρ s w2 w3).assigned_goods a = ρ.assigned_goods a) ∧
      (∀ b, b ≠ w2 → b ≠ w3 → (splitAssign I ρ s w2 w3).supplied_stores b
        = ρ.supplied_stores b) ∧
      (I.supply_cost s w2 < I.supply_cost s w3 → 0 < y → ρ.load w2 + x = I.capacity w2) ∧
      (¬ I.supply_cost s w2 < I.supply_cost s w3 → 0 < x → ρ.load w3 + y = I.capacity w3) := by
  have h32 : w3 ≠ w2 := Ne.symm h23
  have hra : WL_Solution.ResidualAmount I ρ s = q := by
    rw [residualAmount_eq I ρ hI hW hs]; omega
  have hrc2 := residualCapacity_eq I ρ hI hW hw2
  have hrc3 := residualCapacity_eq I ρ hI hW hw3
  have hl2 := hW.load_le w2 hw2
  have hl3 := hW.load_le w3 hw3
  unfold splitAssign
  rw [hra]
  by_cases c2 : WL_Solution.ResidualCapacity I ρ w2 ≠ 0
  · rw [if_pos c2]
    by_cases c3 : WL_Solution.ResidualCapacity I ρ w3 ≠ 0
    · rw [if_pos c3]
      rw [hrc2] at c2
      rw [hrc3] at c3
      by_cases cc : I.supply_cost s w2 < I.supply_cost s w3
      · rw [if_pos cc, hrc2]
        have hx0 : 0 < min q (I.capacity w2 - ρ.load w2) := lt_min hq (by omega)
        have hxq : min q (I.capacity w2 - ρ.load w2) ≤ q := min_le_left _ _
        have hxr : min q (I.capacity w2 - ρ.load w2) ≤ I.capacity w2 - ρ.load w2 :=
          min_le_right _ _
        have hch := min_choice q (I.capacity w2 - ρ.load w2)
        obtain ⟨_, a2, _, _, a5, _⟩ := assign_within I hI ρ s w2
          (min q (I.capacity w2 - ρ.load w2)) hC hW hs hw2 hx0 (by omega) (by omega)
        have hra1 : WL_Solution.ResidualAmount I
            (WL_Solution.Assign I ρ s w2 (min q (I.capacity w2 - ρ.load w2))) s
            = q - min q (I.capacity w2 - ρ.load w2) := by
          rw [residualAmount_eq I _ hI a2 hs, a5, if_pos rfl]; omega
        rw [hra1]
        generalize hτ : (if q - min q (I.capacity w2 - ρ.load w2) ≠ 0 then
            WL_Solution.Assign I
              (WL_Solution.Assign I ρ s w2 (min q (I.capacity w2 - ρ.load w2))) s w3
              (q - min q (I.capacity w2 - ρ.load w2))
          else WL_Solution.Assign I ρ s w2 (min q (I.capacity w2 - ρ.load w2))) = τ
        obtain ⟨r1, r2, r3, r4, r5, r6, r7, r8, r9, r10, r11⟩ :=
          assign_pair I hI ρ s w2 w3 (min q (I.capacity w2 - ρ.load w2))
            (q - min q (I.capacity w2 - ρ.load w2)) hC hW hs hw2 hw3 h23 hx0 (by omega)
            (by omega) (by rcases hch with h | h <;> omega) τ hτ.symm
        exact ⟨min q (I.capacity w2 - ρ.load w2), q - min q (I.capacity w2 - ρ.load w2),
          by omega, r1, r2, r3, r4, r5, r6, r7, r8, by rw [r9]; omega, r10, r11,
          fun _ hy => by rcases hch with h | h <;> omega, fun h => absurd cc h⟩
      · rw [if_neg cc, hrc3]
        have hx0 : 0 < min q (I.capacity w3 - ρ.load w3) := lt_min hq (by omega)
        have hxq : min q (I.capacity w3 - ρ.load w3) ≤ q := min_le_left _ _
        have hxr : min q (I.capacity w3 - ρ.load w3) ≤ I.capacity w3 - ρ.load w3 :=
          min_le_right _ _
        have hch := min_choice q (I.capacity w3 - ρ.load w3)
        obtain ⟨_, a2, _, _, a5, _⟩ := assign_within I hI ρ s w3
          (min q (I.capacity w3 - ρ.load w3)) hC hW hs hw3 hx0 (by omega) (by omega)
        have hra1 : WL_Solution.ResidualAmount I
            (WL_Solution.Assign I ρ s w3 (min q (I.capacity w3 - ρ.load w3))) s
            = q - min q (I.capacity w3 - ρ.load w3) := by
          rw [residualAmount_eq I _ hI a2 hs, a5, if_pos rfl]; omega
        rw [hra1]
        generalize hτ : (if q - min q (I.capacity w3 - ρ.load w3) ≠ 0 then
            WL_Solution.Assign I
              (WL_Solution.Assign I ρ s w3 (min q (I.capacity w3 - ρ.load w3))) s w2
              (q - min q (I.capacity w3 - ρ.load w3))
          else WL_Solution.Assign I ρ s w3 (min q (I.capacity w3 - ρ.load w3))) = τ
        obtain ⟨r1, r2, r3, r4, r5, r6, r7, r8, r9, r10, r11⟩ :=
          assign_pair I hI ρ s w3 w2 (min q (I.capacity w3 - ρ.load w3))
            (q - min q (I.capacity w3 - ρ.load w3)) hC hW hs hw3 hw2 h32 hx0 (by omega)
            (by omega) (by rcases hch with h | h <;> omega) τ hτ.symm
        exact ⟨q - min q (I.capacity w3 - ρ.load w3), min q (I.capacity w3 - ρ.load w3),
          by omega, r1, r2, r4, r3, fun a b h => r5 a b (fun e => h ⟨e.1, e.2.symm⟩),
          r7, r6, fun b h2 h3 => r8 b h3 h2, by rw [r9]; omega, r10,
          fun b h2 h3 => r11 b h3 h2,
          fun h => absurd h cc, fun _ hx => by rcases hch with h | h <;> omega⟩
    · rw [if_neg c3]
      rw [hrc2] at c2
      rw [hrc3] at c3
      obtain ⟨r1, r2, r3, r4, r5, r6, r7, r8, r9, r10, r11⟩ :=
        assign_pair I hI ρ s w2 w3 q 0 hC hW hs hw2 hw3 h23 hq (by omega)
          (by omega) (by omega) (WL_Solution.Assign I ρ s w2 q)
          (if_neg (fun h => h rfl)).symm
      exact ⟨q, 0, by omega, r1, r2, r3, r4, r5, r6, r7, r8, r9, r10, r11,
        fun _ hy => absurd hy (lt_irrefl 0), fun _ _ => by omega⟩
  · rw [if_neg c2]
    rw [hrc2] at c2
    obtain ⟨r1, r2, r3, r4, r5, r6, r7, r8, r9, r10, r11⟩ :=
      assign_pair I hI ρ s w3 w2 q 0 hC hW hs hw3 hw2 h32 hq (by omega)
        (by omega) (by omega) (WL_Solution.Assign I ρ s w3 q)
        (if_neg (fun h => h rfl)).symm
    exact ⟨0, q, by omega, r1, r2, r4, r3, fun a b h => r5 a b (fun e => h ⟨e.1, e.2.symm⟩),
      r7, r6, fun b h2 h3 => r8 b h3 h2, by rw [r9]; omega, r10,
      fun b h2 h3 => r11 b h3 h2,
      fun _ _ => by omega, fun _ hx => absurd hx (lt_irrefl 0)⟩

/-- One pass of the loop of operator 4: the first store of `w1` leaves it and goes to `w2`
and `w3`. -/
theorem split_step (I : WL_Instance) (hI : I.Typed) (σ0 σ : WL_Solution) (w1 w2 w3 s : Nat)
    (hw1 : w1 < I.warehouses) (hw2 : w2 < I.warehouses) (hw3 : w3 < I.warehouses)
    (h12 : w1 ≠ w2) (h13 : w1 ≠ w3) (h23 : w2 ≠ w3)
    (hcap : σ0.load w1 ≤ I.capacity w2 + I.capacity w3) (hD : DemandMet I σ0)
    (hT : Split I σ0 σ w1 w2 w3) (hmem : s ∈ σ.supplied_stores w1) :
    Split I σ0
      (splitAssign I (WL_Solution.RevokeAssignment I σ s w1 (σ.supply s w1)) s w2 w3)
      w1 w2 w3 ∧
    (splitAssign I (WL_Solution.RevokeAssignment I σ s w1 (σ.supply s w1)) s w2 w3).supplied_stores
        w1 = setErase (σ.supplied_stores w1) s := by
  obtain ⟨hC, hW, hA, hSum, hO, hL, hF, hc2, hc3⟩ := hT
  obtain ⟨hs, hpos⟩ := (hC.stores w1 hw1 s).mp hmem
  have hsl := supply_le_load I σ hC.load hs hw1
  have hsa := supply_le_assigned I σ hC.assigned hs hw1
  have hsupT := hC.typed.supply s w1 hs hw1
  have hloadT := hC.typed.load w1 hw1
  have hassT := hC.typed.assigned_goods s hs
  obtain ⟨fs, fl, fa⟩ := revoke_fields I σ s w1 (σ.supply s w1) (le_refl _) hsupT hsl hloadT
    hsa hassT
  have hC1 := revoke_consistent I σ s w1 (σ.supply s w1) hC hs hw1 (le_refl _) hpos
  have hW1 := within_revoke I σ s w1 (σ.supply s w1) hC hW hs hw1 (le_refl _)
  have hss1 : (WL_Solution.RevokeAssignment I σ s w1 (σ.supply s w1)).supplied_stores w1
      = setErase (σ.supplied_stores w1) s := by
    simp [WL_Solution.RevokeAssignment, usub_eq_sub (le_refl _) hsupT, set1]
  have hfr := hF s hs hpos
  have hdem := hD s hs
  have hAs := hA s
  obtain ⟨x, y, hxy, r1, r2, r3, r4, r5, r6, r7, r8, r9, r10, r11, r12, r13⟩ :=
    splitAssign_spec I hI (WL_Solution.RevokeAssignment I σ s w1 (σ.supply s w1)) s w2 w3
      (σ.supply s w1) hC1 hW1 hs hw2 hw3 h23 hpos
      (by rw [fa, if_pos rfl]; omega)
      (by rw [fl, fl, if_neg (Ne.symm h12), if_neg (Ne.symm h13)]; omega)
  rw [fs, if_neg (fun h => h12 h.2.symm)] at r3
  rw [fs, if_neg (fun h => h13 h.2.symm)] at r4
  rw [fl, if_neg (Ne.symm h12)] at r6 r12
  rw [fl, if_neg (Ne.symm h13)] at r7 r13
  rw [fa, if_pos rfl] at r9
  have hτ1 : (splitAssign I (WL_Solution.RevokeAssignment I σ s w1 (σ.supply s w1))
      s w2 w3).supply s w1 = 0 := by
    rw [r5 s w1 (fun h => h.2.elim h12 h13), fs, if_pos ⟨rfl, rfl⟩, Nat.sub_self]
  have hoth : ∀ a b, a ≠ s → (splitAssign I
      (WL_Solution.RevokeAssignment I σ s w1 (σ.supply s w1)) s w2 w3).supply a b
      = σ.supply a b := by
    intro a b ha
    rw [r5 a b (fun h => ha h.1), fs, if_neg (fun h => ha h.1)]
  have hl1 : (splitAssign I (WL_Solution.RevokeAssignment I σ s w1 (σ.supply s w1))
      s w2 w3).load w1 = σ.load w1 - σ.supply s w1 := by
    rw [r8 w1 h12 h13, fl, if_pos rfl]
  have hwl2 := r2.load_le w2 hw2
  have hwl3 := r2.load_le w3 hw3
  rw [r6] at hwl2
  rw [r7] at hwl3
  refine ⟨⟨r1, r2, ?_, ?_, ?_, ?_, ?_, ?_, ?_⟩, ?_⟩
  · intro a
    by_cases ha : a = s
    · rw [ha, r9, hAs]; omega
    · rw [r10 a ha, fa, if_neg ha, hA a]
  · intro a ha'
    by_cases ha : a = s
    · rw [ha, hτ1, r3, r4, ← hSum s hs]; omega
    · rw [hoth a w1 ha, hoth a w2 ha, hoth a w3 ha, hSum a ha']
  · intro a w e1 e2 e3
    rw [r5 a w (fun h => h.2.elim e2 e3), fs, if_neg (fun h => e1 h.2), hO a w e1 e2 e3]
  · rw [hl1, r6, r7, ← hL]; omega
  · intro a ha' hp
    by_cases ha : a = s
    · rw [ha, hτ1] at hp; exact absurd hp (lt_irrefl 0)
    · rw [hoth a w1 ha] at hp
      rw [hoth a w2 ha, hoth a w3 ha]
      exact hF a ha' hp
  · intro a ha' hcc hp
    rw [r6]
    by_cases ha : a = s
    · rw [ha] at hcc hp
      rw [r4] at hp
      exact r12 hcc (by omega)
    · rw [hoth a w3 ha] at hp
      have := hc2 a ha' hcc hp
      omega
  · intro a ha' hcc hp
    rw [r7]
    by_cases ha : a = s
    · rw [ha] at hcc hp
      rw [r3] at hp
      exact r13 hcc (by omega)
    · rw [hoth a w2 ha] at hp
      have := hc3 a ha' hcc hp
      omega
  · rw [r11 w1 h12 h13, hss1]

/-- The loop of operator 4 ends, with `w1` empty. -/
theorem splitAll_spec (I : WL_Instance) (hI : I.Typed) (σ0 : WL_Solution) (w1 w2 w3 : Nat)
    (hw1 : w1 < I.warehouses) (hw2 : w2 < I.warehouses) (hw3 : w3 < I.warehouses)
    (h12 : w1 ≠ w2) (h13 : w1 ≠ w3) (h23 : w2 ≠ w3)
    (hcap : σ0.load w1 ≤ I.capacity w2 + I.capacity w3) (hD : DemandMet I σ0) :
    ∀ (fuel : Nat) (σ : WL_Solution), Split I σ0 σ w1 w2 w3 →
      (σ.supplied_stores w1).length ≤ fuel →
      ∃ σ2, splitAll I w1 w2 w3 fuel σ = some σ2 ∧ Split I σ0 σ2 w1 w2 w3 ∧
        σ2.supplied_stores w1 = [] := by
  intro fuel
  induction fuel with
  | zero =>
    intro σ hT hlen
    have hnil : σ.supplied_stores w1 = [] := List.length_eq_zero.mp (Nat.le_zero.mp hlen)
    exact ⟨σ, by simp [splitAll, hnil], hT, hnil⟩
  | succ fuel ih =>
    intro σ hT hlen
    cases hss : σ.supplied_stores w1 with
    | nil => exact ⟨σ, by simp [splitAll, hss], hT, hss⟩
    | cons s rest =>
      have hmem : s ∈ σ.supplied_stores w1 := by rw [hss]; exact List.mem_cons_self _ _
      obtain ⟨hT2, hss2⟩ := split_step I hI σ0 σ w1 w2 w3 s hw1 hw2 hw3 h12 h13 h23 hcap hD
        hT hmem
      have hnd := hT.consistent.nodup w1 hw1
      rw [hss] at hnd hss2
      rw [setErase_head hnd] at hss2
      obtain ⟨σ2, e1, e2, e3⟩ := ih _ hT2 (by rw [hss2]; rw [hss] at hlen; simpa using hlen)
      refine ⟨σ2, ?_, e2, e3⟩
      simp only [splitAll, hss]
      exact e1

theorem split_refl (I : WL_Instance) (σ : WL_Solution) (w1 w2 w3 : Nat)
    (hC : WL_Solution.Consistent I σ) (hW : WL_Solution.Within I σ)
    (hw2 : w2 < I.warehouses) (hw3 : w3 < I.warehouses)
    (hl2 : σ.load w2 = 0) (hl3 : σ.load w3 = 0) : Split I σ σ w1 w2 w3 := by
  have hz2 : ∀ s, s < I.stores → σ.supply s w2 = 0 := by
    intro s hs
    have := supply_le_load I σ hC.load hs hw2
    omega
  have hz3 : ∀ s, s < I.stores → σ.supply s w3 = 0 := by
    intro s hs
    have := supply_le_load I σ hC.load hs hw3
    omega
  refine ⟨hC, hW, fun _ => rfl, ?_, fun _ _ _ _ _ => rfl, by omega, ?_, ?_, ?_⟩
  · intro s hs; rw [hz2 s hs, hz3 s hs]; rfl
  · intro s hs _; exact ⟨hz2 s hs, hz3 s hs⟩
  · intro s hs _ hp; rw [hz3 s hs] at hp; exact absurd hp (lt_irrefl 0)
  · intro s hs _ hp; rw [hz2 s hs] at hp; exact absurd hp (lt_irrefl 0)

/-- The state at the end of the loop of operator 4. -/
theorem split_done (I : WL_Instance) (σ0 σ : WL_Solution) (w1 w2 w3 : Nat)
    (hw1 : w1 < I.warehouses) (hT : Split I σ0 σ w1 w2 w3)
    (hnil : σ.supplied_stores w1 = []) :
    (∀ s, s < I.stores → σ.supply s w1 = 0) ∧ σ.load w1 = 0 ∧
    (∀ s, s < I.stores → σ.supply s w2 + σ.supply s w3 = σ0.supply s w1) := by
  have hz : ∀ s, s < I.stores → σ.supply s w1 = 0 := by
    intro s hs
    by_contra hne
    have : s ∈ σ.supplied_stores w1 := (hT.consistent.stores w1 hw1 s).2 ⟨hs, by omega⟩
    rw [hnil] at this
    exact absurd this (List.not_mem_nil _)
  refine ⟨hz, ?_, ?_⟩
  · rw [hT.consistent.load w1 hw1]
    exact Finset.sum_eq_zero (fun s hs => hz s (Finset.mem_range.1 hs))
  · intro s hs
    have := hT.sum s hs
    rw [hz s hs] at this
    omega

/-- C28: on an instance whose data fit an `unsigned`, for every feasible solution (a
consistent state within the capacities, every demand met), perturbation operator 4 returns,
and whenever it succeeds, with the chosen `w1` (recorded in `opening_forbidden`), `w2` and
`w3` (recorded in `closing_forbidden`): afterwards `load[w1] == 0` with no supply left at
`w1`, every store has at `w2` and `w3` together what it had at `w1`, every store's assigned
total is unchanged, `load[w2] <= capacity[w2]` and `load[w3] <= capacity[w3]`, and each
store was sent first to the one of `w2` and `w3` with the lower unit supply cost for it
(to `w3` on a tie) and only the remainder to the other: it has goods at the dearer one only
if the cheaper one is filled to its capacity. -/
theorem perturbation4_spec (I : WL_Instance) (hI : I.Typed) (σ : WL_Solution)
    (hC : WL_Solution.Consistent I σ) (hW : WL_Solution.Within I σ) (hD : DemandMet I σ)
    (inv : List Nat) (rng : Rng) :
    (perturbation4 I σ inv rng).isSome = true ∧
    ∀ (p : Nat) (st2 : PerturbState) (rng2 : Rng),
      perturbation4 I σ inv rng = some (p, st2, rng2) → p ≠ 0 →
      ∃ w1 w2 w3, w1 < I.warehouses ∧ w2 < I.warehouses ∧ w3 < I.warehouses ∧
        w1 ≠ w2 ∧ w1 ≠ w3 ∧ w2 ≠ w3 ∧
        st2.opening_forbidden = [w1] ∧ st2.closing_forbidden = [w2, w3] ∧
        st2.sol.load w1 = 0 ∧ (∀ s, s < I.stores → st2.sol.supply s w1 = 0) ∧
        (∀ s, s < I.stores → st2.sol.supply s w2 + st2.sol.supply s w3 = σ.supply s w1) ∧
        (∀ s w, w ≠ w1 → w ≠ w2 → w ≠ w3 → st2.sol.supply s w = σ.supply s w) ∧
        (∀ s, st2.sol.assigned_goods s = σ.assigned_goods s) ∧
        st2.sol.load w2 ≤ I.capacity w2 ∧ st2.sol.load w3 ≤ I.capacity w3 ∧
        (∀ s, s < I.stores → I.supply_cost s w2 < I.supply_cost s w3 →
          0 < st2.sol.supply s w3 → st2.sol.load w2 = I.capacity w2) ∧
        (∀ s, s < I.stores → ¬ I.supply_cost s w2 < I.supply_cost s w3 →
          0 < st2.sol.supply s w2 → st2.sol.load w3 = I.capacity w3) ∧
        WL_Solution.Consistent I st2.sol ∧ WL_Solution.Within I st2.sol ∧
        DemandMet I st2.sol := by
  have hloop : (chooseTriple4 I σ).best_fc_improvement ≠ 0 →
      (chooseTriple4 I σ).best_w1 ≠ (chooseTriple4 I σ).best_w2 ∧
      (chooseTriple4 I σ).best_w1 ≠ (chooseTriple4 I σ).best_w3 ∧
      (chooseTriple4 I σ).best_w2 ≠ (chooseTriple4 I σ).best_w3 ∧
      ∃ σ2, splitAll I (chooseTriple4 I σ).best_w1 (chooseTriple4 I σ).best_w2
          (chooseTriple4 I σ).best_w3
          (σ.supplied_stores (chooseTriple4 I σ).best_w1).length σ = some σ2 ∧
        Split I σ σ2 (chooseTriple4 I σ).best_w1 (chooseTriple4 I σ).best_w2
          (chooseTriple4 I σ).best_w3 ∧
        σ2.supplied_stores (chooseTriple4 I σ).best_w1 = [] := by
    intro hne
    have hch := chooseTriple4_spec I σ hne
    have h12 : (chooseTriple4 I σ).best_w1 ≠ (chooseTriple4 I σ).best_w2 :=
      fun e => hch.open1 (e ▸ hch.closed2)
    have h13 : (chooseTriple4 I σ).best_w1 ≠ (chooseTriple4 I σ).best_w3 :=
      fun e => hch.open1 (e ▸ hch.closed3)
    have h23 : (chooseTriple4 I σ).best_w2 ≠ (chooseTriple4 I σ).best_w3 :=
      Nat.ne_of_lt hch.order
    have hcap : σ.load (chooseTriple4 I σ).best_w1
        ≤ I.capacity (chooseTriple4 I σ).best_w2 + I.capacity (chooseTriple4 I σ).best_w3 :=
      le_trans hch.room (Nat.mod_le _ _)
    exact ⟨h12, h13, h23,
      splitAll_spec I hI σ _ _ _ hch.w1_lt hch.w2_lt hch.w3_lt h12 h13 h23 hcap hD _ σ
        (split_refl I σ _ _ _ hC hW hch.w2_lt hch.w3_lt hch.closed2 hch.closed3) (le_refl _)⟩
  constructor
  · unfold perturbation4
    by_cases h0 : (chooseTriple4 I σ).best_fc_improvement = 0
    · rw [if_pos h0]; rfl
    · rw [if_neg h0]
      obtain ⟨_, _, _, σ2, e, _, _⟩ := hloop h0
      rw [e]; rfl
  · intro p st2 rng2 h hp
    unfold perturbation4 at h
    by_cases h0 : (chooseTriple4 I σ).best_fc_improvement = 0
    · rw [if_pos h0] at h
      simp only [Option.some.injEq, Prod.mk.injEq] at h
      exact absurd h.1.symm hp
    · rw [if_neg h0] at h
      have hch := chooseTriple4_spec I σ h0
      obtain ⟨h12, h13, h23, σ2, e, hT, hnil⟩ := hloop h0
      rw [e] at h
      simp only [Option.some_bind, Option.some.injEq, Prod.mk.injEq] at h
      obtain ⟨-, hst, -⟩ := h
      obtain ⟨d1, d2, d3⟩ := split_done I σ σ2 _ _ _ hch.w1_lt hT hnil
      refine ⟨_, _, _, hch.w1_lt, hch.w2_lt, hch.w3_lt, h12, h13, h23, ?_, ?_, ?_, ?_, ?_, ?_,
        ?_, ?_, ?_, ?_, ?_, ?_, ?_, ?_⟩
      · rw [← hst]; rfl
      · rw [← hst]
        show setInsert (setInsert [] (chooseTriple4 I σ).best_w2) (chooseTriple4 I σ).best_w3
          = [(chooseTriple4 I σ).best_w2, (chooseTriple4 I σ).best_w3]
        simp [setInsert, Ne.symm h23]
      · rw [← hst]; exact d2
      · rw [← hst]; exact d1
      · rw [← hst]; exact d3
      · rw [← hst]; exact hT.other
      · rw [← hst]; exact hT.assigned
      · rw [← hst]; exact hT.within.load_le _ hch.w2_lt
      · rw [← hst]; exact hT.within.load_le _ hch.w3_lt
      · rw [← hst]; exact hT.cheaper2
      · rw [← hst]; exact hT.cheaper3
      · rw [← hst]; exact hT.consistent
      · rw [← hst]; exact hT.within
      · rw [← hst]
        intro s hs
        show σ2.assigned_goods s = I.amount_of_goods s
        rw [hT.assigned s]; exact hD s hs

theorem instSplit_typed : instSplit.Typed := by
  constructor
  · decide
  · decide
  · intro w hw
    have h1 : w < 3 := hw
    interval_cases w <;> decide
  · intro w hw
    have h1 : w < 3 := hw
    interval_cases w <;> decide
  · intro s hs
    have h1 : s < 2 := hs
    interval_cases s <;> decide
  · decide

theorem solSplit_consistent : WL_Solution.Consistent instSplit solSplit :=
  assign_consistent instSplit _ 1 0 2 (by decide)
    (assign_consistent instSplit _ 0 0 4 (by decide) (consistent_create instSplit)
      (by decide) (by decide) (by decide) (by decide) (by decide))
    (by decide) (by decide) (by decide) (by decide) (by decide)

theorem solSplit_within : WL_Solution.Within instSplit solSplit := by
  constructor
  · intro w hw
    have h1 : w < 3 := hw
    interval_cases w <;> decide
  · intro s hs
    have h1 : s < 2 := hs
    interval_cases s <;> decide

theorem solSplit_demandMet : DemandMet instSplit solSplit := by
  intro s hs
  have h1 : s < 2 := hs
  interval_cases s <;> decide

/-- C28 on `instSplit`: operator 4 closes warehouse 0 and opens warehouses 1 and 2; store 0
goes to the cheaper warehouse 1 as far as it fits (3 units) and the remainder (1 unit) to
warehouse 2, store 1 goes to its cheaper warehouse 2 (2 units). -/
theorem perturbation4_spec_witness :
    (perturbation4 instSplit solSplit [] []).isSome = true ∧
    (perturbation4 instSplit solSplit [] []).map
        (fun r => (r.1, r.2.1.sol.supply 0 1, r.2.1.sol.supply 0 2, r.2.1.sol.supply 1 1,
          r.2.1.sol.supply 1 2, r.2.1.sol.load 0))
      = some (4, 3, 1, 0, 2, 0) :=
  ⟨(perturbation4_spec instSplit instSplit_typed solSplit solSplit_consistent solSplit_within
      solSplit_demandMet [] []).1, by decide!⟩


/-! ## The order and the endpoints of the moves applied by a heap drain -/

/-- Every element of the queue is the popped one or is left in the queue. -/
theorem popMax_mem : ∀ (moves : List Move) (m : Move) (rest : List Move),
    popMax moves = some (m, rest) → ∀ x, x ∈ moves → x = m ∨ x ∈ rest := by
  intro moves
  induction moves with
  | nil => intro m rest h; simp [popMax] at h
  | cons a l ih =>
    intro m rest h x hx
    unfold popMax at h
    cases hp : popMax l with
    | none =>
      rw [hp] at h
      simp only [Option.some.injEq, Prod.mk.injEq] at h
      have hl := popMax_none hp
      subst hl
      rw [← h.1]
      exact Or.inl (List.mem_singleton.mp hx)
    | some pr =>
      obtain ⟨m2, rest2⟩ := pr
      rw [hp] at h
      simp only [] at h
      have h2 := ih m2 rest2 hp
      by_cases hgt : m2.improvement > a.improvement
      · rw [if_pos hgt] at h
        simp only [Option.some.injEq, Prod.mk.injEq] at h
        rw [← h.1, ← h.2]
        rcases List.mem_cons.mp hx with e | e
        · exact Or.inr (by rw [e]; exact List.mem_cons_self _ _)
        · rcases h2 x e with e2 | e2
          · exact Or.inl e2
          · exact Or.inr (List.mem_cons_of_mem _ e2)
      · rw [if_neg hgt] at h
        simp only [Option.some.injEq, Prod.mk.injEq] at h
        rw [← h.1, ← h.2]
        rcases List.mem_cons.mp hx with e | e
        · exact Or.inl e
        · exact Or.inr e

/-- No element left in the queue exceeds the popped one. -/
theorem popMax_max : ∀ (moves : List Move) (m : Move) (rest : List Move),
    popMax moves = some (m, rest) → ∀ x, x ∈ rest → x.improvement ≤ m.improvement := by
  intro moves
  induction moves with
  | nil => intro m rest h; simp [popMax] at h
  | cons a l ih =>
    intro m rest h x hx
    unfold popMax at h
    cases hp : popMax l with
    | none =>
      rw [hp] at h
      simp only [Option.some.injEq, Prod.mk.injEq] at h
      rw [← h.2] at hx
      exact absurd hx (List.not_mem_nil _)
    | some pr =>
      obtain ⟨m2, rest2⟩ := pr
      rw [hp] at h
      simp only [] at h
      have h2 := ih m2 rest2 hp
      by_cases hgt : m2.improvement > a.improvement
      · rw [if_pos hgt] at h
        simp only [Option.some.injEq, Prod.mk.injEq] at h
        rw [← h.1]
        rw [← h.2] at hx
        rcases List.mem_cons.mp hx with e | e
        · rw [e]; exact le_of_lt hgt
        · exact h2 x e
      · rw [if_neg hgt] at h
        simp only [Option.some.injEq, Prod.mk.injEq] at h
        rw [← h.1]
        rw [← h.2] at hx
        rcases popMax_mem l m2 rest2 hp x hx with e | e
        · rw [e]; exact not_lt.mp hgt
        · exact le_trans (h2 x e) (not_lt.mp hgt)

/-- The heap drain leaves the solution that the logged moves, applied in order, give. -/
theorem drain_eq_log (I : WL_Instance) :
    ∀ (fuel : Nat) (moves : List Move) (σ : WL_Solution) (inv : List Nat) (budget : Nat),
      (drain I fuel moves σ inv budget).1
        = (drainLog fuel moves inv budget).foldl (applyMove I) σ := by
  intro fuel
  induction fuel with
  | zero => intro moves σ inv budget; simp only [drain, drainLog, List.foldl_nil]
  | succ fuel ih =>
    intro moves σ inv budget
    simp only [drain, drainLog]
    cases hp : popMax moves with
    | none => simp only [List.foldl_nil]
    | some pr =>
      obtain ⟨m, rest⟩ := pr
      simp only []
      by_cases hb : budget = 0
      · rw [if_pos hb, if_pos hb]; simp only [List.foldl_nil]
      · rw [if_neg hb, if_neg hb]
        by_cases hsk : m.w1 ∈ inv ∨ m.w2 ∈ inv
        · rw [if_pos hsk, if_pos hsk]; exact ih rest σ inv (budget - 1)
        · rw [if_neg hsk, if_neg hsk, List.foldl_cons]
          exact ih rest _ _ (budget - 1)

/-- The logged moves come from the queue, none of them has an endpoint that was invalid
at the start, they are in non-increasing order of improvement and their endpoints are
pairwise disjoint. -/
theorem drainLog_spec :
    ∀ (fuel : Nat) (moves : List Move) (inv : List Nat) (budget : Nat),
      (∀ m, m ∈ drainLog fuel moves inv budget → m ∈ moves ∧ m.w1 ∉ inv ∧ m.w2 ∉ inv) ∧
      (drainLog fuel moves inv budget).Pairwise (fun a b => b.improvement ≤ a.improvement) ∧
      (drainLog fuel moves inv budget).Pairwise
        (fun a b => a.w1 ≠ b.w1 ∧ a.w1 ≠ b.w2 ∧ a.w2 ≠ b.w1 ∧ a.w2 ≠ b.w2) := by
  intro fuel
  induction fuel with
  | zero =>
    intro moves inv budget
    simp only [drainLog]
    exact ⟨fun m hm => absurd hm (List.not_mem_nil _), List.Pairwise.nil, List.Pairwise.nil⟩
  | succ fuel ih =>
    intro moves inv budget
    simp only [drainLog]
    cases hp : popMax moves with
    | none =>
      exact ⟨fun m hm => absurd hm (List.not_mem_nil _), List.Pairwise.nil, List.Pairwise.nil⟩
    | some pr =>
      obtain ⟨m, rest⟩ := pr
      obtain ⟨hm, hrest, _⟩ := popMax_some moves m rest hp
      have hmax := popMax_max moves m rest hp
      simp only []
      by_cases hb : budget = 0
      · rw [if_pos hb]
        exact ⟨fun m hm => absurd hm (List.not_mem_nil _), List.Pairwise.nil,
          List.Pairwise.nil⟩
      · rw [if_neg hb]
        by_cases hsk : m.w1 ∈ inv ∨ m.w2 ∈ inv
        · rw [if_pos hsk]
          obtain ⟨i1, i2, i3⟩ := ih rest inv (budget - 1)
          exact ⟨fun x hx => ⟨hrest x (i1 x hx).1, (i1 x hx).2⟩, i2, i3⟩
        · rw [if_neg hsk]
          obtain ⟨i1, i2, i3⟩ := ih rest (setInsert (setInsert inv m.w1) m.w2) (budget - 1)
          have hout : ∀ x, x ∈ drainLog fuel rest (setInsert (setInsert inv m.w1) m.w2)
              (budget - 1) → ∀ w, (w = x.w1 ∨ w = x.w2) → w ∉ inv ∧ w ≠ m.w1 ∧ w ≠ m.w2 := by
            intro x hx w hw
            have hnot : w ∉ setInsert (setInsert inv m.w1) m.w2 := by
              rcases hw with e | e
              · rw [e]; exact (i1 x hx).2.1
              · rw [e]; exact (i1 x hx).2.2
            refine ⟨fun h => hnot ?_, fun h => hnot ?_, fun h => hnot ?_⟩
            · exact mem_setInsert.mpr (Or.inl (mem_setInsert.mpr (Or.inl h)))
            · exact mem_setInsert.mpr (Or.inl (mem_setInsert.mpr (Or.inr h)))
            · exact mem_setInsert.mpr (Or.inr h)
          refine ⟨?_, List.pairwise_cons.2 ⟨?_, i2⟩, List.pairwise_cons.2 ⟨?_, i3⟩⟩
          · intro x hx
            rcases List.mem_cons.mp hx with e | e
            · rw [e]
              exact ⟨hm, fun h => hsk (Or.inl h), fun h => hsk (Or.inr h)⟩
            · exact ⟨hrest x (i1 x e).1, (hout x e x.w1 (Or.inl rfl)).1,
                (hout x e x.w2 (Or.inr rfl)).1⟩
          · intro x hx
            exact hmax x (i1 x hx).1
          · intro x hx
            have a1 := hout x hx x.w1 (Or.inl rfl)
            have a2 := hout x hx x.w2 (Or.inr rfl)
            exact ⟨Ne.symm a1.2.1, Ne.symm a2.2.1, Ne.symm a1.2.2, Ne.symm a2.2.2⟩

/-- Moves whose endpoints all differ from `w` leave the data of warehouse `w` as they
are. -/
theorem foldl_applyMove_agree (I : WL_Instance) (w : Nat) :
    ∀ (l : List Move) (σ : WL_Solution), (∀ x, x ∈ l → w ≠ x.w1 ∧ w ≠ x.w2) →
      AgreeAt σ (l.foldl (applyMove I) σ) w := by
  intro l
  induction l with
  | nil =>
    intro σ _
    exact ⟨rfl, rfl, fun _ => rfl, fun _ => rfl⟩
  | cons a l ih =>
    intro σ h
    rw [List.foldl_cons]
    exact agreeAt_trans (applyMove_agree I σ a (h a (List.mem_cons_self _ _)).1
        (h a (List.mem_cons_self _ _)).2)
      (ih (applyMove I σ a) (fun x hx => h x (List.mem_cons_of_mem _ hx)))

/-- C31: in one pass of the heap drain, started from the solution `σ` with the queue
`moves` and no invalid warehouse, the moves applied (which give the solution that the pass
leaves) come from the queue, are applied in non-increasing order of improvement, and have
pairwise disjoint endpoints `w1`, `w2`; hence when a move is applied, after the moves
applied before it, the loads, the sets of supplied stores, the supplies and the
incompatibility counters of its two warehouses are those of `σ`, the state of the start of
the pass, in which the queue was filled. -/
theorem drain_pass_order (I : WL_Instance) (σ : WL_Solution) (moves : List Move)
    (fuel budget : Nat) :
    (drain I fuel moves σ [] budget).1
      = (drainLog fuel moves [] budget).foldl (applyMove I) σ ∧
    (drainLog fuel moves [] budget).Pairwise (fun a b => b.improvement ≤ a.improvement) ∧
    (drainLog fuel moves [] budget).Pairwise
      (fun a b => a.w1 ≠ b.w1 ∧ a.w1 ≠ b.w2 ∧ a.w2 ≠ b.w1 ∧ a.w2 ≠ b.w2) ∧
    ∀ (before : List Move) (m : Move) (after : List Move),
      drainLog fuel moves [] budget = before ++ m :: after →
      m ∈ moves ∧
      AgreeAt σ (before.foldl (applyMove I) σ) m.w1 ∧
      AgreeAt σ (before.foldl (applyMove I) σ) m.w2 := by
  obtain ⟨i1, i2, i3⟩ := drainLog_spec fuel moves [] budget
  refine ⟨drain_eq_log I fuel moves σ [] budget, i2, i3, ?_⟩
  intro before m after hlog
  rw [hlog] at i1 i3
  have hd := (List.pairwise_append.mp i3).2.2
  refine ⟨(i1 m (List.mem_append_right _ (List.mem_cons_self _ _))).1, ?_, ?_⟩
  · refine foldl_applyMove_agree I m.w1 before σ (fun x hx => ?_)
    have := hd x hx m (List.mem_cons_self _ _)
    exact ⟨Ne.symm this.1, Ne.symm this.2.2.1⟩
  · refine foldl_applyMove_agree I m.w2 before σ (fun x hx => ?_)
    have := hd x hx m (List.mem_cons_self _ _)
    exact ⟨Ne.symm this.2.1, Ne.symm this.2.2.2⟩

/-- On `instRelocate` the pass on the moves enumerated from `solRelocate` (the relocation of
the store, pushed by both enumeration loops) applies the relocation once. -/
theorem drainLog_relocate :
    drainLog (enumerateMoves instRelocate solRelocate [0, 1] [] []).length
        (enumerateMoves instRelocate solRelocate [0, 1] [] []) [] 4
      = [{ s1 := 0, s2 := 1, w1 := 0, w2 := 1, improvement := 8 }] := by
  decide!


/-! ## `LocalSearch` stops at a local optimum -/

/-- In the reduced instance of a base instance without forbidden pairs, a warehouse that is
forbidden for some store has lost its fixed cost. -/
theorem reduced_forbidden_free (I : WL_Instance) (hbase : ∀ w s, I.w_incompatible w s = false)
    (pattern : List Supply) (w s : Nat)
    (h : (I.reduced pattern).w_incompatible w s = true) :
    (I.reduced pattern).fixed_cost w = 0 := by
  rw [reduced_w_incompatible] at h
  rcases h with h | ⟨_, p, hp, hpw, _⟩
  · rw [hbase w s] at h
    exact absurd h (by decide)
  · rw [reduced_fixed_cost, if_pos]
    rw [← hpw]
    exact List.mem_map_of_mem _ hp

/-- A call of `Assign` raises no entry of `supply` but the one of its store and
warehouse. -/
theorem assign_supply_grows (I : WL_Instance) (σ : WL_Solution) (s w q x y : Nat)
    (h : σ.supply x y < (WL_Solution.Assign I σ s w q).supply x y) : x = s ∧ y = w := by
  by_contra hne
  have : (WL_Solution.Assign I σ s w q).supply x y = σ.supply x y := by
    simp only [WL_Solution.Assign, set2, if_neg hne]
  rw [this] at h
  exact absurd h (lt_irrefl _)

/-- The revocation of the whole supply of a store at a warehouse raises no entry of
`supply`. -/
theorem revoke_all_supply_le (I : WL_Instance) (σ : WL_Solution) (s w x y : Nat) :
    (WL_Solution.RevokeAssignment I σ s w (σ.supply s w)).supply x y ≤ σ.supply x y := by
  simp only [WL_Solution.RevokeAssignment, set2]
  split
  · unfold usub; omega
  · exact le_refl _

/-- The loop of operator 3 raises entries of `supply` at `w2` only. -/
theorem moveAll_grows (I : WL_Instance) (w1 w2 : Nat) :
    ∀ (fuel : Nat) (σ σ2 : WL_Solution), moveAll I w1 w2 fuel σ = some σ2 →
      ∀ x y, y ≠ w2 → σ2.supply x y ≤ σ.supply x y := by
  intro fuel
  induction fuel with
  | zero =>
    intro σ σ2 h x y _
    unfold moveAll at h
    split at h
    · rw [← Option.some.inj h]
    · exact absurd h (by simp)
  | succ fuel ih =>
    intro σ σ2 h x y hy
    cases hss : σ.supplied_stores w1 with
    | nil =>
      simp only [moveAll, hss] at h
      rw [← Option.some.inj h]
    | cons s rest =>
      simp only [moveAll, hss] at h
      refine le_trans (ih _ σ2 h x y hy) ?_
      have : (WL_Solution.Assign I (WL_Solution.RevokeAssignment I σ s w1 (σ.supply s w1))
          s w2 (σ.supply s w1)).supply x y
          = (WL_Solution.RevokeAssignment I σ s w1 (σ.supply s w1)).supply x y := by
        simp only [WL_Solution.Assign, set2, if_neg (fun e : x = s ∧ y = w2 => hy e.2)]
      rw [this]
      exact revoke_all_supply_le I σ s w1 x y

/-- Each loop of operator 5 raises entries of `supply` at `w1` only. -/
theorem mergeAll_grows (I : WL_Instance) (w w1 : Nat) :
    ∀ (fuel : Nat) (σ σ2 : WL_Solution), mergeAll I w w1 fuel σ = some σ2 →
      ∀ x y, y ≠ w1 → σ2.supply x y ≤ σ.supply x y := by
  intro fuel
  induction fuel with
  | zero =>
    intro σ σ2 h x y _
    unfold mergeAll at h
    split at h
    · rw [← Option.some.inj h]
    · exact absurd h (by simp)
  | succ fuel ih =>
    intro σ σ2 h x y hy
    cases hss : σ.supplied_stores w with
    | nil =>
      simp only [mergeAll, hss] at h
      rw [← Option.some.inj h]
    | cons s rest =>
      simp only [mergeAll, hss] at h
      refine le_trans (ih _ σ2 h x y hy) ?_
      have : ∀ q, (WL_Solution.Assign I (WL_Solution.RevokeAssignment I σ s w (σ.supply s w))
          s w1 q).supply x y
          = (WL_Solution.RevokeAssignment I σ s w (σ.supply s w)).supply x y := by
        intro q
        simp only [WL_Solution.Assign, set2, if_neg (fun e : x = s ∧ y = w1 => hy e.2)]
      rw [this]
      exact revoke_all_supply_le I σ s w x y

/-- The redistribution of operator 4 leaves the entries of `supply` outside `w2` and `w3`
as they are. -/
theorem splitAssign_other (I : WL_Instance) (σ : WL_Solution) (s w2 w3 x y : Nat)
    (h2 : y ≠ w2) (h3 : y ≠ w3) :
    (splitAssign I σ s w2 w3).supply x y = σ.supply x y := by
  have a2 : ∀ (τ : WL_Solution) (q : Nat),
      (WL_Solution.Assign I τ s w2 q).supply x y = τ.supply x y := by
    intro τ q
    simp only [WL_Solution.Assign, set2, if_neg (fun e : x = s ∧ y = w2 => h2 e.2)]
  have a3 : ∀ (τ : WL_Solution) (q : Nat),
      (WL_Solution.Assign I τ s w3 q).supply x y = τ.supply x y := by
    intro τ q
    simp only [WL_Solution.Assign, set2, if_neg (fun e : x = s ∧ y = w3 => h3 e.2)]
  unfold splitAssign
  split
  · split
    · split
      · split
        · rw [a3, a2]
        · rw [a2]
      · split
        · rw [a2, a3]
        · rw [a3]
    · rw [a2]
  · rw [a3]

/-- The loop of operator 4 raises entries of `supply` at `w2` and `w3` only. -/
theorem splitAll_grows (I : WL_Instance) (w1 w2 w3 : Nat) :
    ∀ (fuel : Nat) (σ σ2 : WL_Solution), splitAll I w1 w2 w3 fuel σ = some σ2 →
      ∀ x y, y ≠ w2 → y ≠ w3 → σ2.supply x y ≤ σ.supply x y := by
  intro fuel
  induction fuel with
  | zero =>
    intro σ σ2 h x y _ _
    unfold splitAll at h
    split at h
    · rw [← Option.some.inj h]
    · exact absurd h (by simp)
  | succ fuel ih =>
    intro σ σ2 h x y hy2 hy3
    cases hss : σ.supplied_stores w1 with
    | nil =>
      simp only [splitAll, hss] at h
      rw [← Option.some.inj h]
    | cons s rest =>
      simp only [splitAll, hss] at h
      refine le_trans (ih _ σ2 h x y hy2 hy3) ?_
      rw [splitAssign_other I _ s w2 w3 x y hy2 hy3]
      exact revoke_all_supply_le I σ s w1 x y

/-- The warehouses `best_w2` and `best_w3` that the loops of operator 4 leave have a fixed
cost. -/
theorem chooseTriple4_paid (I : WL_Instance) (σ : WL_Solution)
    (h : (chooseTriple4 I σ).best_fc_improvement ≠ 0) :
    I.fixed_cost (chooseTriple4 I σ).best_w2 ≠ 0 ∧
    I.fixed_cost (chooseTriple4 I σ).best_w3 ≠ 0 := by
  have key : (chooseTriple4 I σ).best_fc_improvement = 0 ∨
      (I.fixed_cost (chooseTriple4 I σ).best_w2 ≠ 0 ∧
        I.fixed_cost (chooseTriple4 I σ).best_w3 ≠ 0) := by
    unfold chooseTriple4
    apply foldl_invariant (fun t : TripleChoice => t.best_fc_improvement = 0 ∨
      (I.fixed_cost t.best_w2 ≠ 0 ∧ I.fixed_cost t.best_w3 ≠ 0))
    · exact Or.inl rfl
    · intro acc1 w1 _ h1
      split
      · apply foldl_invariant (fun t : TripleChoice => t.best_fc_improvement = 0 ∨
          (I.fixed_cost t.best_w2 ≠ 0 ∧ I.fixed_cost t.best_w3 ≠ 0))
        · exact h1
        · intro acc2 w2 _ h2
          split
          · next c2 =>
            apply foldl_invariant (fun t : TripleChoice => t.best_fc_improvement = 0 ∨
              (I.fixed_cost t.best_w2 ≠ 0 ∧ I.fixed_cost t.best_w3 ≠ 0))
            · exact h2
            · intro acc3 w3 _ h3
              split
              · next c3 => exact Or.inr ⟨c2.2.1, c3.2.1⟩
              · exact h3
          · exact h2
      · exact h1
  exact key.resolve_left h

/-- The warehouse that the second scan of operator 1 leaves, when it leaves one, has a
fixed cost. -/
theorem bestClosed_paid (I : WL_Instance) (σ : WL_Solution) (s w1 : Nat)
    (h : bestClosed I σ s w1 ≠ I.warehouses) : I.fixed_cost (bestClosed I σ s w1) ≠ 0 := by
  have key : bestClosed I σ s w1 = I.warehouses ∨ I.fixed_cost (bestClosed I σ s w1) ≠ 0 := by
    unfold bestClosed
    apply foldl_invariant (fun b : Nat => b = I.warehouses ∨ I.fixed_cost b ≠ 0)
    · exact Or.inl rfl
    · intro acc w2 _ hacc
      split
      · next c => exact Or.inr c.2.2.1
      · exact hacc
  exact key.resolve_left h

/-- Operator 2 moves no goods. -/
theorem perturbation2_sol (I : WL_Instance) (σ : WL_Solution) (inv : List Nat) (rng : Rng)
    (p : Nat) (st2 : PerturbState) (rng2 : Rng)
    (h : perturbation2 I σ inv rng = some (p, st2, rng2)) : st2.sol = σ := by
  unfold perturbation2 at h
  split at h
  · simp only [Option.some.injEq, Prod.mk.injEq] at h
    rw [← h.2.1]
  · cases rng with
    | nil => exact absurd h (by simp)
    | cons r rng1 =>
      simp only [Option.bind_eq_some, Option.some.injEq, Prod.mk.injEq] at h
      obtain ⟨_, _, _, hst, _⟩ := h
      rw [← hst]

/-- Operator 3 raises entries of `supply` only at a warehouse with a fixed cost. -/
theorem perturbation3_grows (I : WL_Instance) (σ : WL_Solution) (inv : List Nat) (rng : Rng)
    (p : Nat) (st2 : PerturbState) (rng2 : Rng)
    (h : perturbation3 I σ inv rng = some (p, st2, rng2)) (x y : Nat)
    (hg : σ.supply x y < st2.sol.supply x y) : I.fixed_cost y ≠ 0 := by
  unfold perturbation3 at h
  split at h
  · simp only [Option.some.injEq, Prod.mk.injEq] at h
    rw [← h.2.1] at hg
    exact absurd hg (lt_irrefl _)
  · cases rng with
    | nil => exact absurd h (by simp)
    | cons r rng1 =>
      simp only [Option.bind_eq_some] at h
      obtain ⟨w1, _, h⟩ := h
      split at h
      · simp only [Option.some.injEq, Prod.mk.injEq] at h
        rw [← h.2.1] at hg
        exact absurd hg (lt_irrefl _)
      · cases rng1 with
        | nil => exact absurd h (by simp)
        | cons r2 rng3 =>
          simp only [Option.bind_eq_some, Option.some.injEq, Prod.mk.injEq] at h
          obtain ⟨w2, hw2, σ2, hmv, -, hst, -⟩ := h
          have hm2 := List.getElem?_mem hw2
          rw [List.mem_filter, decide_eq_true_eq] at hm2
          rw [← hst] at hg
          have hy : y = w2 := by
            by_contra hne
            exact absurd hg (not_lt.mpr (moveAll_grows I w1 w2 _ σ σ2 hmv x y hne))
          rw [hy]
          exact hm2.2.2.1

/-- Operator 4 raises entries of `supply` only at warehouses with a fixed cost. -/
theorem perturbation4_grows (I : WL_Instance) (σ : WL_Solution) (inv : List Nat) (rng : Rng)
    (p : Nat) (st2 : PerturbState) (rng2 : Rng)
    (h : perturbation4 I σ inv rng = some (p, st2, rng2)) (x y : Nat)
    (hg : σ.supply x y < st2.sol.supply x y) : I.fixed_cost y ≠ 0 := by
  unfold perturbation4 at h
  split at h
  · simp only [Option.some.injEq, Prod.mk.injEq] at h
    rw [← h.2.1] at hg
    exact absurd hg (lt_irrefl _)
  · next hbest =>
    have hpaid := chooseTriple4_paid I σ hbest
    simp only [Option.bind_eq_some, Option.some.injEq, Prod.mk.injEq] at h
    obtain ⟨σ2, hsp, -, hst, -⟩ := h
    rw [← hst] at hg
    by_cases h2 : y = (chooseTriple4 I σ).best_w2
    · rw [h2]; exact hpaid.1
    · by_cases h3 : y = (chooseTriple4 I σ).best_w3
      · rw [h3]; exact hpaid.2
      · exact absurd hg (not_lt.mpr (splitAll_grows I _ _ _ _ σ σ2 hsp x y h2 h3))

/-- Operator 5 raises entries of `supply` only at a warehouse with a fixed cost. -/
theorem perturbation5_grows (I : WL_Instance) (σ : WL_Solution) (inv : List Nat) (rng : Rng)
    (p : Nat) (st2 : PerturbState) (rng2 : Rng)
    (h : perturbation5 I σ inv rng = some (p, st2, rng2)) (x y : Nat)
    (hg : σ.supply x y < st2.sol.supply x y) : I.fixed_cost y ≠ 0 := by
  unfold perturbation5 at h
  split at h
  · simp only [Option.some.injEq, Prod.mk.injEq] at h
    rw [← h.2.1] at hg
    exact absurd hg (lt_irrefl _)
  · next hbest =>
    have hch := chooseTriple5_spec I σ hbest
    simp only [Option.bind_eq_some, Option.some.injEq, Prod.mk.injEq] at h
    obtain ⟨σ2, hm1, σ3, hm2, -, hst, -⟩ := h
    rw [← hst] at hg
    by_cases h1 : y = (chooseTriple5 I σ).best_w1
    · rw [h1]; exact hch.paid1
    · exact absurd hg (not_lt.mpr (le_trans (mergeAll_grows I _ _ _ σ2 σ3 hm2 x y h1)
        (mergeAll_grows I _ _ _ σ σ2 hm1 x y h1)))

/-- C33: for every base instance whose `w_incompatible` matrix is all false and every
pattern, in the reduced instance a warehouse `w` with `w_incompatible[w][s]` for some store
has `fixed_cost[w] == 0`. Hence perturbation operators 2 to 5, which raise a supply only at
warehouses with a nonzero fixed cost, raise no `supply[s][w]` with `w_incompatible[w][s]`;
and when the closed-warehouse scan of operator 1 supplies the warehouse (the first scan
having found none), its call of `Assign` raises no such entry either. -/
theorem forbidden_not_opened (I : WL_Instance) (hbase : ∀ w s, I.w_incompatible w s = false)
    (pattern : List Supply) :
    (∀ w s, (I.reduced pattern).w_incompatible w s = true →
      (I.reduced pattern).fixed_cost w = 0) ∧
    (∀ (σ : WL_Solution) (inv : List Nat) (rng : Rng) (p : Nat) (st2 : PerturbState)
        (rng2 : Rng),
      (perturbation2 (I.reduced pattern) σ inv rng = some (p, st2, rng2) ∨
        perturbation3 (I.reduced pattern) σ inv rng = some (p, st2, rng2) ∨
        perturbation4 (I.reduced pattern) σ inv rng = some (p, st2, rng2) ∨
        perturbation5 (I.reduced pattern) σ inv rng = some (p, st2, rng2)) →
      ∀ s w, σ.supply s w < st2.sol.supply s w →
        (I.reduced pattern).fixed_cost w ≠ 0 ∧
        (I.reduced pattern).w_incompatible w s = false) ∧
    (∀ (σ : WL_Solution) (s w1 : Nat),
      bestLoaded (I.reduced pattern) σ s = (I.reduced pattern).warehouses →
      bestClosed (I.reduced pattern) σ s w1 ≠ (I.reduced pattern).warehouses →
      ∀ x w,
        σ.supply x w < (WL_Solution.Assign (I.reduced pattern) σ s
            (bestClosed (I.reduced pattern) σ s w1)
            (min (WL_Solution.ResidualAmount (I.reduced pattern) σ s)
              (WL_Solution.ResidualCapacity (I.reduced pattern) σ
                (bestClosed (I.reduced pattern) σ s w1)))).supply x w →
        (I.reduced pattern).fixed_cost w ≠ 0 ∧
        (I.reduced pattern).w_incompatible w x = false) := by
  have hfree : ∀ w s, (I.reduced pattern).fixed_cost w ≠ 0 →
      (I.reduced pattern).w_incompatible w s = false := by
    intro w s hne
    cases hv : (I.reduced pattern).w_incompatible w s with
    | false => rfl
    | true => exact absurd (reduced_forbidden_free I hbase pattern w s hv) hne
  refine ⟨reduced_forbidden_free I hbase pattern, ?_, ?_⟩
  · intro σ inv rng p st2 rng2 h s w hg
    have hpaid : (I.reduced pattern).fixed_cost w ≠ 0 := by
      rcases h with h | h | h | h
      · rw [perturbation2_sol _ σ inv rng p st2 rng2 h] at hg
        exact absurd hg (lt_irrefl _)
      · exact perturbation3_grows _ σ inv rng p st2 rng2 h s w hg
      · exact perturbation4_grows _ σ inv rng p st2 rng2 h s w hg
      · exact perturbation5_grows _ σ inv rng p st2 rng2 h s w hg
    exact ⟨hpaid, hfree w s hpaid⟩
  · intro σ s w1 _ hc x w hg
    obtain ⟨_, hw⟩ := assign_supply_grows _ σ s _ _ x w hg
    have hpaid : (I.reduced pattern).fixed_cost w ≠ 0 := by
      rw [hw]
      exact bestClosed_paid _ σ s w1 hc
    exact ⟨hpaid, hfree w x hpaid⟩

/-- C33 on scenario E3 reduced by the pattern that supplies store 0 with 3 units from
warehouse 0: warehouse 0 is forbidden for store 1 and has no fixed cost left. -/
theorem forbidden_not_opened_witness :
    (instE3.reduced [⟨0, 0, 3⟩]).w_incompatible 0 1 = true ∧
    (instE3.reduced [⟨0, 0, 3⟩]).fixed_cost 0 = 0 ∧
    (instE3.reduced [⟨0, 0, 3⟩]).fixed_cost 1 = 1 :=
  ⟨by decide,
    (forbidden_not_opened instE3 (fun _ _ => rfl) [⟨0, 0, 3⟩]).1 0 1 (by decide),
    by decide⟩


/-! ## `working_sol` in `IteratedLocalSearch` -/

/-- The search loop inside the loop over `i` does not touch `working_sol`. -/
theorem ilsSearchLoop_working (I : WL_Instance) :
    ∀ (fuel : Nat) (st : IlsState),
      (ilsSearchLoop I fuel st).working_sol = st.working_sol := by
  intro fuel
  induction fuel with
  | zero => intro st; simp only [ilsSearchLoop]
  | succ fuel ih =>
    intro st
    simp only [ilsSearchLoop]
    split
    · rfl
    · split
      · rfl
      · exact ih _

/-- After the block `if (i > 0)` the pointer `working_sol` is set. -/
theorem ilsRestart_working (I : WL_Instance) (ils_accept : ℚ) (st : IlsState)
    (p : Nat) (st2 : IlsState) (h : ilsRestart I ils_accept st = some (p, st2)) :
    st2.working_sol ≠ none := by
  unfold ilsRestart at h
  simp only [Option.bind_eq_some] at h
  obtain ⟨sol, _, res, _, h⟩ := h
  have h2 := (Prod.mk.inj (Option.some.inj h)).2
  rw [← h2]
  simp

/-- The search loop inside the loop over `i`, started in a consistent state within the
bounds that costs no more than `best_sol`, with an empty heap (or no budget), ends in a
state that costs no more than `best_sol`, when the fixed costs do not wrap. -/
theorem ilsSearchLoop_sol_le (I : WL_Instance) (hI : I.Typed)
    (hfix : I.totalFixed + I.reduction_opening_cost < 4294967296) :
    ∀ (fuel : Nat) (st : IlsState),
      WL_Solution.Consistent I st.sol → WL_Solution.Within I st.sol →
      (∀ w, w ∈ st.invalid_warehouses → w < I.warehouses) →
      (st.moves = [] ∨ st.budget = 0) →
      WL_Solution.Cost I st.sol ≤ WL_Solution.Cost I st.best_sol →
      WL_Solution.Cost I (ilsSearchLoop I fuel st).sol
        ≤ WL_Solution.Cost I (ilsSearchLoop I fuel st).best_sol := by
  intro fuel
  induction fuel with
  | zero => intro st _ _ _ _ hle; simp only [ilsSearchLoop]; exact hle
  | succ fuel ih =>
    intro st hC hW hinv hmv hle
    simp only [ilsSearchLoop]
    by_cases hb : st.budget = 0
    · rw [if_pos hb]; exact hle
    · rw [if_neg hb]
      have hnil : st.moves = [] := hmv.resolve_right hb
      rw [hnil]
      split
      · exact hle
      · obtain ⟨d1, d2, d3, d4, d5⟩ := drain_spec I hI hfix st.closing_forbidden
          ([] ++ enumerateMoves I st.sol st.invalid_warehouses st.closing_forbidden
            st.opening_forbidden).length
          ([] ++ enumerateMoves I st.sol st.invalid_warehouses st.closing_forbidden
            st.opening_forbidden) st.sol [] (st.budget - 1) hC hW
          (fun m hm _ _ => mem_enumerateMoves I st.sol st.invalid_warehouses
            st.closing_forbidden st.opening_forbidden hinv m (by simpa using hm))
          (fun w hw => absurd hw (List.not_mem_nil _)) (le_refl _)
        refine ih _ d1 d2 d4 d5 ?_
        simp only []
        split
        · exact le_refl _
        · exact le_trans d3 hle

/-- The pass of `i == 0`: the search loop on the initial variables. -/
theorem ilsStateAt_first (I : WL_Instance) (ils_accept : ℚ) (k : Nat) (st st2 : IlsState)
    (h : ilsStateAt I ils_accept (k + 1) true st = some st2) :
    st.budget ≠ 0 ∧
    ilsStateAt I ils_accept k false
      (ilsSearchLoop I (st.budget - 1 + 1) { st with budget := st.budget - 1 }) = some st2 := by
  simp only [ilsStateAt] at h
  by_cases hb : st.budget = 0
  · rw [if_pos hb] at h; exact absurd h (by simp)
  · rw [if_neg hb] at h
    simp only [if_true] at h
    rw [if_neg (by decide)] at h
    exact ⟨hb, h⟩

/-- From iteration 1 on, every later iteration begins with `working_sol` set. -/
theorem ilsStateAt_working (I : WL_Instance) (ils_accept : ℚ) :
    ∀ (k : Nat) (st st2 : IlsState),
      (k = 0 → st.working_sol ≠ none) →
      ilsStateAt I ils_accept k false st = some st2 → st2.working_sol ≠ none := by
  intro k
  induction k with
  | zero =>
    intro st st2 hw h
    simp only [ilsStateAt] at h
    rw [← Option.some.inj h]
    exact hw rfl
  | succ k ih =>
    intro st st2 _ h
    simp only [ilsStateAt] at h
    by_cases hb : st.budget = 0
    · rw [if_pos hb] at h; exact absurd h (by simp)
    · rw [if_neg hb] at h
      simp only [Bool.false_eq_true, if_false] at h
      cases hr : ilsRestart I ils_accept { st with budget := st.budget - 1 } with
      | none => rw [hr] at h; exact absurd h (by simp)
      | some pr =>
        obtain ⟨p, st3⟩ := pr
        rw [hr] at h
        simp only [] at h
        by_cases hp : p = 0
        · rw [if_pos hp] at h; exact absurd h (by simp)
        · rw [if_neg hp] at h
          refine ih _ st2 (fun _ => ?_) h
          rw [ilsSearchLoop_working]
          exact ilsRestart_working I ils_accept _ p st3 hr

/-- The loop over `i` continues from the variables of iteration `k` as `ilsStateAt` gives
them. -/
theorem ilsLoop_stateAt (I : WL_Instance) (ils_accept : ℚ) :
    ∀ (k : Nat) (first : Bool) (st st2 : IlsState) (n : Nat),
      ilsStateAt I ils_accept (k + 1) first st = some st2 →
      ilsLoop I ils_accept (k + 1 + n) first st = ilsLoop I ils_accept n false st2 := by
  intro k
  induction k with
  | zero =>
    intro first st st2 n h
    simp only [ilsStateAt] at h
    rw [show 0 + 1 + n = n + 1 by omega]
    simp only [ilsLoop]
    by_cases hb : st.budget = 0
    · rw [if_pos hb] at h; exact absurd h (by simp)
    · rw [if_neg hb] at h ⊢
      cases hr : (if first = true then some (1, { st with budget := st.budget - 1 })
          else ilsRestart I ils_accept { st with budget := st.budget - 1 }) with
      | none => rw [hr] at h; exact absurd h (by simp)
      | some pr =>
        obtain ⟨p, st3⟩ := pr
        rw [hr] at h
        simp only [] at h ⊢
        by_cases hp : p = 0
        · rw [if_pos hp] at h; exact absurd h (by simp)
        · rw [if_neg hp] at h ⊢
          rw [Option.some.inj h]
  | succ k ih =>
    intro first st st2 n h
    simp only [ilsStateAt] at h
    rw [show k + 1 + 1 + n = (k + 1 + n) + 1 by omega]
    simp only [ilsLoop]
    by_cases hb : st.budget = 0
    · rw [if_pos hb] at h; exact absurd h (by simp)
    · rw [if_neg hb] at h ⊢
      cases hr : (if first = true then some (1, { st with budget := st.budget - 1 })
          else ilsRestart I ils_accept { st with budget := st.budget - 1 }) with
      | none => rw [hr] at h; exact absurd h (by simp)
      | some pr =>
        obtain ⟨p, st3⟩ := pr
        rw [hr] at h
        simp only [] at h ⊢
        by_cases hp : p = 0
        · rw [if_pos hp] at h; exact absurd h (by simp)
        · rw [if_neg hp] at h ⊢
          have h2 : ilsStateAt I ils_accept (k + 1) false
              (ilsSearchLoop I (st3.budget + 1) st3) = some st2 := by
            simp only [ilsStateAt]
            exact h
          exact ih false _ st2 n h2

/-- C34, amended: on an instance whose data fit an `unsigned` and whose fixed costs, with the
reduction opening cost, total less than `2^32`, from a consistent solution within the
capacities and demands, when `IteratedLocalSearch` (with `ils_maxiter > 1`) arrives at
iteration 1 the current solution costs no more than `best_sol`; so if
`(ils_accept - 1) * best_sol.Cost() > MY_EPSILON` there, the acceptance test succeeds at
iteration 1, and at no iteration `k >= 1` the block `if (i > 0)` takes the branch that
copies `working_sol` while `working_sol` is `NULL`. The costs and the acceptance test are
computed in exact arithmetic; on `double` values the rounding of the two sides of the test
can make it fail under the same condition. -/
theorem ils_working_set (I : WL_Instance) (hI : I.Typed)
    (hfix : I.totalFixed + I.reduction_opening_cost < 4294967296)
    (σ : WL_Solution) (hC : WL_Solution.Consistent I σ) (hW : WL_Solution.Within I σ)
    (ils_accept : ℚ) (budget : Nat) (rng : Rng) (st1 : IlsState)
    (h1 : ilsStateAt I ils_accept 1 true (ilsInit I σ budget rng) = some st1) :
    WL_Solution.Cost I st1.sol ≤ WL_Solution.Cost I st1.best_sol ∧
    (MY_EPSILON < (ils_accept - 1) * WL_Solution.Cost I st1.best_sol →
      WL_Solution.Cost I st1.sol + MY_EPSILON
          < ils_accept * WL_Solution.Cost I st1.best_sol ∧
      ∀ (k : Nat) (st : IlsState), 1 ≤ k →
        ilsStateAt I ils_accept k true (ilsInit I σ budget rng) = some st →
        ¬ RevertReadsUnset I ils_accept st) := by
  obtain ⟨_, h0⟩ := ilsStateAt_first I ils_accept 0 _ st1 h1
  simp only [ilsStateAt] at h0
  have hle : WL_Solution.Cost I st1.sol ≤ WL_Solution.Cost I st1.best_sol := by
    rw [← Option.some.inj h0]
    exact ilsSearchLoop_sol_le I hI hfix _ _ hC hW (fun _ hw => List.mem_range.mp hw)
      (Or.inl rfl) (le_refl _)
  refine ⟨hle, fun hacc => ?_⟩
  have htest : WL_Solution.Cost I st1.sol + MY_EPSILON
      < ils_accept * WL_Solution.Cost I st1.best_sol := by linarith
  refine ⟨htest, ?_⟩
  intro k st hk hst hbad
  rcases Nat.lt_or_ge 1 k with h2 | h2
  · obtain ⟨j, rfl⟩ : ∃ j, k = j + 1 + 1 := ⟨k - 2, by omega⟩
    obtain ⟨_, hs⟩ := ilsStateAt_first I ils_accept (j + 1) _ st hst
    exact ilsStateAt_working I ils_accept (j + 1) _ st (fun e => absurd e (by omega)) hs
      hbad.2
  · have hk1 : k = 1 := by omega
    rw [hk1, h1] at hst
    rw [← Option.some.inj hst] at hbad
    exact hbad.1 htest

/-- C34 on `instRelocate` with `ils_accept = 3/2`: iteration 1 begins with the solution and
`best_sol` both at cost 9, the acceptance test succeeds, and iteration 2 is reached. -/
theorem ils_working_set_witness :
    (ilsStateAt instRelocate (3 / 2) 1 true (ilsInit instRelocate solRelocate 20 [0, 0])).map
        (fun st => (WL_Solution.Cost instRelocate st.sol,
          WL_Solution.Cost instRelocate st.best_sol)) = some (9, 9) ∧
    (ilsStateAt instRelocate (3 / 2) 2 true
        (ilsInit instRelocate solRelocate 20 [0, 0])).isSome = true ∧
    ∀ st1, ilsStateAt instRelocate (3 / 2) 1 true (ilsInit instRelocate solRelocate 20 [0, 0])
        = some st1 →
      WL_Solution.Cost instRelocate st1.sol ≤ WL_Solution.Cost instRelocate st1.best_sol :=
  ⟨by decide!, by decide!, fun st1 h =>
    (ils_working_set instRelocate instRelocate_typed (by decide) solRelocate
      solRelocate_consistent solRelocate_within (3 / 2) 20 [0, 0] st1 h).1⟩

/-- C34 as stated fails in three ways. On `instRelocate` (no wrap), with `ils_accept = 3/2`
and the draws 0, 0, iteration 1 accepts the solution of cost 9, operator 1 closes warehouse
1 and forbids its opening, and iteration 2 begins with a solution of cost 17 against a
`best_sol` of cost 9. On `instWrap` the feasible solution `solWrap` costs 1705032706, the
search of iteration 0 leaves a solution of cost 3000000002 (the `unsigned` opening cost has
wrapped) and `best_sol` unchanged; at iteration 1, reached with budget left,
`(ils_accept - 1) * best_sol.Cost() > MY_EPSILON` holds, the acceptance test fails and
`working_sol` is `NULL`: the branch that copies it has no result, with all four draws
still unread. On `instLarge` (no wrap, no fixed cost) with `ils_accept = 1 + 2^-52`, a
`double`, iteration 1 begins on `double` values with the current solution and `best_sol`
both at cost `2^36` and `working_sol` still `NULL`; `(ils_accept - 1) * best_sol.Cost()` is
`2^-16`, above `MY_EPSILON`, but `sol->Cost() + MY_EPSILON` rounds to `2^36 + 2^-16`, which
is the value of `ils_accept * best_sol->Cost()`: the acceptance test fails and the branch
that copies `working_sol` has no result. In exact arithmetic the test succeeds there. -/
theorem ils_working_counterexample :
    (ilsStateAt instRelocate (3 / 2) 2 true (ilsInit instRelocate solRelocate 20 [0, 0])).map
        (fun st => (WL_Solution.Cost instRelocate st.sol,
          WL_Solution.Cost instRelocate st.best_sol)) = some (17, 9) ∧
    IsFeasible instWrap solWrap ∧
    (ilsStateAt instWrap (3 / 2) 1 true (ilsInit instWrap solWrap 20 [0, 0, 0, 0])).map
        (fun st => (WL_Solution.Cost instWrap st.sol, WL_Solution.Cost instWrap st.best_sol,
          st.working_sol.isSome, st.budget, st.rng))
      = some (3000000002, 1705032706, false, 13, [0, 0, 0, 0]) ∧
    MY_EPSILON < ((3 / 2 : ℚ) - 1) * 1705032706 ∧
    ¬ ((3000000002 : ℚ) + MY_EPSILON < (3 / 2 : ℚ) * 1705032706) ∧
    (IteratedLocalSearch instWrap 2 (3 / 2) solWrap 20 [0, 0, 0, 0]).isSome = false ∧
    IsFeasible instLarge solLarge ∧ WL_Solution.Consistent instLarge solLarge ∧
    roundDouble (1 + 1 / 4503599627370496) = 1 + 1 / 4503599627370496 ∧
    (ilsStateAtD instLarge (1 + 1 / 4503599627370496) 1 true
        (ilsInit instLarge solLarge 10 [0, 0, 0, 0, 0])).map
        (fun st => (WL_Solution.CostD instLarge st.sol,
          WL_Solution.CostD instLarge st.best_sol, st.working_sol.isSome, st.budget, st.rng))
      = some (68719476736, 68719476736, false, 8, [0, 0, 0, 0, 0]) ∧
    MY_EPSILON_D
      < roundDouble (roundDouble ((1 + 1 / 4503599627370496 : ℚ) - 1) * 68719476736) ∧
    roundDouble ((68719476736 : ℚ) + MY_EPSILON_D) = 68719476736 + 1 / 65536 ∧
    roundDouble ((1 + 1 / 4503599627370496 : ℚ) * 68719476736) = 68719476736 + 1 / 65536 ∧
    (IteratedLocalSearchD instLarge 2 (1 + 1 / 4503599627370496) solLarge 10
      [0, 0, 0, 0, 0]).isSome = false ∧
    (IteratedLocalSearch instLarge 2 (1 + 1 / 4503599627370496) solLarge 10
      [0, 0, 0, 0, 0]).isSome = true := by
  refine ⟨?_, ⟨?_, ?_, ?_⟩, ?_, ?_, ?_, ?_, ⟨?_, ?_, ?_⟩, ?_, ?_, ?_, ?_, ?_, ?_, ?_, ?_⟩
  · decide!
  · intro s hs
    have h1 : s < 2 := hs
    interval_cases s <;> decide
  · intro w hw
    have h1 : w < 2 := hw
    interval_cases w <;> decide
  · decide
  · decide!
  · unfold MY_EPSILON; norm_num
  · unfold MY_EPSILON; norm_num
  · decide!
  · intro s hs
    have h1 : s < 1 := hs
    interval_cases s; decide
  · intro w hw
    have h1 : w < 1 := hw
    interval_cases w; decide
  · decide
  · exact assign_consistent instLarge (WL_Solution.create instLarge) 0 0 1
      (by decide) (consistent_create _) (by decide) (by decide) (by decide)
      (by decide) (by decide)
  · decide!
  · decide!
  · decide!
  · decide!
  · decide!
  · decide!
  · decide!

/-! ## The rounding to `double` and the operations that round -/

/-- Values of the rounding: the `double` values nearest to `0.1`, `0.2` and `-0.1`; a
`double` is left as it is; a value halfway between two `double` values goes to the one with
the even significand (`1 + 2^-53` down to 1, `1 + 3 * 2^-53` up to `1 + 2^-51`,
`2^53 + 1` down to `2^53`); below `2^-1022` the spacing stays `2^-1074`. -/
theorem roundDouble_values :
    roundDouble (1 / 10) = 3602879701896397 / 36028797018963968 ∧
    roundDouble (2 / 10) = 3602879701896397 / 18014398509481984 ∧
    roundDouble (-1 / 10) = -3602879701896397 / 36028797018963968 ∧
    roundDouble (3 / 4) = 3 / 4 ∧
    roundDouble (1 + 1 / 9007199254740992) = 1 ∧
    roundDouble (1 + 3 / 9007199254740992) = 1 + 1 / 2251799813685248 ∧
    roundDouble 9007199254740993 = 9007199254740992 ∧
    roundDouble (pow2 (-1074) * (3 / 2)) = pow2 (-1074) * 2 ∧
    roundDouble (pow2 (-1074) * (1 / 2)) = 0 := by
  refine ⟨?_, ?_, ?_, ?_, ?_, ?_, ?_, ?_, ?_⟩ <;> decide!

/-- The method `Assign` on `double` values differs from the one in exact arithmetic in the
field `supply_cost` only. -/
theorem assignD_eq (I : WL_Instance) (σ : WL_Solution) (s w q : Nat) :
    WL_Solution.AssignD I σ s w q
      = { WL_Solution.Assign I σ s w q with
          supply_cost :=
            roundDouble (σ.supply_cost + roundDouble (I.supply_cost s w * (q : ℚ))) } :=
  rfl

/-- The method `RevokeAssignment` on `double` values differs from the one in exact
arithmetic in the field `supply_cost` only. -/
theorem revokeAssignmentD_eq (I : WL_Instance) (σ : WL_Solution) (s w q : Nat) :
    WL_Solution.RevokeAssignmentD I σ s w q
      = { WL_Solution.RevokeAssignment I σ s w q with
          supply_cost :=
            roundDouble (σ.supply_cost - roundDouble (I.supply_cost s w * (q : ℚ))) } :=
  rfl


/-! ## The minimum support of the elite mining on `double` values -/

/-- C18 (amended): let `p` be the `double` product `min_sup * elite.size()` that the code
computes for an elite of `n` solutions, the exact product rounded to the nearest `double`.
When `p` lies in the range of `int`, the minimum support that `MineElite` passes to the
miner is `max(2, trunc(p))`, with truncation toward zero (the floor for a product that is
not negative). It never exceeds `max(2, ceil(p))` and equals it exactly when `p <= 2` or `p`
is an integer. -/
theorem mineSupportD_spec (min_sup : ℚ) (n : Nat)
    (hr : -2147483649 < supportProductD min_sup n ∧ supportProductD min_sup n < 2147483648) :
    ∃ m, mineSupportD min_sup n = some m ∧
      (m : ℤ) = max 2 (if 0 ≤ supportProductD min_sup n
        then Int.floor (supportProductD min_sup n)
        else Int.ceil (supportProductD min_sup n)) ∧
      (m : ℤ) ≤ max 2 (Int.ceil (supportProductD min_sup n)) ∧
      ((m : ℤ) = max 2 (Int.ceil (supportProductD min_sup n)) ↔
        (supportProductD min_sup n ≤ 2 ∨
          ((Int.floor (supportProductD min_sup n) : ℤ) : ℚ) = supportProductD min_sup n)) ∧
      ∀ (I : WL_Instance) (fpmax : List (List Int) → Nat → Nat → List (List Int))
        (n_patterns : Nat) (elite : List WL_Solution) (patterns : List (List Supply)),
        elite.length = n → 2 ≤ n →
        MineEliteD I fpmax min_sup n_patterns elite patterns
          = decodeAll I (emitAll I elite).2 (fpmax (emitAll I elite).1 m n_patterns) := by
  have hm : mineSupportD min_sup n
      = some (max 2 (if 0 ≤ supportProductD min_sup n
        then Int.floor (supportProductD min_sup n)
        else Int.ceil (supportProductD min_sup n))).toNat := by
    unfold mineSupportD
    rw [truncToInt_eq _ hr]
    rfl
  have hcast : (((max 2 (if 0 ≤ supportProductD min_sup n
        then Int.floor (supportProductD min_sup n)
        else Int.ceil (supportProductD min_sup n))).toNat : Nat) : ℤ)
      = max 2 (if 0 ≤ supportProductD min_sup n
        then Int.floor (supportProductD min_sup n)
        else Int.ceil (supportProductD min_sup n)) :=
    Int.toNat_of_nonneg (le_trans (by decide) (le_max_left _ _))
  refine ⟨_, hm, hcast, ?_, ?_, ?_⟩
  · rw [hcast]
    exact max_le_max (le_refl _) (trunc_le_ceil _)
  · rw [hcast]
    exact max_trunc_eq_iff _
  · intro I fpmax n_patterns elite patterns hlen h2
    unfold MineEliteD
    rw [if_pos (by omega), hlen, hm]
    rfl

/-- The `double` products of the examples: `0.5 * 4 = 2`, `0.5 * 5 = 2.5`, and with the
`double` values nearest to `0.6` and `0.58`, `0.6 * 5 = 3` (the exact product, just below
3, rounds up to 3) and `0.58 * 50 = 29 - 2^-48`. -/
theorem supportProductD_values :
    supportProductD (1 / 2) 4 = 2 ∧
    supportProductD (1 / 2) 5 = 5 / 2 ∧
    supportProductD (roundDouble (6 / 10)) 5 = 3 ∧
    roundDouble (6 / 10) * ((5 : Nat) : ℚ) < 3 ∧
    supportProductD (roundDouble (58 / 100)) 50 = 29 - 1 / 281474976710656 := by
  refine ⟨?_, ?_, ?_, ?_, ?_⟩ <;> decide!

/-- Witness for C18: `min_sup = 0.5` and an elite of 4 solutions give the minimum support
2, which here is also `max(2, ceil(2))`. -/
theorem mineSupportD_spec_witness :
    ∃ m, mineSupportD (1 / 2) 4 = some m ∧
      (m : ℤ) = max 2 (if 0 ≤ supportProductD (1 / 2) 4
        then Int.floor (supportProductD (1 / 2) 4)
        else Int.ceil (supportProductD (1 / 2) 4)) ∧
      (m : ℤ) ≤ max 2 (Int.ceil (supportProductD (1 / 2) 4)) ∧
      ((m : ℤ) = max 2 (Int.ceil (supportProductD (1 / 2) 4)) ↔
        (supportProductD (1 / 2) 4 ≤ 2 ∨
          ((Int.floor (supportProductD (1 / 2) 4) : ℤ) : ℚ) = supportProductD (1 / 2) 4)) ∧
      ∀ (I : WL_Instance) (fpmax : List (List Int) → Nat → Nat → List (List Int))
        (n_patterns : Nat) (elite : List WL_Solution) (patterns : List (List Supply)),
        elite.length = 4 → 2 ≤ 4 →
        MineEliteD I fpmax (1 / 2) n_patterns elite patterns
          = decodeAll I (emitAll I elite).2 (fpmax (emitAll I elite).1 m n_patterns) :=
  mineSupportD_spec (1 / 2) 4 (by rw [supportProductD_values.1]; norm_num)

/-- Counterexample to C18 as stated: with `min_sup = 0.5` and an elite of 5 solutions the
product is the `double` `2.5`; the conversion to `int` truncates it to 2, so the minimum
support passed to the miner is `max(2, 2) = 2`, while `max(2, ceil(2.5)) = 3`. With the
`double` nearest to `0.58` and an elite of 50 solutions the `double` product is
`29 - 2^-48` and the minimum support is 28, while `max(2, ceil(29 - 2^-48)) = 29`. With the
`double` nearest to `0.6` and an elite of 5 solutions the `double` product is 3 and the
minimum support is 3. -/
theorem mineSupportD_counterexample :
    mineSupportD (1 / 2) 5 = some 2 ∧
    supportProductD (1 / 2) 5 = 5 / 2 ∧
    max 2 (Int.ceil ((5 / 2 : ℚ))) = 3 ∧
    mineSupportD (roundDouble (58 / 100)) 50 = some 28 ∧
    supportProductD (roundDouble (58 / 100)) 50 = 29 - 1 / 281474976710656 ∧
    max 2 (Int.ceil ((29 - 1 / 281474976710656 : ℚ))) = 29 ∧
    mineSupportD (roundDouble (6 / 10)) 5 = some 3 := by
  have hf : Int.floor ((5 / 2 : ℚ)) = 2 := by
    rw [Int.floor_eq_iff]; constructor <;> norm_num
  have hc : Int.ceil ((5 / 2 : ℚ)) = 3 := by
    rw [Int.ceil_eq_iff]; constructor <;> norm_num
  have hf2 : Int.floor ((29 - 1 / 281474976710656 : ℚ)) = 28 := by
    rw [Int.floor_eq_iff]; constructor <;> norm_num
  have hc2 : Int.ceil ((29 - 1 / 281474976710656 : ℚ)) = 29 := by
    rw [Int.ceil_eq_iff]; constructor <;> norm_num
  have hf3 : Int.floor ((3 : ℚ)) = 3 := by
    rw [Int.floor_eq_iff]; constructor <;> norm_num
  refine ⟨?_, supportProductD_values.2.1, ?_, ?_, supportProductD_values.2.2.2.2, ?_, ?_⟩
  · unfold mineSupportD
    rw [supportProductD_values.2.1, truncToInt_eq _ (by norm_num), if_pos (by norm_num), hf]
    rfl
  · rw [hc]; rfl
  · unfold mineSupportD
    rw [supportProductD_values.2.2.2.2, truncToInt_eq _ (by norm_num), if_pos (by norm_num),
      hf2]
    rfl
  · rw [hc2]; rfl
  · unfold mineSupportD
    rw [supportProductD_values.2.2.1, truncToInt_eq _ (by norm_num), if_pos (by norm_num),
      hf3]
    rfl

/-! ## The reduced instance with the reduction supply cost on `double` values -/

theorem reducedD_snoc (I : WL_Instance) (l : List Supply) (p : Supply) :
    I.reducedD (l ++ [p]) = (I.reducedD l).reduceStepD p := by
  simp [WL_Instance.reducedD, List.foldl_append]

theorem patternSupplyCostD_snoc (I : WL_Instance) (l : List Supply) (p : Supply) :
    patternSupplyCostD I (l ++ [p])
      = roundDouble (patternSupplyCostD I l + roundDouble (I.supply_cost p.s p.w * (p.q : ℚ))) := by
  simp [patternSupplyCostD, List.foldl_append]

/-- The reducing constructor on `double` values differs from the one in exact arithmetic in
the field `reduction_supply_cost` only, where it holds the rounded running sum. -/
theorem reducedD_eq (I : WL_Instance) (pattern : List Supply) :
    I.reducedD pattern
      = { I.reduced pattern with reduction_supply_cost := patternSupplyCostD I pattern } := by
  induction pattern using List.reverseRecOn with
  | nil => rfl
  | append_singleton l p ih =>
    rw [reducedD_snoc, reduced_snoc, patternSupplyCostD_snoc, ih]
    have hsc := (reduced_frame I l).2.2.1
    simp only [WL_Instance.reduceStepD, WL_Instance.reduceStep, WL_Instance.markIncompatible,
      hsc]

/-- C8 (amended): for a base instance whose data fit the machine type and any pattern, the
reduced instance has `capacity[w]` equal to the base capacity minus the pattern's usage of
`w` and `demand[s]` equal to the base demand minus the pattern's usage for `s`, both by
`unsigned` subtraction (the plain difference whenever the usage does not exceed the base
value), `fixed_cost[w] = 0` on pattern warehouses, `reduction_opening_cost` the sum of the
base fixed costs of the distinct pattern warehouses modulo `2^32`, `reduction_supply_cost`
the sum of `supply_cost[s][w] * q` over the entries (the exact sum in exact arithmetic; on
`double` values the running sum in the order of the entries, each product and each partial
sum rounded, every other field being the same), `w_incompatible[w][s2]` true exactly where
the base has it or `s2` is incompatible with a pattern store at `w`; sizes, supply costs,
the incompatibility matrix, the pair list, and the fixed costs and capacities of the other
warehouses are unchanged. -/
theorem reduced_spec (I : WL_Instance) (pattern : List Supply) (hT : I.Typed) :
    (∀ w, w < I.warehouses →
      (I.reduced pattern).capacity w = usub (I.capacity w) (patternLoad pattern w) ∧
      (patternLoad pattern w ≤ I.capacity w →
        (I.reduced pattern).capacity w = I.capacity w - patternLoad pattern w)) ∧
    (∀ s, s < I.stores →
      (I.reduced pattern).amount_of_goods s
        = usub (I.amount_of_goods s) (patternDemand pattern s) ∧
      (patternDemand pattern s ≤ I.amount_of_goods s →
        (I.reduced pattern).amount_of_goods s
          = I.amount_of_goods s - patternDemand pattern s)) ∧
    (∀ p, p ∈ pattern → (I.reduced pattern).fixed_cost p.w = 0) ∧
    (I.reduced pattern).reduction_opening_cost = patternOpeningCost I pattern % 4294967296 ∧
    (I.reduced pattern).reduction_supply_cost = patternSupplyCost I pattern ∧
    (∀ w s2, (I.reduced pattern).w_incompatible w s2 = true ↔
      I.w_incompatible w s2 = true ∨
      (s2 < I.stores ∧ ∃ p, p ∈ pattern ∧ p.w = w ∧ I.incompatible p.s s2 = true)) ∧
    (I.reduced pattern).stores = I.stores ∧
    (I.reduced pattern).warehouses = I.warehouses ∧
    (I.reduced pattern).supply_cost = I.supply_cost ∧
    (I.reduced pattern).incompatible = I.incompatible ∧
    (I.reduced pattern).store_incompatibilities = I.store_incompatibilities ∧
    (∀ w, (∀ p, p ∈ pattern → p.w ≠ w) →
      (I.reduced pattern).fixed_cost w = I.fixed_cost w ∧
      (I.reduced pattern).capacity w = I.capacity w) ∧
    I.reducedD pattern
      = { I.reduced pattern with reduction_supply_cost := patternSupplyCostD I pattern } := by
  obtain ⟨h1, h2, h3, h4, h5, h6, h7, h8, h9, h10, h11, h12⟩ := reduced_fields I pattern hT
  exact ⟨h1, h2, h3, h4, h5, h6, h7, h8, h9, h10, h11, h12, reducedD_eq I pattern⟩

/-- Witness for C8: scenario E1 fits the machine type, and the statement applies to it
with the pattern `[(w=0, s=0, q=3)]`. -/
theorem reduced_spec_witness :
    instE1.Typed ∧
    (instE1.reduced [⟨0, 0, 3⟩]).capacity 0
      = instE1.capacity 0 - patternLoad [⟨0, 0, 3⟩] 0 :=
  ⟨instE1_typed,
    ((reduced_spec instE1 [⟨0, 0, 3⟩] instE1_typed).1 0 (by decide)).2 (by decide)⟩

/-- Counterexample to C8 as stated. On `instWrap` with the pattern
`[(w=0, s=0, q=1), (w=1, s=1, q=1)]` the fixed costs of the two pattern warehouses sum to
6000000000, and `reduction_opening_cost`, an `unsigned`, is `6000000000 mod 2^32 =
1705032704`. On scenario E1 with the pattern `[(w=0, s=0, q=11)]`, which takes more than
the capacity 10 and the demand 7, the reduced capacity is `2^32 - 1` and the reduced demand
`2^32 - 4`, not the differences `-1` and `-4`. On `instTenths` with `patTenths` the
`reduction_supply_cost` computed on `double` values is `0.30000000000000004`, which is not
the exact sum of the two `double` costs `0.1` and `0.2`. -/
theorem reduced_counterexample :
    (instWrap.reduced [⟨0, 0, 1⟩, ⟨1, 1, 1⟩]).reduction_opening_cost = 1705032704 ∧
    patternOpeningCost instWrap [⟨0, 0, 1⟩, ⟨1, 1, 1⟩] = 6000000000 ∧
    (instE1.reduced [⟨0, 0, 11⟩]).capacity 0 = 4294967295 ∧
    (instE1.reduced [⟨0, 0, 11⟩]).amount_of_goods 0 = 4294967292 ∧
    (instE1.capacity 0 : ℤ) - (patternLoad [⟨0, 0, 11⟩] 0 : ℤ) = -1 ∧
    (instE1.amount_of_goods 0 : ℤ) - (patternDemand [⟨0, 0, 11⟩] 0 : ℤ) = -4 ∧
    (instTenths.reducedD patTenths).reduction_supply_cost
      = 1351079888211149 / 4503599627370496 ∧
    patternSupplyCost instTenths patTenths = 10808639105689191 / 36028797018963968 := by
  refine ⟨by decide, by decide, by decide, by decide, by decide, by decide, ?_, ?_⟩
  · decide!
  · decide!


/-! ## The lift of a reduced solution on `double` values -/

theorem patTenths_fits : PatternFits instTenths patTenths := by
  constructor
  · intro p hp
    have : p = ⟨0, 0, 1⟩ ∨ p = ⟨0, 1, 1⟩ := by simpa [patTenths] using hp
    rcases this with rfl | rfl <;> decide
  · intro w hw
    have h1 : w < 1 := hw
    interval_cases w; decide
  · intro s hs
    have h1 : s < 3 := hs
    interval_cases s <;> decide
  · intro p1 p2 _ _ _
    rfl

theorem solTenths_consistent :
    WL_Solution.Consistent (instTenths.reduced patTenths) solTenths :=
  assign_consistent (instTenths.reduced patTenths)
    (WL_Solution.create (instTenths.reduced patTenths)) 2 0 1
    (by decide) (consistent_create _) (by decide) (by decide) (by decide)
    (by decide) (by decide)

/-- Counterexample to C1 as stated, in two parts. On scenario E3 with the pattern
`[(w=0, s=0, q=3)]`, the state of the reduced instance that supplies the 3 units of store 1
from warehouse 0 has `ComputeViolations() == 0` there (store 0 has no demand left and no
supply), yet the lifted solution supplies the incompatible stores 0 and 1 from warehouse 0
and has one violation on the original instance. On `instTenths` (unit costs `0.1`, `0.2`,
`0.9` as `double` values) with the pattern `patTenths`, which fits, the consistent solution
`solTenths` of the reduced instance has no violation, meets the reduced demands and uses no
forbidden warehouse; on `double` values its `Cost()` on the reduced instance is
`0.9 + (0.1 + 0.2) = 1.2000000000000002`, and the `Cost()` of the lifted solution, which
adds the same three costs in another order, is `(0.9 + 0.1) + 0.2 = 1.2`. In exact
arithmetic the two costs are equal. -/
theorem lift_counterexample :
    WL_Solution.ComputeViolations (instE3.reduced [⟨0, 0, 3⟩]) solE3Forbidden = 0 ∧
    WL_Solution.ComputeViolations instE3
      (liftSolution instE3 solE3Forbidden [⟨0, 0, 3⟩]) = 1 ∧
    PatternFits instTenths patTenths ∧
    WL_Solution.Consistent (instTenths.reduced patTenths) solTenths ∧
    WL_Solution.ComputeViolations (instTenths.reduced patTenths) solTenths = 0 ∧
    (∀ s, s < instTenths.stores →
      solTenths.assigned_goods s ≤ (instTenths.reduced patTenths).amount_of_goods s) ∧
    (∀ s w, (instTenths.reduced patTenths).w_incompatible w s = false) ∧
    solTenths.supply_cost = roundDouble (9 / 10) ∧
    WL_Solution.CostD (instTenths.reducedD patTenths) solTenths
      = 5404319552844596 / 4503599627370496 ∧
    WL_Solution.CostD instTenths (liftSolutionD instTenths solTenths patTenths)
      = 5404319552844595 / 4503599627370496 ∧
    WL_Solution.Cost instTenths (liftSolution instTenths solTenths patTenths)
      = WL_Solution.Cost (instTenths.reduced patTenths) solTenths := by
  refine ⟨by decide, by decide, patTenths_fits, solTenths_consistent, by decide, ?_, ?_,
    ?_, ?_, ?_, ?_⟩
  · intro s hs
    have h1 : s < 3 := hs
    interval_cases s <;> decide
  · intro s w
    rfl
  · decide!
  · decide!
  · decide!
  · decide!


/-! ## The searches on `double` values -/

theorem instRound_typed : instRound.Typed := by
  constructor
  · decide
  · decide
  · intro w hw
    have h1 : w < 2 := hw
    interval_cases w <;> decide
  · intro w hw
    have h1 : w < 2 := hw
    interval_cases w <;> decide
  · intro s hs
    have h1 : s < 4 := hs
    interval_cases s <;> decide
  · decide

theorem solRound_consistent : WL_Solution.Consistent instRound solRound :=
  assign_consistent instRound _ 2 0 1 (by decide)
    (assign_consistent instRound _ 3 0 1 (by decide)
      (assign_consistent instRound _ 1 1 1 (by decide)
        (assign_consistent instRound (WL_Solution.create instRound) 0 0 1
          (by decide) (consistent_create _) (by decide) (by decide) (by decide)
          (by decide) (by decide))
        (by decide) (by decide) (by decide) (by decide) (by decide))
      (by decide) (by decide) (by decide) (by decide) (by decide))
    (by decide) (by decide) (by decide) (by decide) (by decide)

theorem solRound_within : WL_Solution.Within instRound solRound := by
  constructor
  · intro w hw
    have h1 : w < 2 := hw
    interval_cases w <;> decide
  · intro s hs
    have h1 : s < 4 := hs
    interval_cases s <;> decide

theorem solRound_feasible : IsFeasible instRound solRound := by
  refine ⟨?_, ?_, ?_⟩
  · intro s hs
    have h1 : s < 4 := hs
    interval_cases s <;> decide
  · intro w hw
    have h1 : w < 2 := hw
    interval_cases w <;> decide
  · decide

/-- The solution `solRound` is a state of the program on `double` values: the four calls of
`Assign` leave the same `supply_cost` with and without rounding. From that value the
exchange of stores 0 and 1 between the warehouses 0 and 1 raises the cached `supply_cost`
on `double` values by `2^-9` whichever of the two stores is revoked and assigned first, and
no step rounds a tie: the order of the enumeration and the order of two moves of equal
improvement in the queue play no part in the examples below. -/
theorem round_exchange :
    (WL_Solution.AssignD instRound
      (WL_Solution.AssignD instRound
        (WL_Solution.AssignD instRound
          (WL_Solution.AssignD instRound (WL_Solution.create instRound) 0 0 1) 1 1 1) 3 0 1)
      2 0 1).supply_cost = solRound.supply_cost ∧
    solRound.supply_cost = 13194139533312 + 1 / 256 ∧
    roundDouble (roundDouble (roundDouble (roundDouble
          ((13194139533312 + 1 / 256 : ℚ) - roundDouble (3 / 4096 * 1))
          + roundDouble (5 / 4096 * 1)) - roundDouble (11 / 4096 * 1))
          + roundDouble (5 / 4096 * 1)) = 13194139533312 + 3 / 512 ∧
    roundDouble (roundDouble (roundDouble (roundDouble
          ((13194139533312 + 1 / 256 : ℚ) - roundDouble (11 / 4096 * 1))
          + roundDouble (5 / 4096 * 1)) - roundDouble (3 / 4096 * 1))
          + roundDouble (5 / 4096 * 1)) = 13194139533312 + 3 / 512 := by
  refine ⟨?_, ?_, ?_, ?_⟩ <;> decide!

/-- Counterexample to C10 as stated, in two parts. On `instWrap` the solution `solWrap` is
feasible (both demands met, loads within capacity, no violation), its cached `opening_cost`
is `6000000000 mod 2^32 = 1705032704` and its cost 1705032706. `IteratedLocalSearch` with
`ils_maxiter = 1` and a budget of 3 clock tests relocates store 0 to warehouse 1, the
`unsigned` subtraction of the fixed cost of warehouse 0 wraps to 3000000000, and the
returned solution costs 3000000002. On `instRound`, where every fixed cost is 0 and nothing
wraps, the solution `solRound` is feasible and consistent and costs `3 * 2^42 + 2^-8`, with
and without rounding. On `double` values `IteratedLocalSearch` with `ils_maxiter = 1`
exchanges stores 0 and 1, a move whose improvement `2^-10` is computed without rounding
error and exceeds `MY_EPSILON`; each of the four updates of `supply_cost` is rounded to a
multiple of `2^-9`, and the returned solution costs `3 * 2^42 + 3 * 2^-9`, more than the
input. In exact arithmetic the same search lowers the cost by `2^-10`. -/
theorem ils_counterexample :
    IsFeasible instWrap solWrap ∧ WL_Solution.Consistent instWrap solWrap ∧
    WL_Solution.Cost instWrap solWrap = 1705032706 ∧
    (IteratedLocalSearch instWrap 1 1 solWrap 3 []).map
      (fun r => WL_Solution.Cost instWrap r.1) = some 3000000002 ∧
    instRound.Typed ∧ instRound.totalFixed + instRound.reduction_opening_cost = 0 ∧
    IsFeasible instRound solRound ∧ WL_Solution.Consistent instRound solRound ∧
    WL_Solution.Within instRound solRound ∧
    WL_Solution.CostD instRound solRound = 13194139533312 + 1 / 256 ∧
    WL_Solution.Cost instRound solRound = 13194139533312 + 1 / 256 ∧
    (IteratedLocalSearchD instRound 1 1 solRound 30 []).map
      (fun r => (WL_Solution.CostD instRound r.1, r.1.supply 0 1, r.1.supply 1 0))
      = some (13194139533312 + 3 / 512, 1, 1) ∧
    (IteratedLocalSearch instRound 1 1 solRound 30 []).map
      (fun r => WL_Solution.Cost instRound r.1)
      = some (13194139533312 + 1 / 256 - 1 / 1024) := by
  refine ⟨⟨?_, ?_, ?_⟩, ?_, ?_, ?_, instRound_typed, by decide, solRound_feasible,
    solRound_consistent, solRound_within, ?_, ?_, ?_, ?_⟩
  · intro s hs
    have h1 : s < 2 := hs
    interval_cases s <;> decide
  · intro w hw
    have h1 : w < 2 := hw
    interval_cases w <;> decide
  · decide
  · exact assign_consistent instWrap _ 1 1 1 (by decide)
      (assign_consistent instWrap (WL_Solution.create instWrap) 0 0 1
        (by decide) (consistent_create _) (by decide) (by decide) (by decide)
        (by decide) (by decide))
      (by decide) (by decide) (by decide) (by decide) (by decide)
  · decide!
  · decide!
  · decide!
  · decide!
  · decide!
  · decide!

/-- Counterexample to C11 as stated, in two parts. On `instWrap` the feasible solution
`solWrap` costs 1705032706 (its cached `opening_cost` is `6000000000 mod 2^32`). The pass on
the moves enumerated from it applies the relocation of store 0 to warehouse 1, after which
the invalid set is `[0, 1]` and the cost is 3000000002: the pass has raised the cost. On
`instRound`, where nothing wraps, the pass on `double` values from the feasible and
consistent solution `solRound` applies the exchange of stores 0 and 1 (the invalid set
becomes `[0, 1]`) and the rounded updates of `supply_cost` raise the cost from
`3 * 2^42 + 2^-8` to `3 * 2^42 + 3 * 2^-9`; in exact arithmetic the same pass lowers it by
`2^-10`. -/
theorem drain_pass_counterexample :
    IsFeasible instWrap solWrap ∧
    (drain instWrap (enumerateMoves instWrap solWrap [0, 1] [] []).length
        (enumerateMoves instWrap solWrap [0, 1] [] []) solWrap [] 4).2.1 = [0, 1] ∧
    WL_Solution.Cost instWrap solWrap = 1705032706 ∧
    WL_Solution.Cost instWrap
        (drain instWrap (enumerateMoves instWrap solWrap [0, 1] [] []).length
          (enumerateMoves instWrap solWrap [0, 1] [] []) solWrap [] 4).1 = 3000000002 ∧
    instRound.Typed ∧ instRound.totalFixed + instRound.reduction_opening_cost = 0 ∧
    IsFeasible instRound solRound ∧ WL_Solution.Consistent instRound solRound ∧
    WL_Solution.Within instRound solRound ∧
    (drainD instRound (enumerateMovesD instRound solRound [0, 1] [] []).length
        (enumerateMovesD instRound solRound [0, 1] [] []) solRound [] 4).2.1 = [0, 1] ∧
    WL_Solution.CostD instRound solRound = 13194139533312 + 1 / 256 ∧
    WL_Solution.CostD instRound
        (drainD instRound (enumerateMovesD instRound solRound [0, 1] [] []).length
          (enumerateMovesD instRound solRound [0, 1] [] []) solRound [] 4).1
      = 13194139533312 + 3 / 512 ∧
    WL_Solution.Cost instRound
        (drain instRound (enumerateMoves instRound solRound [0, 1] [] []).length
          (enumerateMoves instRound solRound [0, 1] [] []) solRound [] 4).1
      = 13194139533312 + 1 / 256 - 1 / 1024 := by
  refine ⟨⟨?_, ?_, ?_⟩, ?_, ?_, ?_, instRound_typed, by decide, solRound_feasible,
    solRound_consistent, solRound_within, ?_, ?_, ?_, ?_⟩
  · intro s hs
    have h1 : s < 2 := hs
    interval_cases s <;> decide
  · intro w hw
    have h1 : w < 2 := hw
    interval_cases w <;> decide
  · decide
  · decide!
  · decide!
  · decide!
  · decide!
  · decide!
  · decide!
  · decide!


/-! ## The relocation of a store to a cheaper warehouse with room for both stores -/

end WLP
